import Mathlib

/-!
# muparser: bytecode compiler and virtual machine

A shallow embedding of the expression compiler (`ParserBase::CreateRPN` and its helpers, the
`ParserByteCode` emitter with its peephole optimizer) and of the stack virtual machine
(`ParserBase::ParseCmdCodeBulk`) of muparser, together with theorems about them.

Modelling conventions.

* `value_type` (a C++ `double`) is modelled by the rationals: every finite `double` is a rational
  number.  The definitions compute with the exact operations of `ℚ` (division is the division of
  `ℚ`; infinities and NaN are outside the model).  The section "The arithmetic of `value_type`"
  gives the optimizer and the evaluation loop with the four operations as a parameter, and the
  rounding of `double` arithmetic as an instance of it.
* Pointers to caller storage are natural numbers (addresses, `0` is the null pointer); the caller's
  memory is a total map from addresses to values.
* Callbacks are addresses too; what the code behind an address computes is given by a `CallEnv`.
  Callbacks are taken to be total and free of side effects.
* A C++ exception `ParserError(code)` is `Abort.throw code`.  Behaviour that C++ leaves undefined
  (an access outside a container) is `Abort.undefined`; a loop that would not terminate is
  `Abort.hang`.
* Error positions and token texts carried by `ParserError` are not modelled, only the error code.
-/

namespace mu

/-! ## Basic types (`muParserDef.h`) -/

/-- The numeric type of the parser: `double` in the program, the rationals here. -/
abbrev value_type := ℚ

/-- Bytecode and token command codes, in the order of `c_DefaultOprt` for the built-in operators. -/
inductive ECmdCode
  | cmLE | cmGE | cmNEQ | cmEQ | cmLT | cmGT | cmADD | cmSUB | cmMUL | cmDIV | cmPOW
  | cmLAND | cmLOR | cmASSIGN | cmBO | cmBC | cmIF | cmELSE | cmENDIF | cmARG_SEP
  | cmVAR | cmVAL | cmVARPOW2 | cmVARPOW3 | cmVARPOW4 | cmVARMUL
  | cmFUNC | cmFUNC_STR | cmFUNC_BULK | cmSTRING
  | cmOPRT_BIN | cmOPRT_POSTFIX | cmOPRT_INFIX | cmEND | cmUNKNOWN
  deriving DecidableEq, Repr

/-- Types of values a token can stand for. -/
inductive ETypeCode
  | tpSTR | tpDBL | tpVOID
  deriving DecidableEq, Repr

/-- Associativity of binary operators. -/
inductive EOprtAssociativity
  | oaLEFT | oaRIGHT | oaNONE
  deriving DecidableEq, Repr

/-- Error codes of `ParserError`. -/
inductive EErrorCodes
  | ecUNEXPECTED_OPERATOR | ecUNASSIGNABLE_TOKEN | ecUNEXPECTED_EOF | ecUNEXPECTED_ARG_SEP
  | ecUNEXPECTED_ARG | ecUNEXPECTED_VAL | ecUNEXPECTED_VAR | ecUNEXPECTED_PARENS
  | ecUNEXPECTED_STR | ecSTRING_EXPECTED | ecVAL_EXPECTED | ecMISSING_PARENS
  | ecUNEXPECTED_FUN | ecUNTERMINATED_STRING | ecTOO_MANY_PARAMS | ecTOO_FEW_PARAMS
  | ecOPRT_TYPE_CONFLICT | ecSTR_RESULT | ecINVALID_NAME | ecINVALID_BINOP_IDENT
  | ecINVALID_INFIX_IDENT | ecINVALID_POSTFIX_IDENT | ecBUILTIN_OVERLOAD | ecINVALID_FUN_PTR
  | ecINVALID_VAR_PTR | ecEMPTY_EXPRESSION | ecNAME_CONFLICT | ecOPT_PRI | ecDOMAIN_ERROR
  | ecDIV_BY_ZERO | ecGENERIC | ecLOCALE | ecUNEXPECTED_CONDITIONAL | ecMISSING_ELSE_CLAUSE
  | ecMISPLACED_COLON | ecUNREASONABLE_NUMBER_OF_COMPUTATIONS | ecIDENTIFIER_TOO_LONG
  | ecEXPRESSION_TOO_LONG | ecINVALID_CHARACTERS_FOUND | ecINTERNAL_ERROR
  deriving DecidableEq, Repr

/-- Ways in which a computation of the library stops without a result. -/
inductive Abort
  | throw (code : EErrorCodes)
  | undefined
  | hang
  deriving DecidableEq, Repr

/-- Result of a fallible computation. -/
abbrev Result (α : Type) := Except Abort α

deriving instance DecidableEq for Except

/-- The member function `ParserBase::Error`: always throws. -/
def Error {α : Type} (a_iErrc : EErrorCodes) : Result α := .error (.throw a_iErrc)

/-- Modelled from the spec: the macro `MUP_ASSERT` of `muParserDef.h` (not under src/), "an
assertion that does not kill the program": a violated condition raises the internal error. -/
def MUP_ASSERT (cond : Bool) : Result Unit :=
  if cond then .ok () else Error .ecINTERNAL_ERROR

/-- Modelled from the spec: operator precedences `EOprtPrecedence` of `muParserDef.h` (not under
src/); the spec orders them logical-or, logical-and, comparison, add/sub, mul/div, power. -/
def prLOR : Int := 1
/-- Modelled from the spec: precedence of logical and (see `prLOR`). -/
def prLAND : Int := 2
/-- Modelled from the spec: precedence of the comparison operators (see `prLOR`). -/
def prCMP : Int := 5
/-- Modelled from the spec: precedence of addition and subtraction (see `prLOR`). -/
def prADD_SUB : Int := 6
/-- Modelled from the spec: precedence of multiplication and division (see `prLOR`). -/
def prMUL_DIV : Int := 7
/-- Modelled from the spec: precedence of the power operator (see `prLOR`). -/
def prPOW : Int := 8

/-- A type-erased callback: the address of the function and of its user data. -/
structure generic_callable_type where
  pRawFun : Nat := 0
  pUserData : Nat := 0
  deriving DecidableEq, Repr

instance : Inhabited generic_callable_type := ⟨{}⟩

/-- What the code behind the callback addresses computes, and the library functions that the
sources under src/ call but do not define (`MathImpl<value_type>::Pow`, the address of
`MathImpl<value_type>::UnaryPlus`). -/
structure CallEnv where
  call_fun : generic_callable_type → List value_type → value_type
  call_multfun : generic_callable_type → List value_type → value_type
  call_bulkfun : generic_callable_type → Nat → Nat → List value_type → value_type
  call_strfun : generic_callable_type → String → List value_type → value_type
  Pow : value_type → value_type → value_type
  UnaryPlus : generic_callable_type

/-- The caller's storage: address to value. -/
abbrev Mem := Nat → value_type

/-- C++ conversion of a truth value to `value_type`. -/
def ofBool (b : Bool) : value_type := if b then 1 else 0

/-- C++ conversion `(int)x`: truncation towards zero. -/
def toInt (x : value_type) : Int := if 0 ≤ x then ⌊x⌋ else ⌈x⌉

/-! ## Bytecode (`muParserBytecode.cpp`) -/

/-- One bytecode entry.  The C++ type is a command code followed by a union of three records
(`Val`, `Fun`, `Oprt`); the fields of the three records are kept side by side here, the code never
reads a record other than the one written for the command.  `ptr` is `Val.ptr` for value entries
and `Oprt.ptr` for `cmASSIGN`; fields the C++ code leaves uninitialised are `0`. -/
structure SToken where
  Cmd : ECmdCode
  ptr : Nat := 0
  data : value_type := 0
  data2 : value_type := 0
  offset : Nat := 0
  cb : generic_callable_type := {}
  argc : Int := 0
  idx : Int := 0
  deriving DecidableEq, Repr

/-- The bytecode under construction: `m_vRPN` in emission order, the running stack position and
its recorded maximum, and the optimizer switch. -/
structure ParserByteCode where
  m_iStackPos : Int := 0
  m_iMaxStackSize : Nat := 0
  m_vRPN : List SToken := []
  m_bEnableOptimizer : Bool := true
  deriving DecidableEq, Repr

namespace ParserByteCode

/-- The conversion `(size_t)m_iStackPos` of a (64 bit) `int`. -/
def castSize (p : Int) : Nat := (p % 2 ^ 64).toNat

/-- `ParserByteCode::EnableOptimizer`. -/
def EnableOptimizer (bc : ParserByteCode) (bStat : Bool) : ParserByteCode :=
  { bc with m_bEnableOptimizer := bStat }

/-- `ParserByteCode::AddVar`. -/
def AddVar (bc : ParserByteCode) (a_pVar : Nat) : ParserByteCode :=
  { bc with
    m_iStackPos := bc.m_iStackPos + 1
    m_iMaxStackSize := max bc.m_iMaxStackSize (castSize (bc.m_iStackPos + 1))
    m_vRPN := bc.m_vRPN ++ [{ Cmd := .cmVAR, ptr := a_pVar, data := 1, data2 := 0 }] }

/-- `ParserByteCode::AddVal`. -/
def AddVal (bc : ParserByteCode) (a_fVal : value_type) : ParserByteCode :=
  { bc with
    m_iStackPos := bc.m_iStackPos + 1
    m_iMaxStackSize := max bc.m_iMaxStackSize (castSize (bc.m_iStackPos + 1))
    m_vRPN := bc.m_vRPN ++ [{ Cmd := .cmVAL, ptr := 0, data := 0, data2 := a_fVal }] }

/-- `ParserByteCode::ConstantFolding`: `x` is `m_vRPN[sz-2]`, `y` is `m_vRPN[sz-1]`; the result is
what stands in their place afterwards. -/
def ConstantFolding (env : CallEnv) (a_Oprt : ECmdCode) (x y : SToken) : List SToken :=
  match a_Oprt with
  | .cmLAND => [{ x with data2 := ofBool (decide (toInt x.data2 ≠ 0 ∧ toInt y.data2 ≠ 0)) }]
  | .cmLOR => [{ x with data2 := ofBool (decide (toInt x.data2 ≠ 0 ∨ toInt y.data2 ≠ 0)) }]
  | .cmLT => [{ x with data2 := ofBool (decide (x.data2 < y.data2)) }]
  | .cmGT => [{ x with data2 := ofBool (decide (x.data2 > y.data2)) }]
  | .cmLE => [{ x with data2 := ofBool (decide (x.data2 ≤ y.data2)) }]
  | .cmGE => [{ x with data2 := ofBool (decide (x.data2 ≥ y.data2)) }]
  | .cmNEQ => [{ x with data2 := ofBool (decide (x.data2 ≠ y.data2)) }]
  | .cmEQ => [{ x with data2 := ofBool (decide (x.data2 = y.data2)) }]
  | .cmADD => [{ x with data2 := x.data2 + y.data2 }]
  | .cmSUB => [{ x with data2 := x.data2 - y.data2 }]
  | .cmMUL => [{ x with data2 := x.data2 * y.data2 }]
  | .cmDIV => [{ x with data2 := x.data2 / y.data2 }]
  | .cmPOW => [{ x with data2 := env.Pow x.data2 y.data2 }]
  | _ => [x, y]

/-- The pattern test of the `cmSUB`/`cmADD` case of `AddOp` (`x` is `m_vRPN[sz-2]`, `y` is
`m_vRPN[sz-1]`). -/
def addSubPattern (x y : SToken) : Bool :=
  (y.Cmd = .cmVAR && x.Cmd = .cmVAL) ||
  (y.Cmd = .cmVAL && x.Cmd = .cmVAR) ||
  (y.Cmd = .cmVAL && x.Cmd = .cmVARMUL) ||
  (y.Cmd = .cmVARMUL && x.Cmd = .cmVAL) ||
  (y.Cmd = .cmVAR && x.Cmd = .cmVAR && x.ptr = y.ptr) ||
  (y.Cmd = .cmVAR && x.Cmd = .cmVARMUL && x.ptr = y.ptr) ||
  (y.Cmd = .cmVARMUL && x.Cmd = .cmVAR && x.ptr = y.ptr) ||
  (y.Cmd = .cmVARMUL && x.Cmd = .cmVARMUL && x.ptr = y.ptr)

/-- The rewriting part of `AddOp` when the last two entries are not both values: `none` when no
pattern applies (the operator is then appended), otherwise the entry that replaces the last two
entries `x = m_vRPN[sz-2]`, `y = m_vRPN[sz-1]`. -/
def peephole (a_Oprt : ECmdCode) (x y : SToken) : Result (Option SToken) :=
  match a_Oprt with
  | .cmPOW =>
    if x.Cmd = .cmVAR ∧ y.Cmd = .cmVAL then
      if y.data2 = 0 then .ok (some { x with Cmd := .cmVAL, ptr := 0, data := 0, data2 := 1 })
      else if y.data2 = 1 then .ok (some { x with Cmd := .cmVAR })
      else if y.data2 = 2 then .ok (some { x with Cmd := .cmVARPOW2 })
      else if y.data2 = 3 then .ok (some { x with Cmd := .cmVARPOW3 })
      else if y.data2 = 4 then .ok (some { x with Cmd := .cmVARPOW4 })
      else .ok none
    else .ok none
  | .cmSUB | .cmADD =>
    if addSubPattern x y then do
      MUP_ASSERT ((x.ptr = 0 && y.ptr ≠ 0) || (x.ptr ≠ 0 && y.ptr = 0) || x.ptr = y.ptr)
      let sgn : value_type := if a_Oprt = .cmSUB then -1 else 1
      .ok (some { x with
        Cmd := .cmVARMUL
        ptr := x.ptr ||| y.ptr
        data2 := x.data2 + sgn * y.data2
        data := x.data + sgn * y.data })
    else .ok none
  | .cmMUL =>
    if (y.Cmd = .cmVAR ∧ x.Cmd = .cmVAL) ∨ (y.Cmd = .cmVAL ∧ x.Cmd = .cmVAR) then
      .ok (some { x with
        Cmd := .cmVARMUL
        ptr := x.ptr ||| y.ptr
        data := x.data2 + y.data2
        data2 := 0 })
    else if (y.Cmd = .cmVAL ∧ x.Cmd = .cmVARMUL) ∨ (y.Cmd = .cmVARMUL ∧ x.Cmd = .cmVAL) then
      if y.Cmd = .cmVAL then
        .ok (some { x with
          Cmd := .cmVARMUL
          ptr := x.ptr ||| y.ptr
          data := x.data * y.data2
          data2 := x.data2 * y.data2 })
      else
        .ok (some { x with
          Cmd := .cmVARMUL
          ptr := x.ptr ||| y.ptr
          data := y.data * x.data2
          data2 := y.data2 * x.data2 })
    else if y.Cmd = .cmVAR ∧ x.Cmd = .cmVAR ∧ y.ptr = x.ptr then
      .ok (some { x with Cmd := .cmVARPOW2 })
    else .ok none
  | .cmDIV =>
    if y.Cmd = .cmVAL ∧ x.Cmd = .cmVARMUL ∧ y.data2 ≠ 0 then
      .ok (some { x with data := x.data / y.data2, data2 := x.data2 / y.data2 })
    else .ok none
  | _ => .ok none

/-- The last part of `AddOp`: no optimization applied, the operator is written. -/
def pushOp (bc : ParserByteCode) (a_Oprt : ECmdCode) : ParserByteCode :=
  { bc with
    m_iStackPos := bc.m_iStackPos - 1
    m_vRPN := bc.m_vRPN ++ [{ Cmd := a_Oprt }] }

/-- `ParserByteCode::AddOp`.  The vector is matched from its end: `y` is `m_vRPN[sz-1]`, `x` is
`m_vRPN[sz-2]`.  With fewer than two entries the pattern tests of the operators `^ + - * /` read
outside the vector. -/
def AddOp (env : CallEnv) (bc : ParserByteCode) (a_Oprt : ECmdCode) : Result ParserByteCode :=
  if bc.m_bEnableOptimizer then
    match bc.m_vRPN.reverse with
    | y :: x :: rest =>
      if x.Cmd = .cmVAL ∧ y.Cmd = .cmVAL then
        .ok { bc with m_vRPN := rest.reverse ++ ConstantFolding env a_Oprt x y }
      else do
        match (← peephole a_Oprt x y) with
        | some x' => .ok { bc with m_vRPN := rest.reverse ++ [x'] }
        | none => .ok (pushOp bc a_Oprt)
    | _ =>
      if a_Oprt = .cmPOW ∨ a_Oprt = .cmSUB ∨ a_Oprt = .cmADD ∨ a_Oprt = .cmMUL ∨ a_Oprt = .cmDIV
      then .error .undefined
      else .ok (pushOp bc a_Oprt)
  else .ok (pushOp bc a_Oprt)

/-- `ParserByteCode::AddIfElse`. -/
def AddIfElse (bc : ParserByteCode) (a_Oprt : ECmdCode) : ParserByteCode :=
  { bc with m_vRPN := bc.m_vRPN ++ [{ Cmd := a_Oprt }] }

/-- `ParserByteCode::AddAssignOp`. -/
def AddAssignOp (bc : ParserByteCode) (a_pVar : Nat) : ParserByteCode :=
  { bc with
    m_iStackPos := bc.m_iStackPos - 1
    m_vRPN := bc.m_vRPN ++ [{ Cmd := .cmASSIGN, ptr := a_pVar }] }

/-- The stack bookkeeping at the end of `AddFun`. -/
def funStackPos (bc : ParserByteCode) (a_iArgc : Int) : ParserByteCode :=
  { bc with
    m_iStackPos := bc.m_iStackPos - |a_iArgc| + 1
    m_iMaxStackSize := max bc.m_iMaxStackSize (castSize (bc.m_iStackPos - |a_iArgc| + 1)) }

/-- `ParserByteCode::AddFun`.  The test loop reads the last `a_iArgc` entries from the end and
stops at the first one that is not a value; it leaves the vector when all entries are values and
there are fewer than `a_iArgc` of them. -/
def AddFun (env : CallEnv) (bc : ParserByteCode) (a_pFun : generic_callable_type) (a_iArgc : Int)
    (isFunctionOptimizable : Bool) : Result ParserByteCode :=
  let plain : ParserByteCode :=
    funStackPos { bc with m_vRPN := bc.m_vRPN ++ [{ Cmd := .cmFUNC, argc := a_iArgc, cb := a_pFun }] }
      a_iArgc
  if isFunctionOptimizable ∧ bc.m_bEnableOptimizer ∧ a_iArgc > 0 then
    if a_pFun = env.UnaryPlus then .ok bc
    else
      let n := a_iArgc.toNat
      let last := bc.m_vRPN.reverse.take n
      if last.all (fun t => t.Cmd = .cmVAL) then
        if last.length < n then .error .undefined
        else if a_iArgc ≤ 10 then
          let val := env.call_fun a_pFun (last.reverse.map (fun t => t.data2))
          .ok (funStackPos
            { bc with m_vRPN := (bc.m_vRPN.reverse.drop n).reverse ++
                [{ Cmd := .cmVAL, data := 0, data2 := val, ptr := 0 }] } a_iArgc)
        else Error .ecINTERNAL_ERROR
      else .ok plain
  else .ok plain

/-- `ParserByteCode::AddBulkFun`. -/
def AddBulkFun (bc : ParserByteCode) (a_pFun : generic_callable_type) (a_iArgc : Int) :
    ParserByteCode :=
  { bc with
    m_iStackPos := bc.m_iStackPos - a_iArgc + 1
    m_iMaxStackSize := max bc.m_iMaxStackSize (castSize (bc.m_iStackPos - a_iArgc + 1))
    m_vRPN := bc.m_vRPN ++ [{ Cmd := .cmFUNC_BULK, argc := a_iArgc, cb := a_pFun }] }

/-- `ParserByteCode::AddStrFun`. -/
def AddStrFun (bc : ParserByteCode) (a_pFun : generic_callable_type) (a_iArgc : Int)
    (a_iIdx : Int) : ParserByteCode :=
  { bc with
    m_iStackPos := bc.m_iStackPos - a_iArgc + 1
    m_iMaxStackSize := max bc.m_iMaxStackSize (castSize (bc.m_iStackPos - a_iArgc + 1))
    m_vRPN := bc.m_vRPN ++ [{ Cmd := .cmFUNC_STR, argc := a_iArgc, idx := a_iIdx, cb := a_pFun }] }

/-- Write `m_vRPN[idx].Oprt.offset = off`. -/
def setOffset (v : List SToken) (idx off : Nat) : List SToken :=
  v.modify (fun t => { t with offset := off }) idx

/-- The loop of `Finalize` from index `i` on; `cmds` are the command codes of the entries from `i`
on (the loop never changes a command code), `v` is the vector.  `top()` of an empty stack is
undefined. -/
def finalizeLoop : List ECmdCode → Nat → List Nat → List Nat → List SToken → Result (List SToken)
  | [], _, _, _, v => .ok v
  | .cmIF :: cmds, i, stIf, stElse, v => finalizeLoop cmds (i + 1) (i :: stIf) stElse v
  | .cmELSE :: cmds, i, stIf, stElse, v =>
    match stIf with
    | [] => .error .undefined
    | idx :: stIf' => finalizeLoop cmds (i + 1) stIf' (i :: stElse) (setOffset v idx (i - idx))
  | .cmENDIF :: cmds, i, stIf, stElse, v =>
    match stElse with
    | [] => .error .undefined
    | idx :: stElse' => finalizeLoop cmds (i + 1) stIf stElse' (setOffset v idx (i - idx))
  | _ :: cmds, i, stIf, stElse, v => finalizeLoop cmds (i + 1) stIf stElse v

/-- `ParserByteCode::Finalize`. -/
def Finalize (bc : ParserByteCode) : Result ParserByteCode := do
  let v := bc.m_vRPN ++ [{ Cmd := .cmEND }]
  let v' ← finalizeLoop (v.map (fun t => t.Cmd)) 0 [] [] v
  .ok { bc with m_vRPN := v' }

/-- `ParserByteCode::GetMaxStackSize`. -/
def GetMaxStackSize (bc : ParserByteCode) : Nat := bc.m_iMaxStackSize + 1

/-- `ParserByteCode::clear`. -/
def clear (bc : ParserByteCode) : ParserByteCode :=
  { bc with m_vRPN := [], m_iStackPos := 0, m_iMaxStackSize := 0 }

end ParserByteCode

/-! ## Tokens (`muParserToken.h`, `muParserCallback.h`) -/

/-- Modelled from the spec: the callback record `ParserCallback` (`muParserCallback.h`, not under
src/): "a callback reference with arity, precedence, associativity, and an optimizable flag",
together with the command code and the value type it was registered under. -/
structure ParserCallback where
  m_pFun : generic_callable_type := {}
  m_iArgc : Int := 0
  m_iPri : Int := -1
  m_eOprtAsct : EOprtAssociativity := .oaNONE
  m_iCode : ECmdCode := .cmFUNC
  m_iType : ETypeCode := .tpDBL
  m_bAllowOpti : Bool := false
  deriving DecidableEq, Repr

/-- Modelled from the spec: the token record `ParserToken` (`muParserToken.h`, not under src/): "a
tagged record carrying a kind plus kind-specific payload: a numeric value; a variable reference;
a string index; a callback reference". -/
structure token_type where
  m_iCode : ECmdCode := .cmUNKNOWN
  m_iType : ETypeCode := .tpVOID
  m_pTok : Nat := 0
  m_iIdx : Int := -1
  m_strTok : String := ""
  m_fVal : value_type := 0
  m_pCallback : Option ParserCallback := none
  deriving DecidableEq, Repr

instance : Inhabited token_type := ⟨{}⟩

namespace token_type

/-- Modelled from the spec: `ParserToken::GetCode`, the kind of the token; a token that carries a
callback has the kind of the callback. -/
def GetCode (t : token_type) : ECmdCode :=
  match t.m_pCallback with
  | some cb => cb.m_iCode
  | none => t.m_iCode

/-- Modelled from the spec: `ParserToken::GetType`, number or string. -/
def GetType (t : token_type) : ETypeCode :=
  match t.m_pCallback with
  | some cb => cb.m_iType
  | none => t.m_iType

/-- Modelled from the spec: `ParserToken::GetFuncAddr`, the callback reference (null without
callback). -/
def GetFuncAddr (t : token_type) : generic_callable_type :=
  match t.m_pCallback with
  | some cb => cb.m_pFun
  | none => {}

/-- Modelled from the spec: `ParserToken::GetPri`, the precedence a user operator carries. -/
def GetPri (t : token_type) : Result Int :=
  match t.m_pCallback with
  | some cb =>
    if cb.m_iCode ≠ .cmOPRT_BIN ∧ cb.m_iCode ≠ .cmOPRT_INFIX then Error .ecINTERNAL_ERROR
    else .ok cb.m_iPri
  | none => Error .ecINTERNAL_ERROR

/-- Modelled from the spec: `ParserToken::GetAssociativity`, the associativity a user binary
operator carries. -/
def GetAssociativity (t : token_type) : Result EOprtAssociativity :=
  match t.m_pCallback with
  | some cb => if cb.m_iCode ≠ .cmOPRT_BIN then Error .ecINTERNAL_ERROR else .ok cb.m_eOprtAsct
  | none => Error .ecINTERNAL_ERROR

/-- Modelled from the spec: `ParserToken::GetArgCount`, the arity of the callback. -/
def GetArgCount (t : token_type) : Result Int :=
  match t.m_pCallback with
  | some cb => if cb.m_pFun.pRawFun = 0 then Error .ecINTERNAL_ERROR else .ok cb.m_iArgc
  | none => Error .ecINTERNAL_ERROR

/-- Modelled from the spec: `ParserToken::IsOptimizable`, the optimizable flag of the callback. -/
def IsOptimizable (t : token_type) : Bool :=
  match t.m_pCallback with
  | some cb => decide (cb.m_pFun.pRawFun ≠ 0) && cb.m_bAllowOpti
  | none => false

/-- Modelled from the spec: `ParserToken::GetVal`, the numeric value of a value token, the current
content of the variable for a variable token; other tokens have no value. -/
def GetVal (t : token_type) (mem : Mem) : Result value_type :=
  match t.m_iCode with
  | .cmVAL => .ok t.m_fVal
  | .cmVAR => .ok (mem t.m_pTok)
  | _ => Error .ecVAL_EXPECTED

/-- Modelled from the spec: `ParserToken::GetVar`, the variable reference of a variable token. -/
def GetVar (t : token_type) : Result Nat :=
  if t.m_iCode ≠ .cmVAR then Error .ecINTERNAL_ERROR else .ok t.m_pTok

/-- Modelled from the spec: `ParserToken::GetIdx`, the string index of a string token. -/
def GetIdx (t : token_type) : Result Int :=
  if t.m_iIdx < 0 ∨ t.m_iCode ≠ .cmSTRING then Error .ecINTERNAL_ERROR else .ok t.m_iIdx

/-- Modelled from the spec: `ParserToken::SetIdx`, store the string index of a string token. -/
def SetIdx (t : token_type) (a_iIdx : Int) : Result token_type :=
  if t.m_iCode ≠ .cmSTRING ∨ a_iIdx < 0 then Error .ecINTERNAL_ERROR
  else .ok { t with m_iIdx := a_iIdx }

/-- Modelled from the spec: `ParserToken::GetAsString`, the text of the token. -/
def GetAsString (t : token_type) : String := t.m_strTok

/-- Modelled from the spec: `ParserToken::SetVal` on a fresh token: a numeric value token. -/
def SetVal (a_fVal : value_type) : token_type :=
  { m_iCode := .cmVAL, m_iType := .tpDBL, m_fVal := a_fVal }

end token_type

/-! ## The compiler (`muParserBase.cpp`) -/

/-- `ParserBase::GetOprtPrecedence`. -/
def GetOprtPrecedence (a_Tok : token_type) : Result Int :=
  match a_Tok.GetCode with
  | .cmEND => .ok (-5)
  | .cmARG_SEP => .ok (-4)
  | .cmASSIGN => .ok (-1)
  | .cmELSE | .cmIF => .ok 0
  | .cmLAND => .ok prLAND
  | .cmLOR => .ok prLOR
  | .cmLT | .cmGT | .cmLE | .cmGE | .cmNEQ | .cmEQ => .ok prCMP
  | .cmADD | .cmSUB => .ok prADD_SUB
  | .cmMUL | .cmDIV => .ok prMUL_DIV
  | .cmPOW => .ok prPOW
  | .cmOPRT_INFIX | .cmOPRT_BIN => a_Tok.GetPri
  | _ => Error .ecINTERNAL_ERROR

/-- `ParserBase::GetOprtAssociativity`. -/
def GetOprtAssociativity (a_Tok : token_type) : Result EOprtAssociativity :=
  match a_Tok.GetCode with
  | .cmASSIGN | .cmLAND | .cmLOR | .cmLT | .cmGT | .cmLE | .cmGE | .cmNEQ | .cmEQ
  | .cmADD | .cmSUB | .cmMUL | .cmDIV => .ok .oaLEFT
  | .cmPOW => .ok .oaRIGHT
  | .cmOPRT_BIN => a_Tok.GetAssociativity
  | _ => .ok .oaNONE

/-- The local variables of `CreateRPN` and the members it writes while it reads tokens. -/
structure RPNState where
  stOpt : List token_type := []
  stVal : List token_type := []
  stArgCount : List Int := []
  opta : token_type := {}
  ifElseCounter : Int := 0
  m_vRPN : ParserByteCode := {}
  m_vStringBuf : List String := []
  deriving DecidableEq, Repr

/-- The `try` block of `ParserBase::ApplyStrFunc`: `a_vArg[argc]` must exist, and `GetVal` is
called on `a_vArg[argc-1]`, ..., `a_vArg[0]`. -/
def strFuncArgCheck (mem : Mem) (a_vArg : List token_type) (argc : Int) : Result Unit :=
  if 0 ≤ argc ∧ argc ≤ 5 then
    match a_vArg[argc.toNat]? with
    | none => .error .undefined
    | some _ =>
      ((List.range argc.toNat).reverse).foldlM
        (fun (_ : Unit) i =>
          match a_vArg[i]? with
          | none => .error .undefined
          | some a => do let _ ← a.GetVal mem; .ok ())
        ()
  else Error .ecINTERNAL_ERROR

/-- `ParserBase::ApplyStrFunc`; the value token it returns is not used by its caller.  Every
`ParserError` raised inside the `try` block is replaced by `ecVAL_EXPECTED`. -/
def ApplyStrFunc (mem : Mem) (bc : ParserByteCode) (a_FunTok : token_type)
    (a_vArg : List token_type) : Result ParserByteCode :=
  match a_vArg.getLast? with
  | none => .error .undefined
  | some back =>
    if back.GetCode ≠ .cmSTRING then Error .ecSTRING_EXPECTED
    else do
      let pFunc := a_FunTok.GetFuncAddr
      MUP_ASSERT (decide (pFunc.pRawFun ≠ 0))
      let argc ←
        match a_FunTok.GetArgCount with
        | .ok n => .ok n
        | .error (.throw _) => Error .ecVAL_EXPECTED
        | .error e => .error e
      match strFuncArgCheck mem a_vArg argc with
      | .ok _ => pure ()
      | .error (.throw _) => Error .ecVAL_EXPECTED
      | .error e => .error e
      let argc' ← a_FunTok.GetArgCount
      let idx ← back.GetIdx
      .ok (bc.AddStrFun pFunc argc' idx)

/-- The argument collecting loop of `ParserBase::ApplyFunc`: `n` values are moved from the value
stack to the vector `stArg`. -/
def collectArgs (funTok : token_type) :
    Nat → List token_type → List token_type → Result (List token_type × List token_type)
  | 0, stVal, stArg => .ok (stVal, stArg)
  | n + 1, stVal, stArg =>
    match stVal with
    | [] => Error .ecINTERNAL_ERROR
    | v :: stVal' =>
      if v.GetType = .tpSTR ∧ funTok.GetType ≠ .tpSTR then Error .ecVAL_EXPECTED
      else collectArgs funTok n stVal' (stArg ++ [v])

/-- The argument counts of `ParserBase::ApplyFunc` and its checks on them: `iArgCount` and
`iArgNumerical` for the function token `funTok` when `a_iArgCount` arguments were collected. -/
def funcArgCheck (funTok : token_type) (a_iArgCount : Int) : Result (Int × Int) := do
  let argc ← funTok.GetArgCount
  let iArgCount : Int := if funTok.GetCode = .cmOPRT_BIN then argc else a_iArgCount
  let strArg : Int := if funTok.GetType = .tpSTR then 1 else 0
  let iArgRequired : Int := argc + strArg
  let iArgNumerical : Int := iArgCount - strArg
  if funTok.GetCode = .cmFUNC_STR ∧ iArgCount - iArgNumerical > 1 then Error .ecINTERNAL_ERROR
  else if argc ≥ 0 ∧ iArgCount > iArgRequired then Error .ecTOO_MANY_PARAMS
  else if funTok.GetCode ≠ .cmOPRT_BIN ∧ iArgCount < iArgRequired then Error .ecTOO_FEW_PARAMS
  else if funTok.GetCode = .cmFUNC_STR ∧ iArgCount > iArgRequired then Error .ecTOO_MANY_PARAMS
  else .ok (iArgCount, iArgNumerical)

/-- The `switch (funTok.GetCode())` of `ParserBase::ApplyFunc`: `stVal1` is the value stack after
the numeric arguments `stArg` were taken from it; the result is the value stack and the bytecode
afterwards. -/
def funcEmit (env : CallEnv) (mem : Mem) (funTok : token_type) (iArgCount iArgNumerical : Int)
    (stVal1 stArg : List token_type) (bc : ParserByteCode) :
    Result (List token_type × ParserByteCode) :=
  match funTok.GetCode with
  | .cmFUNC_STR =>
    match stVal1 with
    | [] => Error .ecINTERNAL_ERROR
    | v :: stVal' =>
      if v.GetType = .tpSTR ∧ funTok.GetType ≠ .tpSTR then Error .ecVAL_EXPECTED
      else do
        let bc' ← ApplyStrFunc mem bc funTok (stArg ++ [v])
        .ok (stVal', bc')
  | .cmFUNC_BULK => .ok (stVal1, bc.AddBulkFun funTok.GetFuncAddr stArg.length)
  | .cmOPRT_BIN | .cmOPRT_POSTFIX | .cmOPRT_INFIX | .cmFUNC => do
    let argc ← funTok.GetArgCount
    if argc = -1 ∧ iArgCount = 0 then Error .ecTOO_FEW_PARAMS
    else do
      let bc' ← bc.AddFun env funTok.GetFuncAddr
        (if argc = -1 then -iArgNumerical else iArgNumerical) funTok.IsOptimizable
      .ok (stVal1, bc')
  | _ => .ok (stVal1, bc)

/-- The part of `ParserBase::ApplyFunc` after the function token `funTok` was taken from the
operator stack: the value stack (before the result token is pushed) and the bytecode afterwards. -/
def applyFuncCore (env : CallEnv) (mem : Mem) (funTok : token_type) (stVal : List token_type)
    (bc : ParserByteCode) (a_iArgCount : Int) : Result (List token_type × ParserByteCode) := do
  let (iArgCount, iArgNumerical) ← funcArgCheck funTok a_iArgCount
  let (stVal1, stArg) ← collectArgs funTok iArgNumerical.toNat stVal []
  funcEmit env mem funTok iArgCount iArgNumerical stVal1 stArg bc

/-- `ParserBase::ApplyFunc`. -/
def ApplyFunc (env : CallEnv) (mem : Mem) (s : RPNState) (a_iArgCount : Int) : Result RPNState :=
  match s.stOpt with
  | [] => .ok s
  | funTok :: stOpt' =>
    if funTok.GetFuncAddr.pRawFun = 0 then .ok s
    else
      match applyFuncCore env mem funTok s.stVal s.m_vRPN a_iArgCount with
      | .ok (stVal2, bc) =>
        .ok { s with stOpt := stOpt', stVal := token_type.SetVal 1 :: stVal2, m_vRPN := bc }
      | .error e => .error e

/-- `ParserBase::ApplyIfElse`, as a loop over the operator stack.  `top()` of an empty operator
stack is undefined. -/
def ApplyIfElseLoop (mem : Mem) :
    List token_type → List token_type → ParserByteCode →
      Result (List token_type × List token_type × ParserByteCode)
  | [], stVal, bc => .ok ([], stVal, bc)
  | opElse :: stOpt', stVal, bc =>
    if opElse.GetCode ≠ .cmELSE then .ok (opElse :: stOpt', stVal, bc)
    else
      match stVal with
      | [] => Error .ecINTERNAL_ERROR
      | vVal2 :: stVal1 =>
        if vVal2.GetType ≠ .tpDBL then Error .ecUNEXPECTED_STR
        else
          match stVal1 with
          | [] => Error .ecINTERNAL_ERROR
          | vVal1 :: stVal2 =>
            if vVal1.GetType ≠ .tpDBL then Error .ecUNEXPECTED_STR
            else
              match stVal2 with
              | [] => Error .ecINTERNAL_ERROR
              | vExpr :: stVal3 => do
                let c ← vExpr.GetVal mem
                let res := if c ≠ 0 then vVal1 else vVal2
                match stOpt' with
                | [] => .error .undefined
                | opIf :: stOpt'' =>
                  if opIf.GetCode ≠ .cmIF then Error .ecMISPLACED_COLON
                  else ApplyIfElseLoop mem stOpt'' (res :: stVal3) (bc.AddIfElse .cmENDIF)

/-- `ParserBase::ApplyIfElse`. -/
def ApplyIfElse (mem : Mem) (s : RPNState) : Result RPNState :=
  match ApplyIfElseLoop mem s.stOpt s.stVal s.m_vRPN with
  | .ok (stOpt, stVal, bc) => .ok { s with stOpt := stOpt, stVal := stVal, m_vRPN := bc }
  | .error e => .error e

/-- The built-in operator branch of `ParserBase::ApplyBinOprt` for the operator token `optTok`
taken from the operator stack: the value stack (before the result token is pushed) and the
bytecode afterwards. -/
def applyBinCore (env : CallEnv) (optTok : token_type) (stVal : List token_type)
    (bc : ParserByteCode) : Result (List token_type × ParserByteCode) :=
  match stVal with
  | valTok1 :: valTok2 :: stVal' =>
    if valTok1.GetType ≠ valTok2.GetType ∨
        (valTok1.GetType = .tpSTR ∧ valTok2.GetType = .tpSTR) then
      Error .ecOPRT_TYPE_CONFLICT
    else if optTok.GetCode = .cmASSIGN then
      if valTok2.GetCode ≠ .cmVAR then Error .ecUNEXPECTED_OPERATOR
      else do
        let v ← valTok2.GetVar
        .ok (stVal', bc.AddAssignOp v)
    else do
      let bc' ← bc.AddOp env optTok.GetCode
      .ok (stVal', bc')
  | _ => Error .ecINTERNAL_ERROR

/-- `ParserBase::ApplyBinOprt`.  `top()` of an empty operator stack is undefined. -/
def ApplyBinOprt (env : CallEnv) (mem : Mem) (s : RPNState) : Result RPNState :=
  match s.stOpt with
  | [] => .error .undefined
  | optTok :: stOpt' =>
    if optTok.GetCode = .cmOPRT_BIN then ApplyFunc env mem s 2
    else
      match applyBinCore env optTok s.stVal s.m_vRPN with
      | .ok (stVal', bc) =>
        .ok { s with stOpt := stOpt', stVal := token_type.SetVal 1 :: stVal', m_vRPN := bc }
      | .error e => .error e

/-- The codes that the `switch` of `ApplyRemainingOprt` hands to `ApplyFunc`/`ApplyBinOprt`. -/
def isOprtCode (c : ECmdCode) : Bool :=
  match c with
  | .cmOPRT_INFIX | .cmOPRT_BIN | .cmLE | .cmGE | .cmNEQ | .cmEQ | .cmLT | .cmGT | .cmADD
  | .cmSUB | .cmMUL | .cmDIV | .cmPOW | .cmLAND | .cmLOR | .cmASSIGN => true
  | _ => false

/-- One iteration of the loop of `ParserBase::ApplyRemainingOprt` for the token `tok` on top of
the operator stack (neither `cmBO` nor `cmIF`). -/
def remainingStep (env : CallEnv) (mem : Mem) (tok : token_type) (s : RPNState) :
    Result RPNState :=
  if isOprtCode tok.GetCode then
    if tok.GetCode = .cmOPRT_INFIX then ApplyFunc env mem s 1 else ApplyBinOprt env mem s
  else if tok.GetCode = .cmELSE then ApplyIfElse mem s
  else Error .ecINTERNAL_ERROR

/-- `ParserBase::ApplyRemainingOprt`; `fuel` bounds the number of iterations of its loop, a loop
that has not ended when the fuel is used up is reported as `Abort.hang`. -/
def ApplyRemainingOprtLoop (env : CallEnv) (mem : Mem) : Nat → RPNState → Result RPNState
  | 0, _ => .error .hang
  | fuel + 1, s =>
    match s.stOpt with
    | [] => .ok s
    | tok :: _ =>
      if tok.GetCode = .cmBO ∨ tok.GetCode = .cmIF then .ok s
      else
        match remainingStep env mem tok s with
        | .ok s' => ApplyRemainingOprtLoop env mem fuel s'
        | .error e => .error e

/-- `ParserBase::ApplyRemainingOprt`: every iteration that returns removes an operator from the
stack or leaves the stack as it is for ever, so `size + 1` iterations decide. -/
def ApplyRemainingOprt (env : CallEnv) (mem : Mem) (s : RPNState) : Result RPNState :=
  ApplyRemainingOprtLoop env mem (s.stOpt.length + 1) s

/-- The test of the `while` loop of the binary operator case of `CreateRPN` that ends the loop
(`break`): `top` is the operator on the stack, `opt` the operator just read. -/
def oprtStops (top opt : token_type) : Result Bool :=
  match GetOprtPrecedence top with
  | .error e => .error e
  | .ok nPrec1 =>
    match GetOprtPrecedence opt with
    | .error e => .error e
    | .ok nPrec2 =>
      if top.GetCode = opt.GetCode then
        match GetOprtAssociativity opt with
        | .error e => .error e
        | .ok eOprtAsct =>
          .ok (decide ((eOprtAsct = .oaRIGHT ∧ nPrec1 ≤ nPrec2) ∨
            (eOprtAsct = .oaLEFT ∧ nPrec1 < nPrec2)))
      else .ok (decide (nPrec1 < nPrec2))

/-- The `while` loop of the binary operator case of `CreateRPN` (`opt` is the operator just
read); `fuel` as in `ApplyRemainingOprtLoop`. -/
def binOprtLoop (env : CallEnv) (mem : Mem) (opt : token_type) : Nat → RPNState → Result RPNState
  | 0, _ => .error .hang
  | fuel + 1, s =>
    match s.stOpt with
    | [] => .ok s
    | top :: _ =>
      if top.GetCode = .cmBO ∨ top.GetCode = .cmELSE ∨ top.GetCode = .cmIF then .ok s
      else
        match oprtStops top opt with
        | .error e => .error e
        | .ok true => .ok s
        | .ok false =>
          match (if top.GetCode = .cmOPRT_INFIX then ApplyFunc env mem s 1
                 else ApplyBinOprt env mem s) with
          | .ok s' => binOprtLoop env mem opt fuel s'
          | .error e => .error e

/-- The test `!stOpt.empty() && stOpt.top().GetCode() == cmIF`. -/
def topIsIf : List token_type → Bool
  | [] => false
  | top :: _ => decide (top.GetCode = .cmIF)

/-- The test `stOpt.size() == 0 || (top is none of cmFUNC, cmFUNC_BULK, cmFUNC_STR)`. -/
def noFuncOnTop : List token_type → Bool
  | [] => true
  | f :: _ => decide (f.GetCode ≠ .cmFUNC ∧ f.GetCode ≠ .cmFUNC_BULK ∧ f.GetCode ≠ .cmFUNC_STR)

/-- Increment or decrement `stArgCount.top()`. -/
def bumpTop (d : Int) : List Int → List Int
  | [] => []
  | n :: rest => (n + d) :: rest

/-- `case cmSTRING` of the token loop of `CreateRPN`. -/
def onString (s : RPNState) (opt : token_type) : Result RPNState :=
  if s.stOpt.isEmpty then Error .ecSTR_RESULT
  else
    match opt.SetIdx s.m_vStringBuf.length with
    | .ok opt' =>
      .ok { s with stVal := opt' :: s.stVal, m_vStringBuf := s.m_vStringBuf ++ [opt'.GetAsString] }
    | .error e => .error e

/-- `case cmVAR` of the token loop of `CreateRPN`. -/
def onVar (s : RPNState) (opt : token_type) : Result RPNState :=
  match opt.GetVar with
  | .ok v => .ok { s with stVal := opt :: s.stVal, m_vRPN := s.m_vRPN.AddVar v }
  | .error e => .error e

/-- `case cmVAL` of the token loop of `CreateRPN`. -/
def onVal (mem : Mem) (s : RPNState) (opt : token_type) : Result RPNState :=
  match opt.GetVal mem with
  | .ok v => .ok { s with stVal := opt :: s.stVal, m_vRPN := s.m_vRPN.AddVal v }
  | .error e => .error e

/-- `case cmELSE` of the token loop of `CreateRPN`. -/
def onElse (env : CallEnv) (mem : Mem) (s : RPNState) (opt : token_type) : Result RPNState :=
  match s.stArgCount with
  | [] => Error .ecMISPLACED_COLON
  | n :: stArgCount' =>
    if n > 1 then Error .ecUNEXPECTED_ARG_SEP
    else if s.ifElseCounter - 1 < 0 then Error .ecMISPLACED_COLON
    else
      match ApplyRemainingOprt env mem
          { s with stArgCount := stArgCount', ifElseCounter := s.ifElseCounter - 1 } with
      | .ok s1 => .ok { s1 with m_vRPN := s1.m_vRPN.AddIfElse .cmELSE, stOpt := opt :: s1.stOpt }
      | .error e => .error e

/-- `case cmARG_SEP` of the token loop of `CreateRPN` (it falls through to `case cmEND`). -/
def onArgSep (env : CallEnv) (mem : Mem) (s : RPNState) : Result RPNState :=
  if topIsIf s.stOpt then Error .ecUNEXPECTED_ARG_SEP
  else if s.stArgCount.isEmpty then Error .ecUNEXPECTED_ARG_SEP
  else ApplyRemainingOprt env mem { s with stArgCount := bumpTop 1 s.stArgCount }

/-- The part of `case cmBC` after `ApplyRemainingOprt`. -/
def closeBracket (env : CallEnv) (mem : Mem) (s1 : RPNState) : Result RPNState :=
  match s1.stOpt with
  | [] => .ok s1
  | top :: stOpt' =>
    if top.GetCode ≠ .cmBO then .ok s1
    else
      match s1.stArgCount with
      | [] => Error .ecINTERNAL_ERROR
      | iArgCount :: stArgCount' =>
        let s2 : RPNState := { s1 with stArgCount := stArgCount', stOpt := stOpt' }
        if iArgCount > 1 ∧ noFuncOnTop stOpt' then Error .ecUNEXPECTED_ARG
        else
          match stOpt' with
          | [] => .ok s2
          | f :: _ =>
            if f.GetCode ≠ .cmOPRT_INFIX ∧ f.GetCode ≠ .cmOPRT_BIN ∧
                f.GetFuncAddr.pRawFun ≠ 0 then
              ApplyFunc env mem s2 iArgCount
            else .ok s2

/-- `case cmBC` of the token loop of `CreateRPN`. -/
def onBC (env : CallEnv) (mem : Mem) (s : RPNState) : Result RPNState :=
  let s0 : RPNState :=
    if s.opta.GetCode = .cmBO then { s with stArgCount := bumpTop (-1) s.stArgCount } else s
  match ApplyRemainingOprt env mem s0 with
  | .ok s1 => closeBracket env mem s1
  | .error e => .error e

/-- `case cmIF` of the token loop of `CreateRPN`, the part before it falls through to the binary
operators. -/
def onIf (s : RPNState) : RPNState :=
  { s with ifElseCounter := s.ifElseCounter + 1, stArgCount := 1 :: s.stArgCount }

/-- The binary operator cases (`cmLAND` ... `cmOPRT_BIN`) of the token loop of `CreateRPN`; `cmIF`
falls through to them. -/
def onBinOprt (env : CallEnv) (mem : Mem) (s0 : RPNState) (opt : token_type) : Result RPNState :=
  match binOprtLoop env mem opt (s0.stOpt.length + 1) s0 with
  | .ok s1 =>
    let bc := if opt.GetCode = .cmIF then s1.m_vRPN.AddIfElse opt.GetCode else s1.m_vRPN
    .ok { s1 with m_vRPN := bc, stOpt := opt :: s1.stOpt }
  | .error e => .error e

/-- The `switch (opt.GetCode())` of the token loop of `CreateRPN` for the token `opt` just read. -/
def dispatchToken (env : CallEnv) (mem : Mem) (s : RPNState) (opt : token_type) :
    Result RPNState :=
  match opt.GetCode with
  | .cmSTRING => onString s opt
  | .cmVAR => onVar s opt
  | .cmVAL => onVal mem s opt
  | .cmELSE => onElse env mem s opt
  | .cmARG_SEP => onArgSep env mem s
  | .cmEND => ApplyRemainingOprt env mem s
  | .cmBC => onBC env mem s
  | .cmIF => onBinOprt env mem (onIf s) opt
  | .cmLAND | .cmLOR | .cmLT | .cmGT | .cmLE | .cmGE | .cmNEQ | .cmEQ | .cmADD
  | .cmSUB | .cmMUL | .cmDIV | .cmPOW | .cmASSIGN | .cmOPRT_BIN => onBinOprt env mem s opt
  | .cmBO => .ok { s with stArgCount := 1 :: s.stArgCount, stOpt := opt :: s.stOpt }
  | .cmOPRT_INFIX | .cmFUNC | .cmFUNC_BULK | .cmFUNC_STR => .ok { s with stOpt := opt :: s.stOpt }
  | .cmOPRT_POSTFIX => ApplyFunc env mem { s with stOpt := opt :: s.stOpt } 1
  | _ => Error .ecINTERNAL_ERROR

/-- The body of the token loop of `CreateRPN` for the token `opt` just read, up to and including
`opta = opt`. -/
def processToken (env : CallEnv) (mem : Mem) (s : RPNState) (opt : token_type) :
    Result RPNState :=
  match dispatchToken env mem s opt with
  | .ok s' => .ok { s' with opta := opt }
  | .error e => .error e

/-- Modelled from the spec: the token reader (`muParserTokenReader.cpp`, not under src/), which
"produces a lazy stream of typed tokens from the expression text": the text and the tokens it
yields for it, one per call of `ReadNextToken`, followed by end-of-input tokens. -/
structure token_reader_type where
  m_strFormula : String := ""
  m_tokens : List token_type := []
  m_cArgSep : Char := ','
  deriving DecidableEq, Repr

/-- The end-of-input token. -/
def tokEND : token_type := { m_iCode := .cmEND }

/-- The end of the token loop of `CreateRPN`: `m_vRPN.Finalize()` after the end-of-input token
was processed. -/
def finishLoop (s' : RPNState) : Result RPNState :=
  match s'.m_vRPN.Finalize with
  | .ok bc => .ok { s' with m_vRPN := bc }
  | .error e => .error e

/-- The token loop of `CreateRPN` over the tokens that `ReadNextToken` yields, up to and including
`m_vRPN.Finalize()` at the end-of-input token. -/
def tokenLoop (env : CallEnv) (mem : Mem) : List token_type → RPNState → Result RPNState
  | [], s =>
    match processToken env mem s tokEND with
    | .ok s' => finishLoop s'
    | .error e => .error e
  | opt :: rest, s =>
    match processToken env mem s opt with
    | .ok s' => if opt.GetCode = .cmEND then finishLoop s' else tokenLoop env mem rest s'
    | .error e => .error e

/-- The number of worker threads the stack buffer is divided among. -/
def s_MaxNumOpenMPThreads : Nat := 16

/-- What `CreateRPN` leaves in the members of the parser. -/
structure Compiled where
  m_vRPN : ParserByteCode
  m_vStringBuf : List String
  m_nFinalResultIdx : Int
  stackBufferSize : Nat
  deriving DecidableEq, Repr

/-- The checks of `CreateRPN` after its token loop and the members it writes at the end. -/
def finalChecks (s : RPNState) : Result Compiled :=
  if s.ifElseCounter > 0 then Error .ecMISSING_ELSE_CLAUSE
  else if s.stArgCount.length ≠ 1 then Error .ecINTERNAL_ERROR
  else if s.stArgCount.headD 0 = 0 then Error .ecINTERNAL_ERROR
  else if s.stVal.length = 0 then Error .ecEMPTY_EXPRESSION
  else if s.stVal.any (fun t => decide (t.GetType ≠ .tpDBL)) then Error .ecSTR_RESULT
  else
    .ok { m_vRPN := s.m_vRPN, m_vStringBuf := s.m_vStringBuf,
          m_nFinalResultIdx := s.stArgCount.headD 0,
          stackBufferSize := s.m_vRPN.GetMaxStackSize * s_MaxNumOpenMPThreads }

/-- The state of the locals and members of `CreateRPN` when its token loop starts: `ReInit` has
cleared the bytecode `bc0` (the optimizer switch stays) and `stArgCount.push(1)` was done. -/
def initState (bc0 : ParserByteCode) : RPNState :=
  { stArgCount := [1], m_vRPN := bc0.clear }

/-- `ParserBase::CreateRPN`, from the state `ReInit` leaves (`bc0` is the bytecode before, of which
only the optimizer switch survives) to the members written at the end. -/
def CreateRPN (env : CallEnv) (mem : Mem) (bc0 : ParserByteCode) (rd : token_reader_type) :
    Result Compiled :=
  if rd.m_strFormula.length = 0 then Error .ecUNEXPECTED_EOF
  else
    match tokenLoop env mem rd.m_tokens (initState bc0) with
    | .ok s => finalChecks s
    | .error e => .error e

/-! ## The virtual machine (`ParserBase::ParseCmdCodeBulk`) -/

/-- The registers of the evaluation loop and the storage it works on: the stack index `sidx`, the
stack seen from the pointer `stack`, and the caller's memory. -/
structure VMState where
  sidx : Int
  stack : Int → value_type
  mem : Mem

/-- The values `stack[sidx], ..., stack[sidx + n - 1]` passed to a callback. -/
def stackArgs (stack : Int → value_type) (sidx : Int) (n : Nat) : List value_type :=
  (List.range n).map (fun i => stack (sidx + i))

/-- The built-in binary operators of the evaluation loop: the value stored in `stack[sidx]` from
`a = stack[sidx]` and `b = stack[sidx + 1]`. -/
def binaryOp (env : CallEnv) (cmd : ECmdCode) (a b : value_type) : Option value_type :=
  match cmd with
  | .cmLE => some (ofBool (decide (a ≤ b)))
  | .cmGE => some (ofBool (decide (a ≥ b)))
  | .cmNEQ => some (ofBool (decide (a ≠ b)))
  | .cmEQ => some (ofBool (decide (a = b)))
  | .cmLT => some (ofBool (decide (a < b)))
  | .cmGT => some (ofBool (decide (a > b)))
  | .cmADD => some (a + b)
  | .cmSUB => some (a - b)
  | .cmMUL => some (a * b)
  | .cmDIV => some (a / b)
  | .cmPOW => some (env.Pow a b)
  | .cmLAND => some (ofBool (decide (a ≠ 0 ∧ b ≠ 0)))
  | .cmLOR => some (ofBool (decide (a ≠ 0 ∨ b ≠ 0)))
  | _ => none

/-- One pass through the `switch` of the evaluation loop for the entry `tok` (not `cmEND`): the
new registers and the number of entries `pTok` is moved forward in addition to the `++pTok` of
the loop. -/
def exec (env : CallEnv) (strBuf : List String) (nOffset nThreadID : Nat) (tok : SToken)
    (s : VMState) : Result (VMState × Nat) :=
  let push (v : value_type) : Result (VMState × Nat) :=
    .ok ({ s with sidx := s.sidx + 1, stack := Function.update s.stack (s.sidx + 1) v }, 0)
  match tok.Cmd with
  | .cmLE | .cmGE | .cmNEQ | .cmEQ | .cmLT | .cmGT | .cmADD | .cmSUB | .cmMUL | .cmDIV | .cmPOW
  | .cmLAND | .cmLOR =>
    match binaryOp env tok.Cmd (s.stack (s.sidx - 1)) (s.stack s.sidx) with
    | some v =>
      .ok ({ s with sidx := s.sidx - 1, stack := Function.update s.stack (s.sidx - 1) v }, 0)
    | none => Error .ecINTERNAL_ERROR
  | .cmASSIGN =>
    .ok ({ s with
      sidx := s.sidx - 1
      mem := Function.update s.mem (tok.ptr + nOffset) (s.stack s.sidx)
      stack := Function.update s.stack (s.sidx - 1) (s.stack s.sidx) }, 0)
  | .cmIF =>
    if s.stack s.sidx = 0 then
      if s.sidx - 1 ≥ 0 then .ok ({ s with sidx := s.sidx - 1 }, tok.offset)
      else Error .ecINTERNAL_ERROR
    else .ok ({ s with sidx := s.sidx - 1 }, 0)
  | .cmELSE => .ok (s, tok.offset)
  | .cmENDIF => .ok (s, 0)
  | .cmVAR => push (s.mem (tok.ptr + nOffset))
  | .cmVAL => push tok.data2
  | .cmVARPOW2 =>
    let buf := s.mem (tok.ptr + nOffset)
    push (buf * buf)
  | .cmVARPOW3 =>
    let buf := s.mem (tok.ptr + nOffset)
    push (buf * buf * buf)
  | .cmVARPOW4 =>
    let buf := s.mem (tok.ptr + nOffset)
    push (buf * buf * buf * buf)
  | .cmVARMUL => push (s.mem (tok.ptr + nOffset) * tok.data + tok.data2)
  | .cmFUNC =>
    let iArgCount := tok.argc
    if 0 ≤ iArgCount ∧ iArgCount ≤ 10 then
      let sidx := s.sidx - (iArgCount - 1)
      .ok ({ s with
        sidx := sidx
        stack := Function.update s.stack sidx
          (env.call_fun tok.cb (stackArgs s.stack sidx iArgCount.toNat)) }, 0)
    else if iArgCount > 0 then Error .ecINTERNAL_ERROR
    else
      let sidx := s.sidx - (-iArgCount - 1)
      if sidx ≤ 0 then Error .ecINTERNAL_ERROR
      else
        .ok ({ s with
          sidx := sidx
          stack := Function.update s.stack sidx
            (env.call_multfun tok.cb (stackArgs s.stack sidx (-iArgCount).toNat)) }, 0)
  | .cmFUNC_STR =>
    let sidx := s.sidx - (tok.argc - 1)
    let iIdxStack := tok.idx
    if iIdxStack < 0 ∨ iIdxStack ≥ strBuf.length then Error .ecINTERNAL_ERROR
    else if 0 ≤ tok.argc ∧ tok.argc ≤ 5 then
      .ok ({ s with
        sidx := sidx
        stack := Function.update s.stack sidx
          (env.call_strfun tok.cb (strBuf.getD iIdxStack.toNat "")
            (stackArgs s.stack sidx tok.argc.toNat)) }, 0)
    else .ok ({ s with sidx := sidx }, 0)
  | .cmFUNC_BULK =>
    let iArgCount := tok.argc
    if 0 ≤ iArgCount ∧ iArgCount ≤ 10 then
      let sidx := s.sidx - (iArgCount - 1)
      .ok ({ s with
        sidx := sidx
        stack := Function.update s.stack sidx
          (env.call_bulkfun tok.cb nOffset nThreadID (stackArgs s.stack sidx iArgCount.toNat)) }, 0)
    else Error .ecINTERNAL_ERROR
  | _ => Error .ecINTERNAL_ERROR

/-- The evaluation loop `for (pTok = ...; pTok->Cmd != cmEND; ++pTok)`.  The list holds the entries
from `pTok` on; `skip` is the distance `pTok` still has to be moved forward after a jump
(`pTok += offset`).  Moving `pTok` beyond the last entry is undefined. -/
def vmLoop (env : CallEnv) (strBuf : List String) (nOffset nThreadID : Nat) :
    List SToken → Nat → VMState → Result VMState
  | [], _, _ => .error .undefined
  | _ :: rest, skip + 1, s => vmLoop env strBuf nOffset nThreadID rest skip s
  | tok :: rest, 0, s =>
    if tok.Cmd = .cmEND then .ok s
    else
      match exec env strBuf nOffset nThreadID tok s with
      | .ok (s', off) => vmLoop env strBuf nOffset nThreadID rest off s'
      | .error e => .error e

/-- The run of the evaluation loop as the list of its dispatches: the index of every entry the
`switch` is entered for (the entries jumped over are not in it), with the registers before the
entry is executed.  `pc` is the index of the head of the list. -/
def vmTrace (env : CallEnv) (strBuf : List String) (nOffset nThreadID : Nat) :
    List SToken → Nat → Nat → VMState → List (Nat × VMState)
  | [], _, _, _ => []
  | _ :: rest, pc, skip + 1, s => vmTrace env strBuf nOffset nThreadID rest (pc + 1) skip s
  | tok :: rest, pc, 0, s =>
    if tok.Cmd = .cmEND then []
    else
      match exec env strBuf nOffset nThreadID tok s with
      | .ok (s', off) => (pc, s) :: vmTrace env strBuf nOffset nThreadID rest (pc + 1) off s'
      | .error _ => [(pc, s)]

/-- The stack slots an entry reads or writes when it is executed with stack index `sidx`. -/
def slotsTouched (tok : SToken) (sidx : Int) : List Int :=
  match tok.Cmd with
  | .cmLE | .cmGE | .cmNEQ | .cmEQ | .cmLT | .cmGT | .cmADD | .cmSUB | .cmMUL | .cmDIV | .cmPOW
  | .cmLAND | .cmLOR | .cmASSIGN => [sidx - 1, sidx]
  | .cmIF => [sidx]
  | .cmVAR | .cmVAL | .cmVARPOW2 | .cmVARPOW3 | .cmVARPOW4 | .cmVARMUL => [sidx + 1]
  | .cmFUNC =>
    if 0 ≤ tok.argc ∧ tok.argc ≤ 10 then
      (sidx - (tok.argc - 1)) :: (List.range tok.argc.toNat).map (fun (i : Nat) => sidx - (tok.argc - 1) + (i : Int))
    else if tok.argc > 0 then []
    else if sidx - (-tok.argc - 1) ≤ 0 then []
    else (sidx - (-tok.argc - 1)) ::
      (List.range (-tok.argc).toNat).map (fun (i : Nat) => sidx - (-tok.argc - 1) + (i : Int))
  | .cmFUNC_STR =>
    if 0 ≤ tok.argc ∧ tok.argc ≤ 5 then
      (sidx - (tok.argc - 1)) :: (List.range tok.argc.toNat).map (fun (i : Nat) => sidx - (tok.argc - 1) + (i : Int))
    else []
  | .cmFUNC_BULK =>
    if 0 ≤ tok.argc ∧ tok.argc ≤ 10 then
      (sidx - (tok.argc - 1)) :: (List.range tok.argc.toNat).map (fun (i : Nat) => sidx - (tok.argc - 1) + (i : Int))
    else []
  | _ => []

/-! ## The parser object -/

/-- The evaluation function `m_pParseFormula` points to. -/
inductive ParseFunction
  | ParseString | ParseCmdCode | ParseCmdCodeShort
  deriving DecidableEq, Repr

/-- A `std::map` with names as keys: the value stored under each name, if any. -/
abbrev map_type (α : Type) := String → Option α

/-- The type `funmap_type` of the callback tables. -/
abbrev funmap_type := map_type ParserCallback

/-- What the parser reads from the static locale object `s_locale`: the decimal point and the
thousands separator of its `change_dec_sep` facet (0: none). -/
structure locale_type where
  decimal_point : Char := '.'
  thousands_sep : Char := Char.ofNat 0
  deriving DecidableEq, Repr

/-- The members of `ParserBase`: what compilation and evaluation read and write, the symbol
tables, the character sets and the pool of string constants.  The stack buffer is a total map
with its size kept beside it: an access at or beyond `m_vStackBufferSize` is an access outside
the vector.  The static member `s_locale` is kept with the object.  A variable is bound to the
address of its storage (0: the null pointer). -/
structure ParserBase where
  m_pParseFormula : ParseFunction := .ParseString
  m_vRPN : ParserByteCode := {}
  m_vStringBuf : List String := []
  m_pTokenReader : token_reader_type := {}
  m_vStackBuffer : Int → value_type := fun _ => 0
  m_vStackBufferSize : Nat := 0
  m_nFinalResultIdx : Int := 0
  m_FunDef : funmap_type := fun _ => none
  m_PostOprtDef : funmap_type := fun _ => none
  m_InfixOprtDef : funmap_type := fun _ => none
  m_OprtDef : funmap_type := fun _ => none
  m_ConstDef : map_type value_type := fun _ => none
  m_StrVarDef : map_type Nat := fun _ => none
  m_VarDef : map_type Nat := fun _ => none
  m_bBuiltInOp : Bool := true
  m_sNameChars : String := ""
  m_sOprtChars : String := ""
  m_sInfixOprtChars : String := ""
  m_vStringVarBuf : List String := []
  s_locale : locale_type := {}

namespace ParserBase

/-- `ParserBase::ReInit`. -/
def ReInit (p : ParserBase) : ParserBase :=
  { p with m_pParseFormula := .ParseString, m_vStringBuf := [], m_vRPN := p.m_vRPN.clear }

/-- `ParserBase::EnableOptimizer`. -/
def EnableOptimizer (p : ParserBase) (a_bIsOn : Bool) : ParserBase :=
  ReInit { p with m_vRPN := p.m_vRPN.EnableOptimizer a_bIsOn }

/-- `ParserBase::CreateRPN` on the parser object: the members are written at the end.  (When the
compilation throws, the members that were written up to then are not modelled.) -/
def CreateRPN (env : CallEnv) (mem : Mem) (p : ParserBase) : Result ParserBase :=
  match mu.CreateRPN env mem p.m_vRPN p.m_pTokenReader with
  | .ok c =>
    .ok { p with
      m_pParseFormula := .ParseString
      m_vRPN := c.m_vRPN
      m_vStringBuf := c.m_vStringBuf
      m_nFinalResultIdx := c.m_nFinalResultIdx
      m_vStackBufferSize := c.stackBufferSize }
  | .error e => .error e

/-- The index in `m_vStackBuffer` that the pointer `stack` of `ParseCmdCodeBulk` refers to. -/
def stackBase (p : ParserBase) (nOffset nThreadID : Nat) : Int :=
  if nOffset = 0 ∧ nThreadID = 0 then 0
  else nThreadID * (p.m_vStackBufferSize / s_MaxNumOpenMPThreads)

/-- `ParserBase::ParseCmdCodeBulk`: the value returned, the parser (its stack buffer is written)
and the caller's memory afterwards. -/
def ParseCmdCodeBulk (env : CallEnv) (p : ParserBase) (mem : Mem) (nOffset nThreadID : Nat) :
    Result (value_type × ParserBase × Mem) :=
  match vmLoop env p.m_vStringBuf nOffset nThreadID p.m_vRPN.m_vRPN 0
      { sidx := 0, stack := fun i => p.m_vStackBuffer (p.stackBase nOffset nThreadID + i),
        mem := mem } with
  | .ok s =>
    .ok (s.stack p.m_nFinalResultIdx,
         { p with m_vStackBuffer := fun j => s.stack (j - p.stackBase nOffset nThreadID) }, s.mem)
  | .error e => .error e

/-- `ParserBase::ParseCmdCode`. -/
def ParseCmdCode (env : CallEnv) (p : ParserBase) (mem : Mem) :
    Result (value_type × ParserBase × Mem) :=
  ParseCmdCodeBulk env p mem 0 0

/-- `ParserBase::ParseCmdCodeShort`: only the value of the first entry is computed.  Reading the
first entry of an empty vector, or the first string of an empty string buffer, is undefined. -/
def ParseCmdCodeShort (env : CallEnv) (p : ParserBase) (mem : Mem) : Result value_type :=
  match p.m_vRPN.m_vRPN with
  | [] => .error .undefined
  | tok :: _ =>
    match tok.Cmd with
    | .cmVAL => .ok tok.data2
    | .cmVAR => .ok (mem tok.ptr)
    | .cmVARMUL => .ok (mem tok.ptr * tok.data + tok.data2)
    | .cmVARPOW2 => .ok (mem tok.ptr * mem tok.ptr)
    | .cmVARPOW3 => .ok (mem tok.ptr * mem tok.ptr * mem tok.ptr)
    | .cmVARPOW4 => .ok (mem tok.ptr * mem tok.ptr * mem tok.ptr * mem tok.ptr)
    | .cmFUNC => .ok (env.call_fun tok.cb [])
    | .cmFUNC_STR =>
      match p.m_vStringBuf with
      | [] => .error .undefined
      | str :: _ => .ok (env.call_strfun tok.cb str [])
    | _ => Error .ecINTERNAL_ERROR

/-- `ParserBase::ParseString`. -/
def ParseString (env : CallEnv) (p : ParserBase) (mem : Mem) :
    Result (value_type × ParserBase × Mem) :=
  match p.CreateRPN env mem with
  | .ok p1 =>
    if p1.m_vRPN.m_vRPN.length = 2 then
      match ParseCmdCodeShort env { p1 with m_pParseFormula := .ParseCmdCodeShort } mem with
      | .ok v =>
        .ok (v, { p1 with m_pParseFormula := .ParseCmdCodeShort
                          m_vStackBuffer := Function.update p1.m_vStackBuffer 1 v }, mem)
      | .error e => .error e
    else
      ParseCmdCode env { p1 with m_pParseFormula := .ParseCmdCode } mem
  | .error e => .error e

/-- `ParserBase::Eval()`: the scalar evaluation. -/
def Eval (env : CallEnv) (p : ParserBase) (mem : Mem) : Result (value_type × ParserBase × Mem) :=
  match p.m_pParseFormula with
  | .ParseString => p.ParseString env mem
  | .ParseCmdCode => p.ParseCmdCode env mem
  | .ParseCmdCodeShort =>
    match p.ParseCmdCodeShort env mem with
    | .ok v => .ok (v, p, mem)
    | .error e => .error e

/-- `ParserBase::Eval(int &nStackSize)`: the number of results stored in `nStackSize`, and the
parser and the memory afterwards; the pointer returned is `&m_vStackBuffer[1]`, the results are
`m_vStackBuffer[1 .. nStackSize]`. -/
def EvalMulti (env : CallEnv) (p : ParserBase) (mem : Mem) : Result (Int × ParserBase × Mem) :=
  match (if p.m_vRPN.m_vRPN.length > 0 then p.ParseCmdCode env mem else p.ParseString env mem) with
  | .ok (_, p', mem') => .ok (p'.m_nFinalResultIdx, p', mem')
  | .error e => .error e

/-- `ParserBase::GetNumResults`. -/
def GetNumResults (p : ParserBase) : Int := p.m_nFinalResultIdx

/-- The loop `for (i = 0; i < nBulkSize; ++i) results[i] = ParseCmdCodeBulk(i, 0)` of the bulk
evaluation (without OpenMP), from index `i` on for `n` more indices; `results` are the values
stored so far. -/
def bulkLoop (env : CallEnv) :
    Nat → Nat → ParserBase → Mem → List value_type → Result (List value_type × ParserBase × Mem)
  | 0, _, p, mem, results => .ok (results, p, mem)
  | n + 1, i, p, mem, results =>
    match p.ParseCmdCodeBulk env mem i 0 with
    | .ok (v, p', mem') => bulkLoop env n (i + 1) p' mem' (results ++ [v])
    | .error e => .error e

/-- `ParserBase::Eval(value_type *results, int nBulkSize)`, compiled without OpenMP: the values
written to `results[0 .. nBulkSize - 1]`. -/
def EvalBulk (env : CallEnv) (p : ParserBase) (mem : Mem) (nBulkSize : Nat) :
    Result (List value_type × ParserBase × Mem) :=
  match p.CreateRPN env mem with
  | .ok p1 => bulkLoop env nBulkSize 0 p1 mem []
  | .error e => .error e

end ParserBase

/-! ## Notions used to state the theorems -/

/-- The parts of the compiler state that only the token loop itself writes. -/
def RPNState.SameFrame (s s' : RPNState) : Prop :=
  s'.ifElseCounter = s.ifElseCounter ∧ s'.stArgCount = s.stArgCount ∧ s'.opta = s.opta ∧
    s'.m_vStringBuf = s.m_vStringBuf

/-- The change of `ifElseCounter` caused by one token. -/
def counterDelta (opt : token_type) : Int :=
  if opt.GetCode = .cmIF then 1 else if opt.GetCode = .cmELSE then -1 else 0

/-- The tokens of a list processed one after the other by the body of the token loop of
`CreateRPN` (no end-of-input handling). -/
def readTokens (env : CallEnv) (mem : Mem) : List token_type → RPNState → Result RPNState
  | [], s => .ok s
  | opt :: rest, s =>
    match processToken env mem s opt with
    | .ok s' => readTokens env mem rest s'
    | .error e => .error e

/-- The number of tokens of kind `c` in a token list. -/
def countCode (c : ECmdCode) (toks : List token_type) : Nat :=
  (toks.filter (fun t => decide (t.GetCode = c))).length

/-- The value of an evaluation result. -/
def Result.value {α : Type} (r : Result (value_type × α)) : Result value_type :=
  match r with
  | .ok x => .ok x.1
  | .error e => .error e

/-! ## Concrete inputs for examples -/

namespace Examples

/-- A value token. -/
def tokVal (v : value_type) : token_type := { m_iCode := .cmVAL, m_iType := .tpDBL, m_fVal := v }

/-- A variable token. -/
def tokVar (p : Nat) : token_type := { m_iCode := .cmVAR, m_iType := .tpDBL, m_pTok := p }

/-- A token of a built-in operator, bracket or separator. -/
def tokOp (c : ECmdCode) : token_type := { m_iCode := c }

/-- A string token. -/
def tokStr (str : String) : token_type :=
  { m_iCode := .cmSTRING, m_iType := .tpSTR, m_strTok := str, m_iIdx := 0 }

/-- The address of a callback that negates its argument. -/
def negAddr : generic_callable_type := { pRawFun := 100 }

/-- The address of a callback of two arguments that adds them. -/
def addAddr : generic_callable_type := { pRawFun := 102 }

/-- The address of a variadic callback that sums its arguments. -/
def sumAddr : generic_callable_type := { pRawFun := 103 }

/-- The address of a bulk callback without arguments that returns the offset it is given. -/
def offsetAddr : generic_callable_type := { pRawFun := 104 }

/-- The infix operator token of unary minus (`DefineInfixOprt("-", UnaryMinus)`). -/
def tokMinus : token_type :=
  { m_pCallback := some { m_pFun := negAddr, m_iArgc := 1, m_iPri := 7, m_iCode := .cmOPRT_INFIX,
                          m_bAllowOpti := true } }

/-- The function token of a function of two arguments. -/
def tokAdd2 : token_type :=
  { m_pCallback := some { m_pFun := addAddr, m_iArgc := 2, m_iCode := .cmFUNC,
                          m_bAllowOpti := true } }

/-- The function token of a variadic function. -/
def tokSum : token_type :=
  { m_pCallback := some { m_pFun := sumAddr, m_iArgc := -1, m_iCode := .cmFUNC,
                          m_bAllowOpti := true } }

/-- The function token of a bulk function without arguments. -/
def tokOffset : token_type :=
  { m_pCallback := some { m_pFun := offsetAddr, m_iArgc := 0, m_iCode := .cmFUNC_BULK } }

/-- A callback environment: what stands at the addresses above; the power function is the exact
power for integral exponents. -/
def env : CallEnv where
  call_fun := fun cb args =>
    match cb.pRawFun, args with
    | 100, [x] => -x
    | 101, [x] => x
    | 102, [x, y] => x + y
    | _, _ => 0
  call_multfun := fun _ args => args.sum
  call_bulkfun := fun cb nOffset _ _ => if cb.pRawFun = 104 then nOffset else 0
  call_strfun := fun _ _ _ => 0
  Pow := fun x y => if y.den = 1 then x ^ y.num else 0
  UnaryPlus := { pRawFun := 101 }

/-- A memory: the variable `x` is the array `[0,1,2,3,4]` at the addresses 20 to 24, `a = 4` is at
address 10, `b = 7` at address 11, all other cells hold 0. -/
def mem : Mem := fun a =>
  if a = 10 then 4 else if a = 11 then 7 else if 20 ≤ a ∧ a ≤ 24 then (a - 20 : Nat) else 0

/-- A parser on which an expression with the given token stream was set. -/
def parser (optimizer : Bool) (toks : List token_type) : ParserBase :=
  { m_vRPN := { m_bEnableOptimizer := optimizer },
    m_pTokenReader := { m_strFormula := "expr ", m_tokens := toks } }

/-- The value scalar `Eval` returns for a token stream. -/
def evalValue (optimizer : Bool) (toks : List token_type) (m : Mem) : Result value_type :=
  Result.value ((parser optimizer toks).Eval env m)

/-- The values bulk `Eval` stores for a token stream. -/
def bulkValues (optimizer : Bool) (toks : List token_type) (m : Mem) (n : Nat) :
    Result (List value_type) :=
  match (parser optimizer toks).EvalBulk env m n with
  | .ok x => .ok x.1
  | .error e => .error e

/-- The tokens of `0.5 && 0.5`. -/
def toksHalfAndHalf : List token_type := [tokVal (1 / 2), tokOp .cmLAND, tokVal (1 / 2)]

/-- The tokens of `a = "tttt"`, `a` at address 10. -/
def toksAssignString : List token_type := [tokVar 10, tokOp .cmASSIGN, tokStr "tttt"]

/-- The tokens of `a ? b + "s"`. -/
def toksIfString : List token_type :=
  [tokVar 10, tokOp .cmIF, tokVar 11, tokOp .cmADD, tokStr "s"]

/-- The tokens of `a ? b`. -/
def toksIfOnly : List token_type := [tokVar 10, tokOp .cmIF, tokVar 11]

/-- The tokens of `1, 2 : 3`. -/
def toksSepColon : List token_type :=
  [tokVal 1, tokOp .cmARG_SEP, tokVal 2, tokOp .cmELSE, tokVal 3]

/-- The tokens of `1 : 3`. -/
def toksColon : List token_type := [tokVal 1, tokOp .cmELSE, tokVal 3]

/-- The tokens of `off()`, a call of the bulk function that returns its offset. -/
def toksOffset : List token_type := [tokOffset, tokOp .cmBO, tokOp .cmBC]

end Examples

/-- The value and the memory of an evaluation result. -/
def Result.valueMem (r : Result (value_type × ParserBase × Mem)) : Result (value_type × Mem) :=
  match r with
  | .ok x => .ok (x.1, x.2.2)
  | .error e => .error e

/-! ## Expressions: the token streams of the expression grammar -/

/-- A token without callback of kind `c`. -/
def token_type.isPlain (t : token_type) (c : ECmdCode) : Bool :=
  t.m_pCallback.isNone && decide (t.m_iCode = c)

/-- A numeric value token. -/
def token_type.isValTok (t : token_type) : Bool :=
  t.isPlain .cmVAL && decide (t.m_iType = .tpDBL)

/-- A variable token. -/
def token_type.isVarTok (t : token_type) : Bool :=
  t.isPlain .cmVAR && decide (t.m_iType = .tpDBL)

/-- A string token. -/
def token_type.isStrTok (t : token_type) : Bool :=
  t.isPlain .cmSTRING && decide (t.m_iType = .tpSTR)

/-- A token that carries a valid callback registered under the kind `c` and the type `ty`. -/
def token_type.isCallback (t : token_type) (c : ECmdCode) (ty : ETypeCode) : Bool :=
  match t.m_pCallback with
  | some cb => decide (cb.m_iCode = c) && decide (cb.m_iType = ty) && decide (cb.m_pFun.pRawFun ≠ 0)
  | none => false

/-- The arity of the callback of a token (`0` without callback). -/
def token_type.argc (t : token_type) : Int :=
  match t.m_pCallback with
  | some cb => cb.m_iArgc
  | none => 0

/-- The command codes of the built-in binary operators, the assignment included. -/
def isBuiltinBinCode (c : ECmdCode) : Bool :=
  match c with
  | .cmLE | .cmGE | .cmNEQ | .cmEQ | .cmLT | .cmGT | .cmADD | .cmSUB | .cmMUL | .cmDIV | .cmPOW
  | .cmLAND | .cmLOR | .cmASSIGN => true
  | _ => false

/-- A binary operator token: a built-in operator or a user-defined operator of two arguments. -/
def token_type.isBinTok (t : token_type) : Bool :=
  (t.m_pCallback.isNone && isBuiltinBinCode t.m_iCode) ||
  (t.isCallback .cmOPRT_BIN .tpDBL && decide (t.argc = 2))

/-- An expression of the grammar, as the tree of the tokens the token reader yields for it.
`seq` is a comma separated list (the arguments of a call, or the results of the whole
expression); `str` a string literal. -/
inductive Expr
  | val (t : token_type)
  | var (t : token_type)
  | str (t : token_type)
  | bin (op : token_type) (l r : Expr)
  | ite (q c : token_type) (cond thn els : Expr)
  | paren (bo bc : token_type) (e : Expr)
  | call0 (f bo bc : token_type)
  | call (f bo bc : token_type) (args : Expr)
  | inf (f : token_type) (e : Expr)
  | post (f : token_type) (e : Expr)
  | seq (l : Expr) (sep : token_type) (r : Expr)
  deriving Repr

namespace Expr

/-- The token stream of an expression (without the end-of-input token). -/
def toks : Expr → List token_type
  | val t => [t]
  | var t => [t]
  | str t => [t]
  | bin op l r => l.toks ++ op :: r.toks
  | ite q c cond thn els => cond.toks ++ q :: (thn.toks ++ c :: els.toks)
  | paren bo bc e => bo :: (e.toks ++ [bc])
  | call0 f bo bc => [f, bo, bc]
  | call f bo bc args => f :: bo :: (args.toks ++ [bc])
  | inf f e => f :: e.toks
  | post f e => e.toks ++ [f]
  | seq l sep r => l.toks ++ sep :: r.toks

/-- The number of comma separated items of an expression. -/
def items : Expr → Nat
  | seq l _ _ => l.items + 1
  | _ => 1

/-- The expressions whose tokens leave no operator pending: what a postfix operator applies
to. -/
def isAtom : Expr → Bool
  | val _ | var _ | paren _ _ _ | call0 _ _ _ | call _ _ _ _ | post _ _ => true
  | _ => false

/-- The test of the `while` loop of the binary operator case of `CreateRPN` on the operator `top`
on the stack when `opt` is read: the loop goes on and reduces `top`. -/
def goesOn (top opt : token_type) : Bool :=
  decide (top.GetCode ≠ .cmBO) && decide (top.GetCode ≠ .cmELSE) && decide (top.GetCode ≠ .cmIF) &&
    decide (oprtStops top opt = .ok false)

/-- The `while` loop of the binary operator case of `CreateRPN` ends when it finds `ctx` on top of
the operator stack (`none`: the stack is empty) as `opt` is read. -/
def stopsAt (opt : token_type) : Option token_type → Bool
  | none => true
  | some top =>
    decide (top.GetCode = .cmBO) || decide (top.GetCode = .cmELSE) || decide (top.GetCode = .cmIF) ||
      decide (oprtStops top opt = .ok true)

/-- Every operator that the tokens of the expression leave pending on the operator stack is
reduced when the binary operator `opt` is read after them. -/
def redBy (opt : token_type) : Expr → Bool
  | bin op _ r => goesOn op opt && r.redBy opt
  | inf f e => goesOn f opt && e.redBy opt
  | ite _ _ _ _ _ => false
  | seq _ _ _ => false
  | str _ => false
  | _ => true

/-- What surrounds an expression: a single expression, a list of numeric arguments, a list of
arguments that starts with a string. -/
inductive Mode
  | expr | args | strArgs
  deriving DecidableEq, Repr

/-- `ApplyRemainingOprt` stops at the operator `ctx` on top of the stack: an opening bracket,
or the stack is empty. -/
def listCtx : Option token_type → Bool
  | none => true
  | some top => top.isPlain .cmBO

/-- A closing bracket that meets its opening bracket with `ctx` below it on the operator stack does
not take `ctx` for the function of a call. -/
def parenCtx : Option token_type → Bool
  | none => true
  | some top =>
    decide (top.GetCode = .cmOPRT_INFIX) || decide (top.GetCode = .cmOPRT_BIN) ||
      decide (top.GetFuncAddr.pRawFun = 0)

/-- The expression is one that the compiler takes apart along its tree when its tokens are read
with the operator `ctx` on top of the operator stack (`none`: empty stack): the tokens have the
kinds of their places, the operators stand where precedence and associativity put them (every
operator pending to the left of a binary operator is reduced by it, and the operator does not
reduce what encloses it), postfix operators follow atoms, the target of an assignment is a
variable, calls have the number of arguments of their function, and strings occur only as the
first argument of a string function. -/
def Valid : Mode → Option token_type → Expr → Bool
  | m, _, val t => decide (m ≠ .strArgs) && t.isValTok
  | m, _, var t => decide (m ≠ .strArgs) && t.isVarTok
  | m, ctx, str t => decide (m = .strArgs) && t.isStrTok && ctx.isSome
  | m, ctx, bin op l r =>
    decide (m ≠ .strArgs) && op.isBinTok && Valid .expr ctx l && l.redBy op && stopsAt op ctx &&
      Valid .expr (some op) r &&
      (decide (op.GetCode ≠ .cmASSIGN) || (match l with | var _ => true | _ => false))
  | m, ctx, ite q c cond thn els =>
    decide (m ≠ .strArgs) && q.isPlain .cmIF && c.isPlain .cmELSE && Valid .expr ctx cond &&
      cond.redBy q && stopsAt q ctx && Valid .expr (some q) thn && Valid .expr (some c) els
  | m, ctx, paren bo bc e =>
    decide (m ≠ .strArgs) && bo.isPlain .cmBO && bc.isPlain .cmBC && parenCtx ctx &&
      Valid .expr (some bo) e
  | m, _, call0 f bo bc =>
    decide (m ≠ .strArgs) && bo.isPlain .cmBO && bc.isPlain .cmBC &&
      ((f.isCallback .cmFUNC .tpDBL || f.isCallback .cmFUNC_BULK .tpDBL) && decide (f.argc = 0))
  | m, _, call f bo bc args =>
    decide (m ≠ .strArgs) && bo.isPlain .cmBO && bc.isPlain .cmBC &&
      ((f.isCallback .cmFUNC .tpDBL && (decide (f.argc = args.items) || decide (f.argc = -1)) &&
          Valid .args (some bo) args) ||
       (f.isCallback .cmFUNC_BULK .tpDBL && decide (f.argc = args.items) &&
          Valid .args (some bo) args) ||
       (f.isCallback .cmFUNC_STR .tpSTR && decide (f.argc + 1 = args.items) &&
          decide (f.argc ≤ 5) && Valid .strArgs (some bo) args))
  | m, _, inf f e =>
    decide (m ≠ .strArgs) && f.isCallback .cmOPRT_INFIX .tpDBL && decide (f.argc = 1) &&
      Valid .expr (some f) e
  | m, ctx, post f e =>
    decide (m ≠ .strArgs) && f.isCallback .cmOPRT_POSTFIX .tpDBL && decide (f.argc = 1) &&
      e.isAtom && Valid .expr ctx e
  | m, ctx, seq l sep r =>
    decide (m ≠ .expr) && sep.isPlain .cmARG_SEP && listCtx ctx && Valid m ctx l &&
      Valid .expr ctx r

/-- The syntax directed translation of an expression into calls of the bytecode emitter: from
the bytecode and the string buffer before to the bytecode and the string buffer after, with the
tokens that stand for the values of its items on the value stack of the compiler (the first item
first). -/
def emit (env : CallEnv) (mem : Mem) :
    Expr → ParserByteCode × List String →
      Result ((ParserByteCode × List String) × List token_type)
  | val t, st => .ok ((st.1.AddVal t.m_fVal, st.2), [t])
  | var t, st => .ok ((st.1.AddVar t.m_pTok, st.2), [t])
  | str t, st => .ok ((st.1, st.2 ++ [t.m_strTok]), [{ t with m_iIdx := st.2.length }])
  | bin op l r, st =>
    match emit env mem l st with
    | .error e => .error e
    | .ok (st1, tl) =>
      match emit env mem r st1 with
      | .error e => .error e
      | .ok (st2, _) =>
        if op.GetCode = .cmOPRT_BIN then
          match st2.1.AddFun env op.GetFuncAddr 2 op.IsOptimizable with
          | .error e => .error e
          | .ok bc => .ok ((bc, st2.2), [token_type.SetVal 1])
        else if op.GetCode = .cmASSIGN then
          .ok ((st2.1.AddAssignOp (tl.headD default).m_pTok, st2.2), [token_type.SetVal 1])
        else
          match st2.1.AddOp env op.GetCode with
          | .error e => .error e
          | .ok bc => .ok ((bc, st2.2), [token_type.SetVal 1])
  | ite _ _ cond thn els, st =>
    match emit env mem cond st with
    | .error e => .error e
    | .ok (st1, tc) =>
      match emit env mem thn (st1.1.AddIfElse .cmIF, st1.2) with
      | .error e => .error e
      | .ok (st2, tt) =>
        match emit env mem els (st2.1.AddIfElse .cmELSE, st2.2) with
        | .error e => .error e
        | .ok (st3, te) =>
          match (tc.headD default).GetVal mem with
          | .error e => .error e
          | .ok v => .ok ((st3.1.AddIfElse .cmENDIF, st3.2), if v ≠ 0 then tt else te)
  | paren _ _ e, st => emit env mem e st
  | call0 f _ _, st =>
    if f.GetCode = .cmFUNC_BULK then
      .ok ((st.1.AddBulkFun f.GetFuncAddr 0, st.2), [token_type.SetVal 1])
    else
      match st.1.AddFun env f.GetFuncAddr 0 f.IsOptimizable with
      | .error e => .error e
      | .ok bc => .ok ((bc, st.2), [token_type.SetVal 1])
  | call f _ _ args, st =>
    match emit env mem args st with
    | .error e => .error e
    | .ok (st1, ta) =>
      if f.GetCode = .cmFUNC_BULK then
        .ok ((st1.1.AddBulkFun f.GetFuncAddr ta.length, st1.2), [token_type.SetVal 1])
      else if f.GetCode = .cmFUNC_STR then
        .ok ((st1.1.AddStrFun f.GetFuncAddr f.argc (ta.headD default).m_iIdx, st1.2),
             [token_type.SetVal 1])
      else
        match st1.1.AddFun env f.GetFuncAddr
            (if f.argc = -1 then -(ta.length : Int) else ta.length) f.IsOptimizable with
        | .error e => .error e
        | .ok bc => .ok ((bc, st1.2), [token_type.SetVal 1])
  | inf f e, st =>
    match emit env mem e st with
    | .error e => .error e
    | .ok (st1, _) =>
      match st1.1.AddFun env f.GetFuncAddr 1 f.IsOptimizable with
      | .error e => .error e
      | .ok bc => .ok ((bc, st1.2), [token_type.SetVal 1])
  | post f e, st =>
    match emit env mem e st with
    | .error e => .error e
    | .ok (st1, _) =>
      match st1.1.AddFun env f.GetFuncAddr 1 f.IsOptimizable with
      | .error e => .error e
      | .ok bc => .ok ((bc, st1.2), [token_type.SetVal 1])
  | seq l _ r, st =>
    match emit env mem l st with
    | .error e => .error e
    | .ok (st1, tl) =>
      match emit env mem r st1 with
      | .error e => .error e
      | .ok (st2, tr) => .ok (st2, tl ++ tr)

/-- The last token of an expression. -/
def lastTok : Expr → token_type
  | val t => t
  | var t => t
  | str t => t
  | bin _ _ r => r.lastTok
  | ite _ _ _ _ els => els.lastTok
  | paren _ bc _ => bc
  | call0 _ _ bc => bc
  | call _ _ bc _ => bc
  | inf _ e => e.lastTok
  | post f _ => f
  | seq _ _ r => r.lastTok

/-- The compiler state `S` with the outcome `r` of a translation put in: the bytecode and the
string buffer are replaced, the tokens of the items are pushed on the value stack, the innermost
argument counter has counted the separators between them, and `last` is the token read last. -/
def putS (S : RPNState) (last : token_type)
    (r : (ParserByteCode × List String) × List token_type) : RPNState :=
  { S with
    m_vRPN := r.1.1
    m_vStringBuf := r.1.2
    stVal := r.2.reverse ++ S.stVal
    stArgCount := bumpTop ((r.2.length : Int) - 1) S.stArgCount
    opta := last }

/-- The state of the compiler after the tokens of `e` were read from the state `S` and all
operators of `e` were reduced. -/
def completeR (env : CallEnv) (mem : Mem) (e : Expr) (S : RPNState) : Result RPNState :=
  (emit env mem e (S.m_vRPN, S.m_vStringBuf)).bind (fun r => .ok (putS S e.lastTok r))

/-- The state after the operator `op` was read in the state `S`. -/
def pushOpt (op : token_type) (S : RPNState) : RPNState :=
  { S with stOpt := op :: S.stOpt, opta := op }

/-- The state after the `?` token `q` was read in the state `S`. -/
def pushIf (q : token_type) (S : RPNState) : RPNState :=
  { S with
    stOpt := q :: S.stOpt
    m_vRPN := S.m_vRPN.AddIfElse .cmIF
    ifElseCounter := S.ifElseCounter + 1
    stArgCount := 1 :: S.stArgCount
    opta := q }

/-- The state after the `:` token `c` was read in the state `S`. -/
def pushElse (c : token_type) (S : RPNState) : RPNState :=
  { S with
    stOpt := c :: S.stOpt
    m_vRPN := S.m_vRPN.AddIfElse .cmELSE
    ifElseCounter := S.ifElseCounter - 1
    stArgCount := S.stArgCount.tail
    opta := c }

/-- The state after the argument separator `sep` was read in the state `S`. -/
def pushSep (sep : token_type) (S : RPNState) : RPNState :=
  { S with stArgCount := bumpTop 1 S.stArgCount, opta := sep }

/-- The state after the opening bracket `bo` was read in the state `S`. -/
def pushBO (bo : token_type) (S : RPNState) : RPNState :=
  { S with stArgCount := 1 :: S.stArgCount, stOpt := bo :: S.stOpt, opta := bo }

/-- The state of the compiler after the tokens of the expression `e` were read from the state
`S`: the operators of `e` that stand to the right of all their left operands are still on the
operator stack. -/
def pendR (env : CallEnv) (mem : Mem) : Expr → RPNState → Result RPNState
  | bin op l r, S => (completeR env mem l S).bind (fun S1 => pendR env mem r (pushOpt op S1))
  | ite q c cond thn els, S =>
    (completeR env mem cond S).bind (fun S1 =>
      (completeR env mem thn (pushIf q S1)).bind (fun S2 => pendR env mem els (pushElse c S2)))
  | inf f e, S => pendR env mem e (pushOpt f S)
  | seq l sep r, S => (completeR env mem l S).bind (fun S1 => pendR env mem r (pushSep sep S1))
  | e, S => completeR env mem e S

/-- The state `S` is one in which an expression can start when `ctx` is on top of the operator
stack. -/
def Good (ctx : Option token_type) (S : RPNState) : Prop :=
  S.stOpt.head? = ctx ∧ S.stArgCount ≠ [] ∧ 0 ≤ S.ifElseCounter

/-- A token that stands for a number on the value stack of the compiler. -/
def NumTok (t : token_type) : Prop :=
  t.m_pCallback = none ∧ (t.m_iCode = .cmVAL ∨ t.m_iCode = .cmVAR) ∧ t.m_iType = .tpDBL

/-- A string token on the value stack of the compiler. -/
def StrTok (t : token_type) : Prop :=
  t.m_pCallback = none ∧ t.m_iCode = .cmSTRING ∧ t.m_iType = .tpSTR ∧ 0 ≤ t.m_iIdx

/-- The tokens that a valid expression of mode `m` leaves on the value stack. -/
def ItemToks (m : Mode) (n : Nat) (ts : List token_type) : Prop :=
  ts.length = n ∧
    match m with
    | .strArgs => ∃ t0 rest, ts = t0 :: rest ∧ StrTok t0 ∧ ∀ t ∈ rest, NumTok t
    | _ => ∀ t ∈ ts, NumTok t

end Expr

/-- The compiler state `s` with the counter of open conditionals and the stack of argument
counters replaced. -/
def RPNState.setFrame (s : RPNState) (c : Int) (a : List Int) : RPNState :=
  { s with ifElseCounter := c, stArgCount := a }

/-- The `while` loop of the binary operator case of `CreateRPN` when `opt` is read in the state
`s`. -/
def binLoop (env : CallEnv) (mem : Mem) (opt : token_type) (s : RPNState) : Result RPNState :=
  binOprtLoop env mem opt (s.stOpt.length + 1) s

/-- The reduction of the operator `top` on top of the operator stack by the loops of
`ApplyRemainingOprt` and of the binary operator case. -/
def reduceTop (env : CallEnv) (mem : Mem) (top : token_type) (s : RPNState) : Result RPNState :=
  if top.GetCode = .cmOPRT_INFIX then ApplyFunc env mem s 1 else ApplyBinOprt env mem s

/-- What the compiler does with the tokens of a valid expression `e`, in terms of the
translation `emit`: reading them gives the state `pendR`, and the loops that reduce the pending
operators take it to the state `completeR`. -/
def Expr.Spec (env : CallEnv) (mem : Mem) (e : Expr) (S : RPNState) : Prop :=
  readTokens env mem e.toks S = Expr.pendR env mem e S ∧
  Except.bind (Expr.pendR env mem e S) (ApplyRemainingOprt env mem) =
    Except.bind (Expr.completeR env mem e S) (ApplyRemainingOprt env mem) ∧
  ∀ opt, e.redBy opt = true →
    Except.bind (Expr.pendR env mem e S) (binLoop env mem opt) =
      Except.bind (Expr.completeR env mem e S) (binLoop env mem opt)

/-- What `CreateRPN` leaves in the members of the parser when the translation of the whole
expression gave the bytecode `r.1.1`, the string buffer `r.1.2` and the items `r.2`. -/
def Expr.finish (r : (ParserByteCode × List String) × List token_type) : Result Compiled :=
  Except.bind r.1.1.Finalize (fun bc =>
    .ok { m_vRPN := bc, m_vStringBuf := r.1.2, m_nFinalResultIdx := r.2.length,
          stackBufferSize := (r.1.1.m_iMaxStackSize + 1) * s_MaxNumOpenMPThreads })

/-- The bytecode entries that push a value. -/
def isValueCmd (c : ECmdCode) : Bool :=
  match c with
  | .cmVAL | .cmVAR | .cmVARPOW2 | .cmVARPOW3 | .cmVARPOW4 | .cmVARMUL => true
  | _ => false

/-- Stack typing of bytecode: `Code fin k h b` says that the entries `b` compute `k` values on
top of the stack they start with and never need more than `h` slots above it; branches of a
conditional compute one value each.  With `fin` set the jump offsets are those that `Finalize`
writes. -/
inductive Code (fin : Bool) : Nat → Nat → List SToken → Prop
  | nil (h : Nat) : Code fin 0 h []
  | push {k h : Nat} {bs : List SToken} (t : SToken) : Code fin k h bs →
      isValueCmd t.Cmd = true → k + 1 ≤ h → Code fin (k + 1) h (bs ++ [t])
  | binop {k h : Nat} {bs : List SToken} (t : SToken) : Code fin (k + 2) h bs →
      isBuiltinBinCode t.Cmd = true → Code fin (k + 1) h (bs ++ [t])
  | func {k h : Nat} {bs : List SToken} (t : SToken) (n : Nat) : Code fin (k + n) h bs →
      t.Cmd = .cmFUNC → (t.argc = n ∨ (t.argc = -(n : Int) ∧ 1 ≤ n)) → k + 1 ≤ h →
      Code fin (k + 1) h (bs ++ [t])
  | bulk {k h : Nat} {bs : List SToken} (t : SToken) (n : Nat) : Code fin (k + n) h bs →
      t.Cmd = .cmFUNC_BULK → t.argc = n → k + 1 ≤ h → Code fin (k + 1) h (bs ++ [t])
  | strfun {k h : Nat} {bs : List SToken} (t : SToken) (n : Nat) : Code fin (k + n) h bs →
      t.Cmd = .cmFUNC_STR → t.argc = n → k + 1 ≤ h → Code fin (k + 1) h (bs ++ [t])
  | cond {k h ht he : Nat} {bs bt be : List SToken} (tIf tElse tEnd : SToken) :
      Code fin (k + 1) h bs → Code fin 1 ht bt → Code fin 1 he be → k + ht ≤ h → k + he ≤ h →
      tIf.Cmd = .cmIF → tElse.Cmd = .cmELSE → tEnd.Cmd = .cmENDIF →
      (fin = true → tIf.offset = bt.length + 1 ∧ tElse.offset = be.length + 1) →
      Code fin (k + 1) h (bs ++ tIf :: (bt ++ tElse :: (be ++ [tEnd])))

/-- The bytecode `bc'` is `bc` followed by entries that compute `k` values, the stack position
has grown by at least `k` and at most `len`, and the recorded maximum covers what the new entries
need. -/
def Emits (bc bc' : ParserByteCode) (k len : Nat) : Prop :=
  ∃ b h, bc'.m_vRPN = bc.m_vRPN ++ b ∧ Code false k h b ∧
    bc.m_iStackPos + (h : Int) ≤ (bc'.m_iMaxStackSize : Int) ∧
    bc.m_iMaxStackSize ≤ bc'.m_iMaxStackSize ∧
    bc.m_iStackPos + (k : Int) ≤ bc'.m_iStackPos ∧
    bc'.m_iStackPos ≤ bc.m_iStackPos + (len : Int) ∧
    bc'.m_iStackPos ≤ (bc'.m_iMaxStackSize : Int) ∧
    bc'.m_bEnableOptimizer = bc.m_bEnableOptimizer

/-- The number of items of an expression that are numbers: all but the leading string of the
argument list of a string function. -/
def Expr.numItems (m : Expr.Mode) (e : Expr) : Nat :=
  match m with
  | .strArgs => e.items - 1
  | _ => e.items

/-- Every token of the expression whose callback is the unary plus of the library is a unary
operator or a function of one argument. -/
def Expr.PlusOK (env : CallEnv) (e : Expr) : Prop :=
  ∀ t ∈ e.toks, t.GetFuncAddr = env.UnaryPlus → t.argc = 1

/-- A bytecode entry without its jump offset. -/
def SToken.eraseOffset (t : SToken) : SToken := { t with offset := 0 }

/-- The evaluation loop over a piece of bytecode without end entry: the registers and the distance
`pTok` still has to be moved forward when the piece is left. -/
def vmSteps (env : CallEnv) (strBuf : List String) (nOffset nThreadID : Nat) :
    List SToken → Nat → VMState → Result (VMState × Nat)
  | [], skip, s => .ok (s, skip)
  | _ :: rest, skip + 1, s => vmSteps env strBuf nOffset nThreadID rest skip s
  | tok :: rest, 0, s =>
    match exec env strBuf nOffset nThreadID tok s with
    | .ok (s', off) => vmSteps env strBuf nOffset nThreadID rest off s'
    | .error e => .error e

/-- The dispatches of the evaluation loop over a piece of bytecode without end entry: index,
entry and registers before the entry is executed. -/
def traceSteps (env : CallEnv) (strBuf : List String) (nOffset nThreadID : Nat) :
    List SToken → Nat → Nat → VMState → List (Nat × SToken × VMState)
  | [], _, _, _ => []
  | _ :: rest, pc, skip + 1, s => traceSteps env strBuf nOffset nThreadID rest (pc + 1) skip s
  | tok :: rest, pc, 0, s =>
    match exec env strBuf nOffset nThreadID tok s with
    | .ok (s', off) => (pc, tok, s) :: traceSteps env strBuf nOffset nThreadID rest (pc + 1) off s'
    | .error _ => [(pc, tok, s)]

/-- The entry `t` replaces the topmost `n` values of the stack by one value. -/
def Pops (t : SToken) (n : Nat) : Prop :=
  (isValueCmd t.Cmd = true ∧ n = 0) ∨ (isBuiltinBinCode t.Cmd = true ∧ n = 2) ∨
  (t.Cmd = .cmFUNC ∧ (t.argc = n ∨ (t.argc = -(n : Int) ∧ 1 ≤ n))) ∨
  (t.Cmd = .cmFUNC_BULK ∧ t.argc = n) ∨ (t.Cmd = .cmFUNC_STR ∧ t.argc = n)

/-- The registers after the condition of a conditional was popped. -/
def VMState.pop (s : VMState) : VMState := { s with sidx := s.sidx - 1 }

/-- What a run of a piece of bytecode from the registers `s` guarantees: every dispatch happens
with the stack index between `s.sidx` and `s.sidx + h` and touches only the slots
`s.sidx + 1 .. s.sidx + h`, and a run that reaches the end of the piece leaves `k` values above
`s.sidx`, the slots up to `s.sidx` unchanged, and no jump pending. -/
def RunsIn (env : CallEnv) (strBuf : List String) (nOffset nThreadID : Nat) (k h : Nat)
    (b : List SToken) : Prop :=
  ∀ (pc : Nat) (s : VMState),
    (∀ x ∈ traceSteps env strBuf nOffset nThreadID b pc 0 s,
      s.sidx ≤ x.2.2.sidx ∧ x.2.2.sidx ≤ s.sidx + h ∧
        ∀ i ∈ slotsTouched x.2.1 x.2.2.sidx, s.sidx + 1 ≤ i ∧ i ≤ s.sidx + h) ∧
    (∀ r, vmSteps env strBuf nOffset nThreadID b 0 s = .ok r →
      r.1.sidx = s.sidx + k ∧ r.2 = 0 ∧ ∀ i, i ≤ s.sidx → r.1.stack i = s.stack i)

namespace Examples

/-- The expression `x > 0 ? 1 : -1`, `x` at address 20. -/
def exprSign : Expr :=
  .ite (tokOp .cmIF) (tokOp .cmELSE) (.bin (tokOp .cmGT) (.var (tokVar 20)) (.val (tokVal 0)))
    (.val (tokVal 1)) (.inf tokMinus (.val (tokVal 1)))

/-- The bytecode of `x > 0 ? 1 : -1`, compiled with the optimizer on. -/
def codeSign : List SToken :=
  [{ Cmd := .cmVAR, ptr := 20, data := 1 }, { Cmd := .cmVAL, data2 := 0 }, { Cmd := .cmGT },
   { Cmd := .cmIF, offset := 2 }, { Cmd := .cmVAL, data2 := 1 },
   { Cmd := .cmELSE, offset := 2 }, { Cmd := .cmVAL, data2 := -1 }, { Cmd := .cmENDIF },
   { Cmd := .cmEND }]

/-- What `CreateRPN` returns for `x > 0 ? 1 : -1` with the optimizer on. -/
def compiledSign : Compiled :=
  { m_vRPN := { m_iStackPos := 3, m_iMaxStackSize := 3, m_vRPN := codeSign }
    m_vStringBuf := []
    m_nFinalResultIdx := 1
    stackBufferSize := 64 }

end Examples

/-- The constants `MaxLenExpression` and `MaxLenIdentifier` of `muParserDef.h` (not under
src/), taken as parameters. -/
structure Limits where
  MaxLenExpression : Nat
  MaxLenIdentifier : Nat
  deriving DecidableEq, Repr

/-- Modelled from the spec: the precedence `prPOSTFIX` of `muParserDef.h` (not under src/); the
spec puts the postfix operators highest, above the infix operators, which follow the power
operator (see `prLOR`). -/
def prPOSTFIX : Int := 10

/-- Modelled from the spec: `ParserCallback::IsValid` (`muParserCallback.cpp`, not under src/);
the spec names the failure "invalid function pointer": a valid callback holds the address of a
function. -/
def ParserCallback.IsValid (cb : ParserCallback) : Bool := decide (cb.m_pFun.pRawFun ≠ 0)

/-- Modelled from the spec: the constructor of `ParserCallback` for a unary operator
(`muParserCallback.cpp`, not under src/): "a callback reference with arity, precedence,
associativity, and an optimizable flag". -/
def ParserCallback.ofUnary (a_pFun : generic_callable_type) (a_bAllowOpti : Bool) (a_iPrec : Int)
    (a_iCode : ECmdCode) : ParserCallback :=
  { m_pFun := a_pFun, m_iArgc := 1, m_iPri := a_iPrec, m_eOprtAsct := .oaNONE,
    m_iCode := a_iCode, m_iType := .tpDBL, m_bAllowOpti := a_bAllowOpti }

/-- Modelled from the spec: the constructor of `ParserCallback` for a binary operator
(`muParserCallback.cpp`, not under src/), see `ParserCallback.ofUnary`. -/
def ParserCallback.ofBinary (a_pFun : generic_callable_type) (a_bAllowOpti : Bool) (a_iPrec : Nat)
    (a_eAssociativity : EOprtAssociativity) : ParserCallback :=
  { m_pFun := a_pFun, m_iArgc := 2, m_iPri := a_iPrec, m_eOprtAsct := a_eAssociativity,
    m_iCode := .cmOPRT_BIN, m_iType := .tpDBL, m_bAllowOpti := a_bAllowOpti }

/-- Modelled from the spec: `ParserTokenReader::SetFormula` (`muParserTokenReader.cpp`, not
under src/): the reader keeps the expression text it is given; `toks` are the tokens it yields
for that text. -/
def token_reader_type.SetFormula (rd : token_reader_type) (a_strFormula : String)
    (toks : List token_type) : token_reader_type :=
  { rd with m_strFormula := a_strFormula, m_tokens := toks }

/-- Modelled from the spec: `ParserTokenReader::GetExpr` (`muParserTokenReader.cpp`, not under
src/): the expression text the reader keeps. -/
def token_reader_type.GetExpr (rd : token_reader_type) : String := rd.m_strFormula

/-- Modelled from the spec: `ParserTokenReader::GetArgSep` (`muParserTokenReader.cpp`, not
under src/): the argument separator of the reader. -/
def token_reader_type.GetArgSep (rd : token_reader_type) : Char := rd.m_cArgSep

/-- Modelled from the spec: `ParserTokenReader::SetArgSep` (`muParserTokenReader.cpp`, not
under src/): sets the argument separator of the reader. -/
def token_reader_type.SetArgSep (rd : token_reader_type) (cArgSep : Char) : token_reader_type :=
  { rd with m_cArgSep := cArgSep }

/-- The table `ParserBase::c_DefaultOprt` of the identifiers of the built-in operators (without
the terminating null pointer). -/
def c_DefaultOprt : List String :=
  ["<=", ">=", "!=", "==", "<", ">", "+", "-", "*", "/", "^", "&&", "||", "=", "(", ")", "?", ":"]

/-- The symbol table a reference of type `funmap_type &` designates. -/
inductive FunMap
  | m_FunDef | m_PostOprtDef | m_InfixOprtDef | m_OprtDef
  deriving DecidableEq, Repr

/-- The test `!a_sName.length() || a_sName.find_first_not_of(a_szCharSet) != npos ||
(a_sName[0] >= '0' && a_sName[0] <= '9')` of `CheckOprt` and `CheckName`. -/
def badName (a_sName a_szCharSet : String) : Bool :=
  decide (a_sName.length = 0) || a_sName.toList.any (fun c => !a_szCharSet.toList.contains c) ||
    (match a_sName.toList with
     | c :: _ => decide ('0' ≤ c) && decide (c ≤ '9')
     | [] => false)

namespace ParserBase

/-- A member function that may throw: the exception or the result, and the object afterwards
(what was written before the exception stays written). -/
abbrev Method (α : Type) := Result α × ParserBase

/-- `ParserBase::CheckOprt`. -/
def CheckOprt (a_sName : String) (a_Callback : ParserCallback) (a_szCharSet : String) :
    Result Unit :=
  if badName a_sName a_szCharSet then
    match a_Callback.m_iCode with
    | .cmOPRT_POSTFIX => Error .ecINVALID_POSTFIX_IDENT
    | .cmOPRT_INFIX => Error .ecINVALID_INFIX_IDENT
    | _ => Error .ecINVALID_NAME
  else .ok ()

/-- `ParserBase::CheckName`. -/
def CheckName (a_sName a_szCharSet : String) : Result Unit :=
  if badName a_sName a_szCharSet then Error .ecINVALID_NAME else .ok ()

/-- `ParserBase::ValidNameChars`. -/
def ValidNameChars (p : ParserBase) : Result String :=
  match MUP_ASSERT (decide (p.m_sNameChars.length ≠ 0)) with
  | .ok _ => .ok p.m_sNameChars
  | .error e => .error e

/-- `ParserBase::ValidOprtChars`. -/
def ValidOprtChars (p : ParserBase) : Result String :=
  match MUP_ASSERT (decide (p.m_sOprtChars.length ≠ 0)) with
  | .ok _ => .ok p.m_sOprtChars
  | .error e => .error e

/-- `ParserBase::ValidInfixOprtChars`. -/
def ValidInfixOprtChars (p : ParserBase) : Result String :=
  match MUP_ASSERT (decide (p.m_sInfixOprtChars.length ≠ 0)) with
  | .ok _ => .ok p.m_sInfixOprtChars
  | .error e => .error e

/-- `ParserBase::DefineNameChars`. -/
def DefineNameChars (a_szCharset : String) (p : ParserBase) : ParserBase :=
  { p with m_sNameChars := a_szCharset }

/-- `ParserBase::DefineOprtChars`. -/
def DefineOprtChars (a_szCharset : String) (p : ParserBase) : ParserBase :=
  { p with m_sOprtChars := a_szCharset }

/-- `ParserBase::DefineInfixOprtChars`. -/
def DefineInfixOprtChars (a_szCharset : String) (p : ParserBase) : ParserBase :=
  { p with m_sInfixOprtChars := a_szCharset }

/-- The assignment `a_Storage[a_strName] = a_Callback` of `AddCallback`. -/
def store (p : ParserBase) (a_Storage : FunMap) (a_strName : String) (a_Callback : ParserCallback) :
    ParserBase :=
  match a_Storage with
  | .m_FunDef => { p with m_FunDef := Function.update p.m_FunDef a_strName (some a_Callback) }
  | .m_PostOprtDef =>
    { p with m_PostOprtDef := Function.update p.m_PostOprtDef a_strName (some a_Callback) }
  | .m_InfixOprtDef =>
    { p with m_InfixOprtDef := Function.update p.m_InfixOprtDef a_strName (some a_Callback) }
  | .m_OprtDef => { p with m_OprtDef := Function.update p.m_OprtDef a_strName (some a_Callback) }

/-- `ParserBase::AddCallback`. -/
def AddCallback (a_strName : String) (a_Callback : ParserCallback) (a_Storage : FunMap)
    (a_szCharSet : String) (p : ParserBase) : Method Unit :=
  if !a_Callback.IsValid then (Error .ecINVALID_FUN_PTR, p)
  else if a_Storage ≠ .m_FunDef ∧ (p.m_FunDef a_strName).isSome then
    (Error .ecNAME_CONFLICT, p)
  else if a_Storage ≠ .m_PostOprtDef ∧ (p.m_PostOprtDef a_strName).isSome then
    (Error .ecNAME_CONFLICT, p)
  else if a_Storage ≠ .m_InfixOprtDef ∧ a_Storage ≠ .m_OprtDef ∧
      (p.m_InfixOprtDef a_strName).isSome then
    (Error .ecNAME_CONFLICT, p)
  else if a_Storage ≠ .m_InfixOprtDef ∧ a_Storage ≠ .m_OprtDef ∧
      (p.m_OprtDef a_strName).isSome then
    (Error .ecNAME_CONFLICT, p)
  else
    match CheckOprt a_strName a_Callback a_szCharSet with
    | .error e => (.error e, p)
    | .ok _ => (.ok (), (p.store a_Storage a_strName a_Callback).ReInit)

/-- `ParserBase::SetExpr`; `toks` are the tokens the reader yields for the text it is given. -/
def SetExpr (L : Limits) (a_sExpr : String) (toks : List token_type) (p : ParserBase) :
    Method Unit :=
  if p.m_pTokenReader.GetArgSep = p.s_locale.decimal_point then (Error .ecLOCALE, p)
  else if a_sExpr.length ≥ L.MaxLenExpression then (Error .ecEXPRESSION_TOO_LONG, p)
  else
    (.ok (), ReInit { p with m_pTokenReader := p.m_pTokenReader.SetFormula (a_sExpr ++ " ") toks })

/-- `ParserBase::GetExpr`. -/
def GetExpr (p : ParserBase) : String := p.m_pTokenReader.GetExpr

/-- `ParserBase::SetArgSep`. -/
def SetArgSep (cArgSep : Char) (p : ParserBase) : ParserBase :=
  { p with m_pTokenReader := p.m_pTokenReader.SetArgSep cArgSep }

/-- `ParserBase::SetDecSep`. -/
def SetDecSep (cDecSep : Char) (p : ParserBase) : ParserBase :=
  { p with s_locale := { decimal_point := cDecSep, thousands_sep := p.s_locale.thousands_sep } }

/-- `ParserBase::DefinePostfixOprt`. -/
def DefinePostfixOprt (L : Limits) (a_sName : String) (a_pFun : generic_callable_type)
    (a_bAllowOpt : Bool) (p : ParserBase) : Method Unit :=
  if a_sName.length > L.MaxLenIdentifier then (Error .ecIDENTIFIER_TOO_LONG, p)
  else
    match p.ValidOprtChars with
    | .error e => (.error e, p)
    | .ok cs =>
      AddCallback a_sName (ParserCallback.ofUnary a_pFun a_bAllowOpt prPOSTFIX .cmOPRT_POSTFIX)
        .m_PostOprtDef cs p

/-- `ParserBase::DefineInfixOprt`. -/
def DefineInfixOprt (L : Limits) (a_sName : String) (a_pFun : generic_callable_type)
    (a_iPrec : Int) (a_bAllowOpt : Bool) (p : ParserBase) : Method Unit :=
  if a_sName.length > L.MaxLenIdentifier then (Error .ecIDENTIFIER_TOO_LONG, p)
  else
    match p.ValidInfixOprtChars with
    | .error e => (.error e, p)
    | .ok cs =>
      AddCallback a_sName (ParserCallback.ofUnary a_pFun a_bAllowOpt a_iPrec .cmOPRT_INFIX)
        .m_InfixOprtDef cs p

/-- `ParserBase::DefineOprt`: the loop compares the name with the first `cmENDIF` entries of
`c_DefaultOprt` as long as the built-in operators are enabled. -/
def DefineOprt (L : Limits) (a_sName : String) (a_pFun : generic_callable_type) (a_iPrec : Nat)
    (a_eAssociativity : EOprtAssociativity) (a_bAllowOpt : Bool) (p : ParserBase) : Method Unit :=
  if a_sName.length > L.MaxLenIdentifier then (Error .ecIDENTIFIER_TOO_LONG, p)
  else if p.m_bBuiltInOp && (c_DefaultOprt.take ECmdCode.cmENDIF.toCtorIdx).contains a_sName then
    (Error .ecBUILTIN_OVERLOAD, p)
  else
    match p.ValidOprtChars with
    | .error e => (.error e, p)
    | .ok cs =>
      AddCallback a_sName (ParserCallback.ofBinary a_pFun a_bAllowOpt a_iPrec a_eAssociativity)
        .m_OprtDef cs p

/-- Modelled from the spec: `ParserBase::DefineFun` (a template of `muParserBase.h`, not under
src/), "define function": the callback `a_Callback` made from the function pointer is added to
the function table under a name of name characters. -/
def DefineFun (a_strName : String) (a_Callback : ParserCallback) (p : ParserBase) : Method Unit :=
  match p.ValidNameChars with
  | .error e => (.error e, p)
  | .ok cs => AddCallback a_strName a_Callback .m_FunDef cs p

/-- `ParserBase::DefineStrConst`. -/
def DefineStrConst (a_strName a_strVal : String) (p : ParserBase) : Method Unit :=
  if (p.m_StrVarDef a_strName).isSome then (Error .ecNAME_CONFLICT, p)
  else
    match p.ValidNameChars with
    | .error e => (.error e, p)
    | .ok cs =>
      match CheckName a_strName cs with
      | .error e => (.error e, p)
      | .ok _ =>
        (.ok (), ReInit { p with
          m_vStringVarBuf := p.m_vStringVarBuf ++ [a_strVal]
          m_StrVarDef := Function.update p.m_StrVarDef a_strName
            (some ((p.m_vStringVarBuf ++ [a_strVal]).length - 1)) })

/-- `ParserBase::DefineVar`; `a_pVar` is the address of the variable, 0 the null pointer. -/
def DefineVar (L : Limits) (a_sName : String) (a_pVar : Nat) (p : ParserBase) : Method Unit :=
  if a_pVar = 0 then (Error .ecINVALID_VAR_PTR, p)
  else if a_sName.length > L.MaxLenIdentifier then (Error .ecIDENTIFIER_TOO_LONG, p)
  else if (p.m_ConstDef a_sName).isSome then (Error .ecNAME_CONFLICT, p)
  else
    match p.ValidNameChars with
    | .error e => (.error e, p)
    | .ok cs =>
      match CheckName a_sName cs with
      | .error e => (.error e, p)
      | .ok _ =>
        (.ok (), ReInit { p with m_VarDef := Function.update p.m_VarDef a_sName (some a_pVar) })

/-- `ParserBase::DefineConst`. -/
def DefineConst (L : Limits) (a_sName : String) (a_fVal : value_type) (p : ParserBase) :
    Method Unit :=
  if a_sName.length > L.MaxLenIdentifier then (Error .ecIDENTIFIER_TOO_LONG, p)
  else
    match p.ValidNameChars with
    | .error e => (.error e, p)
    | .ok cs =>
      match CheckName a_sName cs with
      | .error e => (.error e, p)
      | .ok _ =>
        (.ok (), ReInit { p with m_ConstDef := Function.update p.m_ConstDef a_sName (some a_fVal) })

/-- `ParserBase::ClearVar`. -/
def ClearVar (p : ParserBase) : ParserBase := ReInit { p with m_VarDef := fun _ => none }

/-- `ParserBase::RemoveVar`. -/
def RemoveVar (a_strVarName : String) (p : ParserBase) : ParserBase :=
  if (p.m_VarDef a_strVarName).isSome then
    ReInit { p with m_VarDef := Function.update p.m_VarDef a_strVarName none }
  else p

/-- `ParserBase::ClearFun`. -/
def ClearFun (p : ParserBase) : ParserBase := ReInit { p with m_FunDef := fun _ => none }

/-- `ParserBase::ClearConst`. -/
def ClearConst (p : ParserBase) : ParserBase :=
  ReInit { p with m_ConstDef := fun _ => none, m_StrVarDef := fun _ => none }

/-- `ParserBase::ClearPostfixOprt`. -/
def ClearPostfixOprt (p : ParserBase) : ParserBase :=
  ReInit { p with m_PostOprtDef := fun _ => none }

/-- `ParserBase::ClearOprt`. -/
def ClearOprt (p : ParserBase) : ParserBase := ReInit { p with m_OprtDef := fun _ => none }

/-- `ParserBase::ClearInfixOprt`. -/
def ClearInfixOprt (p : ParserBase) : ParserBase :=
  ReInit { p with m_InfixOprtDef := fun _ => none }

/-- `ParserBase::EnableBuiltInOprt`. -/
def EnableBuiltInOprt (a_bIsOn : Bool) (p : ParserBase) : ParserBase :=
  ReInit { p with m_bBuiltInOp := a_bIsOn }

end ParserBase

namespace Examples

/-- The limits used in the examples: expression texts shorter than 16 characters, identifiers of
at most 4 characters. -/
def limits : Limits := { MaxLenExpression := 16, MaxLenIdentifier := 4 }

/-- A parser with character sets for names, operators and infix operators and no definitions,
on which no expression was set. -/
def parser0 : ParserBase :=
  { m_sNameChars := "0123456789_abcdefghijklmnopqrstuvwxyzABCDEFGHIJKLMNOPQRSTUVWXYZ"
    m_sOprtChars := "+-*^/?<>=!%&|~_"
    m_sInfixOprtChars := "/+-*^?<>=!%&|~_" }

end Examples

/-- The bytecode is empty, the string buffer of the expression is empty and the parser is in
string-parse mode. -/
def ParserBase.Invalidated (p : ParserBase) : Prop :=
  p.m_vRPN.m_vRPN = [] ∧ p.m_vStringBuf = [] ∧ p.m_pParseFormula = .ParseString

/-- A member function either threw and left the object as it was, or returned and left an
object that `ReInit` was called on last. -/
def ParserBase.Outcome (p : ParserBase) (r : ParserBase.Method Unit) : Prop :=
  (∃ e, r.1 = .error e ∧ r.2 = p) ∨ (r.1 = .ok () ∧ ∃ q, r.2 = ParserBase.ReInit q)

namespace Examples

/-- The parser `parser0` after `DefineVar("x", 1)`: the variable `x` is bound to address 1. -/
def parserX : ParserBase := (parser0.DefineVar limits "x" 1).2

/-- The address of a callback, used for operators in the examples. -/
def oprtAddr : generic_callable_type := { pRawFun := 105 }

/-- The parser `parser0` after `DefinePostfixOprt("+", oprtAddr)`. -/
def parserPostPlus : ParserBase := (parser0.DefinePostfixOprt limits "+" oprtAddr true).2

end Examples

/-- The table of the parser that a reference designates. -/
def ParserBase.table (p : ParserBase) : FunMap → funmap_type
  | .m_FunDef => p.m_FunDef
  | .m_PostOprtDef => p.m_PostOprtDef
  | .m_InfixOprtDef => p.m_InfixOprtDef
  | .m_OprtDef => p.m_OprtDef

/-- The two tables that may hold the same name: infix operators and binary operators. -/
def FunMap.shares (a b : FunMap) : Bool :=
  (decide (a = .m_InfixOprtDef) && decide (b = .m_OprtDef)) ||
    (decide (a = .m_OprtDef) && decide (b = .m_InfixOprtDef))

/-- The name is present in a table other than `st` that does not share names with `st`. -/
def ParserBase.conflict (p : ParserBase) (st : FunMap) (name : String) : Prop :=
  ∃ t, t ≠ st ∧ st.shares t = false ∧ (p.table t name).isSome = true

namespace Examples

/-- The parser `parserPostPlus` with the built-in operators disabled. -/
def parserPostPlusOff : ParserBase := parserPostPlus.EnableBuiltInOprt false

/-- The parser `parser0` after `DefineInfixOprt("-", oprtAddr)`. -/
def parserInfixMinus : ParserBase := (parser0.DefineInfixOprt limits "-" oprtAddr 9 true).2

/-- The parser `parser0` after `DefineConst("c", 5)`. -/
def parserC : ParserBase := (parser0.DefineConst limits "c" 5).2

end Examples

namespace Examples

/-- The null function pointer. -/
def nullAddr : generic_callable_type := { pRawFun := 0 }

/-- The parser `parser0` with the built-in operators disabled. -/
def parserOff : ParserBase := parser0.EnableBuiltInOprt false

/-- The parser `parser0` after `SetArgSep('.')`: the argument separator is the decimal point. -/
def parserDot : ParserBase := parser0.SetArgSep '.'

end Examples

namespace Examples

/-- The argument list `1, 2, 3`. -/
def args123 : Expr :=
  .seq (.seq (.val (tokVal 1)) (tokOp .cmARG_SEP) (.val (tokVal 2))) (tokOp .cmARG_SEP)
    (.val (tokVal 3))

end Examples

/-- A numeric operand of an expression: a literal or a variable, given by its address. -/
inductive Operand
  | lit (v : value_type)
  | var (a_pVar : Nat)

/-- The token the reader yields for an operand. -/
def Operand.tok : Operand → token_type
  | .lit v => Examples.tokVal v
  | .var p => Examples.tokVar p

/-- The expression tree of an operand. -/
def Operand.expr : Operand → Expr
  | .lit v => .val (Examples.tokVal v)
  | .var p => .var (Examples.tokVar p)

/-- The value of an operand in the memory `mem`. -/
def Operand.value (mem : Mem) : Operand → value_type
  | .lit v => v
  | .var p => mem p

/-- The value scalar `Eval` returns for the token stream `toks`, with the callbacks `env`. -/
def evalWith (env : CallEnv) (optimizer : Bool) (toks : List token_type) (mem : Mem) :
    Result value_type :=
  Result.value ((Examples.parser optimizer toks).Eval env mem)

/-- What an evaluation reports: the value returned, the memory cell `addr` afterwards and
`GetNumResults()` afterwards. -/
def Result.outcome (addr : Nat) (r : Result (value_type × ParserBase × Mem)) :
    Result (value_type × value_type × Int) :=
  match r with
  | .ok x => .ok (x.1, x.2.2 addr, x.2.1.GetNumResults)
  | .error e => .error e

namespace Examples

/-- The token stream of `b = a + 1, b * b` with `a` at address 10 and `b` at address 11. -/
def toksAssignSquare : List token_type :=
  [tokVar 11, tokOp .cmASSIGN, tokVar 10, tokOp .cmADD, tokVal 1, tokOp .cmARG_SEP,
   tokVar 11, tokOp .cmMUL, tokVar 11]

/-- The expression `b = a + 1, b * b` with `a` at address 10 and `b` at address 11. -/
def exprAssignSquare : Expr :=
  .seq (.bin (tokOp .cmASSIGN) (.var (tokVar 11)) (.bin (tokOp .cmADD) (.var (tokVar 10))
    (.val (tokVal 1)))) (tokOp .cmARG_SEP) (.bin (tokOp .cmMUL) (.var (tokVar 11))
    (.var (tokVar 11)))

/-- What `CreateRPN` returns for `b = a + 1, b * b` with the optimizer on. -/
def compiledAssignSquare : Compiled :=
  { m_vRPN :=
      { m_iStackPos := 4, m_iMaxStackSize := 4,
        m_vRPN := [{ Cmd := .cmVAR, ptr := 11, data := 1 },
          { Cmd := .cmVARMUL, ptr := 10, data := 1, data2 := 1 },
          { Cmd := .cmASSIGN, ptr := 11 }, { Cmd := .cmVARPOW2, ptr := 11, data := 1 },
          { Cmd := .cmEND }] }
    m_vStringBuf := []
    m_nFinalResultIdx := 2
    stackBufferSize := 80 }

end Examples

namespace Examples

/-- The parser `parser0` after `SetDecSep(',')`: the decimal point is the default argument
separator. -/
def parserComma : ParserBase := parser0.SetDecSep ','

end Examples

/-- The entry `AddVal(a)` writes. -/
def SToken.VAL (a : value_type) : SToken := { Cmd := .cmVAL, ptr := 0, data := 0, data2 := a }

/-- The entry `AddVar(x)` writes, `x` the address of the variable. -/
def SToken.VAR (x : Nat) : SToken := { Cmd := .cmVAR, ptr := x, data := 1, data2 := 0 }

/-- The entry `cmVARMUL` with the factor `k`, the offset `c` and the variable at address `x`. -/
def SToken.VARMUL (k c : value_type) (x : Nat) : SToken :=
  { Cmd := .cmVARMUL, ptr := x, data := k, data2 := c }

/-- The entry `cmVARPOW2` for the variable at address `x`: the entry of `AddVar(x)` with the
command code changed. -/
def SToken.VARPOW2 (x : Nat) : SToken := { SToken.VAR x with Cmd := .cmVARPOW2 }

/-- The value the cases `cmVAL`, `cmVAR`, `cmVARMUL` and `cmVARPOW2` of the evaluation loop push
for an entry, in the memory `mem` with the address offset `nOffset`. -/
def SToken.pushed (t : SToken) (mem : Mem) (nOffset : Nat) : value_type :=
  match t.Cmd with
  | .cmVAL => t.data2
  | .cmVAR => mem (t.ptr + nOffset)
  | .cmVARMUL => mem (t.ptr + nOffset) * t.data + t.data2
  | .cmVARPOW2 => mem (t.ptr + nOffset) * mem (t.ptr + nOffset)
  | _ => 0

/-- The entries of the forms `VAL a`, `VAR x` and `VARMUL(k, c, x)`. -/
def SToken.IsAffine (t : SToken) : Prop :=
  t = SToken.VAL t.data2 ∨ t = SToken.VAR t.ptr ∨ t = SToken.VARMUL t.data t.data2 t.ptr

/-- The piece of bytecode `b` computes the value `v mem nOffset`: run by the evaluation loop from
any registers, it reaches its end without a pending jump, with the stack index one higher, the
value at that index, and the stack below and the memory unchanged. -/
def Computes (env : CallEnv) (b : List SToken) (v : Mem → Nat → value_type) : Prop :=
  ∀ (strBuf : List String) (nOffset nThreadID : Nat) (s : VMState),
    ∃ r, vmSteps env strBuf nOffset nThreadID b 0 s = .ok (r, 0) ∧ r.sidx = s.sidx + 1 ∧
      r.stack (s.sidx + 1) = v s.mem nOffset ∧ r.mem = s.mem ∧
      ∀ i, i ≤ s.sidx → r.stack i = s.stack i

namespace Examples

/-- What `CreateRPN` returns for `off()`, the call of the bulk function without arguments. -/
def compiledOffset : Compiled :=
  { m_vRPN :=
      { m_iStackPos := 1, m_iMaxStackSize := 1,
        m_vRPN := [{ Cmd := .cmFUNC_BULK, cb := offsetAddr, argc := 0 }, { Cmd := .cmEND }] }
    m_vStringBuf := []
    m_nFinalResultIdx := 1
    stackBufferSize := 32 }

/-- The parser on which `off()` was set, after `CreateRPN`. -/
def parserOffset : ParserBase :=
  { parser true toksOffset with
    m_pParseFormula := .ParseString
    m_vRPN := compiledOffset.m_vRPN
    m_vStringBuf := compiledOffset.m_vStringBuf
    m_nFinalResultIdx := compiledOffset.m_nFinalResultIdx
    m_vStackBufferSize := compiledOffset.stackBufferSize }

end Examples

namespace Examples

end Examples

namespace Examples

end Examples

/-- The expression `a = (b = e)`. -/
def Expr.assignChain (eq1 eq2 bo bc a b : token_type) (e : Expr) : Expr :=
  .bin eq1 (.var a) (.paren bo bc (.bin eq2 (.var b) e))

/-- The state of the compiler after the tokens `a = b =` were read: the first assignment was
reduced when the second was read. -/
def assignPrefixState (bc0 : ParserByteCode) (pa pb : Nat) : RPNState :=
  { stOpt := [Examples.tokOp .cmASSIGN]
    stVal := [token_type.SetVal 1]
    stArgCount := [1]
    opta := Examples.tokOp .cmASSIGN
    m_vRPN := (((bc0.clear).AddVar pa).AddVar pb).AddAssignOp pa }

namespace Examples

/-- The token stream of `a = b = 5` with `a` at address 10 and `b` at address 11. -/
def toksAssignChain : List token_type :=
  [tokVar 10, tokOp .cmASSIGN, tokVar 11, tokOp .cmASSIGN, tokVal 5]

/-- The expression `a = (b = 5)` with `a` at address 10 and `b` at address 11. -/
def exprAssignNested : Expr :=
  Expr.assignChain (tokOp .cmASSIGN) (tokOp .cmASSIGN) (tokOp .cmBO) (tokOp .cmBC) (tokVar 10)
    (tokVar 11) (.val (tokVal 5))

end Examples

namespace Examples

/-- What `CreateRPN` returns for `a = (b = 5)` with the optimizer on. -/
def compiledAssignNested : Compiled :=
  { m_vRPN :=
      { m_iStackPos := 1, m_iMaxStackSize := 3,
        m_vRPN := [{ Cmd := .cmVAR, ptr := 10, data := 1 }, { Cmd := .cmVAR, ptr := 11, data := 1 },
          { Cmd := .cmVAL, data2 := 5 }, { Cmd := .cmASSIGN, ptr := 11 },
          { Cmd := .cmASSIGN, ptr := 10 }, { Cmd := .cmEND }] }
    m_vStringBuf := []
    m_nFinalResultIdx := 1
    stackBufferSize := 64 }

end Examples

/-- The entry `VARPOW3 x`: the entry `VAR x` with the command code changed. -/
def SToken.VARPOW3 (x : Nat) : SToken := { SToken.VAR x with Cmd := .cmVARPOW3 }

/-- The entry `VARPOW4 x`: the entry `VAR x` with the command code changed. -/
def SToken.VARPOW4 (x : Nat) : SToken := { SToken.VAR x with Cmd := .cmVARPOW4 }

namespace Examples

/-- The address of a callback without arguments. -/
def zeroAddr : generic_callable_type := { pRawFun := 105 }

/-- The function token of an optimizable function without arguments. -/
def tokZero : token_type :=
  { m_pCallback := some { m_pFun := zeroAddr, m_iArgc := 0, m_iCode := .cmFUNC,
                          m_bAllowOpti := true } }

/-- The token stream of `zero()`. -/
def toksZero : List token_type := [tokZero, tokOp .cmBO, tokOp .cmBC]

/-- What `CreateRPN` returns for `zero()` with the optimizer on. -/
def compiledZero : Compiled :=
  { m_vRPN :=
      { m_iStackPos := 1, m_iMaxStackSize := 1,
        m_vRPN := [{ Cmd := .cmFUNC, cb := zeroAddr, argc := 0 }, { Cmd := .cmEND }] }
    m_vStringBuf := []
    m_nFinalResultIdx := 1
    stackBufferSize := 32 }

end Examples

/-- The change of the stack index `sidx` when the evaluation loop executes the entry `tok`
(an entry other than the markers of a conditional): one up for an entry that pushes a value,
one down for a binary operator and for an assignment, `1 - |argc|` for a function entry and
`1 - argc` for a string or bulk function entry. -/
def sidxDelta (tok : SToken) : Int :=
  match tok.Cmd with
  | .cmVAR | .cmVAL | .cmVARPOW2 | .cmVARPOW3 | .cmVARPOW4 | .cmVARMUL => 1
  | .cmLE | .cmGE | .cmNEQ | .cmEQ | .cmLT | .cmGT | .cmADD | .cmSUB | .cmMUL | .cmDIV | .cmPOW
  | .cmLAND | .cmLOR | .cmASSIGN => -1
  | .cmFUNC => 1 - |tok.argc|
  | .cmFUNC_STR | .cmFUNC_BULK => 1 - tok.argc
  | _ => 0

/-- The number of values a piece of bytecode without conditionals leaves on the stack of the
evaluation loop. -/
def stackDepth (b : List SToken) : Int := (b.map sidxDelta).sum

/-! ## The integer parser (`muParserInt.cpp`) -/

namespace ParserInt

/-- The character `a_szExpr[k]` of a C string: the characters of the text, then the
terminating zero. -/
def charAt (a_szExpr : List Char) (k : Nat) : Char := a_szExpr.getD k (Char.ofNat 0)

/-- The `for` loop of `ParserInt::IsBinVal` from the index `i` on with the bits `iVal` collected
so far; `iBits` is the number of bits of `unsigned` (`sizeof(iVal) * 8`).  It returns `i` and
`iVal` when the loop is left.  The first argument counts the iterations still possible, it is
`iBits - i`: the test `i < iBits` is part of the loop condition, so with none left the loop is
left. -/
def binLoop (iBits : Nat) (a_szExpr : List Char) : Nat → Nat → Nat → Nat × Nat
  | 0, i, iVal => (i, iVal)
  | left + 1, i, iVal =>
    if (charAt a_szExpr (i + 1) = '0' ∨ charAt a_szExpr (i + 1) = '1') ∧ i < iBits then
      binLoop iBits a_szExpr left (i + 1)
        ((iVal ||| ((if charAt a_szExpr (i + 1) = '1' then 1 else 0) <<< ((iBits - 1) - i)) %
          2 ^ iBits) % 2 ^ iBits)
    else (i, iVal)

/-- `ParserInt::IsBinVal`: the value returned, `*a_iPos` and `*a_fVal` afterwards.  The exception
is constructed from its message text alone. -/
def IsBinVal (iBits : Nat) (a_szExpr : List Char) (a_iPos : Int) (a_fVal : value_type) :
    Except String (Int × Int × value_type) :=
  if charAt a_szExpr 0 ≠ '#' then .ok (0, a_iPos, a_fVal)
  else
    let r := binLoop iBits a_szExpr iBits 0 0
    if r.1 = 0 then .ok (0, a_iPos, a_fVal)
    else if r.1 = iBits then .error "Binary to integer conversion error (overflow)."
    else .ok (1, a_iPos + ((r.1 : Int) + 1), ((r.2 >>> (iBits - r.1) : Nat) : value_type))

end ParserInt

/-- A binary digit. -/
def isBinDigit (c : Char) : Bool := c = '0' || c = '1'

/-- The number whose base-2 representation is the given digits, most significant first. -/
def binValue (digits : List Char) : Nat :=
  digits.foldl (fun acc c => 2 * acc + (if c = '1' then 1 else 0)) 0

/-! ## The floating point parser (`muParser.cpp`) -/

/-- The step of `Parser::Diff`: `a_fEpsilon`, replaced when it is 0 by `1e-10` if the position
is 0 and by `1e-7 * a_fPos` otherwise. -/
def Parser.diffStep (a_fPos a_fEpsilon : value_type) : value_type :=
  if a_fEpsilon = 0 then (if a_fPos = 0 then 1 / 10 ^ 10 else 1 / 10 ^ 7 * a_fPos)
  else a_fEpsilon

/-- `Parser::Diff`: the value returned, the parser and the caller's memory afterwards; `a_Var`
is the address of the variable.  When an evaluation throws, the variable is not restored. -/
def Parser.Diff (env : CallEnv) (p : ParserBase) (mem : Mem) (a_Var : Nat)
    (a_fPos a_fEpsilon : value_type) : Result (value_type × ParserBase × Mem) :=
  let fBuf := mem a_Var
  let fEpsilon := Parser.diffStep a_fPos a_fEpsilon
  match p.Eval env (Function.update mem a_Var (a_fPos + 2 * fEpsilon)) with
  | .error e => .error e
  | .ok (f0, p0, mem0) =>
    match p0.Eval env (Function.update mem0 a_Var (a_fPos + 1 * fEpsilon)) with
    | .error e => .error e
    | .ok (f1, p1, mem1) =>
      match p1.Eval env (Function.update mem1 a_Var (a_fPos - 1 * fEpsilon)) with
      | .error e => .error e
      | .ok (f2, p2, mem2) =>
        match p2.Eval env (Function.update mem2 a_Var (a_fPos - 2 * fEpsilon)) with
        | .error e => .error e
        | .ok (f3, p3, mem3) =>
          .ok ((-f0 + 8 * f1 - 8 * f2 + f3) / (12 * fEpsilon), p3,
            Function.update mem3 a_Var fBuf)

namespace Examples

/-- The token stream of `x * x` with `x` at address 20. -/
def toksSquare : List token_type := [tokVar 20, tokOp .cmMUL, tokVar 20]

/-- The parser states the evaluations of `x * x` go through: the parser on which the expression
was set, and the parser after the compilation, which evaluates the one entry `VARPOW2 x` with
the short evaluation function. -/
def SquareStates (q : ParserBase) : Prop :=
  q = parser true toksSquare ∨
  (q.m_pParseFormula = .ParseCmdCodeShort ∧
    q.m_vRPN.m_vRPN = [SToken.VARPOW2 20, { Cmd := .cmEND }])

end Examples

/-- The reduction rule in the words of the specification: the operator on top of the operator
stack, of precedence `P'`, is reduced before an operator of precedence `P` and associativity `A`
is pushed when `P' > P`, or `P' = P` and `A` is left. -/
def specReduces (P' P : Int) (A : EOprtAssociativity) : Bool :=
  decide (P' > P ∨ (P' = P ∧ A = .oaLEFT))

namespace Examples

/-- The token of a user-defined right-associative binary operator with the precedence of the
multiplication (`DefineOprt("(+)", add, prMUL_DIV, oaRIGHT)`). -/
def tokRight : token_type :=
  { m_pCallback := some { m_pFun := addAddr, m_iArgc := 2, m_iPri := prMUL_DIV,
                          m_eOprtAsct := .oaRIGHT, m_iCode := .cmOPRT_BIN, m_iType := .tpDBL } }

/-- The token of a user-defined binary operator with precedence `pri` and no associativity. -/
def tokNone (pri : Int) : token_type :=
  { m_pCallback := some { m_pFun := addAddr, m_iArgc := 2, m_iPri := pri,
                          m_eOprtAsct := .oaNONE, m_iCode := .cmOPRT_BIN, m_iType := .tpDBL } }

/-- The token stream of `a * b (+) c` with `a` at address 10, `b` at 11 and `c` at 21. -/
def toksMulRight : List token_type := [tokVar 10, tokOp .cmMUL, tokVar 11, tokRight, tokVar 21]

/-- What `CreateRPN` returns for `a * b (+) c`. -/
def compiledMulRight : Compiled :=
  { m_vRPN :=
      { m_iStackPos := 1, m_iMaxStackSize := 2,
        m_vRPN := [{ Cmd := .cmVAR, ptr := 10, data := 1 }, { Cmd := .cmVAR, ptr := 11, data := 1 },
          { Cmd := .cmMUL }, { Cmd := .cmVAR, ptr := 21, data := 1 },
          { Cmd := .cmFUNC, cb := addAddr, argc := 2 }, { Cmd := .cmEND }] }
    m_vStringBuf := []
    m_nFinalResultIdx := 1
    stackBufferSize := 48 }

end Examples

/-- Properly nested instruction streams: the empty stream, an entry that is no marker of a
conditional followed by a properly nested stream, and a block `IF s1 ELSE s2 ENDIF` with `s1` and
`s2` properly nested, followed by a properly nested stream. -/
inductive Nested : List SToken → Prop
  | nil : Nested []
  | plain (t : SToken) (b : List SToken) : t.Cmd ≠ .cmIF → t.Cmd ≠ .cmELSE → t.Cmd ≠ .cmENDIF →
      Nested b → Nested (t :: b)
  | cond (tIf tElse tEnd : SToken) (bt be b : List SToken) : tIf.Cmd = .cmIF →
      tElse.Cmd = .cmELSE → tEnd.Cmd = .cmENDIF → Nested bt → Nested be → Nested b →
      Nested (tIf :: (bt ++ tElse :: (be ++ tEnd :: b)))

/-- The test for proper nesting with a stack of the open conditionals: `false` for one whose
`ELSE` is still to come, `true` for one whose `ENDIF` is still to come. -/
def properlyNestedFrom : List SToken → List Bool → Bool
  | [], st => st.isEmpty
  | t :: rest, st =>
    match t.Cmd with
    | .cmIF => properlyNestedFrom rest (false :: st)
    | .cmELSE => st.head? == some false && properlyNestedFrom rest (true :: st.tail)
    | .cmENDIF => st.head? == some true && properlyNestedFrom rest st.tail
    | _ => properlyNestedFrom rest st

/-- The markers `IF`, `ELSE`, `ENDIF` of an instruction stream are properly nested. -/
def properlyNested (b : List SToken) : Bool := properlyNestedFrom b []

/-- The distance from an `IF` to its matching `ELSE`: `rest` are the entries after the `IF`, `d`
is the number of conditionals opened and not yet closed since, `k` the distance of the head of
`rest` from the `IF`.  The matching `ELSE` is the first one met with no conditional open. -/
def offsetToElse : List SToken → Nat → Nat → Option Nat
  | [], _, _ => none
  | t :: rest, d, k =>
    match t.Cmd with
    | .cmIF => offsetToElse rest (d + 1) (k + 1)
    | .cmENDIF => if d = 0 then none else offsetToElse rest (d - 1) (k + 1)
    | .cmELSE => if d = 0 then some k else offsetToElse rest d (k + 1)
    | _ => offsetToElse rest d (k + 1)

/-- The distance from an `ELSE` to its matching `ENDIF`: `rest` are the entries after the
`ELSE`; the matching `ENDIF` is the first one met with no conditional open. -/
def offsetToEndif : List SToken → Nat → Nat → Option Nat
  | [], _, _ => none
  | t :: rest, d, k =>
    match t.Cmd with
    | .cmIF => offsetToEndif rest (d + 1) (k + 1)
    | .cmENDIF => if d = 0 then some k else offsetToEndif rest (d - 1) (k + 1)
    | _ => offsetToEndif rest d (k + 1)

/-- An entry with its jump offset resolved: an `IF` gets the distance to its matching `ELSE`, an
`ELSE` the distance to its matching `ENDIF` (`rest` are the entries after it); an entry without a
match and every other entry stay as they are. -/
def resolveEntry (t : SToken) (rest : List SToken) : SToken :=
  match t.Cmd with
  | .cmIF => { t with offset := (offsetToElse rest 0 1).getD t.offset }
  | .cmELSE => { t with offset := (offsetToEndif rest 0 1).getD t.offset }
  | _ => t

/-- An instruction stream with all jump offsets resolved. -/
def resolved : List SToken → List SToken
  | [] => []
  | t :: rest => resolveEntry t rest :: resolved rest

/-- The streams that close a stack of open conditionals (`false`: the `ELSE` is still to come,
`true`: the `ENDIF` is still to come), with properly nested streams between the markers. -/
inductive Closes : List Bool → List SToken → Prop
  | done (b : List SToken) : Nested b → Closes [] b
  | toElse (st : List Bool) (blk : List SToken) (tM : SToken) (r : List SToken) : Nested blk →
      tM.Cmd = .cmELSE → Closes (true :: st) r → Closes (false :: st) (blk ++ tM :: r)
  | toEndif (st : List Bool) (blk : List SToken) (tM : SToken) (r : List SToken) : Nested blk →
      tM.Cmd = .cmENDIF → Closes st r → Closes (true :: st) (blk ++ tM :: r)

namespace Examples

/-- The entries of `a ? (b ? 1 : 2) : 3` before `Finalize`, with a nested conditional. -/
def nestedStream : List SToken :=
  [SToken.VAR 10, { Cmd := .cmIF }, SToken.VAR 11, { Cmd := .cmIF }, SToken.VAL 1,
    { Cmd := .cmELSE }, SToken.VAL 2, { Cmd := .cmENDIF }, { Cmd := .cmELSE }, SToken.VAL 3,
    { Cmd := .cmENDIF }]

end Examples

/-- The checks at the head of `case cmELSE` of the token loop of `CreateRPN` throw: the case has
written to no member then. -/
def elseThrowsAtOnce (s : RPNState) : Bool :=
  match s.stArgCount with
  | [] => true
  | n :: _ => decide (n > 1) || decide (s.ifElseCounter - 1 < 0)

/-- The locals and members of `CreateRPN` at the moment its token loop throws from the checks at
the head of `case cmELSE`: what the tokens before have written.  `none` when the loop does not
throw there (the members at the other throws are not modelled). -/
def tokenLoopElseThrow (env : CallEnv) (mem : Mem) : List token_type → RPNState → Option RPNState
  | [], _ => none
  | opt :: rest, s =>
    if opt.GetCode = .cmELSE ∧ elseThrowsAtOnce s = true then some s
    else
      match processToken env mem s opt with
      | .ok s' => if opt.GetCode = .cmEND then none else tokenLoopElseThrow env mem rest s'
      | .error _ => none

/-- The parser object after a call of `CreateRPN` that threw from the checks at the head of
`case cmELSE`: `ReInit` was done, `m_vRPN` and `m_vStringBuf` hold what the tokens before have
written, the members written at the end of `CreateRPN` are as they were. -/
def ParserBase.afterElseThrow (env : CallEnv) (mem : Mem) (p : ParserBase) : Option ParserBase :=
  if p.m_pTokenReader.m_strFormula.length = 0 then none
  else
    match tokenLoopElseThrow env mem p.m_pTokenReader.m_tokens (initState p.m_vRPN) with
    | some s =>
      some { p with m_pParseFormula := .ParseString, m_vRPN := s.m_vRPN,
                    m_vStringBuf := s.m_vStringBuf }
    | none => none

namespace Examples

/-- The parser on which `1 : 3` was set, after an evaluation that threw. -/
def parserColonThrown : ParserBase :=
  { parser true toksColon with
    m_vRPN := { m_iStackPos := 1, m_iMaxStackSize := 1, m_vRPN := [SToken.VAL 1] } }

end Examples

/-! ## The arithmetic of `value_type`

`value_type` is `double` in the program.  The definitions above compute with the exact
operations of the rationals.  The definitions of this section take the four operations as a
parameter, so that the rounding of `double` arithmetic can be put in: every finite `double` is a
rational number, and an operation on doubles is the exact operation followed by rounding. -/

/-- The operations `+`, `-`, `*`, `/` of `value_type`. -/
structure Arith where
  add : value_type → value_type → value_type
  sub : value_type → value_type → value_type
  mul : value_type → value_type → value_type
  div : value_type → value_type → value_type

/-- Exact arithmetic: the operations the definitions above compute with. -/
def Arith.exact : Arith :=
  { add := fun a b => a + b, sub := fun a b => a - b, mul := fun a b => a * b,
    div := fun a b => a / b }

/-- The power of two `2 ^ e` for an integer exponent. -/
def twoPow (e : Int) : value_type :=
  if 0 ≤ e then ((2 ^ e.toNat : Nat) : value_type) else 1 / ((2 ^ (-e).toNat : Nat) : value_type)

/-- The number of times `n` can be halved before it is below 2, with at most `fuel` steps:
`halvings n n` is the position of the leading bit of `n`. -/
def halvings : Nat → Nat → Nat
  | 0, _ => 0
  | fuel + 1, n => if 2 ≤ n then halvings fuel (n / 2) + 1 else 0

/-- The binary exponent of a number other than zero: the integer `e` with
`2 ^ e ≤ |q| < 2 ^ (e + 1)`.  The difference of the leading bit positions of numerator and
denominator is `e` or `e + 1`. -/
def binade (q : value_type) : Int :=
  let k : Int := (halvings q.num.natAbs q.num.natAbs : Int) - (halvings q.den q.den : Int)
  if twoPow k ≤ |q| then k else k - 1

/-- Rounding to the nearest integer, a tie to the even one. -/
def roundNearestEven (q : value_type) : Int :=
  let f := ⌊q⌋
  if q - f < 1 / 2 then f
  else if q - f > 1 / 2 then f + 1
  else if f % 2 = 0 then f else f + 1

/-- Rounding to the nearest number with a significand of 53 bits, a tie to the even significand:
the rounding of IEEE 754 `double` arithmetic in its default mode, for results in the range of
the normal numbers.  (Overflow to infinity and gradual underflow are not modelled: the exponent
is not bounded.) -/
def roundDouble (q : value_type) : value_type :=
  if q = 0 then 0
  else (roundNearestEven (q / twoPow (binade q - 52)) : value_type) * twoPow (binade q - 52)

/-- The arithmetic of `double`: the exact result, rounded.  (A division by zero has no finite
result and is outside this arithmetic.) -/
def Arith.double : Arith :=
  { add := fun a b => roundDouble (a + b), sub := fun a b => roundDouble (a - b),
    mul := fun a b => roundDouble (a * b), div := fun a b => roundDouble (a / b) }

namespace ParserByteCode

/-- `ParserByteCode::ConstantFolding` with the arithmetic `A`: the cases `cmADD`, `cmSUB`,
`cmMUL` and `cmDIV` compute with `A`, the other cases are those of `ConstantFolding`. -/
def ConstantFoldingWith (A : Arith) (env : CallEnv) (a_Oprt : ECmdCode) (x y : SToken) :
    List SToken :=
  match a_Oprt with
  | .cmADD => [{ x with data2 := A.add x.data2 y.data2 }]
  | .cmSUB => [{ x with data2 := A.sub x.data2 y.data2 }]
  | .cmMUL => [{ x with data2 := A.mul x.data2 y.data2 }]
  | .cmDIV => [{ x with data2 := A.div x.data2 y.data2 }]
  | _ => ConstantFolding env a_Oprt x y

/-- The rewriting part of `AddOp` with the arithmetic `A` (see `peephole`): the constants of the
new entry are computed with `A`; the case `cmPOW`, which computes nothing, is that of
`peephole`.  The sign `(a_Oprt == cmSUB) ? -1 : 1` is an `int` that is converted and multiplied
with the constant. -/
def peepholeWith (A : Arith) (a_Oprt : ECmdCode) (x y : SToken) : Result (Option SToken) :=
  match a_Oprt with
  | .cmSUB | .cmADD =>
    if addSubPattern x y then do
      MUP_ASSERT ((x.ptr = 0 && y.ptr ≠ 0) || (x.ptr ≠ 0 && y.ptr = 0) || x.ptr = y.ptr)
      let sgn : value_type := if a_Oprt = .cmSUB then -1 else 1
      .ok (some { x with
        Cmd := .cmVARMUL
        ptr := x.ptr ||| y.ptr
        data2 := A.add x.data2 (A.mul sgn y.data2)
        data := A.add x.data (A.mul sgn y.data) })
    else .ok none
  | .cmMUL =>
    if (y.Cmd = .cmVAR ∧ x.Cmd = .cmVAL) ∨ (y.Cmd = .cmVAL ∧ x.Cmd = .cmVAR) then
      .ok (some { x with
        Cmd := .cmVARMUL
        ptr := x.ptr ||| y.ptr
        data := A.add x.data2 y.data2
        data2 := 0 })
    else if (y.Cmd = .cmVAL ∧ x.Cmd = .cmVARMUL) ∨ (y.Cmd = .cmVARMUL ∧ x.Cmd = .cmVAL) then
      if y.Cmd = .cmVAL then
        .ok (some { x with
          Cmd := .cmVARMUL
          ptr := x.ptr ||| y.ptr
          data := A.mul x.data y.data2
          data2 := A.mul x.data2 y.data2 })
      else
        .ok (some { x with
          Cmd := .cmVARMUL
          ptr := x.ptr ||| y.ptr
          data := A.mul y.data x.data2
          data2 := A.mul y.data2 x.data2 })
    else if y.Cmd = .cmVAR ∧ x.Cmd = .cmVAR ∧ y.ptr = x.ptr then
      .ok (some { x with Cmd := .cmVARPOW2 })
    else .ok none
  | .cmDIV =>
    if y.Cmd = .cmVAL ∧ x.Cmd = .cmVARMUL ∧ y.data2 ≠ 0 then
      .ok (some { x with data := A.div x.data y.data2, data2 := A.div x.data2 y.data2 })
    else .ok none
  | _ => peephole a_Oprt x y

/-- `ParserByteCode::AddOp` with the arithmetic `A` (see `AddOp`). -/
def AddOpWith (A : Arith) (env : CallEnv) (bc : ParserByteCode) (a_Oprt : ECmdCode) :
    Result ParserByteCode :=
  if bc.m_bEnableOptimizer then
    match bc.m_vRPN.reverse with
    | y :: x :: rest =>
      if x.Cmd = .cmVAL ∧ y.Cmd = .cmVAL then
        .ok { bc with m_vRPN := rest.reverse ++ ConstantFoldingWith A env a_Oprt x y }
      else do
        match (← peepholeWith A a_Oprt x y) with
        | some x' => .ok { bc with m_vRPN := rest.reverse ++ [x'] }
        | none => .ok (pushOp bc a_Oprt)
    | _ =>
      if a_Oprt = .cmPOW ∨ a_Oprt = .cmSUB ∨ a_Oprt = .cmADD ∨ a_Oprt = .cmMUL ∨ a_Oprt = .cmDIV
      then .error .undefined
      else .ok (pushOp bc a_Oprt)
  else .ok (pushOp bc a_Oprt)

end ParserByteCode

/-- One pass through the `switch` of the evaluation loop with the arithmetic `A`: the cases
`cmADD`, `cmSUB`, `cmMUL`, `cmDIV`, `cmVARPOW2`, `cmVARPOW3`, `cmVARPOW4` and `cmVARMUL` compute
with `A`, the other cases are those of `exec`. -/
def execWith (A : Arith) (env : CallEnv) (strBuf : List String) (nOffset nThreadID : Nat)
    (tok : SToken) (s : VMState) : Result (VMState × Nat) :=
  let push (v : value_type) : Result (VMState × Nat) :=
    .ok ({ s with sidx := s.sidx + 1, stack := Function.update s.stack (s.sidx + 1) v }, 0)
  let binary (v : value_type) : Result (VMState × Nat) :=
    .ok ({ s with sidx := s.sidx - 1, stack := Function.update s.stack (s.sidx - 1) v }, 0)
  match tok.Cmd with
  | .cmADD => binary (A.add (s.stack (s.sidx - 1)) (s.stack s.sidx))
  | .cmSUB => binary (A.sub (s.stack (s.sidx - 1)) (s.stack s.sidx))
  | .cmMUL => binary (A.mul (s.stack (s.sidx - 1)) (s.stack s.sidx))
  | .cmDIV => binary (A.div (s.stack (s.sidx - 1)) (s.stack s.sidx))
  | .cmVARPOW2 =>
    let buf := s.mem (tok.ptr + nOffset)
    push (A.mul buf buf)
  | .cmVARPOW3 =>
    let buf := s.mem (tok.ptr + nOffset)
    push (A.mul (A.mul buf buf) buf)
  | .cmVARPOW4 =>
    let buf := s.mem (tok.ptr + nOffset)
    push (A.mul (A.mul (A.mul buf buf) buf) buf)
  | .cmVARMUL => push (A.add (A.mul (s.mem (tok.ptr + nOffset)) tok.data) tok.data2)
  | _ => exec env strBuf nOffset nThreadID tok s

/-- The evaluation loop with the arithmetic `A` (see `vmLoop`). -/
def vmLoopWith (A : Arith) (env : CallEnv) (strBuf : List String) (nOffset nThreadID : Nat) :
    List SToken → Nat → VMState → Result VMState
  | [], _, _ => .error .undefined
  | _ :: rest, skip + 1, s => vmLoopWith A env strBuf nOffset nThreadID rest skip s
  | tok :: rest, 0, s =>
    if tok.Cmd = .cmEND then .ok s
    else
      match execWith A env strBuf nOffset nThreadID tok s with
      | .ok (s', off) => vmLoopWith A env strBuf nOffset nThreadID rest off s'
      | .error e => .error e

/-- `ParserBase::ParseCmdCodeShort` with the arithmetic `A`: the cases `cmVARMUL`, `cmVARPOW2`,
`cmVARPOW3` and `cmVARPOW4` compute with `A`, the other cases are those of
`ParseCmdCodeShort`. -/
def ParserBase.ParseCmdCodeShortWith (A : Arith) (env : CallEnv) (p : ParserBase) (mem : Mem) :
    Result value_type :=
  match p.m_vRPN.m_vRPN with
  | [] => .error .undefined
  | tok :: _ =>
    match tok.Cmd with
    | .cmVARMUL => .ok (A.add (A.mul (mem tok.ptr) tok.data) tok.data2)
    | .cmVARPOW2 => .ok (A.mul (mem tok.ptr) (mem tok.ptr))
    | .cmVARPOW3 => .ok (A.mul (A.mul (mem tok.ptr) (mem tok.ptr)) (mem tok.ptr))
    | .cmVARPOW4 =>
      .ok (A.mul (A.mul (A.mul (mem tok.ptr) (mem tok.ptr)) (mem tok.ptr)) (mem tok.ptr))
    | _ => p.ParseCmdCodeShort env mem

/-- `ParserBase::ParseCmdCodeBulk` with the arithmetic `A` (see `ParseCmdCodeBulk`). -/
def ParserBase.ParseCmdCodeBulkWith (A : Arith) (env : CallEnv) (p : ParserBase) (mem : Mem)
    (nOffset nThreadID : Nat) : Result (value_type × ParserBase × Mem) :=
  match vmLoopWith A env p.m_vStringBuf nOffset nThreadID p.m_vRPN.m_vRPN 0
      { sidx := 0, stack := fun i => p.m_vStackBuffer (p.stackBase nOffset nThreadID + i),
        mem := mem } with
  | .ok s =>
    .ok (s.stack p.m_nFinalResultIdx,
         { p with m_vStackBuffer := fun j => s.stack (j - p.stackBase nOffset nThreadID) }, s.mem)
  | .error e => .error e

/-- The value a scalar evaluation returns on a parser that holds compiled bytecode, with the
arithmetic `A`: `ParseString` selects `ParseCmdCodeShort` for bytecode of two entries and
`ParseCmdCode` otherwise. -/
def ParserBase.valueWith (A : Arith) (env : CallEnv) (p : ParserBase) (mem : Mem) :
    Result value_type :=
  if p.m_vRPN.m_vRPN.length = 2 then p.ParseCmdCodeShortWith A env mem
  else Result.value (p.ParseCmdCodeBulkWith A env mem 0 0)

namespace Examples

/-- A memory: the variable at address 10 holds `v`, all other cells hold 0. -/
def memAt (v : value_type) : Mem := fun a => if a = 10 then v else 0

/-- The token stream of `x - 1 - 1` with `x` at address 10. -/
def toksSubSub : List token_type :=
  [tokVar 10, tokOp .cmSUB, tokVal 1, tokOp .cmSUB, tokVal 1]

/-- The token stream of `x + 1e16 - 1e16` with `x` at address 10. -/
def toksAddSub : List token_type :=
  [tokVar 10, tokOp .cmADD, tokVal 10000000000000000, tokOp .cmSUB, tokVal 10000000000000000]

/-- The token stream of `(x + 1) * 3` with `x` at address 10. -/
def toksSumTimes : List token_type :=
  [tokOp .cmBO, tokVar 10, tokOp .cmADD, tokVal 1, tokOp .cmBC, tokOp .cmMUL, tokVal 3]

/-- The token stream of `(x * 3 + 3) / 3` with `x` at address 10. -/
def toksSumOver : List token_type :=
  [tokOp .cmBO, tokVar 10, tokOp .cmMUL, tokVal 3, tokOp .cmADD, tokVal 3, tokOp .cmBC,
   tokOp .cmDIV, tokVal 3]

end Examples

/-- The value the evaluation loop with the arithmetic `A` leaves on top of the stack when it runs
the entries `b` followed by `cmEND` from the empty stack, in the memory `mem`. -/
def topWith (A : Arith) (env : CallEnv) (b : List SToken) (mem : Mem) : Result value_type :=
  match vmLoopWith A env [] 0 0 (b ++ [{ Cmd := .cmEND }]) 0
      { sidx := 0, stack := fun _ => 0, mem := mem } with
  | .ok s => .ok (s.stack s.sidx)
  | .error e => .error e

/-- The bytecode `CreateRPN` writes for the token stream `toks`. -/
def compiledCode (env : CallEnv) (optimizer : Bool) (toks : List token_type) (mem : Mem) :
    Result (List SToken) :=
  match (Examples.parser optimizer toks).CreateRPN env mem with
  | .ok p1 => .ok p1.m_vRPN.m_vRPN
  | .error e => .error e

/-- The value scalar `Eval` returns for the token stream `toks` when the bytecode is evaluated
with the arithmetic `A`.  The bytecode is that of `CreateRPN`: with the optimizer disabled
`AddOp` computes nothing; with the optimizer enabled the constants of the entries it rewrites
are those of exact arithmetic. -/
def evalArith (A : Arith) (env : CallEnv) (optimizer : Bool) (toks : List token_type)
    (mem : Mem) : Result value_type :=
  match (Examples.parser optimizer toks).CreateRPN env mem with
  | .ok p1 => p1.valueWith A env mem
  | .error e => .error e

/-! ## Theorems -/

/-- With exact arithmetic, `ConstantFoldingWith` is `ConstantFolding`. -/
theorem ParserByteCode.ConstantFoldingWith_exact (env : CallEnv) (op : ECmdCode) (x y : SToken) :
    ParserByteCode.ConstantFoldingWith Arith.exact env op x y =
      ParserByteCode.ConstantFolding env op x y := by
  cases op <;> rfl

/-- With exact arithmetic, `peepholeWith` is `peephole`. -/
theorem ParserByteCode.peepholeWith_exact (op : ECmdCode) (x y : SToken) :
    ParserByteCode.peepholeWith Arith.exact op x y = ParserByteCode.peephole op x y := by
  cases op <;> rfl

/-- With exact arithmetic, `AddOpWith` is `AddOp`. -/
theorem ParserByteCode.AddOpWith_exact (env : CallEnv) (bc : ParserByteCode) (op : ECmdCode) :
    ParserByteCode.AddOpWith Arith.exact env bc op = ParserByteCode.AddOp env bc op := by
  cases h : bc.m_bEnableOptimizer with
  | false => simp only [ParserByteCode.AddOpWith, ParserByteCode.AddOp, h, Bool.false_eq_true,
      if_false]
  | true =>
    cases hr : bc.m_vRPN.reverse with
    | nil => simp only [ParserByteCode.AddOpWith, ParserByteCode.AddOp, h, hr, if_true]
    | cons y l =>
      cases l with
      | nil => simp only [ParserByteCode.AddOpWith, ParserByteCode.AddOp, h, hr, if_true]
      | cons x rest =>
        by_cases hxy : x.Cmd = .cmVAL ∧ y.Cmd = .cmVAL
        · simp only [ParserByteCode.AddOpWith, ParserByteCode.AddOp, h, hr, if_true, if_pos hxy,
            ParserByteCode.ConstantFoldingWith_exact]
        · cases hp : ParserByteCode.peephole op x y with
          | error e =>
            simp only [ParserByteCode.AddOpWith, ParserByteCode.AddOp, h, hr, if_true,
              if_neg hxy, ParserByteCode.peepholeWith_exact, hp, bind, Except.bind]
          | ok r =>
            cases r with
            | none =>
              simp only [ParserByteCode.AddOpWith, ParserByteCode.AddOp, h, hr, if_true,
                if_neg hxy, ParserByteCode.peepholeWith_exact, hp, bind, Except.bind]
            | some x' =>
              simp only [ParserByteCode.AddOpWith, ParserByteCode.AddOp, h, hr, if_true,
                if_neg hxy, ParserByteCode.peepholeWith_exact, hp, bind, Except.bind]

/-- With exact arithmetic, `execWith` is `exec`. -/
theorem execWith_exact (env : CallEnv) (strBuf : List String) (nOffset nThreadID : Nat)
    (tok : SToken) (s : VMState) :
    execWith Arith.exact env strBuf nOffset nThreadID tok s =
      exec env strBuf nOffset nThreadID tok s := by
  unfold execWith exec
  cases h : tok.Cmd <;> rfl

/-- With exact arithmetic, `vmLoopWith` is `vmLoop`. -/
theorem vmLoopWith_exact (env : CallEnv) (strBuf : List String) (nOffset nThreadID : Nat) :
    ∀ (b : List SToken) (skip : Nat) (s : VMState),
      vmLoopWith Arith.exact env strBuf nOffset nThreadID b skip s =
        vmLoop env strBuf nOffset nThreadID b skip s := by
  intro b
  induction b with
  | nil => intro skip s; rfl
  | cons t rest ih =>
    intro skip s
    cases skip with
    | succ k => simp only [vmLoopWith, vmLoop]; exact ih k s
    | zero =>
      by_cases hend : t.Cmd = .cmEND
      · simp only [vmLoopWith, vmLoop, hend, if_true]
      · cases he : exec env strBuf nOffset nThreadID t s with
        | error e => simp only [vmLoopWith, vmLoop, execWith_exact, hend, if_false, he]
        | ok r => simp only [vmLoopWith, vmLoop, execWith_exact, hend, if_false, he, ih]

/-- With exact arithmetic, `ParseCmdCodeShortWith` is `ParseCmdCodeShort`. -/
theorem ParserBase.ParseCmdCodeShortWith_exact (env : CallEnv) (p : ParserBase) (mem : Mem) :
    p.ParseCmdCodeShortWith Arith.exact env mem = p.ParseCmdCodeShort env mem := by
  cases hl : p.m_vRPN.m_vRPN with
  | nil => simp only [ParserBase.ParseCmdCodeShortWith, ParserBase.ParseCmdCodeShort, hl]
  | cons tok rest =>
    cases hc : tok.Cmd <;>
      simp only [ParserBase.ParseCmdCodeShortWith, ParserBase.ParseCmdCodeShort, hl, hc,
        Arith.exact]

/-- With exact arithmetic, `ParseCmdCodeBulkWith` is `ParseCmdCodeBulk`. -/
theorem ParserBase.ParseCmdCodeBulkWith_exact (env : CallEnv) (p : ParserBase) (mem : Mem)
    (nOffset nThreadID : Nat) :
    p.ParseCmdCodeBulkWith Arith.exact env mem nOffset nThreadID =
      p.ParseCmdCodeBulk env mem nOffset nThreadID := by
  cases hv : vmLoop env p.m_vStringBuf nOffset nThreadID p.m_vRPN.m_vRPN 0
      { sidx := 0, stack := fun i => p.m_vStackBuffer (p.stackBase nOffset nThreadID + i),
        mem := mem } with
  | error e =>
    simp only [ParserBase.ParseCmdCodeBulkWith, ParserBase.ParseCmdCodeBulk, vmLoopWith_exact, hv]
  | ok r =>
    simp only [ParserBase.ParseCmdCodeBulkWith, ParserBase.ParseCmdCodeBulk, vmLoopWith_exact, hv]

/-- With exact arithmetic, `evalArith` is the value of scalar `Eval`. -/
theorem evalArith_exact (env : CallEnv) (optimizer : Bool) (toks : List token_type)
    (mem : Mem) :
    evalArith Arith.exact env optimizer toks mem = evalWith env optimizer toks mem := by
  cases hc : (Examples.parser optimizer toks).CreateRPN env mem with
  | error e =>
    simp only [evalArith, evalWith, ParserBase.Eval, Examples.parser, ParserBase.ParseString,
      Result.value] at hc ⊢
    simp only [hc]
  | ok p1 =>
    by_cases h2 : p1.m_vRPN.m_vRPN.length = 2
    · cases hs : p1.ParseCmdCodeShort env mem with
      | error e =>
        have hs' : ParserBase.ParseCmdCodeShort env
            { p1 with m_pParseFormula := .ParseCmdCodeShort } mem = .error e := hs
        simp only [evalArith, evalWith, ParserBase.Eval, Examples.parser,
          ParserBase.ParseString, Result.value, ParserBase.valueWith,
          ParserBase.ParseCmdCodeShortWith_exact] at hc ⊢
        simp only [hc, h2, if_true, hs, hs']
      | ok v =>
        have hs' : ParserBase.ParseCmdCodeShort env
            { p1 with m_pParseFormula := .ParseCmdCodeShort } mem = .ok v := hs
        simp only [evalArith, evalWith, ParserBase.Eval, Examples.parser,
          ParserBase.ParseString, Result.value, ParserBase.valueWith,
          ParserBase.ParseCmdCodeShortWith_exact] at hc ⊢
        simp only [hc, h2, if_true, hs, hs']
    · have e : ∀ r : Result VMState,
          Result.value (match r with
            | .ok s => (.ok (s.stack p1.m_nFinalResultIdx,
                ({ p1 with m_pParseFormula := .ParseCmdCode,
                           m_vStackBuffer := fun j => s.stack (j - p1.stackBase 0 0) } :
                  ParserBase), s.mem) : Result (value_type × ParserBase × Mem))
            | .error e => .error e) =
          Result.value (match r with
            | .ok s => (.ok (s.stack p1.m_nFinalResultIdx,
                ({ p1 with m_vStackBuffer := fun j => s.stack (j - p1.stackBase 0 0) } :
                  ParserBase), s.mem) : Result (value_type × ParserBase × Mem))
            | .error e => .error e) := by
        intro r
        cases r <;> rfl
      have hb : Result.value
          (ParserBase.ParseCmdCode env { p1 with m_pParseFormula := .ParseCmdCode } mem) =
          Result.value (p1.ParseCmdCodeBulk env mem 0 0) := e _
      simp only [evalArith, evalWith, ParserBase.Eval, Examples.parser,
        ParserBase.ParseString, ParserBase.valueWith,
        ParserBase.ParseCmdCodeBulkWith_exact] at hc ⊢
      simp only [hc, h2, if_false, hb]

/-- With the optimizer enabled, `AddOp(cmADD)` and `AddOp(cmSUB)` with the arithmetic `A` on
the entries `VAL a`, `VAR x`, `VARMUL(k, c, x)`: the constants of the entry that replaces the
two are computed with `A`; entries that refer to different variables are left. -/
theorem AddOpWith_affine (A : Arith) (env : CallEnv) (bc : ParserByteCode) (pre : List SToken)
    (l r : SToken) (op : ECmdCode) (hopt : bc.m_bEnableOptimizer = true)
    (hcode : bc.m_vRPN = pre ++ [l, r]) (hop : op = .cmADD ∨ op = .cmSUB)
    (hl : l.IsAffine) (hr : r.IsAffine) (hnot : ¬(l.Cmd = .cmVAL ∧ r.Cmd = .cmVAL)) :
    ((l.Cmd = .cmVAL ∨ r.Cmd = .cmVAL ∨ l.ptr = r.ptr) →
      bc.AddOpWith A env op = .ok { bc with m_vRPN := pre ++
        [SToken.VARMUL (A.add l.data (A.mul (if op = .cmSUB then -1 else 1) r.data))
          (A.add l.data2 (A.mul (if op = .cmSUB then -1 else 1) r.data2))
          (if l.Cmd = .cmVAL then r.ptr else l.ptr)] }) ∧
    (l.Cmd ≠ .cmVAL → r.Cmd ≠ .cmVAL → l.ptr ≠ r.ptr →
      bc.AddOpWith A env op = .ok (bc.pushOp op)) := by
  have h0 : ∀ p : Nat, (¬p = 0 ∨ 0 = p) := fun p => by omega
  have h1 : ∀ p : Nat, (¬p = 0 ∨ p = 0) := fun p => by omega
  obtain ⟨a1, k1, x1, hl'⟩ : ∃ a k x, l = SToken.VAL a ∨ l = SToken.VAR x ∨
      l = SToken.VARMUL k a x := ⟨_, _, _, hl⟩
  obtain ⟨a2, k2, x2, hr'⟩ : ∃ a k x, r = SToken.VAL a ∨ r = SToken.VAR x ∨
      r = SToken.VARMUL k a x := ⟨_, _, _, hr⟩
  clear hl hr
  refine ⟨fun hf => ?_, ?_⟩
  · rcases hl' with rfl | rfl | rfl <;> rcases hr' with rfl | rfl | rfl <;>
      rcases hop with rfl | rfl <;>
      simp_all [ParserByteCode.AddOpWith, ParserByteCode.peepholeWith,
        ParserByteCode.addSubPattern, MUP_ASSERT, SToken.VAL, SToken.VAR, SToken.VARMUL, bind,
        Except.bind]
  · intro c1 c2 hne
    rcases hl' with rfl | rfl | rfl <;> rcases hr' with rfl | rfl | rfl <;>
      rcases hop with rfl | rfl <;>
      simp_all [ParserByteCode.AddOpWith, ParserByteCode.peepholeWith,
        ParserByteCode.addSubPattern, MUP_ASSERT, SToken.VAL, SToken.VAR, SToken.VARMUL, bind,
        Except.bind]

/-- With the optimizer enabled, `AddOp(cmMUL)` and `AddOp(cmDIV)` with the arithmetic `A`: the
constants of the entry that replaces the last two are computed with `A`. -/
theorem AddOpWith_multiplicative (A : Arith) (env : CallEnv) (bc : ParserByteCode)
    (pre : List SToken) (a k c : value_type) (x y : Nat) (hopt : bc.m_bEnableOptimizer = true) :
    ParserByteCode.AddOpWith A env { bc with m_vRPN := pre ++ [SToken.VAL a, SToken.VAR x] }
        .cmMUL =
      .ok { bc with m_vRPN := pre ++ [SToken.VARMUL (A.add a 0) 0 x] } ∧
    ParserByteCode.AddOpWith A env { bc with m_vRPN := pre ++ [SToken.VAR x, SToken.VAL a] }
        .cmMUL =
      .ok { bc with m_vRPN := pre ++ [SToken.VARMUL (A.add 0 a) 0 x] } ∧
    ParserByteCode.AddOpWith A env
        { bc with m_vRPN := pre ++ [SToken.VARMUL k c x, SToken.VAL a] } .cmMUL =
      .ok { bc with m_vRPN := pre ++ [SToken.VARMUL (A.mul k a) (A.mul c a) x] } ∧
    ParserByteCode.AddOpWith A env
        { bc with m_vRPN := pre ++ [SToken.VAL a, SToken.VARMUL k c x] } .cmMUL =
      .ok { bc with m_vRPN := pre ++ [SToken.VARMUL (A.mul k a) (A.mul c a) x] } ∧
    ParserByteCode.AddOpWith A env { bc with m_vRPN := pre ++ [SToken.VAR x, SToken.VAR x] }
        .cmMUL =
      .ok { bc with m_vRPN := pre ++ [SToken.VARPOW2 x] } ∧
    (x ≠ y →
      ParserByteCode.AddOpWith A env { bc with m_vRPN := pre ++ [SToken.VAR x, SToken.VAR y] }
          .cmMUL =
        .ok { bc with m_iStackPos := bc.m_iStackPos - 1,
                      m_vRPN := pre ++ [SToken.VAR x, SToken.VAR y, { Cmd := .cmMUL }] }) ∧
    (a ≠ 0 →
      ParserByteCode.AddOpWith A env
          { bc with m_vRPN := pre ++ [SToken.VARMUL k c x, SToken.VAL a] } .cmDIV =
        .ok { bc with m_vRPN := pre ++ [SToken.VARMUL (A.div k a) (A.div c a) x] }) ∧
    ParserByteCode.AddOpWith A env
        { bc with m_vRPN := pre ++ [SToken.VARMUL k c x, SToken.VAL 0] } .cmDIV =
      .ok { bc with m_iStackPos := bc.m_iStackPos - 1,
                    m_vRPN := pre ++ [SToken.VARMUL k c x, SToken.VAL 0, { Cmd := .cmDIV }] } := by
  refine ⟨?_, ?_, ?_, ?_, ?_, ?_, ?_, ?_⟩
  · simp [ParserByteCode.AddOpWith, ParserByteCode.peepholeWith, hopt, bind, Except.bind,
      SToken.VAL, SToken.VAR, SToken.VARMUL]
  · simp [ParserByteCode.AddOpWith, ParserByteCode.peepholeWith, hopt, bind, Except.bind,
      SToken.VAL, SToken.VAR, SToken.VARMUL]
  · simp [ParserByteCode.AddOpWith, ParserByteCode.peepholeWith, hopt, bind, Except.bind,
      SToken.VAL, SToken.VAR, SToken.VARMUL]
  · simp [ParserByteCode.AddOpWith, ParserByteCode.peepholeWith, hopt, bind, Except.bind,
      SToken.VAL, SToken.VAR, SToken.VARMUL]
  · simp [ParserByteCode.AddOpWith, ParserByteCode.peepholeWith, hopt, bind, Except.bind,
      SToken.VAL, SToken.VAR, SToken.VARPOW2]
  · intro hne
    have hne' : ¬ y = x := fun h => hne h.symm
    simp [ParserByteCode.AddOpWith, ParserByteCode.peepholeWith, ParserByteCode.pushOp, hopt,
      bind, Except.bind, SToken.VAL, SToken.VAR, hne, hne']
  · intro ha
    simp [ParserByteCode.AddOpWith, ParserByteCode.peepholeWith, hopt, bind, Except.bind,
      SToken.VAL, SToken.VARMUL, ha]
  · simp [ParserByteCode.AddOpWith, ParserByteCode.peepholeWith, ParserByteCode.pushOp, hopt,
      bind, Except.bind, SToken.VAL, SToken.VARMUL]

/-- Without the optimizer, scalar `Eval` of `x + y * z`, `x - y - z`, `x / y / z` and `x ^ y ^ z`
computes `x + (y * z)`, `(x - y) - z`, `(x / y) / z` and `x ^ (y ^ z)` with the operations of the
arithmetic `A`. -/
theorem evalArith_grouping (A : Arith) (env : CallEnv) (mem : Mem) (x y z : Operand) :
    evalArith A env false
        [x.tok, Examples.tokOp .cmADD, y.tok, Examples.tokOp .cmMUL, z.tok] mem =
      .ok (A.add (x.value mem) (A.mul (y.value mem) (z.value mem))) ∧
    evalArith A env false
        [x.tok, Examples.tokOp .cmSUB, y.tok, Examples.tokOp .cmSUB, z.tok] mem =
      .ok (A.sub (A.sub (x.value mem) (y.value mem)) (z.value mem)) ∧
    evalArith A env false
        [x.tok, Examples.tokOp .cmDIV, y.tok, Examples.tokOp .cmDIV, z.tok] mem =
      .ok (A.div (A.div (x.value mem) (y.value mem)) (z.value mem)) ∧
    evalArith A env false
        [x.tok, Examples.tokOp .cmPOW, y.tok, Examples.tokOp .cmPOW, z.tok] mem =
      .ok (env.Pow (x.value mem) (env.Pow (y.value mem) (z.value mem))) := by
  refine ⟨?_, ?_, ?_, ?_⟩
  · cases x <;> cases y <;> cases z <;> rfl
  · cases x <;> cases y <;> cases z <;> rfl
  · cases x <;> cases y <;> cases z <;> rfl
  · cases x <;> cases y <;> cases z <;> rfl

theorem RPNState.SameFrame.refl (s : RPNState) : s.SameFrame s := ⟨rfl, rfl, rfl, rfl⟩

theorem RPNState.SameFrame.trans {s s' s'' : RPNState} (h : s.SameFrame s')
    (h' : s'.SameFrame s'') : s.SameFrame s'' :=
  ⟨h'.1.trans h.1, h'.2.1.trans h.2.1, h'.2.2.1.trans h.2.2.1, h'.2.2.2.trans h.2.2.2⟩

theorem ApplyFunc_frame {env : CallEnv} {mem : Mem} {s s' : RPNState} {n : Int}
    (h : ApplyFunc env mem s n = .ok s') : s.SameFrame s' := by
  unfold ApplyFunc at h
  split at h
  · cases h; exact RPNState.SameFrame.refl _
  · split at h
    · cases h; exact RPNState.SameFrame.refl _
    · split at h
      · cases h; exact ⟨rfl, rfl, rfl, rfl⟩
      · cases h

theorem ApplyIfElse_frame {mem : Mem} {s s' : RPNState}
    (h : ApplyIfElse mem s = .ok s') : s.SameFrame s' := by
  unfold ApplyIfElse at h
  split at h
  · cases h; exact ⟨rfl, rfl, rfl, rfl⟩
  · cases h

theorem ApplyBinOprt_frame {env : CallEnv} {mem : Mem} {s s' : RPNState}
    (h : ApplyBinOprt env mem s = .ok s') : s.SameFrame s' := by
  unfold ApplyBinOprt at h
  split at h
  · cases h
  · split at h
    · exact ApplyFunc_frame h
    · split at h
      · cases h; exact ⟨rfl, rfl, rfl, rfl⟩
      · cases h

theorem remainingStep_frame {env : CallEnv} {mem : Mem} {tok : token_type} {s s' : RPNState}
    (h : remainingStep env mem tok s = .ok s') : s.SameFrame s' := by
  unfold remainingStep at h
  split at h
  · split at h
    · exact ApplyFunc_frame h
    · exact ApplyBinOprt_frame h
  · split at h
    · exact ApplyIfElse_frame h
    · cases h

theorem ApplyRemainingOprtLoop_frame {env : CallEnv} {mem : Mem} (fuel : Nat) {s s' : RPNState}
    (h : ApplyRemainingOprtLoop env mem fuel s = .ok s') : s.SameFrame s' := by
  induction fuel generalizing s with
  | zero => cases h
  | succ fuel ih =>
    unfold ApplyRemainingOprtLoop at h
    split at h
    · cases h; exact RPNState.SameFrame.refl _
    · split at h
      · cases h; exact RPNState.SameFrame.refl _
      · split at h
        · rename_i s1 h1
          exact (remainingStep_frame h1).trans (ih h)
        · cases h

theorem ApplyRemainingOprt_frame {env : CallEnv} {mem : Mem} {s s' : RPNState}
    (h : ApplyRemainingOprt env mem s = .ok s') : s.SameFrame s' :=
  ApplyRemainingOprtLoop_frame _ h

theorem binOprtLoop_frame {env : CallEnv} {mem : Mem} {opt : token_type} (fuel : Nat)
    {s s' : RPNState} (h : binOprtLoop env mem opt fuel s = .ok s') : s.SameFrame s' := by
  induction fuel generalizing s with
  | zero => cases h
  | succ fuel ih =>
    unfold binOprtLoop at h
    split at h
    · cases h; exact RPNState.SameFrame.refl _
    · split at h
      · cases h; exact RPNState.SameFrame.refl _
      · split at h
        · cases h
        · cases h; exact RPNState.SameFrame.refl _
        · split at h
          · rename_i s1 h1
            split at h1
            · exact (ApplyFunc_frame h1).trans (ih h)
            · exact (ApplyBinOprt_frame h1).trans (ih h)
          · cases h

theorem onString_counter {s s' : RPNState} {opt : token_type}
    (h : onString s opt = .ok s') : s'.ifElseCounter = s.ifElseCounter := by
  unfold onString at h
  split at h
  · cases h
  · split at h
    · cases h; rfl
    · cases h

theorem onVar_counter {s s' : RPNState} {opt : token_type}
    (h : onVar s opt = .ok s') : s'.ifElseCounter = s.ifElseCounter := by
  unfold onVar at h
  split at h
  · cases h; rfl
  · cases h

theorem onVal_counter {mem : Mem} {s s' : RPNState} {opt : token_type}
    (h : onVal mem s opt = .ok s') : s'.ifElseCounter = s.ifElseCounter := by
  unfold onVal at h
  split at h
  · cases h; rfl
  · cases h

theorem onElse_counter {env : CallEnv} {mem : Mem} {s s' : RPNState} {opt : token_type}
    (h : onElse env mem s opt = .ok s') : s'.ifElseCounter = s.ifElseCounter - 1 := by
  unfold onElse at h
  split at h
  · cases h
  · split at h
    · cases h
    · split at h
      · cases h
      · split at h
        · rename_i s1 h1
          cases h
          exact (ApplyRemainingOprt_frame h1).1
        · cases h

theorem onArgSep_counter {env : CallEnv} {mem : Mem} {s s' : RPNState}
    (h : onArgSep env mem s = .ok s') : s'.ifElseCounter = s.ifElseCounter := by
  unfold onArgSep at h
  split at h
  · cases h
  · split at h
    · cases h
    · exact (ApplyRemainingOprt_frame h).1

theorem closeBracket_counter {env : CallEnv} {mem : Mem} {s s' : RPNState}
    (h : closeBracket env mem s = .ok s') : s'.ifElseCounter = s.ifElseCounter := by
  unfold closeBracket at h
  split at h
  · cases h; rfl
  · split at h
    · cases h; rfl
    · split at h
      · cases h
      · simp only at h
        split at h
        · cases h
        · split at h
          · cases h; rfl
          · split at h
            · exact (ApplyFunc_frame h).1
            · cases h; rfl

theorem onBC_counter {env : CallEnv} {mem : Mem} {s s' : RPNState}
    (h : onBC env mem s = .ok s') : s'.ifElseCounter = s.ifElseCounter := by
  unfold onBC at h
  simp only at h
  split at h
  · rename_i s1 h1
    have f1 := (ApplyRemainingOprt_frame h1).1
    rw [closeBracket_counter h, f1]
    split <;> rfl
  · cases h

theorem onBinOprt_counter {env : CallEnv} {mem : Mem} {s s' : RPNState} {opt : token_type}
    (h : onBinOprt env mem s opt = .ok s') : s'.ifElseCounter = s.ifElseCounter := by
  unfold onBinOprt at h
  split at h
  · rename_i s1 h1
    cases h
    exact (binOprtLoop_frame _ h1).1
  · cases h

theorem dispatchToken_counter {env : CallEnv} {mem : Mem} {s s' : RPNState} {opt : token_type}
    (h : dispatchToken env mem s opt = .ok s') :
    s'.ifElseCounter = s.ifElseCounter + counterDelta opt := by
  unfold dispatchToken at h
  unfold counterDelta
  split at h
  all_goals first
    | (cases h; done)
    | (rename_i hc
       simp only [hc, reduceCtorEq, if_false, if_true]
       first
       | (rw [onElse_counter h]; ring)
       | (rw [onBinOprt_counter h]; rfl)
       | (rw [add_zero]; first
           | exact onString_counter h
           | exact onVar_counter h
           | exact onVal_counter h
           | exact onArgSep_counter h
           | exact (ApplyRemainingOprt_frame h).1
           | exact onBC_counter h
           | exact onBinOprt_counter h
           | exact (ApplyFunc_frame h).1
           | (cases h; rfl)))

theorem processToken_counter {env : CallEnv} {mem : Mem} {s s' : RPNState} {opt : token_type}
    (h : processToken env mem s opt = .ok s') :
    s'.ifElseCounter = s.ifElseCounter + counterDelta opt := by
  unfold processToken at h
  split at h
  · rename_i s1 h1
    cases h
    show s1.ifElseCounter = _
    exact dispatchToken_counter h1
  · cases h

theorem readTokens_counter {env : CallEnv} {mem : Mem} (toks : List token_type)
    {s s' : RPNState} (h : readTokens env mem toks s = .ok s') :
    s'.ifElseCounter = s.ifElseCounter + (toks.map counterDelta).sum := by
  induction toks generalizing s with
  | nil => cases h; simp
  | cons opt rest ih =>
    unfold readTokens at h
    split at h
    · rename_i s1 h1
      rw [ih h, processToken_counter h1, List.map_cons, List.sum_cons]; ring
    · cases h

theorem tokenLoop_append {env : CallEnv} {mem : Mem} (pre rest : List token_type) (s : RPNState)
    (hpre : ∀ t ∈ pre, t.GetCode ≠ .cmEND) :
    tokenLoop env mem (pre ++ rest) s =
      match readTokens env mem pre s with
      | .ok s' => tokenLoop env mem rest s'
      | .error e => .error e := by
  induction pre generalizing s with
  | nil => rfl
  | cons opt pre ih =>
    have hopt : opt.GetCode ≠ .cmEND := hpre opt (List.mem_cons_self _ _)
    have hpre' : ∀ t ∈ pre, t.GetCode ≠ .cmEND := fun t ht => hpre t (List.mem_cons_of_mem _ ht)
    simp only [List.cons_append, tokenLoop, readTokens]
    cases h1 : processToken env mem s opt with
    | error e => rfl
    | ok s1 =>
      simp only [hopt, if_false]
      exact ih s1 hpre'


theorem sum_counterDelta (toks : List token_type) :
    (toks.map counterDelta).sum = (countCode .cmIF toks : Int) - countCode .cmELSE toks := by
  induction toks with
  | nil => simp [countCode]
  | cons t rest ih =>
    simp only [List.map_cons, List.sum_cons, ih, countCode, List.filter_cons, counterDelta]
    by_cases h1 : t.GetCode = .cmIF
    · simp [h1]; ring
    · by_cases h2 : t.GetCode = .cmELSE
      · simp [h2]; ring
      · simp [h1, h2]

theorem finishLoop_counter {s s' : RPNState} (h : finishLoop s = .ok s') :
    s'.ifElseCounter = s.ifElseCounter ∧ s'.stArgCount = s.stArgCount := by
  unfold finishLoop at h
  split at h
  · cases h; exact ⟨rfl, rfl⟩
  · cases h

theorem tokenLoop_nil_counter {env : CallEnv} {mem : Mem} {s s' : RPNState}
    (h : tokenLoop env mem [] s = .ok s') : s'.ifElseCounter = s.ifElseCounter := by
  unfold tokenLoop at h
  split at h
  · rename_i s1 h1
    rw [(finishLoop_counter h).1, processToken_counter h1]
    simp [counterDelta, tokEND, token_type.GetCode]
  · cases h

/-- C1 (the failing input): for the expression `0.5 && 0.5` scalar evaluation returns `0` when the
bytecode is produced with the optimizer enabled and `1` when it is produced with the optimizer
disabled. -/
theorem C1_optimizer_changes_logical_and :
    Examples.evalValue true Examples.toksHalfAndHalf Examples.mem = .ok 0 ∧
    Examples.evalValue false Examples.toksHalfAndHalf Examples.mem = .ok 1 := by
  decide!

/-- C7 (counterexample): in `a = "tttt"` the left operand token of the assignment is a variable,
yet reducing the assignment emits no `ASSIGN` but fails with the operator type conflict error. -/
theorem C7_counterexample :
    (Examples.tokVar 10).GetCode = .cmVAR ∧
    ApplyBinOprt Examples.env Examples.mem
      { stOpt := [Examples.tokOp .cmASSIGN],
        stVal := [Examples.tokStr "tttt", Examples.tokVar 10] } =
      Error .ecOPRT_TYPE_CONFLICT ∧
    CreateRPN Examples.env Examples.mem {}
      { m_strFormula := "expr ", m_tokens := Examples.toksAssignString } =
      Error .ecOPRT_TYPE_CONFLICT := by
  decide!

/-- C7 (amended): when the compiler reduces the assignment operator (`ApplyBinOprt` with `=` on
top of the operator stack and two operand tokens on the value stack), operands of different types
or two string operands make it fail with the operator type conflict error; otherwise it emits
exactly one `ASSIGN` entry carrying the variable reference of the left operand token if that token
is a variable, and fails with the unexpected-operator error, emitting nothing, if it is not.
Executed, `ASSIGN` stores the value on top of the stack into that variable (at the evaluation
offset) and leaves the value as the result. -/
theorem C7_assign_reduction (env : CallEnv) (mem : Mem) (s : RPNState)
    (optTok valTok1 valTok2 : token_type) (stOpt' stVal' : List token_type)
    (hOpt : s.stOpt = optTok :: stOpt') (hA : optTok.GetCode = .cmASSIGN)
    (hVal : s.stVal = valTok1 :: valTok2 :: stVal') :
    ((valTok1.GetType ≠ valTok2.GetType ∨
        (valTok1.GetType = .tpSTR ∧ valTok2.GetType = .tpSTR)) →
      ApplyBinOprt env mem s = Error .ecOPRT_TYPE_CONFLICT) ∧
    (valTok1.GetType = valTok2.GetType → valTok1.GetType ≠ .tpSTR →
      valTok2.m_pCallback = none → valTok2.m_iCode = .cmVAR →
      ApplyBinOprt env mem s = .ok
        { s with
          stOpt := stOpt'
          stVal := token_type.SetVal 1 :: stVal'
          m_vRPN := { s.m_vRPN with
            m_iStackPos := s.m_vRPN.m_iStackPos - 1
            m_vRPN := s.m_vRPN.m_vRPN ++ [{ Cmd := .cmASSIGN, ptr := valTok2.m_pTok }] } }) ∧
    (valTok1.GetType = valTok2.GetType → valTok1.GetType ≠ .tpSTR →
      valTok2.GetCode ≠ .cmVAR →
      ApplyBinOprt env mem s = Error .ecUNEXPECTED_OPERATOR) ∧
    (∀ (strBuf : List String) (nOffset nThreadID p : Nat) (st : VMState),
      exec env strBuf nOffset nThreadID { Cmd := .cmASSIGN, ptr := p } st = .ok
        ({ sidx := st.sidx - 1
           stack := Function.update st.stack (st.sidx - 1) (st.stack st.sidx)
           mem := Function.update st.mem (p + nOffset) (st.stack st.sidx) }, 0)) := by
  have hne : optTok.GetCode ≠ .cmOPRT_BIN := by rw [hA]; decide
  refine ⟨?_, ?_, ?_, ?_⟩
  · intro hc
    simp only [ApplyBinOprt, hOpt, hne, if_false, applyBinCore, hVal]
    rw [if_pos (by simpa using hc)]
    rfl
  · intro hT hS hcb hcode
    have hgc : valTok2.GetCode = .cmVAR := by simp [token_type.GetCode, hcb, hcode]
    have hnc : ¬ (valTok1.GetType ≠ valTok2.GetType ∨
        (valTok1.GetType = .tpSTR ∧ valTok2.GetType = .tpSTR)) := by
      intro h; rcases h with h | h
      · exact h hT
      · exact hS h.1
    simp only [ApplyBinOprt, hOpt, hne, if_false, applyBinCore, hVal]
    rw [if_neg hnc]
    simp [hA, hgc, token_type.GetVar, hcode, ParserByteCode.AddAssignOp, bind, Except.bind]
  · intro hT hS hcode
    have hnc : ¬ (valTok1.GetType ≠ valTok2.GetType ∨
        (valTok1.GetType = .tpSTR ∧ valTok2.GetType = .tpSTR)) := by
      intro h; rcases h with h | h
      · exact h hT
      · exact hS h.1
    simp only [ApplyBinOprt, hOpt, hne, if_false, applyBinCore, hVal]
    rw [if_neg hnc]
    simp [hA, hcode, Error]
  · intro strBuf nOffset nThreadID p st
    rfl

/-- C7 (witness): the reduction of `a = 3` emits `ASSIGN a`. -/
theorem C7_assign_reduction_witness :
    ApplyBinOprt Examples.env Examples.mem
      { stOpt := [Examples.tokOp .cmASSIGN],
        stVal := [Examples.tokVal 3, Examples.tokVar 10] } = .ok
      { stOpt := []
        stVal := [token_type.SetVal 1]
        m_vRPN := { m_iStackPos := -1, m_vRPN := [{ Cmd := .cmASSIGN, ptr := 10 }] } } :=
  (C7_assign_reduction Examples.env Examples.mem
    { stOpt := [Examples.tokOp .cmASSIGN], stVal := [Examples.tokVal 3, Examples.tokVar 10] }
    (Examples.tokOp .cmASSIGN) (Examples.tokVal 3) (Examples.tokVar 10) [] [] rfl rfl rfl).2.1
    rfl (by decide) rfl rfl

/-- C9 (counterexample): in `a ? b + "s"` no token before the end of the expression raises an
error and one `?` has no `:`, yet compilation fails with the operator type conflict error, raised
when the pending `+` is reduced at the end of the expression. -/
theorem C9_counterexample :
    (readTokens Examples.env Examples.mem Examples.toksIfString (initState {})).isOk = true ∧
    countCode .cmELSE Examples.toksIfString < countCode .cmIF Examples.toksIfString ∧
    CreateRPN Examples.env Examples.mem {}
      { m_strFormula := "expr ", m_tokens := Examples.toksIfString } =
      Error .ecOPRT_TYPE_CONFLICT := by
  decide!

/-- C9 (amended): if the token loop of `CreateRPN` comes to its end without an error (no token
raised one, and neither did the reduction of the pending operators at the end of the expression)
and more `?` tokens than `:` tokens were read, compilation fails with the missing-else-clause
error. -/
theorem C9_missing_else (env : CallEnv) (mem : Mem) (bc0 : ParserByteCode)
    (rd : token_reader_type) (hexpr : rd.m_strFormula.length ≠ 0)
    (hEND : ∀ t ∈ rd.m_tokens, t.GetCode ≠ .cmEND)
    (hloop : (tokenLoop env mem rd.m_tokens (initState bc0)).isOk = true)
    (hmore : countCode .cmELSE rd.m_tokens < countCode .cmIF rd.m_tokens) :
    CreateRPN env mem bc0 rd = Error .ecMISSING_ELSE_CLAUSE := by
  unfold CreateRPN
  rw [if_neg hexpr]
  cases hl : tokenLoop env mem rd.m_tokens (initState bc0) with
  | error e => rw [hl] at hloop; cases hloop
  | ok s =>
    simp only
    have h0 := @tokenLoop_append env mem rd.m_tokens [] (initState bc0) hEND
    rw [List.append_nil, hl] at h0
    cases hr : readTokens env mem rd.m_tokens (initState bc0) with
    | error e => rw [hr] at h0; cases h0
    | ok s1 =>
      rw [hr] at h0
      have hc1 := readTokens_counter _ hr
      have hc2 := tokenLoop_nil_counter h0.symm
      rw [sum_counterDelta] at hc1
      have hpos : s.ifElseCounter > 0 := by
        rw [hc2, hc1]
        simp only [initState]
        have : (countCode .cmELSE rd.m_tokens : Int) < countCode .cmIF rd.m_tokens := by
          exact_mod_cast hmore
        omega
      unfold finalChecks
      rw [if_pos hpos]

/-- C9 (witness): `a ? b` fails with the missing-else-clause error. -/
theorem C9_missing_else_witness :
    CreateRPN Examples.env Examples.mem {}
      { m_strFormula := "expr ", m_tokens := Examples.toksIfOnly } =
      Error .ecMISSING_ELSE_CLAUSE :=
  C9_missing_else Examples.env Examples.mem {}
    { m_strFormula := "expr ", m_tokens := Examples.toksIfOnly } (by decide) (by decide)
    (by decide!) (by decide)

/-- C10 (counterexample): in `1, 2 : 3` the `:` has no `?` before it, the tokens before it raise
no error, and compilation fails with the unexpected-argument-separator error, not with the
misplaced-colon error. -/
theorem C10_counterexample :
    (readTokens Examples.env Examples.mem (Examples.toksSepColon.take 3) (initState {})).isOk
      = true ∧
    countCode .cmIF (Examples.toksSepColon.take 3) = 0 ∧
    (Examples.toksSepColon.get ⟨3, by decide⟩).GetCode = .cmELSE ∧
    CreateRPN Examples.env Examples.mem {}
      { m_strFormula := "expr ", m_tokens := Examples.toksSepColon } =
      Error .ecUNEXPECTED_ARG_SEP := by
  decide!

/-- C10 (amended): a `:` token read when no `?` is outstanding (the tokens `pre` before it were
processed without error and hold no more `?` than `:`) makes compilation fail: with the
unexpected-argument-separator error if the argument counter of the innermost open argument list
exceeds one (an argument separator was read there), and with the misplaced-colon error
otherwise. -/
theorem C10_misplaced_colon (env : CallEnv) (mem : Mem) (bc0 : ParserByteCode)
    (rd : token_reader_type) (pre post : List token_type) (colon : token_type) (s : RPNState)
    (hexpr : rd.m_strFormula.length ≠ 0)
    (htoks : rd.m_tokens = pre ++ colon :: post)
    (hEND : ∀ t ∈ pre, t.GetCode ≠ .cmEND)
    (hcolon : colon.GetCode = .cmELSE)
    (hpre : readTokens env mem pre (initState bc0) = .ok s)
    (hnone : countCode .cmIF pre ≤ countCode .cmELSE pre) :
    CreateRPN env mem bc0 rd =
      Error (if 1 < s.stArgCount.headD 0 then .ecUNEXPECTED_ARG_SEP else .ecMISPLACED_COLON) := by
  unfold CreateRPN
  rw [if_neg hexpr, htoks, tokenLoop_append pre _ _ hEND, hpre]
  have hc1 := readTokens_counter _ hpre
  rw [sum_counterDelta] at hc1
  have hle : s.ifElseCounter ≤ 0 := by
    rw [hc1]; simp only [initState]
    have : (countCode .cmIF pre : Int) ≤ countCode .cmELSE pre := by exact_mod_cast hnone
    omega
  have hp : processToken env mem s colon =
      Error (if 1 < s.stArgCount.headD 0 then .ecUNEXPECTED_ARG_SEP else .ecMISPLACED_COLON) := by
    unfold processToken dispatchToken
    simp only [hcolon, onElse]
    cases hs : s.stArgCount with
    | nil => simp [Error]
    | cons n rest =>
      simp only [List.headD_cons]
      by_cases hn : n > 1
      · simp [hn, Error]
      · have : s.ifElseCounter - 1 < 0 := by omega
        simp [hn, this, Error]
  simp only [tokenLoop, hp, Error]

/-- C10 (witness): `1 : 3` fails with the misplaced-colon error. -/
theorem C10_misplaced_colon_witness :
    CreateRPN Examples.env Examples.mem {}
      { m_strFormula := "expr ", m_tokens := Examples.toksColon } =
      Error .ecMISPLACED_COLON :=
  C10_misplaced_colon Examples.env Examples.mem {}
    { m_strFormula := "expr ", m_tokens := Examples.toksColon }
    [Examples.tokVal 1] [Examples.tokVal 3] (Examples.tokOp .cmELSE)
    { stVal := [Examples.tokVal 1], stArgCount := [1], opta := Examples.tokVal 1,
      m_vRPN := { m_iStackPos := 1, m_iMaxStackSize := 1,
                  m_vRPN := [{ Cmd := .cmVAL, data2 := 1 }] } }
    (by decide) rfl (by decide) rfl (by decide!) (by decide)

theorem ApplyFunc_shrink {env : CallEnv} {mem : Mem} {s s' : RPNState} {n : Int}
    (h : ApplyFunc env mem s n = .ok s') : s' = s ∨ s'.stOpt.length < s.stOpt.length := by
  unfold ApplyFunc at h
  split at h
  · cases h; exact Or.inl rfl
  · rename_i funTok stOpt' hs
    split at h
    · cases h; exact Or.inl rfl
    · split at h
      · cases h; right; simp [hs]
      · cases h

theorem ApplyIfElseLoop_shrink {mem : Mem} :
    ∀ (n : Nat) (stOpt stVal : List token_type) (bc : ParserByteCode)
      (r : List token_type × List token_type × ParserByteCode),
      stOpt.length ≤ n → ApplyIfElseLoop mem stOpt stVal bc = .ok r →
      r = (stOpt, stVal, bc) ∨ r.1.length < stOpt.length := by
  intro n
  induction n with
  | zero =>
    intro stOpt stVal bc r hn h
    have : stOpt = [] := List.length_eq_zero.mp (Nat.le_zero.mp hn)
    subst this
    unfold ApplyIfElseLoop at h
    cases h; exact Or.inl rfl
  | succ n ih =>
    intro stOpt stVal bc r hn h
    unfold ApplyIfElseLoop at h
    split at h
    · cases h; exact Or.inl rfl
    · rename_i opElse stOpt' stVal0 bc0
      split at h
      · cases h; exact Or.inl rfl
      · split at h
        · cases h
        · split at h
          · cases h
          · split at h
            · cases h
            · split at h
              · cases h
              · split at h
                · cases h
                · simp only [bind, Except.bind] at h
                  split at h
                  · cases h
                  · split at h
                    · cases h
                    · split at h
                      · cases h
                      · rename_i opIf stOpt'' _
                        right
                        have hl : stOpt''.length ≤ n := by
                          simp only [List.length_cons] at hn; omega
                        rcases ih _ _ _ r hl h with h1 | h1
                        · subst h1; simp only [List.length_cons]; omega
                        · simp only [List.length_cons]; omega

theorem ApplyIfElse_shrink {mem : Mem} {s s' : RPNState}
    (h : ApplyIfElse mem s = .ok s') : s' = s ∨ s'.stOpt.length < s.stOpt.length := by
  unfold ApplyIfElse at h
  split at h
  · rename_i stOpt stVal bc h1
    cases h
    rcases ApplyIfElseLoop_shrink _ _ _ _ _ (le_refl _) h1 with h2 | h2
    · left; cases h2; rfl
    · right; exact h2
  · cases h

theorem ApplyBinOprt_shrink {env : CallEnv} {mem : Mem} {s s' : RPNState}
    (h : ApplyBinOprt env mem s = .ok s') : s' = s ∨ s'.stOpt.length < s.stOpt.length := by
  unfold ApplyBinOprt at h
  split at h
  · cases h
  · rename_i optTok stOpt' hs
    split at h
    · exact ApplyFunc_shrink h
    · split at h
      · cases h; right; simp [hs]
      · cases h

theorem remainingStep_shrink {env : CallEnv} {mem : Mem} {tok : token_type} {s s' : RPNState}
    (h : remainingStep env mem tok s = .ok s') : s' = s ∨ s'.stOpt.length < s.stOpt.length := by
  unfold remainingStep at h
  split at h
  · split at h
    · exact ApplyFunc_shrink h
    · exact ApplyBinOprt_shrink h
  · split at h
    · exact ApplyIfElse_shrink h
    · cases h

/-- The body of the loop of `ApplyRemainingOprt` as a function of the state. -/
theorem ApplyRemainingOprtLoop_succ (env : CallEnv) (mem : Mem) (fuel : Nat) (s : RPNState) :
    ApplyRemainingOprtLoop env mem (fuel + 1) s =
      match s.stOpt with
      | [] => .ok s
      | tok :: _ =>
        if tok.GetCode = .cmBO ∨ tok.GetCode = .cmIF then .ok s
        else
          match remainingStep env mem tok s with
          | .ok s' => ApplyRemainingOprtLoop env mem fuel s'
          | .error e => .error e := by
  rw [ApplyRemainingOprtLoop]

theorem ApplyRemainingOprtLoop_hang {env : CallEnv} {mem : Mem} {tok : token_type}
    {rest : List token_type} {s : RPNState} (hs : s.stOpt = tok :: rest)
    (hc : ¬(tok.GetCode = .cmBO ∨ tok.GetCode = .cmIF))
    (h : remainingStep env mem tok s = .ok s) (fuel : Nat) :
    ApplyRemainingOprtLoop env mem fuel s = .error .hang := by
  induction fuel with
  | zero => rfl
  | succ fuel ih =>
    rw [ApplyRemainingOprtLoop_succ]
    simp only [hs, hc, if_false, h]
    exact ih

theorem ApplyRemainingOprtLoop_fuel {env : CallEnv} {mem : Mem} :
    ∀ (k : Nat) (s : RPNState) (n : Nat), s.stOpt.length ≤ k → k ≤ n →
      ApplyRemainingOprtLoop env mem (n + 1) s = ApplyRemainingOprtLoop env mem (k + 1) s := by
  intro k
  induction k with
  | zero =>
    intro s n hk _
    have : s.stOpt = [] := List.length_eq_zero.mp (Nat.le_zero.mp hk)
    rw [ApplyRemainingOprtLoop_succ, ApplyRemainingOprtLoop_succ]
    simp only [this]
  | succ k ih =>
    intro s n hk hn
    rw [ApplyRemainingOprtLoop_succ, ApplyRemainingOprtLoop_succ]
    cases hs : s.stOpt with
    | nil => rfl
    | cons tok rest =>
      simp only
      by_cases hc : tok.GetCode = .cmBO ∨ tok.GetCode = .cmIF
      · simp only [hc, if_true]
      · simp only [hc, if_false]
        cases h1 : remainingStep env mem tok s with
        | error e => rfl
        | ok s' =>
          simp only
          rcases remainingStep_shrink h1 with h2 | h2
          · subst h2
            rw [ApplyRemainingOprtLoop_hang hs hc h1, ApplyRemainingOprtLoop_hang hs hc h1]
          · obtain ⟨n', rfl⟩ : ∃ n', n = n' + 1 := ⟨n - 1, by omega⟩
            rw [hs] at h2
            simp only [List.length_cons] at h2
            rw [hs] at hk
            simp only [List.length_cons] at hk
            exact ih s' n' (by omega) (by omega)

/-- The loop of `ApplyRemainingOprt` goes on after one reduction. -/
theorem ApplyRemainingOprt_step {env : CallEnv} {mem : Mem} {tok : token_type}
    {rest : List token_type} {s : RPNState} (hs : s.stOpt = tok :: rest)
    (hc : ¬(tok.GetCode = .cmBO ∨ tok.GetCode = .cmIF)) :
    ApplyRemainingOprt env mem s =
      match remainingStep env mem tok s with
      | .ok s' => ApplyRemainingOprt env mem s'
      | .error e => .error e := by
  unfold ApplyRemainingOprt
  rw [ApplyRemainingOprtLoop_succ]
  simp only [hs, hc, if_false]
  cases h1 : remainingStep env mem tok s with
  | error e => rfl
  | ok s' =>
    simp only
    rcases remainingStep_shrink h1 with h2 | h2
    · subst h2
      rw [ApplyRemainingOprtLoop_hang hs hc h1, ApplyRemainingOprtLoop_hang hs hc h1]
    · rw [hs] at h2
      simp only [List.length_cons] at h2
      simp only [List.length_cons]
      exact ApplyRemainingOprtLoop_fuel s'.stOpt.length s' rest.length (le_refl _) (by omega)

theorem ApplyRemainingOprt_stop {env : CallEnv} {mem : Mem} {s : RPNState}
    (h : s.stOpt = [] ∨ ∃ tok rest, s.stOpt = tok :: rest ∧
      (tok.GetCode = .cmBO ∨ tok.GetCode = .cmIF)) :
    ApplyRemainingOprt env mem s = .ok s := by
  unfold ApplyRemainingOprt
  rw [ApplyRemainingOprtLoop_succ]
  rcases h with h | ⟨tok, rest, h, hc⟩
  · simp only [h]
  · simp only [h, hc, if_true]

theorem binOprtLoop_succ (env : CallEnv) (mem : Mem) (opt : token_type) (fuel : Nat)
    (s : RPNState) :
    binOprtLoop env mem opt (fuel + 1) s =
      match s.stOpt with
      | [] => .ok s
      | top :: _ =>
        if top.GetCode = .cmBO ∨ top.GetCode = .cmELSE ∨ top.GetCode = .cmIF then .ok s
        else
          match oprtStops top opt with
          | .error e => .error e
          | .ok true => .ok s
          | .ok false =>
            match (if top.GetCode = .cmOPRT_INFIX then ApplyFunc env mem s 1
                   else ApplyBinOprt env mem s) with
            | .ok s' => binOprtLoop env mem opt fuel s'
            | .error e => .error e := by
  rw [binOprtLoop]

theorem binStep_shrink {env : CallEnv} {mem : Mem} {top : token_type} {s s' : RPNState}
    (h : (if top.GetCode = .cmOPRT_INFIX then ApplyFunc env mem s 1
          else ApplyBinOprt env mem s) = .ok s') :
    s' = s ∨ s'.stOpt.length < s.stOpt.length := by
  split at h
  · exact ApplyFunc_shrink h
  · exact ApplyBinOprt_shrink h

theorem binOprtLoop_hang {env : CallEnv} {mem : Mem} {opt top : token_type}
    {rest : List token_type} {s : RPNState} (hs : s.stOpt = top :: rest)
    (hc : ¬(top.GetCode = .cmBO ∨ top.GetCode = .cmELSE ∨ top.GetCode = .cmIF))
    (ho : oprtStops top opt = .ok false)
    (h : (if top.GetCode = .cmOPRT_INFIX then ApplyFunc env mem s 1
          else ApplyBinOprt env mem s) = .ok s) (fuel : Nat) :
    binOprtLoop env mem opt fuel s = .error .hang := by
  induction fuel with
  | zero => rfl
  | succ fuel ih =>
    rw [binOprtLoop_succ]
    simp only [hs, hc, if_false, ho, h]
    exact ih

theorem binOprtLoop_fuel {env : CallEnv} {mem : Mem} {opt : token_type} :
    ∀ (k : Nat) (s : RPNState) (n : Nat), s.stOpt.length ≤ k → k ≤ n →
      binOprtLoop env mem opt (n + 1) s = binOprtLoop env mem opt (k + 1) s := by
  intro k
  induction k with
  | zero =>
    intro s n hk _
    have : s.stOpt = [] := List.length_eq_zero.mp (Nat.le_zero.mp hk)
    rw [binOprtLoop_succ, binOprtLoop_succ]
    simp only [this]
  | succ k ih =>
    intro s n hk hn
    rw [binOprtLoop_succ, binOprtLoop_succ]
    cases hs : s.stOpt with
    | nil => rfl
    | cons top rest =>
      simp only
      by_cases hc : top.GetCode = .cmBO ∨ top.GetCode = .cmELSE ∨ top.GetCode = .cmIF
      · simp only [hc, if_true]
      · simp only [hc, if_false]
        cases ho : oprtStops top opt with
        | error e => rfl
        | ok b =>
          cases b with
          | true => rfl
          | false =>
            simp only
            cases h1 : (if top.GetCode = .cmOPRT_INFIX then ApplyFunc env mem s 1
                else ApplyBinOprt env mem s) with
            | error e => rfl
            | ok s' =>
              simp only
              rcases binStep_shrink h1 with h2 | h2
              · subst h2
                rw [binOprtLoop_hang hs hc ho h1, binOprtLoop_hang hs hc ho h1]
              · obtain ⟨n', rfl⟩ : ∃ n', n = n' + 1 := ⟨n - 1, by omega⟩
                rw [hs] at h2
                simp only [List.length_cons] at h2
                rw [hs] at hk
                simp only [List.length_cons] at hk
                exact ih s' n' (by omega) (by omega)

/-- The `while` loop of the binary operator case goes on after one reduction. -/
theorem binOprtLoop_step {env : CallEnv} {mem : Mem} {opt top : token_type}
    {rest : List token_type} {s : RPNState} (hs : s.stOpt = top :: rest)
    (hc : ¬(top.GetCode = .cmBO ∨ top.GetCode = .cmELSE ∨ top.GetCode = .cmIF))
    (ho : oprtStops top opt = .ok false) :
    binOprtLoop env mem opt (s.stOpt.length + 1) s =
      match (if top.GetCode = .cmOPRT_INFIX then ApplyFunc env mem s 1
             else ApplyBinOprt env mem s) with
      | .ok s' => binOprtLoop env mem opt (s'.stOpt.length + 1) s'
      | .error e => .error e := by
  rw [binOprtLoop_succ]
  simp only [hs, hc, if_false, ho]
  cases h1 : (if top.GetCode = .cmOPRT_INFIX then ApplyFunc env mem s 1
      else ApplyBinOprt env mem s) with
  | error e => rfl
  | ok s' =>
    simp only
    rcases binStep_shrink h1 with h2 | h2
    · subst h2
      rw [binOprtLoop_hang hs hc ho h1, binOprtLoop_hang hs hc ho h1]
    · rw [hs] at h2
      simp only [List.length_cons] at h2
      simp only [List.length_cons]
      exact binOprtLoop_fuel s'.stOpt.length s' rest.length (le_refl _) (by omega)

theorem binOprtLoop_stop {env : CallEnv} {mem : Mem} {opt : token_type} {s : RPNState}
    (h : s.stOpt = [] ∨ ∃ top rest, s.stOpt = top :: rest ∧
      ((top.GetCode = .cmBO ∨ top.GetCode = .cmELSE ∨ top.GetCode = .cmIF) ∨
        oprtStops top opt = .ok true)) :
    binOprtLoop env mem opt (s.stOpt.length + 1) s = .ok s := by
  rw [binOprtLoop_succ]
  rcases h with h | ⟨top, rest, h, hc | ho⟩
  · simp only [h]
  · simp only [h, hc, if_true]
  · simp only [h, ho]
    split <;> rfl

theorem Expr.items_of_valid_expr {ctx : Option token_type} {e : Expr}
    (h : Expr.Valid .expr ctx e = true) : e.items = 1 := by
  cases e <;> first | rfl | simp [Expr.Valid] at h

theorem Expr.numTok_SetVal (v : value_type) : Expr.NumTok (token_type.SetVal v) :=
  ⟨rfl, Or.inl rfl, rfl⟩

theorem Expr.itemToks_single {m : Expr.Mode} {t : token_type} (hm : m ≠ .strArgs)
    (ht : Expr.NumTok t) : Expr.ItemToks m 1 [t] := by
  refine ⟨rfl, ?_⟩
  cases m
  · intro t' ht'; rw [List.mem_singleton.mp ht']; exact ht
  · intro t' ht'; rw [List.mem_singleton.mp ht']; exact ht
  · exact absurd rfl hm

theorem Expr.itemToks_expr {m : Expr.Mode} {ts : List token_type} (hm : m ≠ .strArgs)
    (h : Expr.ItemToks .expr 1 ts) : Expr.ItemToks m 1 ts := by
  refine ⟨h.1, ?_⟩
  cases m
  · exact h.2
  · exact h.2
  · exact absurd rfl hm

theorem Expr.emit_toks {env : CallEnv} {mem : Mem} (e : Expr) :
    ∀ (m : Expr.Mode) (ctx : Option token_type) (st st' : ParserByteCode × List String)
      (ts : List token_type), Expr.Valid m ctx e = true →
      Expr.emit env mem e st = .ok (st', ts) → Expr.ItemToks m e.items ts := by
  induction e with
  | val t =>
    intro m ctx st st' ts hv he
    simp only [Expr.Valid, Bool.and_eq_true, decide_eq_true_eq, token_type.isValTok,
      token_type.isPlain, Option.isNone_iff_eq_none] at hv
    simp only [Expr.emit, Except.ok.injEq, Prod.mk.injEq] at he
    rw [← he.2]
    exact Expr.itemToks_single hv.1 ⟨hv.2.1.1, Or.inl hv.2.1.2, hv.2.2⟩
  | var t =>
    intro m ctx st st' ts hv he
    simp only [Expr.Valid, Bool.and_eq_true, decide_eq_true_eq, token_type.isVarTok,
      token_type.isPlain, Option.isNone_iff_eq_none] at hv
    simp only [Expr.emit, Except.ok.injEq, Prod.mk.injEq] at he
    rw [← he.2]
    exact Expr.itemToks_single hv.1 ⟨hv.2.1.1, Or.inr hv.2.1.2, hv.2.2⟩
  | str t =>
    intro m ctx st st' ts hv he
    simp only [Expr.Valid, Bool.and_eq_true, decide_eq_true_eq, token_type.isStrTok,
      token_type.isPlain, Option.isNone_iff_eq_none] at hv
    simp only [Expr.emit, Except.ok.injEq, Prod.mk.injEq] at he
    rw [← he.2, hv.1.1]
    exact ⟨rfl, _, _, rfl, ⟨hv.1.2.1.1, hv.1.2.1.2, hv.1.2.2, Int.natCast_nonneg _⟩,
      fun _ h => absurd h (List.not_mem_nil _)⟩
  | bin op l r ihl ihr =>
    intro m ctx st st' ts hv he
    simp only [Expr.Valid, Bool.and_eq_true, decide_eq_true_eq] at hv
    have hm := hv.1.1.1.1.1.1
    simp only [Expr.emit] at he
    split at he
    · cases he
    · split at he
      · cases he
      · split at he
        · split at he
          · cases he
          · cases he; exact Expr.itemToks_single hm (Expr.numTok_SetVal 1)
        · split at he
          · cases he; exact Expr.itemToks_single hm (Expr.numTok_SetVal 1)
          · split at he
            · cases he
            · cases he; exact Expr.itemToks_single hm (Expr.numTok_SetVal 1)
  | ite q c cond thn els ihc iht ihe =>
    intro m ctx st st' ts hv he
    simp only [Expr.Valid, Bool.and_eq_true, decide_eq_true_eq] at hv
    have hm := hv.1.1.1.1.1.1.1
    simp only [Expr.emit] at he
    split at he
    · cases he
    · split at he
      · cases he
      · rename_i st2 tt h2
        split at he
        · cases he
        · rename_i st3 te h3
          split at he
          · cases he
          · cases he
            have i1 := iht _ _ _ _ _ hv.1.2 h2
            have i2 := ihe _ _ _ _ _ hv.2 h3
            rw [Expr.items_of_valid_expr hv.1.2] at i1
            rw [Expr.items_of_valid_expr hv.2] at i2
            show Expr.ItemToks m 1 _
            split
            · exact Expr.itemToks_expr hm i1
            · exact Expr.itemToks_expr hm i2
  | paren bo bc e ih =>
    intro m ctx st st' ts hv he
    simp only [Expr.Valid, Bool.and_eq_true, decide_eq_true_eq] at hv
    have hm := hv.1.1.1.1
    simp only [Expr.emit] at he
    have i1 := ih _ _ _ _ _ hv.2 he
    rw [Expr.items_of_valid_expr hv.2] at i1
    exact Expr.itemToks_expr hm i1
  | call0 f bo bc =>
    intro m ctx st st' ts hv he
    simp only [Expr.Valid, Bool.and_eq_true, decide_eq_true_eq] at hv
    have hm := hv.1.1.1
    simp only [Expr.emit] at he
    split at he
    · cases he; exact Expr.itemToks_single hm (Expr.numTok_SetVal 1)
    · split at he
      · cases he
      · cases he; exact Expr.itemToks_single hm (Expr.numTok_SetVal 1)
  | call f bo bc args ih =>
    intro m ctx st st' ts hv he
    simp only [Expr.Valid, Bool.and_eq_true, decide_eq_true_eq] at hv
    have hm := hv.1.1.1
    simp only [Expr.emit] at he
    split at he
    · cases he
    · split at he
      · cases he; exact Expr.itemToks_single hm (Expr.numTok_SetVal 1)
      · split at he
        · cases he; exact Expr.itemToks_single hm (Expr.numTok_SetVal 1)
        · split at he
          · cases he
          · cases he; exact Expr.itemToks_single hm (Expr.numTok_SetVal 1)
  | inf f e ih =>
    intro m ctx st st' ts hv he
    simp only [Expr.Valid, Bool.and_eq_true, decide_eq_true_eq] at hv
    have hm := hv.1.1.1
    simp only [Expr.emit] at he
    split at he
    · cases he
    · split at he
      · cases he
      · cases he; exact Expr.itemToks_single hm (Expr.numTok_SetVal 1)
  | post f e ih =>
    intro m ctx st st' ts hv he
    simp only [Expr.Valid, Bool.and_eq_true, decide_eq_true_eq] at hv
    have hm := hv.1.1.1.1
    simp only [Expr.emit] at he
    split at he
    · cases he
    · split at he
      · cases he
      · cases he; exact Expr.itemToks_single hm (Expr.numTok_SetVal 1)
  | seq l sep r ihl ihr =>
    intro m ctx st st' ts hv he
    simp only [Expr.Valid, Bool.and_eq_true, decide_eq_true_eq] at hv
    simp only [Expr.emit] at he
    split at he
    · cases he
    · rename_i st1 tl h1
      split at he
      · cases he
      · rename_i st2 tr h2
        cases he
        have i1 := ihl _ _ _ _ _ hv.1.2 h1
        have i2 := ihr _ _ _ _ _ hv.2 h2
        rw [Expr.items_of_valid_expr hv.2] at i2
        refine ⟨by simp [Expr.items, i1.1, i2.1], ?_⟩
        have hm := hv.1.1.1.1
        cases m
        · exact absurd rfl hm
        · intro t ht
          rcases List.mem_append.mp ht with h | h
          · exact i1.2 t h
          · exact i2.2 t h
        · obtain ⟨t0, rest, e1, hs, hr⟩ := i1.2
          refine ⟨t0, rest ++ tr, by rw [e1]; rfl, hs, ?_⟩
          intro t ht
          rcases List.mem_append.mp ht with h | h
          · exact hr t h
          · exact i2.2 t h

theorem Result.bind_assoc {α β γ : Type} (x : Result α) (f : α → Result β) (g : β → Result γ) :
    Except.bind (Except.bind x f) g = Except.bind x (fun a => Except.bind (f a) g) := by
  cases x <;> rfl

theorem Result.bind_congr {α β : Type} {x : Result α} {f g : α → Result β}
    (h : ∀ a, x = .ok a → f a = g a) : Except.bind x f = Except.bind x g := by
  cases x with
  | error e => rfl
  | ok a => exact h a rfl

theorem Result.bind_ok {α β : Type} (a : α) (f : α → Result β) :
    Except.bind (Except.ok a) f = f a := rfl

theorem Result.bind_error {α β : Type} (e : Abort) (f : α → Result β) :
    Except.bind (Except.error e : Result α) f = .error e := rfl

theorem Result.bind_ok_right {α : Type} (x : Result α) : Except.bind x .ok = x := by
  cases x <;> rfl

theorem bumpTop_zero (l : List Int) : bumpTop 0 l = l := by
  cases l <;> simp [bumpTop]

theorem bumpTop_bumpTop (a b : Int) (l : List Int) :
    bumpTop a (bumpTop b l) = bumpTop (b + a) l := by
  cases l <;> simp [bumpTop, add_assoc]

theorem bumpTop_ne_nil {d : Int} {l : List Int} (h : l ≠ []) : bumpTop d l ≠ [] := by
  cases l with
  | nil => exact absurd rfl h
  | cons a l => simp [bumpTop]

theorem readTokens_cons {env : CallEnv} {mem : Mem} (t : token_type) (ts : List token_type)
    (s : RPNState) :
    readTokens env mem (t :: ts) s = Except.bind (processToken env mem s t) (readTokens env mem ts) := by
  rw [readTokens]
  cases processToken env mem s t <;> rfl

theorem readTokens_append {env : CallEnv} {mem : Mem} (a b : List token_type) (s : RPNState) :
    readTokens env mem (a ++ b) s = Except.bind (readTokens env mem a s) (readTokens env mem b) := by
  induction a generalizing s with
  | nil => rfl
  | cons t a ih =>
    rw [List.cons_append, readTokens_cons, readTokens_cons, Result.bind_assoc]
    exact Result.bind_congr (fun s1 _ => ih s1)

theorem processToken_eq {env : CallEnv} {mem : Mem} (s : RPNState) (opt : token_type) :
    processToken env mem s opt =
      Except.bind (dispatchToken env mem s opt) (fun s1 => .ok { s1 with opta := opt }) := by
  rw [processToken]
  cases dispatchToken env mem s opt <;> rfl

theorem token_type.isPlain_code {t : token_type} {c : ECmdCode} (h : t.isPlain c = true) :
    t.m_pCallback = none ∧ t.GetCode = c := by
  simp only [token_type.isPlain, Bool.and_eq_true, decide_eq_true_eq,
    Option.isNone_iff_eq_none] at h
  refine ⟨h.1, ?_⟩
  simp only [token_type.GetCode, h.1, h.2]

theorem token_type.isCallback_code {t : token_type} {c : ECmdCode} {ty : ETypeCode}
    (h : t.isCallback c ty = true) :
    t.GetCode = c ∧ t.GetType = ty ∧ t.GetFuncAddr.pRawFun ≠ 0 ∧ t.GetArgCount = .ok t.argc := by
  unfold token_type.isCallback at h
  split at h
  · rename_i cb hcb
    simp only [Bool.and_eq_true, decide_eq_true_eq] at h
    simp only [token_type.GetCode, token_type.GetType, token_type.GetFuncAddr,
      token_type.GetArgCount, token_type.argc, hcb, h.1.1, h.1.2, h.2, if_false]
    exact ⟨trivial, trivial, h.2, trivial⟩
  · cases h

theorem token_type.isBinTok_cases {t : token_type} (h : t.isBinTok = true) :
    (t.m_pCallback = none ∧ isBuiltinBinCode t.GetCode = true) ∨
      (t.isCallback .cmOPRT_BIN .tpDBL = true ∧ t.argc = 2) := by
  simp only [token_type.isBinTok, Bool.or_eq_true, Bool.and_eq_true, decide_eq_true_eq,
    Option.isNone_iff_eq_none] at h
  rcases h with h | h
  · left
    refine ⟨h.1, ?_⟩
    simp only [token_type.GetCode, h.1, h.2]
  · right; exact h

theorem onBinOprt_eq {env : CallEnv} {mem : Mem} (s : RPNState) (opt : token_type)
    (h : opt.GetCode ≠ .cmIF) :
    onBinOprt env mem s opt =
      Except.bind (binOprtLoop env mem opt (s.stOpt.length + 1) s)
        (fun s1 => .ok { s1 with stOpt := opt :: s1.stOpt }) := by
  rw [onBinOprt]
  cases binOprtLoop env mem opt (s.stOpt.length + 1) s with
  | error e => rfl
  | ok s1 => simp only [h, if_false]; rfl

theorem dispatchToken_bin {env : CallEnv} {mem : Mem} (s : RPNState) {opt : token_type}
    (h : opt.isBinTok = true) :
    dispatchToken env mem s opt =
      Except.bind (binOprtLoop env mem opt (s.stOpt.length + 1) s)
        (fun s1 => .ok { s1 with stOpt := opt :: s1.stOpt }) := by
  have hne : opt.GetCode ≠ .cmIF := by
    rcases token_type.isBinTok_cases h with h1 | h1
    · intro hc; rw [hc] at h1; exact absurd h1.2 (by decide)
    · rw [(token_type.isCallback_code h1.1).1]; decide
  rw [← onBinOprt_eq s opt hne]
  rcases token_type.isBinTok_cases h with h1 | h1
  · have h2 := h1.2
    rw [dispatchToken]
    generalize opt.GetCode = c at h2 ⊢
    cases c <;> first | rfl | exact absurd h2 (by decide)
  · rw [dispatchToken, (token_type.isCallback_code h1.1).1]

theorem dispatchToken_if {env : CallEnv} {mem : Mem} (s : RPNState) {q : token_type}
    (h : q.isPlain .cmIF = true) :
    dispatchToken env mem s q =
      Except.bind (binOprtLoop env mem q ((onIf s).stOpt.length + 1) (onIf s))
        (fun s1 => .ok { s1 with m_vRPN := s1.m_vRPN.AddIfElse .cmIF, stOpt := q :: s1.stOpt }) := by
  rw [dispatchToken, (token_type.isPlain_code h).2]
  simp only [onBinOprt]
  cases binOprtLoop env mem q ((onIf s).stOpt.length + 1) (onIf s) with
  | error e => rfl
  | ok s1 => simp only [(token_type.isPlain_code h).2, if_true]; rfl

theorem ApplyFunc_setFrame {env : CallEnv} {mem : Mem} (s : RPNState) (n c : Int)
    (a : List Int) :
    ApplyFunc env mem (s.setFrame c a) n =
      Except.bind (ApplyFunc env mem s n) (fun s1 => .ok (s1.setFrame c a)) := by
  obtain ⟨stOpt, stVal, args, opta, cnt, bc, sb⟩ := s
  unfold ApplyFunc
  simp only [RPNState.setFrame]
  cases stOpt with
  | nil => rfl
  | cons funTok rest =>
    simp only
    split
    · rfl
    · cases applyFuncCore env mem funTok stVal bc n with
      | error e => rfl
      | ok r => rfl

theorem ApplyBinOprt_setFrame {env : CallEnv} {mem : Mem} (s : RPNState) (c : Int)
    (a : List Int) :
    ApplyBinOprt env mem (s.setFrame c a) =
      Except.bind (ApplyBinOprt env mem s) (fun s1 => .ok (s1.setFrame c a)) := by
  have h := @ApplyFunc_setFrame env mem s 2 c a
  obtain ⟨stOpt, stVal, args, opta, cnt, bc, sb⟩ := s
  unfold ApplyBinOprt
  simp only [RPNState.setFrame] at h ⊢
  cases stOpt with
  | nil => rfl
  | cons optTok rest =>
    simp only
    split
    · exact h
    · cases applyBinCore env optTok stVal bc with
      | error e => rfl
      | ok r => rfl

theorem ApplyIfElse_setFrame {mem : Mem} (s : RPNState) (c : Int) (a : List Int) :
    ApplyIfElse mem (s.setFrame c a) =
      Except.bind (ApplyIfElse mem s) (fun s1 => .ok (s1.setFrame c a)) := by
  obtain ⟨stOpt, stVal, args, opta, cnt, bc, sb⟩ := s
  unfold ApplyIfElse
  simp only [RPNState.setFrame]
  cases ApplyIfElseLoop mem stOpt stVal bc with
  | error e => rfl
  | ok r => rfl

theorem remainingStep_setFrame {env : CallEnv} {mem : Mem} (tok : token_type) (s : RPNState)
    (c : Int) (a : List Int) :
    remainingStep env mem tok (s.setFrame c a) =
      Except.bind (remainingStep env mem tok s) (fun s1 => .ok (s1.setFrame c a)) := by
  unfold remainingStep
  split
  · split
    · exact ApplyFunc_setFrame s 1 c a
    · exact ApplyBinOprt_setFrame s c a
  · split
    · exact ApplyIfElse_setFrame s c a
    · rfl

theorem ApplyRemainingOprtLoop_setFrame {env : CallEnv} {mem : Mem} (fuel : Nat) (s : RPNState)
    (c : Int) (a : List Int) :
    ApplyRemainingOprtLoop env mem fuel (s.setFrame c a) =
      Except.bind (ApplyRemainingOprtLoop env mem fuel s) (fun s1 => .ok (s1.setFrame c a)) := by
  induction fuel generalizing s with
  | zero => rfl
  | succ fuel ih =>
    rw [ApplyRemainingOprtLoop_succ, ApplyRemainingOprtLoop_succ]
    have hs : (s.setFrame c a).stOpt = s.stOpt := rfl
    rw [hs]
    cases hso : s.stOpt with
    | nil => rfl
    | cons tok rest =>
      simp only
      split
      · rfl
      · rw [remainingStep_setFrame]
        cases remainingStep env mem tok s with
        | error e => rfl
        | ok s1 => exact ih s1

theorem ApplyRemainingOprt_setFrame {env : CallEnv} {mem : Mem} (s : RPNState) (c : Int)
    (a : List Int) :
    ApplyRemainingOprt env mem (s.setFrame c a) =
      Except.bind (ApplyRemainingOprt env mem s) (fun s1 => .ok (s1.setFrame c a)) :=
  ApplyRemainingOprtLoop_setFrame _ s c a

theorem binOprtLoop_setFrame {env : CallEnv} {mem : Mem} (opt : token_type) (fuel : Nat)
    (s : RPNState) (c : Int) (a : List Int) :
    binOprtLoop env mem opt fuel (s.setFrame c a) =
      Except.bind (binOprtLoop env mem opt fuel s) (fun s1 => .ok (s1.setFrame c a)) := by
  induction fuel generalizing s with
  | zero => rfl
  | succ fuel ih =>
    rw [binOprtLoop_succ, binOprtLoop_succ]
    have hs : (s.setFrame c a).stOpt = s.stOpt := rfl
    rw [hs]
    cases hso : s.stOpt with
    | nil => rfl
    | cons top rest =>
      simp only
      split
      · rfl
      · cases oprtStops top opt with
        | error e => rfl
        | ok b =>
          cases b with
          | true => rfl
          | false =>
            simp only
            rw [ApplyFunc_setFrame, ApplyBinOprt_setFrame]
            by_cases hi : top.GetCode = .cmOPRT_INFIX
            · simp only [hi, if_true]
              cases ApplyFunc env mem s 1 with
              | error e => rfl
              | ok s1 => exact ih s1
            · simp only [hi, if_false]
              cases ApplyBinOprt env mem s with
              | error e => rfl
              | ok s1 => exact ih s1

theorem Expr.NumTok.getType {t : token_type} (h : Expr.NumTok t) : t.GetType = .tpDBL := by
  simp only [token_type.GetType, h.1, h.2.2]

theorem Expr.NumTok.getVal {t : token_type} (h : Expr.NumTok t) (mem : Mem) :
    ∃ v, t.GetVal mem = .ok v := by
  rcases h.2.1 with h1 | h1
  · exact ⟨t.m_fVal, by simp only [token_type.GetVal, h1]⟩
  · exact ⟨mem t.m_pTok, by simp only [token_type.GetVal, h1]⟩

theorem Expr.StrTok.getTypeStr {t : token_type} (h : Expr.StrTok t) : t.GetType = .tpSTR := by
  simp only [token_type.GetType, h.1, h.2.2.1]

theorem collectArgs_ok (funTok : token_type) :
    ∀ (xs vals acc : List token_type),
      (∀ x ∈ xs, ¬(x.GetType = .tpSTR ∧ funTok.GetType ≠ .tpSTR)) →
      collectArgs funTok xs.length (xs ++ vals) acc = .ok (vals, acc ++ xs) := by
  intro xs
  induction xs with
  | nil => intro vals acc _; simp [collectArgs]
  | cons x xs ih =>
    intro vals acc h
    have hx := h x (List.mem_cons_self _ _)
    simp only [List.length_cons, List.cons_append, collectArgs, hx, if_false]
    rw [ih vals (acc ++ [x]) (fun y hy => h y (List.mem_cons_of_mem _ hy))]
    simp

/-- The reduction of a built-in binary operator whose operands are numbers. -/
theorem ApplyBinOprt_builtin {env : CallEnv} {mem : Mem} {s : RPNState} {O a b : token_type}
    {R V : List token_type} (hs : s.stOpt = O :: R) (hv : s.stVal = b :: a :: V)
    (ha : Expr.NumTok a) (hb : Expr.NumTok b) (hop : O.GetCode ≠ .cmOPRT_BIN)
    (hasg : O.GetCode = .cmASSIGN → a.m_iCode = .cmVAR) :
    ApplyBinOprt env mem s =
      Except.bind
        (if O.GetCode = .cmASSIGN then .ok (s.m_vRPN.AddAssignOp a.m_pTok)
         else s.m_vRPN.AddOp env O.GetCode)
        (fun bc => .ok { s with stOpt := R, stVal := token_type.SetVal 1 :: V, m_vRPN := bc }) := by
  unfold ApplyBinOprt
  simp only [hs, hop, if_false, hv, applyBinCore, ha.getType, hb.getType, ne_eq, not_true,
    false_or, reduceCtorEq, and_self, false_and]
  by_cases hc : O.GetCode = .cmASSIGN
  · have h1 : a.GetCode = .cmVAR := by simp only [token_type.GetCode, ha.1, hasg hc]
    simp only [hc, if_true, h1, not_true, if_false, token_type.GetVar, hasg hc, bind, Except.bind,
      ne_eq, not_true_eq_false]
  · simp only [hc, if_false, bind]
    cases s.m_vRPN.AddOp env O.GetCode <;> rfl

/-- The reduction of a function, of a user-defined operator or of a variadic function whose
arguments `xs` (the last one first) are numbers. -/
theorem ApplyFunc_num {env : CallEnv} {mem : Mem} {s : RPNState} {f : token_type}
    {R X V : List token_type} {n A : Int}
    (hs : s.stOpt = f :: R) (hv : s.stVal = X ++ V) (hx : ∀ x ∈ X, Expr.NumTok x)
    (hf : f.GetFuncAddr.pRawFun ≠ 0) (hargc : f.GetArgCount = .ok A)
    (hcode : f.GetCode = .cmOPRT_BIN ∨ f.GetCode = .cmOPRT_POSTFIX ∨ f.GetCode = .cmOPRT_INFIX ∨
      f.GetCode = .cmFUNC)
    (hty : f.GetType = .tpDBL)
    (hn : (if f.GetCode = .cmOPRT_BIN then A else n) = X.length)
    (hk : A = X.length ∨ (A = -1 ∧ 1 ≤ X.length)) :
    ApplyFunc env mem s n =
      Except.bind
        (s.m_vRPN.AddFun env f.GetFuncAddr (if A = -1 then -(X.length : Int) else X.length)
          f.IsOptimizable)
        (fun bc => .ok { s with stOpt := R, stVal := token_type.SetVal 1 :: V, m_vRPN := bc }) := by
  have hstr : f.GetCode ≠ .cmFUNC_STR := by
    rcases hcode with h | h | h | h <;> rw [h] <;> decide
  have hcheck : funcArgCheck f n = .ok ((X.length : Int), (X.length : Int)) := by
    unfold funcArgCheck
    simp only [hargc, bind, Except.bind, hn, hty, reduceCtorEq, if_false, add_zero, sub_zero,
      hstr, false_and]
    have h1 : ¬(A ≥ 0 ∧ (X.length : Int) > A) := by omega
    have h2 : ¬(f.GetCode ≠ .cmOPRT_BIN ∧ (X.length : Int) < A) := by omega
    simp only [h1, h2, if_false]
  have hcol : collectArgs f X.length (X ++ V) [] = .ok (V, X) := by
    have := collectArgs_ok f X V [] (fun x hx1 h => by
      rw [(hx x hx1).getType] at h; exact absurd h.1 (by decide))
    simpa using this
  have hemit : funcEmit env mem f (X.length : Int) (X.length : Int) V X s.m_vRPN =
      Except.bind
        (s.m_vRPN.AddFun env f.GetFuncAddr (if A = -1 then -(X.length : Int) else X.length)
          f.IsOptimizable)
        (fun bc => .ok (V, bc)) := by
    have h3 : ¬(A = -1 ∧ (X.length : Int) = 0) := by omega
    unfold funcEmit
    rcases hcode with h | h | h | h <;>
      simp only [h, hargc, bind, Except.bind, h3, if_false]
  unfold ApplyFunc
  simp only [hs, hf, if_false, applyFuncCore, hcheck, bind, Except.bind, Int.toNat_ofNat, hv, hcol,
    hemit]
  cases s.m_vRPN.AddFun env f.GetFuncAddr (if A = -1 then -(X.length : Int) else X.length)
    f.IsOptimizable <;> rfl

/-- The reduction of a bulk function whose arguments `xs` (the last one first) are numbers. -/
theorem ApplyFunc_bulk {E : CallEnv} {M : Mem} {s : RPNState} {f : token_type}
    {R X V : List token_type}
    (hs : s.stOpt = f :: R) (hv : s.stVal = X ++ V) (hx : ∀ x ∈ X, Expr.NumTok x)
    (hf : f.GetFuncAddr.pRawFun ≠ 0) (hargc : f.GetArgCount = .ok (X.length : Int))
    (hcode : f.GetCode = .cmFUNC_BULK) (hty : f.GetType = .tpDBL) :
    ApplyFunc E M s X.length =
      .ok { s with stOpt := R, stVal := token_type.SetVal 1 :: V,
                   m_vRPN := s.m_vRPN.AddBulkFun f.GetFuncAddr X.length } := by
  have hcheck : funcArgCheck f X.length = .ok ((X.length : Int), (X.length : Int)) := by
    unfold funcArgCheck
    simp only [hargc, bind, Except.bind, hcode, hty, reduceCtorEq, if_false, add_zero, sub_zero,
      false_and, gt_iff_lt, lt_self_iff_false, and_false]
  have hcol : collectArgs f X.length (X ++ V) [] = .ok (V, X) := by
    have := collectArgs_ok f X V [] (fun x hx1 h => by
      rw [(hx x hx1).getType] at h; exact absurd h.1 (by decide))
    simpa using this
  unfold ApplyFunc
  simp only [hs, hf, if_false, applyFuncCore, hcheck, bind, Except.bind, Int.toNat_ofNat, hv, hcol,
    funcEmit, hcode]

theorem strFuncArgCheck_ok {mem : Mem} {xs : List token_type} {t0 : token_type}
    (hx : ∀ x ∈ xs, Expr.NumTok x) (h5 : xs.length ≤ 5) :
    strFuncArgCheck mem (xs ++ [t0]) (xs.length : Int) = .ok () := by
  have hfold : ∀ l : List Nat, (∀ i ∈ l, i < xs.length) →
      l.foldlM (fun (_ : Unit) i =>
          match (xs ++ [t0])[i]? with
          | none => (Except.error Abort.undefined : Result Unit)
          | some a => do let _ ← a.GetVal mem; .ok ()) () = .ok () := by
    intro l
    induction l with
    | nil => intro _; rfl
    | cons i l ih =>
      intro h
      have hi : i < xs.length := h i (List.mem_cons_self _ _)
      have hget : (xs ++ [t0])[i]? = some (xs.get ⟨i, hi⟩) := by
        rw [List.getElem?_append_left hi]; exact List.getElem?_eq_getElem hi
      obtain ⟨v, hv⟩ := (hx _ (List.get_mem xs i hi)).getVal mem
      rw [List.foldlM_cons]
      simp only [hget, hv, bind, Except.bind]
      exact ih (fun j hj => h j (List.mem_cons_of_mem _ hj))
  unfold strFuncArgCheck
  have h1 : (0 : Int) ≤ (xs.length : Int) ∧ (xs.length : Int) ≤ 5 := by omega
  have h2 : (xs ++ [t0])[xs.length]? = some t0 := by
    rw [List.getElem?_append_right (le_refl _)]; simp
  simp only [h1, and_self, if_true, Int.toNat_ofNat, h2]
  exact hfold _ (fun i hi => by simpa using hi)

/-- The reduction of a string function whose arguments are the string `t0` and the numbers `xs`
(the last one first). -/
theorem ApplyFunc_str {E : CallEnv} {M : Mem} {s : RPNState} {f Z : token_type}
    {R X V : List token_type}
    (hs : s.stOpt = f :: R) (hv : s.stVal = X ++ Z :: V) (hx : ∀ x ∈ X, Expr.NumTok x)
    (h0 : Expr.StrTok Z) (h5 : X.length ≤ 5)
    (hf : f.GetFuncAddr.pRawFun ≠ 0) (hargc : f.GetArgCount = .ok (X.length : Int))
    (hcode : f.GetCode = .cmFUNC_STR) (hty : f.GetType = .tpSTR) :
    ApplyFunc E M s ((X.length : Int) + 1) =
      .ok { s with stOpt := R, stVal := token_type.SetVal 1 :: V,
                   m_vRPN := s.m_vRPN.AddStrFun f.GetFuncAddr X.length Z.m_iIdx } := by
  have hcheck : funcArgCheck f ((X.length : Int) + 1) =
      .ok ((X.length : Int) + 1, (X.length : Int)) := by
    unfold funcArgCheck
    simp only [hargc, bind, Except.bind, hcode, hty, reduceCtorEq, if_false, if_true,
      add_sub_cancel_right, gt_iff_lt, lt_self_iff_false, and_false, ne_eq, not_false_eq_true,
      true_and, add_sub_cancel_left]
  have hcol : collectArgs f X.length (X ++ Z :: V) [] = .ok (Z :: V, X) := by
    have := collectArgs_ok f X (Z :: V) [] (fun x _ h => by
      rw [hty] at h; exact h.2 rfl)
    simpa using this
  have hstr : ApplyStrFunc M s.m_vRPN f (X ++ [Z]) =
      .ok (s.m_vRPN.AddStrFun f.GetFuncAddr X.length Z.m_iIdx) := by
    unfold ApplyStrFunc
    have hc0 : Z.GetCode = .cmSTRING := by simp only [token_type.GetCode, h0.1, h0.2.1]
    have hidx : Z.GetIdx = .ok Z.m_iIdx := by
      have : ¬(Z.m_iIdx < 0 ∨ Z.m_iCode ≠ .cmSTRING) := by
        intro h; rcases h with h | h
        · exact absurd h0.2.2.2 (not_le.mpr h)
        · exact h h0.2.1
      simp only [token_type.GetIdx, this, if_false]
    have hlast : (X ++ [Z]).getLast? = some Z := by simp
    simp only [hlast, hc0, ne_eq,
      not_true_eq_false, if_false, MUP_ASSERT, hf, not_false_eq_true, decide_True, if_true,
      bind, Except.bind, hargc, strFuncArgCheck_ok hx h5, pure, Except.pure, hidx]
  unfold ApplyFunc
  simp only [hs, hf, if_false, applyFuncCore, hcheck, bind, Except.bind, Int.toNat_ofNat, hv, hcol,
    funcEmit, hcode, h0.getTypeStr, hty, ne_eq, not_true_eq_false, and_false, hstr]

theorem ApplyIfElse_step {mem : Mem} {s : RPNState} {c q v2 v1 vc : token_type}
    {rest vals : List token_type} (hs : s.stOpt = c :: q :: rest) (hc : c.GetCode = .cmELSE)
    (hq : q.GetCode = .cmIF) (hv : s.stVal = v2 :: v1 :: vc :: vals)
    (h2 : Expr.NumTok v2) (h1 : Expr.NumTok v1) :
    ApplyIfElse mem s =
      Except.bind (vc.GetVal mem) (fun x =>
        ApplyIfElse mem
          { s with stOpt := rest, stVal := (if x ≠ 0 then v1 else v2) :: vals,
                   m_vRPN := s.m_vRPN.AddIfElse .cmENDIF }) := by
  unfold ApplyIfElse
  rw [hs, hv, ApplyIfElseLoop]
  simp only [hc, ne_eq, not_true_eq_false, if_false, h2.getType, h1.getType, hq, bind, Except.bind]
  cases vc.GetVal mem with
  | error e => rfl
  | ok x => rfl

theorem ApplyIfElse_of_not_else {mem : Mem} {s : RPNState}
    (h : ∀ top rest, s.stOpt = top :: rest → top.GetCode ≠ .cmELSE) :
    ApplyIfElse mem s = .ok s := by
  obtain ⟨stOpt, stVal, args, opta, cnt, bc, sb⟩ := s
  unfold ApplyIfElse
  cases stOpt with
  | nil => simp only [ApplyIfElseLoop]
  | cons top rest =>
    have := h top rest rfl
    rw [ApplyIfElseLoop.eq_def]
    simp only [this, ne_eq, not_false_eq_true, if_true]

theorem remainingStep_else {env : CallEnv} {mem : Mem} {tok : token_type} (s : RPNState)
    (h : tok.GetCode = .cmELSE) : remainingStep env mem tok s = ApplyIfElse mem s := by
  unfold remainingStep
  simp only [h, isOprtCode, if_true]
  rfl

theorem remainingStep_oprt {env : CallEnv} {mem : Mem} {tok : token_type} (s : RPNState)
    (h : isOprtCode tok.GetCode = true) :
    remainingStep env mem tok s =
      if tok.GetCode = .cmOPRT_INFIX then ApplyFunc env mem s 1 else ApplyBinOprt env mem s := by
  unfold remainingStep
  simp only [h, if_true]

theorem ApplyIfElse_bind_ARO {env : CallEnv} {mem : Mem} (s : RPNState) :
    Except.bind (ApplyIfElse mem s) (ApplyRemainingOprt env mem) = ApplyRemainingOprt env mem s := by
  by_cases h : ∀ top rest, s.stOpt = top :: rest → top.GetCode ≠ .cmELSE
  · rw [ApplyIfElse_of_not_else h]; rfl
  · push_neg at h
    obtain ⟨top, rest, hs, hc⟩ := h
    have hn : ¬(top.GetCode = .cmBO ∨ top.GetCode = .cmIF) := by rw [hc]; decide
    rw [ApplyRemainingOprt_step hs hn, remainingStep_else s hc]
    cases ApplyIfElse mem s <;> rfl

/-- The reduction of a conditional at the end of its else branch. -/
theorem ApplyRemainingOprt_else {env : CallEnv} {mem : Mem} {s : RPNState}
    {c q P Q C : token_type}
    {R V : List token_type} (hs : s.stOpt = c :: q :: R) (hc : c.GetCode = .cmELSE)
    (hq : q.GetCode = .cmIF) (hv : s.stVal = P :: Q :: C :: V)
    (h2 : Expr.NumTok P) (h1 : Expr.NumTok Q) :
    ApplyRemainingOprt env mem s =
      Except.bind (C.GetVal mem) (fun x =>
        ApplyRemainingOprt env mem
          { s with stOpt := R, stVal := (if x ≠ 0 then Q else P) :: V,
                   m_vRPN := s.m_vRPN.AddIfElse .cmENDIF }) := by
  rw [← ApplyIfElse_bind_ARO s, ApplyIfElse_step hs hc hq hv h2 h1, Result.bind_assoc]
  exact Result.bind_congr (fun x _ => ApplyIfElse_bind_ARO _)

theorem dispatchToken_val {env : CallEnv} {mem : Mem} (s : RPNState) {t : token_type}
    (h : t.isValTok = true) :
    dispatchToken env mem s t =
      .ok { s with stVal := t :: s.stVal, m_vRPN := s.m_vRPN.AddVal t.m_fVal } := by
  simp only [token_type.isValTok, Bool.and_eq_true, decide_eq_true_eq] at h
  have h1 := token_type.isPlain_code h.1
  have h2 : t.m_iCode = .cmVAL := by
    have := h1.2; simp only [token_type.GetCode, h1.1] at this; exact this
  rw [dispatchToken, h1.2]
  simp only [onVal, token_type.GetVal, h2]

theorem dispatchToken_var {env : CallEnv} {mem : Mem} (s : RPNState) {t : token_type}
    (h : t.isVarTok = true) :
    dispatchToken env mem s t =
      .ok { s with stVal := t :: s.stVal, m_vRPN := s.m_vRPN.AddVar t.m_pTok } := by
  simp only [token_type.isVarTok, Bool.and_eq_true, decide_eq_true_eq] at h
  have h1 := token_type.isPlain_code h.1
  have h2 : t.m_iCode = .cmVAR := by
    have := h1.2; simp only [token_type.GetCode, h1.1] at this; exact this
  rw [dispatchToken, h1.2]
  simp only [onVar, token_type.GetVar, h2, ne_eq, not_true_eq_false, if_false]

theorem dispatchToken_str {env : CallEnv} {mem : Mem} (s : RPNState) {t : token_type}
    (h : t.isStrTok = true) (hs : s.stOpt ≠ []) :
    dispatchToken env mem s t =
      .ok { s with stVal := { t with m_iIdx := s.m_vStringBuf.length } :: s.stVal,
                   m_vStringBuf := s.m_vStringBuf ++ [t.m_strTok] } := by
  simp only [token_type.isStrTok, Bool.and_eq_true, decide_eq_true_eq] at h
  have h1 := token_type.isPlain_code h.1
  have h2 : t.m_iCode = .cmSTRING := by
    have := h1.2; simp only [token_type.GetCode, h1.1] at this; exact this
  have h3 : s.stOpt.isEmpty = false := by
    cases hso : s.stOpt with
    | nil => exact absurd hso hs
    | cons a l => rfl
  have h4 : ¬((s.m_vStringBuf.length : Int) < 0) := by omega
  rw [dispatchToken, h1.2]
  simp only [onString, h3, Bool.false_eq_true, if_false, token_type.SetIdx, h2, ne_eq,
    not_true_eq_false, false_or, h4, token_type.GetAsString]

theorem dispatchToken_else {env : CallEnv} {mem : Mem} (s : RPNState) {c : token_type}
    {n : Int} {args : List Int}
    (h : c.isPlain .cmELSE = true) (ha : s.stArgCount = n :: args) (hn : n ≤ 1)
    (hc : 0 ≤ s.ifElseCounter - 1) :
    dispatchToken env mem s c =
      Except.bind (ApplyRemainingOprt env mem (s.setFrame (s.ifElseCounter - 1) args))
        (fun s1 => .ok { s1 with m_vRPN := s1.m_vRPN.AddIfElse .cmELSE, stOpt := c :: s1.stOpt }) := by
  have h1 := token_type.isPlain_code h
  rw [dispatchToken, h1.2]
  simp only [onElse, ha, not_lt.mpr hn, not_lt.mpr hc, if_false, gt_iff_lt, RPNState.setFrame]
  generalize ApplyRemainingOprt env mem _ = r
  cases r <;> rfl

theorem dispatchToken_sep {env : CallEnv} {mem : Mem} (s : RPNState) {sep : token_type}
    (h : sep.isPlain .cmARG_SEP = true) (ht : topIsIf s.stOpt = false) (ha : s.stArgCount ≠ []) :
    dispatchToken env mem s sep =
      ApplyRemainingOprt env mem (s.setFrame s.ifElseCounter (bumpTop 1 s.stArgCount)) := by
  have h1 := token_type.isPlain_code h
  have h3 : s.stArgCount.isEmpty = false := by
    cases hso : s.stArgCount with
    | nil => exact absurd hso ha
    | cons a l => rfl
  rw [dispatchToken, h1.2]
  simp only [onArgSep, ht, h3, Bool.false_eq_true, if_false]
  rfl

theorem dispatchToken_bo {env : CallEnv} {mem : Mem} (s : RPNState) {bo : token_type}
    (h : bo.isPlain .cmBO = true) :
    dispatchToken env mem s bo =
      .ok { s with stArgCount := 1 :: s.stArgCount, stOpt := bo :: s.stOpt } := by
  rw [dispatchToken, (token_type.isPlain_code h).2]

theorem dispatchToken_push {env : CallEnv} {mem : Mem} (s : RPNState) {f : token_type}
    (h : f.GetCode = .cmOPRT_INFIX ∨ f.GetCode = .cmFUNC ∨ f.GetCode = .cmFUNC_BULK ∨
      f.GetCode = .cmFUNC_STR) :
    dispatchToken env mem s f = .ok { s with stOpt := f :: s.stOpt } := by
  rcases h with h | h | h | h <;> rw [dispatchToken, h]

theorem dispatchToken_post {env : CallEnv} {mem : Mem} (s : RPNState) {f : token_type}
    (h : f.GetCode = .cmOPRT_POSTFIX) :
    dispatchToken env mem s f = ApplyFunc env mem { s with stOpt := f :: s.stOpt } 1 := by
  rw [dispatchToken, h]

theorem dispatchToken_bc {env : CallEnv} {mem : Mem} (s : RPNState) {bc : token_type}
    (h : bc.isPlain .cmBC = true) (ho : s.opta.GetCode ≠ .cmBO) :
    dispatchToken env mem s bc =
      Except.bind (ApplyRemainingOprt env mem s) (closeBracket env mem) := by
  rw [dispatchToken, (token_type.isPlain_code h).2]
  simp only [onBC, ho, if_false]
  cases ApplyRemainingOprt env mem s <;> rfl

theorem dispatchToken_bc_empty {env : CallEnv} {mem : Mem} (s : RPNState) {bc : token_type}
    (h : bc.isPlain .cmBC = true) (ho : s.opta.GetCode = .cmBO) :
    dispatchToken env mem s bc =
      Except.bind
        (ApplyRemainingOprt env mem (s.setFrame s.ifElseCounter (bumpTop (-1) s.stArgCount)))
        (closeBracket env mem) := by
  rw [dispatchToken, (token_type.isPlain_code h).2]
  simp only [onBC, ho, if_true, RPNState.setFrame]
  generalize ApplyRemainingOprt env mem _ = r
  cases r <;> rfl

theorem closeBracket_paren {env : CallEnv} {mem : Mem} {s : RPNState} {B : token_type}
    {R : List token_type} {n : Int} {G : List Int}
    (hs : s.stOpt = B :: R) (hbo : B.GetCode = .cmBO) (ha : s.stArgCount = n :: G)
    (hn : n ≤ 1) (hctx : Expr.parenCtx R.head? = true) :
    closeBracket env mem s = .ok { s with stArgCount := G, stOpt := R } := by
  unfold closeBracket
  simp only [hs, hbo, ne_eq, not_true_eq_false, if_false, ha]
  have h1 : ¬(n > 1 ∧ noFuncOnTop R = true) := fun h => absurd h.1 (not_lt.mpr hn)
  simp only [h1, if_false]
  cases R with
  | nil => rfl
  | cons f rest' =>
    simp only [List.head?_cons, Expr.parenCtx, Bool.or_eq_true, decide_eq_true_eq] at hctx
    have h2 : ¬(f.GetCode ≠ .cmOPRT_INFIX ∧ f.GetCode ≠ .cmOPRT_BIN ∧
        f.GetFuncAddr.pRawFun ≠ 0) := by
      intro h; rcases hctx with (h3 | h3) | h3
      · exact h.1 h3
      · exact h.2.1 h3
      · exact h.2.2 h3
    simp only [h2, if_false]

theorem closeBracket_call {env : CallEnv} {mem : Mem} {s : RPNState} {B f : token_type}
    {R : List token_type} {n : Int} {G : List Int}
    (hs : s.stOpt = B :: f :: R) (hbo : B.GetCode = .cmBO) (ha : s.stArgCount = n :: G)
    (hf : f.GetCode = .cmFUNC ∨ f.GetCode = .cmFUNC_BULK ∨ f.GetCode = .cmFUNC_STR)
    (hp : f.GetFuncAddr.pRawFun ≠ 0) :
    closeBracket env mem s =
      ApplyFunc env mem { s with stArgCount := G, stOpt := f :: R } n := by
  unfold closeBracket
  simp only [hs, hbo, ne_eq, not_true_eq_false, if_false, ha]
  have h0 : noFuncOnTop (f :: R) = false := by
    rcases hf with h | h | h <;> simp [noFuncOnTop, h]
  have h1 : f.GetCode ≠ .cmOPRT_INFIX ∧ f.GetCode ≠ .cmOPRT_BIN ∧ f.GetFuncAddr.pRawFun ≠ 0 := by
    rcases hf with h | h | h <;> rw [h] <;> exact ⟨by decide, by decide, hp⟩
  simp only [h0, Bool.false_eq_true, and_false, if_false, h1, ne_eq, not_false_eq_true, and_self,
    if_true]

theorem Expr.itemToks_one {ts : List token_type} (h : Expr.ItemToks .expr 1 ts) :
    ∃ a, ts = [a] ∧ Expr.NumTok a := by
  obtain ⟨h1, h2⟩ := h
  cases ts with
  | nil => cases h1
  | cons a rest =>
    cases rest with
    | nil => exact ⟨a, rfl, h2 a (List.mem_singleton.mpr rfl)⟩
    | cons b rest => simp at h1

theorem Expr.completeR_at {env : CallEnv} {mem : Mem} (e : Expr) {S : RPNState}
    {T : ParserByteCode × List String} (h1 : S.m_vRPN = T.1) (h2 : S.m_vStringBuf = T.2) :
    Expr.completeR env mem e S =
      Except.bind (Expr.emit env mem e T) (fun r => .ok (Expr.putS S e.lastTok r)) := by
  unfold Expr.completeR
  rw [h1, h2]

theorem isBuiltinBinCode_ne {c : ECmdCode} (h : isBuiltinBinCode c = true) :
    c ≠ .cmOPRT_BIN ∧ c ≠ .cmOPRT_INFIX ∧ c ≠ .cmBO ∧ c ≠ .cmELSE ∧ c ≠ .cmIF ∧
      isOprtCode c = true := by
  cases c <;> first | exact absurd h (by decide) | decide

theorem token_type.isBinTok_code {op : token_type} (h : op.isBinTok = true) :
    op.GetCode ≠ .cmOPRT_INFIX ∧ op.GetCode ≠ .cmBO ∧ op.GetCode ≠ .cmELSE ∧
      op.GetCode ≠ .cmIF ∧ isOprtCode op.GetCode = true := by
  rcases token_type.isBinTok_cases h with h1 | h1
  · have := isBuiltinBinCode_ne h1.2
    exact ⟨this.2.1, this.2.2.1, this.2.2.2.1, this.2.2.2.2.1, this.2.2.2.2.2⟩
  · rw [(token_type.isCallback_code h1.1).1]; decide

theorem Expr.R_bin {env : CallEnv} {mem : Mem} {op : token_type} {l r : Expr}
    {ctx ctx' : Option token_type} (S : RPNState) (hop : op.isBinTok = true)
    (hl : Expr.Valid .expr ctx l = true) (hr : Expr.Valid .expr ctx' r = true)
    (hasg : op.GetCode = .cmASSIGN → ∃ t, l = .var t ∧ t.isVarTok = true) :
    Except.bind (Expr.completeR env mem l S) (fun S1 =>
      Except.bind (Expr.completeR env mem r (Expr.pushOpt op S1)) (reduceTop env mem op)) =
    Expr.completeR env mem (.bin op l r) S := by
  rw [Expr.completeR, Expr.completeR]
  cases h1 : Expr.emit env mem l (S.m_vRPN, S.m_vStringBuf) with
  | error e => simp only [Result.bind_error, Expr.emit, h1]
  | ok r1 =>
    obtain ⟨st1, tl⟩ := r1
    have it := Expr.emit_toks l _ _ _ _ _ hl h1
    rw [Expr.items_of_valid_expr hl] at it
    obtain ⟨a, rfl, ha⟩ := Expr.itemToks_one it
    simp only [Result.bind_ok]
    rw [Expr.completeR_at r (T := st1) rfl rfl]
    cases h2 : Expr.emit env mem r st1 with
    | error e => simp only [Result.bind_error, Expr.emit, h1, h2]
    | ok r2 =>
      obtain ⟨st2, tr⟩ := r2
      have it2 := Expr.emit_toks r _ _ _ _ _ hr h2
      rw [Expr.items_of_valid_expr hr] at it2
      obtain ⟨b, rfl, hb⟩ := Expr.itemToks_one it2
      simp only [Result.bind_ok]
      have hcode := token_type.isBinTok_code hop
      unfold reduceTop
      simp only [hcode.1, if_false]
      rcases token_type.isBinTok_cases hop with hb1 | hc1
      · have hne := (isBuiltinBinCode_ne hb1.2).1
        have hasg' : op.GetCode = .cmASSIGN → a.m_iCode = .cmVAR := by
          intro hc
          obtain ⟨t, rfl, ht⟩ := hasg hc
          simp only [Expr.emit, Except.ok.injEq, Prod.mk.injEq, List.cons.injEq, and_true] at h1
          rw [← h1.2]
          simp only [token_type.isVarTok, Bool.and_eq_true, decide_eq_true_eq,
            token_type.isPlain, Option.isNone_iff_eq_none] at ht
          exact ht.1.2
        rw [ApplyBinOprt_builtin (O := op) (a := a) (b := b) (R := S.stOpt) (V := S.stVal)
          rfl rfl ha hb hne hasg']
        simp only [Expr.emit, h1, h2, hne, if_false, Expr.putS, Expr.pushOpt]
        by_cases hc : op.GetCode = .cmASSIGN
        · simp only [hc, if_true, Result.bind_ok]
          simp [bumpTop_zero, Expr.lastTok]
        · simp only [hc, if_false]
          cases hA : ParserByteCode.AddOp env st2.1 op.GetCode with
          | error e => rfl
          | ok bc =>
            simp only [Result.bind_ok]
            simp [bumpTop_zero, Expr.lastTok]
      · have hcb := token_type.isCallback_code hc1.1
        have e1 : ApplyBinOprt env mem
            (Expr.putS (Expr.pushOpt op (Expr.putS S l.lastTok (st1, [a]))) r.lastTok (st2, [b])) =
            ApplyFunc env mem
              (Expr.putS (Expr.pushOpt op (Expr.putS S l.lastTok (st1, [a]))) r.lastTok (st2, [b]))
              2 := by
          unfold ApplyBinOprt
          simp only [Expr.putS, Expr.pushOpt, hcb.1, if_true]
        rw [e1, ApplyFunc_num (f := op) (X := [b, a]) (R := S.stOpt) (V := S.stVal)
          (A := 2) rfl rfl (by
            intro x hx
            simp only [List.mem_cons, List.mem_singleton, List.not_mem_nil, or_false] at hx
            rcases hx with rfl | rfl
            · exact hb
            · exact ha) hcb.2.2.1 (by rw [hcb.2.2.2, hc1.2]) (Or.inl hcb.1) hcb.2.1
          (by simp [hcb.1]) (Or.inl rfl)]
        have e2 : (if (2 : Int) = -1 then -(([b, a].length : Nat) : Int)
            else (([b, a].length : Nat) : Int)) = 2 := by
          simp
        rw [e2]
        simp only [Expr.emit, h1, h2, hcb.1, if_true, Expr.putS, Expr.pushOpt]
        cases hA : ParserByteCode.AddFun env st2.1 op.GetFuncAddr 2 op.IsOptimizable with
        | error e => rfl
        | ok bc =>
          simp only [Result.bind_ok]
          simp [bumpTop_zero, Expr.lastTok]

theorem Expr.R_inf {env : CallEnv} {mem : Mem} {f : token_type} {e : Expr}
    {ctx' : Option token_type} (S : RPNState) (hf : f.isCallback .cmOPRT_INFIX .tpDBL = true)
    (hargc : f.argc = 1) (he : Expr.Valid .expr ctx' e = true) :
    Except.bind (Expr.completeR env mem e (Expr.pushOpt f S)) (reduceTop env mem f) =
      Expr.completeR env mem (.inf f e) S := by
  rw [Expr.completeR_at e (S := Expr.pushOpt f S) (T := (S.m_vRPN, S.m_vStringBuf)) rfl rfl,
    Expr.completeR]
  cases h1 : Expr.emit env mem e (S.m_vRPN, S.m_vStringBuf) with
  | error err => simp only [Result.bind_error, Expr.emit, h1]
  | ok r1 =>
    obtain ⟨st1, tl⟩ := r1
    have it := Expr.emit_toks e _ _ _ _ _ he h1
    rw [Expr.items_of_valid_expr he] at it
    obtain ⟨a, rfl, ha⟩ := Expr.itemToks_one it
    simp only [Result.bind_ok]
    have hcb := token_type.isCallback_code hf
    unfold reduceTop
    simp only [hcb.1, if_true]
    rw [ApplyFunc_num (f := f) (X := [a]) (R := S.stOpt) (V := S.stVal)
      (A := 1) rfl rfl (by
        intro x hx
        rw [List.mem_singleton.mp hx]; exact ha) hcb.2.2.1 (by rw [hcb.2.2.2, hargc])
      (Or.inr (Or.inr (Or.inl hcb.1))) hcb.2.1 (by simp [hcb.1]) (Or.inl rfl)]
    have e2 : (if (1 : Int) = -1 then -(([a].length : Nat) : Int)
        else (([a].length : Nat) : Int)) = 1 := by
      simp
    rw [e2]
    simp only [Expr.emit, h1, Expr.putS, Expr.pushOpt]
    cases hA : ParserByteCode.AddFun env st1.1 f.GetFuncAddr 1 f.IsOptimizable with
    | error err => rfl
    | ok bc =>
      simp only [Result.bind_ok]
      simp [bumpTop_zero, Expr.lastTok]

theorem Expr.R_post {env : CallEnv} {mem : Mem} {f : token_type} {e : Expr}
    {ctx' : Option token_type} (S : RPNState) (hf : f.isCallback .cmOPRT_POSTFIX .tpDBL = true)
    (hargc : f.argc = 1) (he : Expr.Valid .expr ctx' e = true) :
    Except.bind (Expr.completeR env mem e S) (fun S1 =>
      Except.bind (ApplyFunc env mem { S1 with stOpt := f :: S1.stOpt } 1)
        (fun s => .ok { s with opta := f })) =
      Expr.completeR env mem (.post f e) S := by
  rw [Expr.completeR, Expr.completeR]
  cases h1 : Expr.emit env mem e (S.m_vRPN, S.m_vStringBuf) with
  | error err => simp only [Result.bind_error, Expr.emit, h1]
  | ok r1 =>
    obtain ⟨st1, tl⟩ := r1
    have it := Expr.emit_toks e _ _ _ _ _ he h1
    rw [Expr.items_of_valid_expr he] at it
    obtain ⟨a, rfl, ha⟩ := Expr.itemToks_one it
    simp only [Result.bind_ok]
    have hcb := token_type.isCallback_code hf
    rw [ApplyFunc_num (f := f) (X := [a]) (R := S.stOpt) (V := S.stVal)
      (A := 1) rfl rfl (by
        intro x hx
        rw [List.mem_singleton.mp hx]; exact ha) hcb.2.2.1 (by rw [hcb.2.2.2, hargc])
      (Or.inr (Or.inl hcb.1)) hcb.2.1 (by simp [hcb.1]) (Or.inl rfl)]
    have e2 : (if (1 : Int) = -1 then -(([a].length : Nat) : Int)
        else (([a].length : Nat) : Int)) = 1 := by
      simp
    rw [e2]
    simp only [Expr.emit, h1, Expr.putS]
    cases hA : ParserByteCode.AddFun env st1.1 f.GetFuncAddr 1 f.IsOptimizable with
    | error err => rfl
    | ok bc =>
      simp only [Result.bind_ok]
      simp [bumpTop_zero, Expr.lastTok]

theorem Expr.R_seq {env : CallEnv} {mem : Mem} {sep : token_type} {l r : Expr}
    {ctx' : Option token_type} (S : RPNState) (hr : Expr.Valid .expr ctx' r = true) :
    Except.bind (Expr.completeR env mem l S) (fun S1 =>
      Expr.completeR env mem r (Expr.pushSep sep S1)) =
    Expr.completeR env mem (.seq l sep r) S := by
  rw [Expr.completeR, Expr.completeR]
  cases h1 : Expr.emit env mem l (S.m_vRPN, S.m_vStringBuf) with
  | error e => simp only [Result.bind_error, Expr.emit, h1]
  | ok r1 =>
    obtain ⟨st1, tl⟩ := r1
    simp only [Result.bind_ok]
    rw [Expr.completeR_at r (T := st1) rfl rfl]
    cases h2 : Expr.emit env mem r st1 with
    | error e => simp only [Result.bind_error, Expr.emit, h1, h2]
    | ok r2 =>
      obtain ⟨st2, tr⟩ := r2
      have it2 := Expr.emit_toks r _ _ _ _ _ hr h2
      rw [Expr.items_of_valid_expr hr] at it2
      obtain ⟨b, rfl, hb⟩ := Expr.itemToks_one it2
      simp only [Result.bind_ok, Expr.emit, h1, h2, Expr.putS, Expr.pushSep]
      simp [bumpTop_zero, bumpTop_bumpTop, Expr.lastTok]

theorem Expr.R_paren {env : CallEnv} {mem : Mem} {bo bc : token_type} {e : Expr}
    {ctx' : Option token_type} (S : RPNState) (hbo : bo.isPlain .cmBO = true)
    (hctx : Expr.parenCtx S.stOpt.head? = true) (he : Expr.Valid .expr ctx' e = true) :
    Except.bind (Expr.completeR env mem e (Expr.pushBO bo S)) (fun s =>
      Except.bind (closeBracket env mem s) (fun s1 => .ok { s1 with opta := bc })) =
      Expr.completeR env mem (.paren bo bc e) S := by
  rw [Expr.completeR_at e (S := Expr.pushBO bo S) (T := (S.m_vRPN, S.m_vStringBuf)) rfl rfl,
    Expr.completeR]
  cases h1 : Expr.emit env mem e (S.m_vRPN, S.m_vStringBuf) with
  | error err => simp only [Result.bind_error, Expr.emit, h1]
  | ok r1 =>
    obtain ⟨st1, tl⟩ := r1
    have it := Expr.emit_toks e _ _ _ _ _ he h1
    rw [Expr.items_of_valid_expr he] at it
    obtain ⟨a, rfl, ha⟩ := Expr.itemToks_one it
    simp only [Result.bind_ok]
    rw [closeBracket_paren (B := bo) (R := S.stOpt) (n := 1) (G := S.stArgCount) rfl
      (token_type.isPlain_code hbo).2 (by simp [Expr.putS, Expr.pushBO, bumpTop]) (le_refl _) hctx]
    simp only [Expr.emit, h1, Result.bind_ok, Expr.putS, Expr.pushBO]
    simp [bumpTop_zero, Expr.lastTok]

theorem Expr.R_call0 {env : CallEnv} {mem : Mem} {f bo bc : token_type} {m : Expr.Mode}
    {ctx : Option token_type} (S : RPNState)
    (hv : Expr.Valid m ctx (.call0 f bo bc) = true) :
    Except.bind
      (closeBracket env mem
        ((Expr.pushBO bo (Expr.pushOpt f S)).setFrame S.ifElseCounter
          (bumpTop (-1) (1 :: S.stArgCount))))
      (fun s1 => .ok { s1 with opta := bc }) =
      Expr.completeR env mem (.call0 f bo bc) S := by
  simp only [Expr.Valid, Bool.and_eq_true, decide_eq_true_eq, Bool.or_eq_true] at hv
  obtain ⟨⟨⟨_, hbo⟩, _⟩, hf, hargc⟩ := hv
  have hcode : f.GetCode = .cmFUNC ∨ f.GetCode = .cmFUNC_BULK ∨ f.GetCode = .cmFUNC_STR := by
    rcases hf with h | h
    · exact Or.inl (token_type.isCallback_code h).1
    · exact Or.inr (Or.inl (token_type.isCallback_code h).1)
  have hp : f.GetFuncAddr.pRawFun ≠ 0 := by
    rcases hf with h | h <;> exact (token_type.isCallback_code h).2.2.1
  rw [closeBracket_call (B := bo) (f := f) (R := S.stOpt) (n := 0) (G := S.stArgCount) rfl
      (token_type.isPlain_code hbo).2 (by simp [RPNState.setFrame, bumpTop]) hcode hp,
    Expr.completeR]
  rcases hf with h | h
  · have hcb := token_type.isCallback_code h
    rw [ApplyFunc_num (f := f) (X := []) (R := S.stOpt) (V := S.stVal)
      (s := { (Expr.pushBO bo (Expr.pushOpt f S)).setFrame S.ifElseCounter
                (bumpTop (-1) (1 :: S.stArgCount)) with
              stArgCount := S.stArgCount, stOpt := f :: S.stOpt }) (n := 0)
      (A := 0) rfl rfl (by intro x hx; cases hx) hcb.2.2.1 (by rw [hcb.2.2.2, hargc])
      (Or.inr (Or.inr (Or.inr hcb.1))) hcb.2.1 (by simp [hcb.1]) (Or.inl rfl)]
    have hne : f.GetCode ≠ .cmFUNC_BULK := by rw [hcb.1]; decide
    simp only [Expr.emit, hne, if_false, RPNState.setFrame, Expr.pushBO, Expr.pushOpt,
      List.length_nil, Nat.cast_zero, neg_zero, ite_self]
    cases hA : ParserByteCode.AddFun env S.m_vRPN f.GetFuncAddr 0 f.IsOptimizable with
    | error err => rfl
    | ok bc1 =>
      simp only [Result.bind_ok]
      simp [Expr.putS, bumpTop_zero, Expr.lastTok]
  · have hcb := token_type.isCallback_code h
    have := ApplyFunc_bulk (E := env) (M := mem) (f := f) (X := [])
      (s := { (Expr.pushBO bo (Expr.pushOpt f S)).setFrame S.ifElseCounter
                (bumpTop (-1) (1 :: S.stArgCount)) with
              stArgCount := S.stArgCount, stOpt := f :: S.stOpt })
      (R := S.stOpt) (V := S.stVal)
      rfl rfl (by intro x hx; cases hx) hcb.2.2.1 (by rw [hcb.2.2.2, hargc]; rfl) hcb.1 hcb.2.1
    simp only [List.length_nil, Nat.cast_zero] at this
    rw [this]
    simp only [Expr.emit, hcb.1, if_true, Result.bind_ok, RPNState.setFrame, Expr.pushBO,
      Expr.pushOpt]
    simp [Expr.putS, bumpTop_zero, Expr.lastTok]

theorem Expr.items_pos (e : Expr) : 1 ≤ e.items := by
  cases e <;> simp [Expr.items]

theorem Expr.R_call {env : CallEnv} {mem : Mem} {f bo bc : token_type} {args : Expr}
    {m : Expr.Mode} {ctx : Option token_type} (S : RPNState)
    (hv : Expr.Valid m ctx (.call f bo bc args) = true) :
    Except.bind (Expr.completeR env mem args (Expr.pushBO bo (Expr.pushOpt f S))) (fun s =>
      Except.bind (closeBracket env mem s) (fun s1 => .ok { s1 with opta := bc })) =
      Expr.completeR env mem (.call f bo bc args) S := by
  simp only [Expr.Valid, Bool.and_eq_true, decide_eq_true_eq, Bool.or_eq_true] at hv
  obtain ⟨⟨⟨_, hbo⟩, _⟩, hf⟩ := hv
  rw [Expr.completeR_at args (S := Expr.pushBO bo (Expr.pushOpt f S))
    (T := (S.m_vRPN, S.m_vStringBuf)) rfl rfl, Expr.completeR]
  cases h1 : Expr.emit env mem args (S.m_vRPN, S.m_vStringBuf) with
  | error err => simp only [Result.bind_error, Expr.emit, h1]
  | ok r1 =>
    obtain ⟨st1, ta⟩ := r1
    simp only [Result.bind_ok]
    have hcode : f.GetCode = .cmFUNC ∨ f.GetCode = .cmFUNC_BULK ∨ f.GetCode = .cmFUNC_STR := by
      rcases hf with (h | h) | h
      · exact Or.inl (token_type.isCallback_code h.1.1).1
      · exact Or.inr (Or.inl (token_type.isCallback_code h.1.1).1)
      · exact Or.inr (Or.inr (token_type.isCallback_code h.1.1.1).1)
    have hp : f.GetFuncAddr.pRawFun ≠ 0 := by
      rcases hf with (h | h) | h
      · exact (token_type.isCallback_code h.1.1).2.2.1
      · exact (token_type.isCallback_code h.1.1).2.2.1
      · exact (token_type.isCallback_code h.1.1.1).2.2.1
    rw [closeBracket_call (B := bo) (f := f) (R := S.stOpt)
      (n := 1 + ((ta.length : Int) - 1)) (G := S.stArgCount) rfl
      (token_type.isPlain_code hbo).2 (by simp [Expr.putS, Expr.pushBO, Expr.pushOpt, bumpTop])
      hcode hp]
    have hn : (1 : Int) + ((ta.length : Int) - 1) = (ta.length : Int) := by ring
    rw [hn]
    rcases hf with (h | h) | h
    · obtain ⟨⟨hcbf, hargc⟩, hva⟩ := h
      have hcb := token_type.isCallback_code hcbf
      have it := Expr.emit_toks args _ _ _ _ _ hva h1
      have hk : f.argc = (ta.reverse.length : Int) ∨
          (f.argc = -1 ∧ 1 ≤ ta.reverse.length) := by
        rw [List.length_reverse, it.1]
        rcases hargc with h | h
        · exact Or.inl h
        · exact Or.inr ⟨h, by have := Expr.items_pos args; omega⟩
      rw [ApplyFunc_num (f := f) (X := ta.reverse) (R := S.stOpt) (V := S.stVal)
        (s := { Expr.putS (Expr.pushBO bo (Expr.pushOpt f S)) args.lastTok (st1, ta) with
                stArgCount := S.stArgCount, stOpt := f :: S.stOpt })
        (n := (ta.length : Int)) (A := f.argc) rfl rfl
        (fun x hx => it.2 x (List.mem_reverse.mp hx)) hcb.2.2.1 hcb.2.2.2
        (Or.inr (Or.inr (Or.inr hcb.1))) hcb.2.1 (by simp [hcb.1]) hk]
      have hne1 : f.GetCode ≠ .cmFUNC_BULK := by rw [hcb.1]; decide
      have hne2 : f.GetCode ≠ .cmFUNC_STR := by rw [hcb.1]; decide
      simp only [Expr.emit, h1, hne1, hne2, if_false, Expr.putS, Expr.pushBO, Expr.pushOpt,
        List.length_reverse]
      cases hA : ParserByteCode.AddFun env st1.1 f.GetFuncAddr
          (if f.argc = -1 then -(ta.length : Int) else (ta.length : Int)) f.IsOptimizable with
      | error err => rfl
      | ok bc1 =>
        simp only [Result.bind_ok]
        simp [bumpTop_zero, Expr.lastTok]
    · obtain ⟨⟨hcbf, hargc⟩, hva⟩ := h
      have hcb := token_type.isCallback_code hcbf
      have it := Expr.emit_toks args _ _ _ _ _ hva h1
      have := ApplyFunc_bulk (E := env) (M := mem) (f := f) (X := ta.reverse)
        (s := { Expr.putS (Expr.pushBO bo (Expr.pushOpt f S)) args.lastTok (st1, ta) with
                stArgCount := S.stArgCount, stOpt := f :: S.stOpt })
        (R := S.stOpt) (V := S.stVal) rfl rfl
        (fun x hx => it.2 x (List.mem_reverse.mp hx)) hcb.2.2.1
        (by rw [hcb.2.2.2, hargc, List.length_reverse, it.1]) hcb.1 hcb.2.1
      simp only [List.length_reverse] at this
      rw [this]
      simp only [Expr.emit, h1, hcb.1, if_true, Result.bind_ok, Expr.putS, Expr.pushBO,
        Expr.pushOpt]
      simp [bumpTop_zero, Expr.lastTok]
    · obtain ⟨⟨⟨hcbf, hargc⟩, h5⟩, hva⟩ := h
      have hcb := token_type.isCallback_code hcbf
      have it := Expr.emit_toks args _ _ _ _ _ hva h1
      obtain ⟨t0, rest, rfl, h0, hrest⟩ := it.2
      have hlen : (rest.reverse.length : Int) = f.argc := by
        have := it.1
        simp only [List.length_cons] at this
        rw [List.length_reverse]; omega
      have := ApplyFunc_str (E := env) (M := mem) (f := f) (Z := t0) (X := rest.reverse)
        (s := { Expr.putS (Expr.pushBO bo (Expr.pushOpt f S)) args.lastTok (st1, t0 :: rest) with
                stArgCount := S.stArgCount, stOpt := f :: S.stOpt })
        (R := S.stOpt) (V := S.stVal) rfl
        (by simp [Expr.putS, Expr.pushBO, Expr.pushOpt])
        (fun x hx => hrest x (List.mem_reverse.mp hx)) h0 (by omega) hcb.2.2.1
        (by rw [hcb.2.2.2, hlen]) hcb.1 hcb.2.1
      simp only [List.length_reverse, List.length_cons, Nat.cast_add, Nat.cast_one] at this ⊢
      rw [this]
      have hne1 : f.GetCode ≠ .cmFUNC_BULK := by rw [hcb.1]; decide
      simp only [List.length_reverse] at hlen
      simp only [Expr.emit, h1, hcb.1, hne1, if_true, if_false, Result.bind_ok, Expr.putS,
        Expr.pushBO, Expr.pushOpt, reduceCtorEq, List.headD_cons, hlen]
      simp [bumpTop_zero, Expr.lastTok]

theorem Expr.R_ite {env : CallEnv} {mem : Mem} {q c : token_type} {cond thn els : Expr}
    {c1 c2 c3 : Option token_type} (S : RPNState)
    (hq : q.isPlain .cmIF = true) (hc : c.isPlain .cmELSE = true)
    (hcond : Expr.Valid .expr c1 cond = true) (hthn : Expr.Valid .expr c2 thn = true)
    (hels : Expr.Valid .expr c3 els = true) :
    Except.bind (Expr.completeR env mem cond S) (fun S1 =>
      Except.bind (Expr.completeR env mem thn (Expr.pushIf q S1)) (fun S2 =>
        Except.bind (Expr.completeR env mem els (Expr.pushElse c S2))
          (ApplyRemainingOprt env mem))) =
    Except.bind (Expr.completeR env mem (.ite q c cond thn els) S)
      (ApplyRemainingOprt env mem) := by
  rw [Expr.completeR, Expr.completeR]
  cases h1 : Expr.emit env mem cond (S.m_vRPN, S.m_vStringBuf) with
  | error e => simp only [Result.bind_error, Expr.emit, h1]
  | ok r1 =>
    obtain ⟨st1, tl⟩ := r1
    have it := Expr.emit_toks cond _ _ _ _ _ hcond h1
    rw [Expr.items_of_valid_expr hcond] at it
    obtain ⟨vc, rfl, hvc⟩ := Expr.itemToks_one it
    simp only [Result.bind_ok]
    rw [Expr.completeR_at thn (T := (st1.1.AddIfElse .cmIF, st1.2)) rfl rfl]
    cases h2 : Expr.emit env mem thn (st1.1.AddIfElse .cmIF, st1.2) with
    | error e => simp only [Result.bind_error, Expr.emit, h1, h2]
    | ok r2 =>
      obtain ⟨st2, tr⟩ := r2
      have it2 := Expr.emit_toks thn _ _ _ _ _ hthn h2
      rw [Expr.items_of_valid_expr hthn] at it2
      obtain ⟨v1, rfl, hv1⟩ := Expr.itemToks_one it2
      simp only [Result.bind_ok]
      rw [Expr.completeR_at els (T := (st2.1.AddIfElse .cmELSE, st2.2)) rfl rfl]
      cases h3 : Expr.emit env mem els (st2.1.AddIfElse .cmELSE, st2.2) with
      | error e => simp only [Result.bind_error, Expr.emit, h1, h2, h3]
      | ok r3 =>
        obtain ⟨st3, te⟩ := r3
        have it3 := Expr.emit_toks els _ _ _ _ _ hels h3
        rw [Expr.items_of_valid_expr hels] at it3
        obtain ⟨v2, rfl, hv2⟩ := Expr.itemToks_one it3
        simp only [Result.bind_ok]
        rw [ApplyRemainingOprt_else (c := c) (q := q) (P := v2) (Q := v1) (C := vc)
          (R := S.stOpt) (V := S.stVal) rfl (token_type.isPlain_code hc).2
          (token_type.isPlain_code hq).2 rfl hv2 hv1]
        simp only [Expr.emit, h1, h2, h3, List.headD_cons]
        cases hg : vc.GetVal mem with
        | error e => rfl
        | ok x =>
          simp only [Result.bind_ok]
          congr 1
          by_cases hx : x = 0
          · simp [hx, Expr.putS, Expr.pushIf, Expr.pushElse, bumpTop_zero, Expr.lastTok]
          · simp [hx, Expr.putS, Expr.pushIf, Expr.pushElse, bumpTop_zero, Expr.lastTok]

theorem Result.bind_eq_ok {α β : Type} {x : Result α} {f : α → Result β} {b : β}
    (h : Except.bind x f = .ok b) : ∃ a, x = .ok a ∧ f a = .ok b := by
  cases x with
  | error e => cases h
  | ok a => exact ⟨a, rfl, h⟩

theorem ApplyRemainingOprt_step_bind {env : CallEnv} {mem : Mem} {tok : token_type}
    {rest : List token_type} {s : RPNState} (hs : s.stOpt = tok :: rest)
    (hc : tok.GetCode ≠ .cmBO ∧ tok.GetCode ≠ .cmIF) (ho : isOprtCode tok.GetCode = true) :
    ApplyRemainingOprt env mem s =
      Except.bind (reduceTop env mem tok s) (ApplyRemainingOprt env mem) := by
  rw [ApplyRemainingOprt_step hs (by intro h; rcases h with h | h; exact hc.1 h; exact hc.2 h),
    remainingStep_oprt s ho]
  unfold reduceTop
  generalize (if tok.GetCode = .cmOPRT_INFIX then ApplyFunc env mem s 1
    else ApplyBinOprt env mem s) = r
  cases r <;> rfl

theorem binLoop_step_bind {env : CallEnv} {mem : Mem} {opt top : token_type}
    {rest : List token_type} {s : RPNState} (hs : s.stOpt = top :: rest)
    (hg : Expr.goesOn top opt = true) :
    binLoop env mem opt s = Except.bind (reduceTop env mem top s) (binLoop env mem opt) := by
  simp only [Expr.goesOn, Bool.and_eq_true, decide_eq_true_eq] at hg
  unfold binLoop
  rw [binOprtLoop_step hs (by
    intro h; rcases h with h | h | h
    · exact hg.1.1.1 h
    · exact hg.1.1.2 h
    · exact hg.1.2 h) hg.2]
  unfold reduceTop
  generalize (if top.GetCode = .cmOPRT_INFIX then ApplyFunc env mem s 1
    else ApplyBinOprt env mem s) = r
  cases r <;> rfl

theorem binLoop_stop {env : CallEnv} {mem : Mem} {opt : token_type} {s : RPNState}
    (h : Expr.stopsAt opt s.stOpt.head? = true) : binLoop env mem opt s = .ok s := by
  unfold binLoop
  apply binOprtLoop_stop
  cases hs : s.stOpt with
  | nil => exact Or.inl rfl
  | cons top rest =>
    right
    refine ⟨top, rest, rfl, ?_⟩
    rw [hs] at h
    simp only [List.head?_cons, Expr.stopsAt, Bool.or_eq_true, decide_eq_true_eq] at h
    rcases h with ((h | h) | h) | h
    · exact Or.inl (Or.inl h)
    · exact Or.inl (Or.inr (Or.inl h))
    · exact Or.inl (Or.inr (Or.inr h))
    · exact Or.inr h

theorem binLoop_setFrame {env : CallEnv} {mem : Mem} (opt : token_type) (s : RPNState) (c : Int)
    (a : List Int) :
    binLoop env mem opt (s.setFrame c a) =
      Except.bind (binLoop env mem opt s) (fun s1 => .ok (s1.setFrame c a)) :=
  binOprtLoop_setFrame opt _ s c a

theorem Expr.completeR_inv {env : CallEnv} {mem : Mem} {e : Expr} {m : Expr.Mode}
    {ctx : Option token_type} {S s : RPNState} (hv : Expr.Valid m ctx e = true)
    (h : Expr.completeR env mem e S = .ok s) :
    s.stOpt = S.stOpt ∧ s.ifElseCounter = S.ifElseCounter ∧ s.opta = e.lastTok ∧
      s.stArgCount = bumpTop ((e.items : Int) - 1) S.stArgCount := by
  unfold Expr.completeR at h
  obtain ⟨r, h1, h2⟩ := Result.bind_eq_ok h
  cases h2
  have it := Expr.emit_toks e _ _ _ _ _ hv h1
  refine ⟨rfl, rfl, rfl, ?_⟩
  simp only [Expr.putS, it.1]

theorem Expr.lastTok_code {e : Expr} :
    ∀ {m : Expr.Mode} {ctx : Option token_type}, Expr.Valid m ctx e = true →
      e.lastTok.GetCode ≠ .cmBO := by
  induction e with
  | val t =>
    intro m ctx hv
    simp only [Expr.Valid, Bool.and_eq_true, decide_eq_true_eq, token_type.isValTok] at hv
    rw [Expr.lastTok, (token_type.isPlain_code hv.2.1).2]; decide
  | var t =>
    intro m ctx hv
    simp only [Expr.Valid, Bool.and_eq_true, decide_eq_true_eq, token_type.isVarTok] at hv
    rw [Expr.lastTok, (token_type.isPlain_code hv.2.1).2]; decide
  | str t =>
    intro m ctx hv
    simp only [Expr.Valid, Bool.and_eq_true, decide_eq_true_eq, token_type.isStrTok] at hv
    rw [Expr.lastTok, (token_type.isPlain_code hv.1.2.1).2]; decide
  | bin op l r _ ihr =>
    intro m ctx hv
    simp only [Expr.Valid, Bool.and_eq_true, decide_eq_true_eq] at hv
    exact ihr hv.1.2
  | ite q c cond thn els _ _ ihe =>
    intro m ctx hv
    simp only [Expr.Valid, Bool.and_eq_true, decide_eq_true_eq] at hv
    exact ihe hv.2
  | paren bo bc e _ =>
    intro m ctx hv
    simp only [Expr.Valid, Bool.and_eq_true, decide_eq_true_eq] at hv
    rw [Expr.lastTok, (token_type.isPlain_code hv.1.1.2).2]; decide
  | call0 f bo bc =>
    intro m ctx hv
    simp only [Expr.Valid, Bool.and_eq_true, decide_eq_true_eq] at hv
    rw [Expr.lastTok, (token_type.isPlain_code hv.1.2).2]; decide
  | call f bo bc args _ =>
    intro m ctx hv
    simp only [Expr.Valid, Bool.and_eq_true, decide_eq_true_eq] at hv
    rw [Expr.lastTok, (token_type.isPlain_code hv.1.2).2]; decide
  | inf f e ih =>
    intro m ctx hv
    simp only [Expr.Valid, Bool.and_eq_true, decide_eq_true_eq] at hv
    exact ih hv.2
  | post f e _ =>
    intro m ctx hv
    simp only [Expr.Valid, Bool.and_eq_true, decide_eq_true_eq] at hv
    rw [Expr.lastTok, (token_type.isCallback_code hv.1.1.1.2).1]; decide
  | seq l sep r _ ihr =>
    intro m ctx hv
    simp only [Expr.Valid, Bool.and_eq_true, decide_eq_true_eq] at hv
    exact ihr hv.2

theorem Expr.pendR_inv {env : CallEnv} {mem : Mem} (e : Expr) :
    ∀ {m : Expr.Mode} {ctx : Option token_type} {S s : RPNState},
      Expr.Valid m ctx e = true → Expr.pendR env mem e S = .ok s →
      s.ifElseCounter = S.ifElseCounter ∧ s.opta = e.lastTok ∧
        s.stArgCount = bumpTop ((e.items : Int) - 1) S.stArgCount ∧
        (topIsIf s.stOpt = true → topIsIf S.stOpt = true) := by
  have atom : ∀ {e : Expr} {m : Expr.Mode} {ctx : Option token_type} {S s : RPNState},
      Expr.Valid m ctx e = true → Expr.completeR env mem e S = .ok s →
      s.ifElseCounter = S.ifElseCounter ∧ s.opta = e.lastTok ∧
        s.stArgCount = bumpTop ((e.items : Int) - 1) S.stArgCount ∧
        (topIsIf s.stOpt = true → topIsIf S.stOpt = true) := by
    intro e m ctx S s hv h
    have := Expr.completeR_inv hv h
    exact ⟨this.2.1, this.2.2.1, this.2.2.2, fun h => by rw [this.1] at h; exact h⟩
  induction e with
  | val t => intro m ctx S s hv h; exact atom hv h
  | var t => intro m ctx S s hv h; exact atom hv h
  | str t => intro m ctx S s hv h; exact atom hv h
  | paren bo bc e _ => intro m ctx S s hv h; exact atom hv h
  | call0 f bo bc => intro m ctx S s hv h; exact atom hv h
  | call f bo bc args _ => intro m ctx S s hv h; exact atom hv h
  | post f e _ => intro m ctx S s hv h; exact atom hv h
  | bin op l r _ ihr =>
    intro m ctx S s hv h
    have hv0 := hv
    simp only [Expr.Valid, Bool.and_eq_true, decide_eq_true_eq] at hv
    rw [Expr.pendR] at h
    obtain ⟨S1, h1, h2⟩ := Result.bind_eq_ok h
    have i1 := Expr.completeR_inv hv.1.1.1.1.2 h1
    have i2 := ihr hv.1.2 h2
    rw [Expr.items_of_valid_expr hv.1.1.1.1.2] at i1
    rw [Expr.items_of_valid_expr hv.1.2] at i2
    have hop := token_type.isBinTok_code hv.1.1.1.1.1.2
    refine ⟨by rw [i2.1]; exact i1.2.1, i2.2.1, ?_, ?_⟩
    · rw [i2.2.2.1]
      simp only [Expr.pushOpt, i1.2.2.2, Expr.items, Nat.cast_one, sub_self, bumpTop_zero]
    · intro ht
      have := i2.2.2.2 ht
      simp only [Expr.pushOpt, topIsIf, decide_eq_true_eq] at this
      exact absurd this hop.2.2.2.1
  | ite q c cond thn els _ _ ihe =>
    intro m ctx S s hv h
    simp only [Expr.Valid, Bool.and_eq_true, decide_eq_true_eq] at hv
    rw [Expr.pendR] at h
    obtain ⟨S1, h1, h2⟩ := Result.bind_eq_ok h
    obtain ⟨S2, h3, h4⟩ := Result.bind_eq_ok h2
    have i1 := Expr.completeR_inv hv.1.1.1.1.2 h1
    have i2 := Expr.completeR_inv hv.1.2 h3
    have i3 := ihe hv.2 h4
    rw [Expr.items_of_valid_expr hv.1.1.1.1.2] at i1
    rw [Expr.items_of_valid_expr hv.1.2] at i2
    rw [Expr.items_of_valid_expr hv.2] at i3
    refine ⟨?_, i3.2.1, ?_, ?_⟩
    · rw [i3.1]
      simp only [Expr.pushElse, i2.2.1, Expr.pushIf, i1.2.1]
      ring
    · rw [i3.2.2.1]
      simp only [Expr.pushElse, i2.2.2.2, Expr.pushIf, i1.2.2.2, Expr.items, Nat.cast_one,
        sub_self, bumpTop_zero, List.tail_cons]
    · intro ht
      have := i3.2.2.2 ht
      simp only [Expr.pushElse, topIsIf, decide_eq_true_eq] at this
      rw [(token_type.isPlain_code hv.1.1.1.1.1.2).2] at this
      cases this
  | inf f e ih =>
    intro m ctx S s hv h
    simp only [Expr.Valid, Bool.and_eq_true, decide_eq_true_eq] at hv
    rw [Expr.pendR] at h
    have i1 := ih hv.2 h
    rw [Expr.items_of_valid_expr hv.2] at i1
    refine ⟨i1.1, i1.2.1, ?_, ?_⟩
    · rw [i1.2.2.1]; rfl
    · intro ht
      have := i1.2.2.2 ht
      simp only [Expr.pushOpt, topIsIf, decide_eq_true_eq] at this
      rw [(token_type.isCallback_code hv.1.1.2).1] at this
      cases this
  | seq l sep r _ ihr =>
    intro m ctx S s hv h
    simp only [Expr.Valid, Bool.and_eq_true, decide_eq_true_eq] at hv
    rw [Expr.pendR] at h
    obtain ⟨S1, h1, h2⟩ := Result.bind_eq_ok h
    have i1 := Expr.completeR_inv hv.1.2 h1
    have i2 := ihr hv.2 h2
    rw [Expr.items_of_valid_expr hv.2] at i2
    refine ⟨by rw [i2.1]; exact i1.2.1, i2.2.1, ?_, ?_⟩
    · rw [i2.2.2.1]
      simp only [Expr.pushSep, i1.2.2.2, Expr.items, Nat.cast_one, sub_self, bumpTop_zero,
        bumpTop_bumpTop, Nat.cast_add]
      congr 1; ring
    · intro ht
      have := i2.2.2.2 ht
      simp only [Expr.pushSep] at this
      rw [i1.1] at this
      exact this

theorem readTokens_cons_dispatch {env : CallEnv} {mem : Mem} (t : token_type)
    (ts : List token_type) (s : RPNState) :
    readTokens env mem (t :: ts) s =
      Except.bind (dispatchToken env mem s t)
        (fun s1 => readTokens env mem ts { s1 with opta := t }) := by
  rw [readTokens_cons, processToken_eq, Result.bind_assoc]
  rfl

theorem readTokens_nil {env : CallEnv} {mem : Mem} (s : RPNState) :
    readTokens env mem [] s = .ok s := rfl

theorem Expr.Good.stOpt_ne_nil {ctx : Option token_type} {S : RPNState} (h : Expr.Good ctx S)
    (hc : ctx.isSome = true) : S.stOpt ≠ [] := by
  intro h0
  have := h.1
  rw [h0] at this
  rw [← this] at hc
  cases hc

theorem Expr.spec_val {env : CallEnv} {mem : Mem} {t : token_type} {m : Expr.Mode}
    {ctx : Option token_type} {S : RPNState} (hv : Expr.Valid m ctx (.val t) = true) :
    Expr.Spec env mem (.val t) S := by
  simp only [Expr.Valid, Bool.and_eq_true, decide_eq_true_eq] at hv
  refine ⟨?_, rfl, fun _ _ => rfl⟩
  rw [Expr.toks, readTokens_cons_dispatch, dispatchToken_val S hv.2, Result.bind_ok,
    readTokens_nil]
  show _ = Expr.completeR env mem _ S
  rw [Expr.completeR]
  simp [Expr.emit, Result.bind_ok, Expr.putS, bumpTop_zero, Expr.lastTok]

theorem Expr.spec_var {env : CallEnv} {mem : Mem} {t : token_type} {m : Expr.Mode}
    {ctx : Option token_type} {S : RPNState} (hv : Expr.Valid m ctx (.var t) = true) :
    Expr.Spec env mem (.var t) S := by
  simp only [Expr.Valid, Bool.and_eq_true, decide_eq_true_eq] at hv
  refine ⟨?_, rfl, fun _ _ => rfl⟩
  rw [Expr.toks, readTokens_cons_dispatch, dispatchToken_var S hv.2, Result.bind_ok,
    readTokens_nil]
  show _ = Expr.completeR env mem _ S
  rw [Expr.completeR]
  simp [Expr.emit, Result.bind_ok, Expr.putS, bumpTop_zero, Expr.lastTok]

theorem Expr.spec_str {env : CallEnv} {mem : Mem} {t : token_type} {m : Expr.Mode}
    {ctx : Option token_type} {S : RPNState} (hv : Expr.Valid m ctx (.str t) = true)
    (hS : Expr.Good ctx S) : Expr.Spec env mem (.str t) S := by
  simp only [Expr.Valid, Bool.and_eq_true, decide_eq_true_eq] at hv
  refine ⟨?_, rfl, fun _ _ => rfl⟩
  rw [Expr.toks, readTokens_cons_dispatch, dispatchToken_str S hv.1.2 (hS.stOpt_ne_nil hv.2),
    Result.bind_ok, readTokens_nil]
  show _ = Expr.completeR env mem _ S
  rw [Expr.completeR]
  simp [Expr.emit, Result.bind_ok, Expr.putS, bumpTop_zero, Expr.lastTok]

theorem Expr.good_pushOpt {env : CallEnv} {mem : Mem} {l : Expr} {m : Expr.Mode}
    {ctx : Option token_type} {S S1 : RPNState} (op : token_type)
    (hv : Expr.Valid m ctx l = true) (hS : Expr.Good ctx S)
    (h1 : Expr.completeR env mem l S = .ok S1) : Expr.Good (some op) (Expr.pushOpt op S1) := by
  have inv := Expr.completeR_inv hv h1
  refine ⟨rfl, ?_, ?_⟩
  · show S1.stArgCount ≠ []
    rw [inv.2.2.2]; exact bumpTop_ne_nil hS.2.1
  · show 0 ≤ S1.ifElseCounter
    rw [inv.2.1]; exact hS.2.2

theorem readTokens_bin {env : CallEnv} {mem : Mem} {op : token_type} (hop : op.isBinTok = true)
    (ts : List token_type) (s : RPNState) :
    readTokens env mem (op :: ts) s =
      Except.bind (binLoop env mem op s) (fun s1 => readTokens env mem ts (Expr.pushOpt op s1)) := by
  rw [readTokens_cons_dispatch, dispatchToken_bin s hop, Result.bind_assoc]
  rfl

theorem Expr.spec_bin {env : CallEnv} {mem : Mem} {op : token_type} {l r : Expr}
    {m : Expr.Mode} {ctx : Option token_type} {S : RPNState}
    (hv : Expr.Valid m ctx (.bin op l r) = true) (hS : Expr.Good ctx S)
    (ihl : ∀ (m : Expr.Mode) (ctx : Option token_type) (S : RPNState),
      Expr.Valid m ctx l = true → Expr.Good ctx S → Expr.Spec env mem l S)
    (ihr : ∀ (m : Expr.Mode) (ctx : Option token_type) (S : RPNState),
      Expr.Valid m ctx r = true → Expr.Good ctx S → Expr.Spec env mem r S) :
    Expr.Spec env mem (.bin op l r) S := by
  simp only [Expr.Valid, Bool.and_eq_true, decide_eq_true_eq, Bool.or_eq_true] at hv
  obtain ⟨⟨⟨⟨⟨⟨_, hop⟩, hvl⟩, hred⟩, hstop⟩, hvr⟩, hasg0⟩ := hv
  have hasg : op.GetCode = .cmASSIGN → ∃ t, l = .var t ∧ t.isVarTok = true := by
    intro hc
    rcases hasg0 with h | h
    · exact absurd hc h
    · cases l with
      | var t =>
        simp only [Expr.Valid, Bool.and_eq_true, decide_eq_true_eq] at hvl
        exact ⟨t, rfl, hvl.2⟩
      | _ => simp at h
  have hcode := token_type.isBinTok_code hop
  have hgood : ∀ S1, Expr.completeR env mem l S = .ok S1 →
      Expr.Good (some op) (Expr.pushOpt op S1) :=
    fun S1 h1 => Expr.good_pushOpt op hvl hS h1
  have hl := ihl _ _ S hvl hS
  refine ⟨?_, ?_, ?_⟩
  · rw [Expr.toks, readTokens_append, hl.1]
    rw [funext (readTokens_bin hop r.toks), ← Result.bind_assoc, hl.2.2 op hred,
      Result.bind_assoc, Expr.pendR]
    apply Result.bind_congr
    intro S1 h1
    have inv := Expr.completeR_inv hvl h1
    rw [binLoop_stop (by rw [inv.1, hS.1]; exact hstop), Result.bind_ok]
    exact (ihr _ _ _ hvr (hgood S1 h1)).1
  · rw [Expr.pendR, Result.bind_assoc, ← Expr.R_bin S hop hvl hvr hasg, Result.bind_assoc]
    apply Result.bind_congr
    intro S1 h1
    rw [(ihr _ _ _ hvr (hgood S1 h1)).2.1, Result.bind_assoc]
    apply Result.bind_congr
    intro S2 h2
    have inv := Expr.completeR_inv hvr h2
    exact ApplyRemainingOprt_step_bind inv.1 ⟨hcode.2.1, hcode.2.2.2.1⟩ hcode.2.2.2.2
  · intro opt hr
    simp only [Expr.redBy, Bool.and_eq_true] at hr
    rw [Expr.pendR, Result.bind_assoc, ← Expr.R_bin S hop hvl hvr hasg, Result.bind_assoc]
    apply Result.bind_congr
    intro S1 h1
    rw [(ihr _ _ _ hvr (hgood S1 h1)).2.2 opt hr.2, Result.bind_assoc]
    apply Result.bind_congr
    intro S2 h2
    have inv := Expr.completeR_inv hvr h2
    exact binLoop_step_bind inv.1 hr.1

theorem Expr.pendR_atom {env : CallEnv} {mem : Mem} {e : Expr} (h : e.isAtom = true)
    (S : RPNState) : Expr.pendR env mem e S = Expr.completeR env mem e S := by
  cases e <;> first | rfl | simp [Expr.isAtom] at h

theorem Expr.spec_inf {env : CallEnv} {mem : Mem} {f : token_type} {e : Expr}
    {m : Expr.Mode} {ctx : Option token_type} {S : RPNState}
    (hv : Expr.Valid m ctx (.inf f e) = true) (hS : Expr.Good ctx S)
    (ih : ∀ (m : Expr.Mode) (ctx : Option token_type) (S : RPNState),
      Expr.Valid m ctx e = true → Expr.Good ctx S → Expr.Spec env mem e S) :
    Expr.Spec env mem (.inf f e) S := by
  simp only [Expr.Valid, Bool.and_eq_true, decide_eq_true_eq] at hv
  obtain ⟨⟨⟨_, hf⟩, hargc⟩, hve⟩ := hv
  have hcb := token_type.isCallback_code hf
  have hgood : Expr.Good (some f) (Expr.pushOpt f S) := ⟨rfl, hS.2.1, hS.2.2⟩
  have he := ih _ _ _ hve hgood
  have hc1 : f.GetCode ≠ .cmBO ∧ f.GetCode ≠ .cmIF := by rw [hcb.1]; decide
  have hc2 : isOprtCode f.GetCode = true := by rw [hcb.1]; decide
  refine ⟨?_, ?_, ?_⟩
  · rw [Expr.toks, readTokens_cons_dispatch, dispatchToken_push S (Or.inl hcb.1), Result.bind_ok,
      Expr.pendR]
    exact he.1
  · rw [Expr.pendR, he.2.1, ← Expr.R_inf S hf hargc hve, Result.bind_assoc]
    apply Result.bind_congr
    intro S1 h1
    have inv := Expr.completeR_inv hve h1
    exact ApplyRemainingOprt_step_bind inv.1 hc1 hc2
  · intro opt hr
    simp only [Expr.redBy, Bool.and_eq_true] at hr
    rw [Expr.pendR, he.2.2 opt hr.2, ← Expr.R_inf S hf hargc hve, Result.bind_assoc]
    apply Result.bind_congr
    intro S1 h1
    have inv := Expr.completeR_inv hve h1
    exact binLoop_step_bind inv.1 hr.1

theorem Expr.spec_post {env : CallEnv} {mem : Mem} {f : token_type} {e : Expr}
    {m : Expr.Mode} {ctx : Option token_type} {S : RPNState}
    (hv : Expr.Valid m ctx (.post f e) = true) (hS : Expr.Good ctx S)
    (ih : ∀ (m : Expr.Mode) (ctx : Option token_type) (S : RPNState),
      Expr.Valid m ctx e = true → Expr.Good ctx S → Expr.Spec env mem e S) :
    Expr.Spec env mem (.post f e) S := by
  simp only [Expr.Valid, Bool.and_eq_true, decide_eq_true_eq] at hv
  obtain ⟨⟨⟨⟨_, hf⟩, hargc⟩, hatom⟩, hve⟩ := hv
  have hcb := token_type.isCallback_code hf
  refine ⟨?_, rfl, fun _ _ => rfl⟩
  rw [Expr.toks, readTokens_append, (ih _ _ _ hve hS).1, Expr.pendR_atom hatom]
  show _ = Expr.completeR env mem (.post f e) S
  rw [← Expr.R_post S hf hargc hve]
  apply Result.bind_congr
  intro S1 _
  rw [readTokens_cons_dispatch, dispatchToken_post S1 hcb.1]
  rfl

theorem Expr.topIsIf_of_listCtx {ctx : Option token_type} {S : RPNState}
    (hS : Expr.Good ctx S) (h : Expr.listCtx ctx = true) : topIsIf S.stOpt = false := by
  have h1 := hS.1
  cases hs : S.stOpt with
  | nil => rfl
  | cons top rest =>
    rw [hs] at h1
    simp only [List.head?_cons] at h1
    rw [← h1] at h
    simp only [Expr.listCtx] at h
    simp only [topIsIf, (token_type.isPlain_code h).2]
    rfl

theorem Expr.stop_of_listCtx {env : CallEnv} {mem : Mem} {ctx : Option token_type}
    {S S1 : RPNState} (hS : Expr.Good ctx S) (h : Expr.listCtx ctx = true)
    (h1 : S1.stOpt = S.stOpt) : ApplyRemainingOprt env mem S1 = .ok S1 := by
  apply ApplyRemainingOprt_stop
  have h2 := hS.1
  cases hs : S.stOpt with
  | nil => left; rw [h1, hs]
  | cons top rest =>
    right
    rw [hs] at h2
    simp only [List.head?_cons] at h2
    rw [← h2] at h
    simp only [Expr.listCtx] at h
    exact ⟨top, rest, by rw [h1, hs], Or.inl (token_type.isPlain_code h).2⟩

theorem Expr.spec_seq {env : CallEnv} {mem : Mem} {sep : token_type} {l r : Expr}
    {m : Expr.Mode} {ctx : Option token_type} {S : RPNState}
    (hv : Expr.Valid m ctx (.seq l sep r) = true) (hS : Expr.Good ctx S)
    (ihl : ∀ (m : Expr.Mode) (ctx : Option token_type) (S : RPNState),
      Expr.Valid m ctx l = true → Expr.Good ctx S → Expr.Spec env mem l S)
    (ihr : ∀ (m : Expr.Mode) (ctx : Option token_type) (S : RPNState),
      Expr.Valid m ctx r = true → Expr.Good ctx S → Expr.Spec env mem r S) :
    Expr.Spec env mem (.seq l sep r) S := by
  simp only [Expr.Valid, Bool.and_eq_true, decide_eq_true_eq] at hv
  obtain ⟨⟨⟨⟨_, hsep⟩, hctx⟩, hvl⟩, hvr⟩ := hv
  have hl := ihl _ _ S hvl hS
  have hgood : ∀ S1, Expr.completeR env mem l S = .ok S1 →
      Expr.Good ctx (Expr.pushSep sep S1) := by
    intro S1 h1
    have inv := Expr.completeR_inv hvl h1
    refine ⟨?_, ?_, ?_⟩
    · show S1.stOpt.head? = ctx
      rw [inv.1]; exact hS.1
    · show bumpTop 1 S1.stArgCount ≠ []
      rw [inv.2.2.2]; exact bumpTop_ne_nil (bumpTop_ne_nil hS.2.1)
    · show 0 ≤ S1.ifElseCounter
      rw [inv.2.1]; exact hS.2.2
  refine ⟨?_, ?_, fun _ h => by simp [Expr.redBy] at h⟩
  · rw [Expr.toks, readTokens_append, hl.1]
    have e1 : Except.bind (Expr.pendR env mem l S) (readTokens env mem (sep :: r.toks)) =
        Except.bind (Expr.pendR env mem l S) (fun s =>
          Except.bind (ApplyRemainingOprt env mem s) (fun s1 =>
            readTokens env mem r.toks
              { s1.setFrame S.ifElseCounter
                  (bumpTop 1 (bumpTop ((l.items : Int) - 1) S.stArgCount)) with opta := sep })) := by
      apply Result.bind_congr
      intro s hs
      have inv := Expr.pendR_inv l hvl hs
      have ht : topIsIf s.stOpt = false := by
        cases h : topIsIf s.stOpt with
        | false => rfl
        | true => rw [Expr.topIsIf_of_listCtx hS hctx] at inv; exact absurd (inv.2.2.2 h) (by decide)
      have ha : s.stArgCount ≠ [] := by rw [inv.2.2.1]; exact bumpTop_ne_nil hS.2.1
      rw [readTokens_cons_dispatch, dispatchToken_sep s hsep ht ha, inv.1, inv.2.2.1,
        ApplyRemainingOprt_setFrame, Result.bind_assoc]
      rfl
    rw [e1, ← Result.bind_assoc, hl.2.1, Result.bind_assoc, Expr.pendR]
    apply Result.bind_congr
    intro S1 h1
    have inv := Expr.completeR_inv hvl h1
    rw [Expr.stop_of_listCtx hS hctx inv.1, Result.bind_ok]
    have e2 : ({ S1.setFrame S.ifElseCounter
        (bumpTop 1 (bumpTop ((l.items : Int) - 1) S.stArgCount)) with opta := sep } : RPNState) =
        Expr.pushSep sep S1 := by
      rw [← inv.2.1, ← inv.2.2.2]; rfl
    rw [e2]
    exact (ihr _ _ _ hvr (hgood S1 h1)).1
  · rw [Expr.pendR, Result.bind_assoc, ← Expr.R_seq S hvr, Result.bind_assoc]
    apply Result.bind_congr
    intro S1 h1
    exact (ihr _ _ _ hvr (hgood S1 h1)).2.1

theorem readTokens_bc {env : CallEnv} {mem : Mem} {bc : token_type}
    (hbc : bc.isPlain .cmBC = true) (s : RPNState) (ho : s.opta.GetCode ≠ .cmBO) :
    readTokens env mem [bc] s =
      Except.bind (ApplyRemainingOprt env mem s) (fun s1 =>
        Except.bind (closeBracket env mem s1) (fun s2 => .ok { s2 with opta := bc })) := by
  rw [readTokens_cons_dispatch, dispatchToken_bc s hbc ho, Result.bind_assoc]
  rfl

theorem Expr.stop_of_bo {env : CallEnv} {mem : Mem} {bo : token_type} {rest : List token_type}
    {S1 : RPNState} (hbo : bo.isPlain .cmBO = true) (h1 : S1.stOpt = bo :: rest) :
    ApplyRemainingOprt env mem S1 = .ok S1 :=
  ApplyRemainingOprt_stop (Or.inr ⟨bo, rest, h1, Or.inl (token_type.isPlain_code hbo).2⟩)

theorem Expr.spec_paren {env : CallEnv} {mem : Mem} {bo bc : token_type} {e : Expr}
    {m : Expr.Mode} {ctx : Option token_type} {S : RPNState}
    (hv : Expr.Valid m ctx (.paren bo bc e) = true) (hS : Expr.Good ctx S)
    (ih : ∀ (m : Expr.Mode) (ctx : Option token_type) (S : RPNState),
      Expr.Valid m ctx e = true → Expr.Good ctx S → Expr.Spec env mem e S) :
    Expr.Spec env mem (.paren bo bc e) S := by
  simp only [Expr.Valid, Bool.and_eq_true, decide_eq_true_eq] at hv
  obtain ⟨⟨⟨⟨_, hbo⟩, hbc⟩, hctx⟩, hve⟩ := hv
  have hgood : Expr.Good (some bo) (Expr.pushBO bo S) :=
    ⟨rfl, List.cons_ne_nil _ _, hS.2.2⟩
  have he := ih _ _ _ hve hgood
  refine ⟨?_, rfl, fun _ _ => rfl⟩
  rw [Expr.toks, readTokens_cons_dispatch, dispatchToken_bo S hbo, Result.bind_ok]
  show readTokens env mem (e.toks ++ [bc]) (Expr.pushBO bo S) = Expr.completeR env mem _ S
  rw [readTokens_append, he.1]
  have e1 : Except.bind (Expr.pendR env mem e (Expr.pushBO bo S)) (readTokens env mem [bc]) =
      Except.bind (Expr.pendR env mem e (Expr.pushBO bo S)) (fun s =>
        Except.bind (ApplyRemainingOprt env mem s) (fun s1 =>
          Except.bind (closeBracket env mem s1) (fun s2 => .ok { s2 with opta := bc }))) := by
    apply Result.bind_congr
    intro s hs
    have inv := Expr.pendR_inv e hve hs
    exact readTokens_bc hbc s (by rw [inv.2.1]; exact Expr.lastTok_code hve)
  rw [e1, ← Result.bind_assoc, he.2.1, Result.bind_assoc,
    ← Expr.R_paren S hbo (by rw [hS.1]; exact hctx) hve]
  apply Result.bind_congr
  intro S1 h1
  have inv := Expr.completeR_inv hve h1
  rw [Expr.stop_of_bo hbo inv.1, Result.bind_ok]

theorem Expr.spec_call {env : CallEnv} {mem : Mem} {f bo bc : token_type} {args : Expr}
    {m : Expr.Mode} {ctx : Option token_type} {S : RPNState}
    (hv : Expr.Valid m ctx (.call f bo bc args) = true) (hS : Expr.Good ctx S)
    (ih : ∀ (m : Expr.Mode) (ctx : Option token_type) (S : RPNState),
      Expr.Valid m ctx args = true → Expr.Good ctx S → Expr.Spec env mem args S) :
    Expr.Spec env mem (.call f bo bc args) S := by
  have hv0 := hv
  simp only [Expr.Valid, Bool.and_eq_true, decide_eq_true_eq, Bool.or_eq_true] at hv
  obtain ⟨⟨⟨_, hbo⟩, hbc⟩, hf⟩ := hv
  have hcode : f.GetCode = .cmOPRT_INFIX ∨ f.GetCode = .cmFUNC ∨ f.GetCode = .cmFUNC_BULK ∨
      f.GetCode = .cmFUNC_STR := by
    rcases hf with (h | h) | h
    · exact Or.inr (Or.inl (token_type.isCallback_code h.1.1).1)
    · exact Or.inr (Or.inr (Or.inl (token_type.isCallback_code h.1.1).1))
    · exact Or.inr (Or.inr (Or.inr (token_type.isCallback_code h.1.1.1).1))
  obtain ⟨m', hva⟩ : ∃ m', Expr.Valid m' (some bo) args = true := by
    rcases hf with (h | h) | h
    · exact ⟨_, h.2⟩
    · exact ⟨_, h.2⟩
    · exact ⟨_, h.2⟩
  have hgood : Expr.Good (some bo) (Expr.pushBO bo (Expr.pushOpt f S)) :=
    ⟨rfl, List.cons_ne_nil _ _, hS.2.2⟩
  have he := ih _ _ _ hva hgood
  refine ⟨?_, rfl, fun _ _ => rfl⟩
  rw [Expr.toks, readTokens_cons_dispatch, dispatchToken_push S hcode, Result.bind_ok,
    readTokens_cons_dispatch, dispatchToken_bo _ hbo, Result.bind_ok]
  show readTokens env mem (args.toks ++ [bc]) (Expr.pushBO bo (Expr.pushOpt f S)) =
    Expr.completeR env mem _ S
  rw [readTokens_append, he.1]
  have e1 : Except.bind (Expr.pendR env mem args (Expr.pushBO bo (Expr.pushOpt f S)))
        (readTokens env mem [bc]) =
      Except.bind (Expr.pendR env mem args (Expr.pushBO bo (Expr.pushOpt f S))) (fun s =>
        Except.bind (ApplyRemainingOprt env mem s) (fun s1 =>
          Except.bind (closeBracket env mem s1) (fun s2 => .ok { s2 with opta := bc }))) := by
    apply Result.bind_congr
    intro s hs
    have inv := Expr.pendR_inv args hva hs
    exact readTokens_bc hbc s (by rw [inv.2.1]; exact Expr.lastTok_code hva)
  rw [e1, ← Result.bind_assoc, he.2.1, Result.bind_assoc, ← Expr.R_call S hv0]
  apply Result.bind_congr
  intro S1 h1
  have inv := Expr.completeR_inv hva h1
  rw [Expr.stop_of_bo hbo inv.1, Result.bind_ok]

theorem Expr.spec_call0 {env : CallEnv} {mem : Mem} {f bo bc : token_type}
    {m : Expr.Mode} {ctx : Option token_type} {S : RPNState}
    (hv : Expr.Valid m ctx (.call0 f bo bc) = true) :
    Expr.Spec env mem (.call0 f bo bc) S := by
  have hv0 := hv
  simp only [Expr.Valid, Bool.and_eq_true, decide_eq_true_eq, Bool.or_eq_true] at hv
  obtain ⟨⟨⟨_, hbo⟩, hbc⟩, hf, _⟩ := hv
  have hcode : f.GetCode = .cmOPRT_INFIX ∨ f.GetCode = .cmFUNC ∨ f.GetCode = .cmFUNC_BULK ∨
      f.GetCode = .cmFUNC_STR := by
    rcases hf with h | h
    · exact Or.inr (Or.inl (token_type.isCallback_code h).1)
    · exact Or.inr (Or.inr (Or.inl (token_type.isCallback_code h).1))
  refine ⟨?_, rfl, fun _ _ => rfl⟩
  rw [Expr.toks, readTokens_cons_dispatch, dispatchToken_push S hcode, Result.bind_ok,
    readTokens_cons_dispatch, dispatchToken_bo _ hbo, Result.bind_ok,
    readTokens_cons_dispatch,
    dispatchToken_bc_empty _ hbc (by exact (token_type.isPlain_code hbo).2),
    ApplyRemainingOprt_setFrame]
  show _ = Expr.completeR env mem _ S
  rw [← Expr.R_call0 S hv0]
  have hstop : ApplyRemainingOprt env mem
      { ({ ({ S with stOpt := f :: S.stOpt } : RPNState) with opta := f } : RPNState) with
        stArgCount := 1 :: S.stArgCount, stOpt := bo :: f :: S.stOpt, opta := bo } =
      .ok { ({ ({ S with stOpt := f :: S.stOpt } : RPNState) with opta := f } : RPNState) with
        stArgCount := 1 :: S.stArgCount, stOpt := bo :: f :: S.stOpt, opta := bo } :=
    Expr.stop_of_bo hbo rfl
  simp only [hstop, Result.bind_ok, readTokens_nil, Result.bind_assoc]
  rfl

theorem readTokens_if {env : CallEnv} {mem : Mem} {q : token_type} (hq : q.isPlain .cmIF = true)
    (ts : List token_type) (s : RPNState) :
    readTokens env mem (q :: ts) s =
      Except.bind (binLoop env mem q s) (fun s1 =>
        readTokens env mem ts
          { s1.setFrame (s.ifElseCounter + 1) (1 :: s.stArgCount) with
            m_vRPN := s1.m_vRPN.AddIfElse .cmIF, stOpt := q :: s1.stOpt, opta := q }) := by
  rw [readTokens_cons_dispatch, dispatchToken_if s hq]
  have : binOprtLoop env mem q ((onIf s).stOpt.length + 1) (onIf s) =
      binLoop env mem q (s.setFrame (s.ifElseCounter + 1) (1 :: s.stArgCount)) := rfl
  rw [this, binLoop_setFrame, Result.bind_assoc, Result.bind_assoc]
  rfl

theorem readTokens_else {env : CallEnv} {mem : Mem} {c : token_type}
    (hc : c.isPlain .cmELSE = true) (ts : List token_type) (s : RPNState) {n : Int}
    {args : List Int} (ha : s.stArgCount = n :: args) (hn : n ≤ 1)
    (hcnt : 0 ≤ s.ifElseCounter - 1) :
    readTokens env mem (c :: ts) s =
      Except.bind (ApplyRemainingOprt env mem s) (fun s1 =>
        readTokens env mem ts
          { s1.setFrame (s.ifElseCounter - 1) args with
            m_vRPN := s1.m_vRPN.AddIfElse .cmELSE, stOpt := c :: s1.stOpt, opta := c }) := by
  rw [readTokens_cons_dispatch, dispatchToken_else s hc ha hn hcnt, ApplyRemainingOprt_setFrame,
    Result.bind_assoc, Result.bind_assoc]
  rfl

theorem Expr.spec_ite {env : CallEnv} {mem : Mem} {q c : token_type} {cond thn els : Expr}
    {m : Expr.Mode} {ctx : Option token_type} {S : RPNState}
    (hv : Expr.Valid m ctx (.ite q c cond thn els) = true) (hS : Expr.Good ctx S)
    (ihc : ∀ (m : Expr.Mode) (ctx : Option token_type) (S : RPNState),
      Expr.Valid m ctx cond = true → Expr.Good ctx S → Expr.Spec env mem cond S)
    (iht : ∀ (m : Expr.Mode) (ctx : Option token_type) (S : RPNState),
      Expr.Valid m ctx thn = true → Expr.Good ctx S → Expr.Spec env mem thn S)
    (ihe : ∀ (m : Expr.Mode) (ctx : Option token_type) (S : RPNState),
      Expr.Valid m ctx els = true → Expr.Good ctx S → Expr.Spec env mem els S) :
    Expr.Spec env mem (.ite q c cond thn els) S := by
  simp only [Expr.Valid, Bool.and_eq_true, decide_eq_true_eq] at hv
  obtain ⟨⟨⟨⟨⟨⟨⟨_, hq⟩, hc⟩, hvc⟩, hred⟩, hstop⟩, hvt⟩, hve⟩ := hv
  have hcS := ihc _ _ S hvc hS
  have hgood1 : ∀ S1, Expr.completeR env mem cond S = .ok S1 →
      Expr.Good (some q) (Expr.pushIf q S1) := by
    intro S1 h1
    have inv := Expr.completeR_inv hvc h1
    refine ⟨rfl, List.cons_ne_nil _ _, ?_⟩
    show 0 ≤ S1.ifElseCounter + 1
    rw [inv.2.1]; have := hS.2.2; omega
  have hgood2 : ∀ S1 S2, Expr.completeR env mem cond S = .ok S1 →
      Expr.completeR env mem thn (Expr.pushIf q S1) = .ok S2 →
      Expr.Good (some c) (Expr.pushElse c S2) := by
    intro S1 S2 h1 h2
    have inv1 := Expr.completeR_inv hvc h1
    have inv2 := Expr.completeR_inv hvt h2
    rw [Expr.items_of_valid_expr hvc] at inv1
    rw [Expr.items_of_valid_expr hvt] at inv2
    refine ⟨rfl, ?_, ?_⟩
    · show S2.stArgCount.tail ≠ []
      rw [inv2.2.2.2]
      simp only [Expr.pushIf, Nat.cast_one, sub_self, bumpTop_zero, List.tail_cons, inv1.2.2.2]
      exact hS.2.1
    · show 0 ≤ S2.ifElseCounter - 1
      rw [inv2.2.1]
      simp only [Expr.pushIf, inv1.2.1]
      have := hS.2.2; omega
  refine ⟨?_, ?_, fun _ h => by simp [Expr.redBy] at h⟩
  · rw [Expr.toks, readTokens_append, hcS.1]
    have e1 : Except.bind (Expr.pendR env mem cond S)
          (readTokens env mem (q :: (thn.toks ++ c :: els.toks))) =
        Except.bind (Expr.pendR env mem cond S) (fun s =>
          Except.bind (binLoop env mem q s) (fun s1 =>
            readTokens env mem (thn.toks ++ c :: els.toks)
              { s1.setFrame (S.ifElseCounter + 1) (1 :: S.stArgCount) with
                m_vRPN := s1.m_vRPN.AddIfElse .cmIF, stOpt := q :: s1.stOpt, opta := q })) := by
      apply Result.bind_congr
      intro s hs
      have inv := Expr.pendR_inv cond hvc hs
      rw [Expr.items_of_valid_expr hvc] at inv
      rw [readTokens_if hq, inv.1, inv.2.2.1]
      simp only [Nat.cast_one, sub_self, bumpTop_zero]
    rw [e1, ← Result.bind_assoc, hcS.2.2 q hred, Result.bind_assoc, Expr.pendR]
    apply Result.bind_congr
    intro S1 h1
    have inv1 := Expr.completeR_inv hvc h1
    rw [Expr.items_of_valid_expr hvc] at inv1
    rw [binLoop_stop (by rw [inv1.1, hS.1]; exact hstop), Result.bind_ok]
    have e2 : ({ S1.setFrame (S.ifElseCounter + 1) (1 :: S.stArgCount) with
        m_vRPN := S1.m_vRPN.AddIfElse .cmIF, stOpt := q :: S1.stOpt, opta := q } : RPNState) =
        Expr.pushIf q S1 := by
      have h3 : S1.stArgCount = S.stArgCount := by
        rw [inv1.2.2.2]; simp only [Nat.cast_one, sub_self, bumpTop_zero]
      rw [← inv1.2.1, ← h3]; rfl
    rw [e2, readTokens_append, (iht _ _ _ hvt (hgood1 S1 h1)).1]
    have e3 : Except.bind (Expr.pendR env mem thn (Expr.pushIf q S1))
          (readTokens env mem (c :: els.toks)) =
        Except.bind (Expr.pendR env mem thn (Expr.pushIf q S1)) (fun s =>
          Except.bind (ApplyRemainingOprt env mem s) (fun s1 =>
            readTokens env mem els.toks
              { s1.setFrame S1.ifElseCounter S1.stArgCount with
                m_vRPN := s1.m_vRPN.AddIfElse .cmELSE, stOpt := c :: s1.stOpt, opta := c })) := by
      apply Result.bind_congr
      intro s hs
      have inv := Expr.pendR_inv thn hvt hs
      rw [Expr.items_of_valid_expr hvt] at inv
      have ha : s.stArgCount = 1 :: S1.stArgCount := by
        rw [inv.2.2.1]; simp only [Expr.pushIf, Nat.cast_one, sub_self, bumpTop_zero]
      have hcnt : s.ifElseCounter = S1.ifElseCounter + 1 := by rw [inv.1]; rfl
      rw [readTokens_else hc _ s ha (le_refl _)
        (by rw [hcnt, inv1.2.1]; have := hS.2.2; omega), hcnt]
      simp only [add_sub_cancel_right]
    rw [e3, ← Result.bind_assoc, (iht _ _ _ hvt (hgood1 S1 h1)).2.1, Result.bind_assoc]
    apply Result.bind_congr
    intro S2 h2
    have inv2 := Expr.completeR_inv hvt h2
    rw [Expr.items_of_valid_expr hvt] at inv2
    rw [ApplyRemainingOprt_stop (Or.inr ⟨q, S1.stOpt, inv2.1,
      Or.inr (token_type.isPlain_code hq).2⟩), Result.bind_ok]
    have e4 : ({ S2.setFrame S1.ifElseCounter S1.stArgCount with
        m_vRPN := S2.m_vRPN.AddIfElse .cmELSE, stOpt := c :: S2.stOpt, opta := c } : RPNState) =
        Expr.pushElse c S2 := by
      have h3 : S2.stArgCount.tail = S1.stArgCount := by
        rw [inv2.2.2.2]
        simp only [Expr.pushIf, Nat.cast_one, sub_self, bumpTop_zero, List.tail_cons]
      have h4 : S2.ifElseCounter - 1 = S1.ifElseCounter := by
        rw [inv2.2.1]; simp only [Expr.pushIf, add_sub_cancel_right]
      rw [← h3, ← h4]; rfl
    rw [e4]
    exact (ihe _ _ _ hve (hgood2 S1 S2 h1 h2)).1
  · rw [Expr.pendR, Result.bind_assoc, ← Expr.R_ite S hq hc hvc hvt hve]
    apply Result.bind_congr
    intro S1 h1
    rw [Result.bind_assoc]
    apply Result.bind_congr
    intro S2 h2
    exact (ihe _ _ _ hve (hgood2 S1 S2 h1 h2)).2.1

/-- The compiler takes a valid expression apart along its tree. -/
theorem Expr.spec {env : CallEnv} {mem : Mem} (e : Expr) :
    ∀ (m : Expr.Mode) (ctx : Option token_type) (S : RPNState),
      Expr.Valid m ctx e = true → Expr.Good ctx S → Expr.Spec env mem e S := by
  induction e with
  | val t => intro m ctx S hv _; exact Expr.spec_val hv
  | var t => intro m ctx S hv _; exact Expr.spec_var hv
  | str t => intro m ctx S hv hS; exact Expr.spec_str hv hS
  | bin op l r ihl ihr => intro m ctx S hv hS; exact Expr.spec_bin hv hS ihl ihr
  | ite q c cond thn els ihc iht ihe =>
    intro m ctx S hv hS; exact Expr.spec_ite hv hS ihc iht ihe
  | paren bo bc e ih => intro m ctx S hv hS; exact Expr.spec_paren hv hS ih
  | call0 f bo bc => intro m ctx S hv _; exact Expr.spec_call0 hv
  | call f bo bc args ih => intro m ctx S hv hS; exact Expr.spec_call hv hS ih
  | inf f e ih => intro m ctx S hv hS; exact Expr.spec_inf hv hS ih
  | post f e ih => intro m ctx S hv hS; exact Expr.spec_post hv hS ih
  | seq l sep r ihl ihr => intro m ctx S hv hS; exact Expr.spec_seq hv hS ihl ihr

theorem Expr.toks_code {e : Expr} :
    ∀ {m : Expr.Mode} {ctx : Option token_type}, Expr.Valid m ctx e = true →
      ∀ t ∈ e.toks, t.GetCode ≠ .cmEND := by
  have plain : ∀ {t : token_type} {c : ECmdCode}, t.isPlain c = true → c ≠ .cmEND →
      t.GetCode ≠ .cmEND := fun h hc => by rw [(token_type.isPlain_code h).2]; exact hc
  have cb : ∀ {t : token_type} {c : ECmdCode} {ty : ETypeCode}, t.isCallback c ty = true →
      c ≠ .cmEND → t.GetCode ≠ .cmEND := fun h hc => by
    rw [(token_type.isCallback_code h).1]; exact hc
  induction e with
  | val t =>
    intro m ctx hv x hx
    simp only [Expr.Valid, Bool.and_eq_true, decide_eq_true_eq, token_type.isValTok] at hv
    rw [List.mem_singleton.mp hx]; exact plain hv.2.1 (by decide)
  | var t =>
    intro m ctx hv x hx
    simp only [Expr.Valid, Bool.and_eq_true, decide_eq_true_eq, token_type.isVarTok] at hv
    rw [List.mem_singleton.mp hx]; exact plain hv.2.1 (by decide)
  | str t =>
    intro m ctx hv x hx
    simp only [Expr.Valid, Bool.and_eq_true, decide_eq_true_eq, token_type.isStrTok] at hv
    rw [List.mem_singleton.mp hx]; exact plain hv.1.2.1 (by decide)
  | bin op l r ihl ihr =>
    intro m ctx hv x hx
    simp only [Expr.Valid, Bool.and_eq_true, decide_eq_true_eq] at hv
    simp only [Expr.toks, List.mem_append, List.mem_cons] at hx
    rcases hx with h | h | h
    · exact ihl hv.1.1.1.1.2 x h
    · rw [h]; have := token_type.isBinTok_cases hv.1.1.1.1.1.2
      rcases this with h1 | h1
      · intro h2; rw [h2] at h1; exact absurd h1.2 (by decide)
      · exact cb h1.1 (by decide)
    · exact ihr hv.1.2 x h
  | ite q c cond thn els ihc iht ihe =>
    intro m ctx hv x hx
    simp only [Expr.Valid, Bool.and_eq_true, decide_eq_true_eq] at hv
    simp only [Expr.toks, List.mem_append, List.mem_cons] at hx
    rcases hx with h | h | h | h | h
    · exact ihc hv.1.1.1.1.2 x h
    · rw [h]; exact plain hv.1.1.1.1.1.1.2 (by decide)
    · exact iht hv.1.2 x h
    · rw [h]; exact plain hv.1.1.1.1.1.2 (by decide)
    · exact ihe hv.2 x h
  | paren bo bc e ih =>
    intro m ctx hv x hx
    simp only [Expr.Valid, Bool.and_eq_true, decide_eq_true_eq] at hv
    simp only [Expr.toks, List.mem_append, List.mem_cons, List.mem_singleton, List.not_mem_nil,
      or_false] at hx
    rcases hx with h | h | h
    · rw [h]; exact plain hv.1.1.1.2 (by decide)
    · exact ih hv.2 x h
    · rw [h]; exact plain hv.1.1.2 (by decide)
  | call0 f bo bc =>
    intro m ctx hv x hx
    simp only [Expr.Valid, Bool.and_eq_true, decide_eq_true_eq, Bool.or_eq_true] at hv
    simp only [Expr.toks, List.mem_cons, List.mem_singleton, List.not_mem_nil, or_false] at hx
    rcases hx with h | h | h
    · rw [h]; rcases hv.2.1 with h1 | h1
      · exact cb h1 (by decide)
      · exact cb h1 (by decide)
    · rw [h]; exact plain hv.1.1.2 (by decide)
    · rw [h]; exact plain hv.1.2 (by decide)
  | call f bo bc args ih =>
    intro m ctx hv x hx
    simp only [Expr.Valid, Bool.and_eq_true, decide_eq_true_eq, Bool.or_eq_true] at hv
    simp only [Expr.toks, List.mem_append, List.mem_cons, List.mem_singleton, List.not_mem_nil,
      or_false] at hx
    rcases hx with h | h | h | h
    · rw [h]; rcases hv.2 with (h1 | h1) | h1
      · exact cb h1.1.1 (by decide)
      · exact cb h1.1.1 (by decide)
      · exact cb h1.1.1.1 (by decide)
    · rw [h]; exact plain hv.1.1.2 (by decide)
    · rcases hv.2 with (h1 | h1) | h1
      · exact ih h1.2 x h
      · exact ih h1.2 x h
      · exact ih h1.2 x h
    · rw [h]; exact plain hv.1.2 (by decide)
  | inf f e ih =>
    intro m ctx hv x hx
    simp only [Expr.Valid, Bool.and_eq_true, decide_eq_true_eq] at hv
    simp only [Expr.toks, List.mem_cons] at hx
    rcases hx with h | h
    · rw [h]; exact cb hv.1.1.2 (by decide)
    · exact ih hv.2 x h
  | post f e ih =>
    intro m ctx hv x hx
    simp only [Expr.Valid, Bool.and_eq_true, decide_eq_true_eq] at hv
    simp only [Expr.toks, List.mem_append, List.mem_singleton] at hx
    rcases hx with h | h
    · exact ih hv.2 x h
    · rw [h]; exact cb hv.1.1.1.2 (by decide)
  | seq l sep r ihl ihr =>
    intro m ctx hv x hx
    simp only [Expr.Valid, Bool.and_eq_true, decide_eq_true_eq] at hv
    simp only [Expr.toks, List.mem_append, List.mem_cons] at hx
    rcases hx with h | h | h
    · exact ihl hv.1.2 x h
    · rw [h]; exact plain hv.1.1.1.2 (by decide)
    · exact ihr hv.2 x h

theorem ParserByteCode.Finalize_max {bc bc1 : ParserByteCode} (h : bc.Finalize = .ok bc1) :
    bc1.m_iMaxStackSize = bc.m_iMaxStackSize ∧ bc1.m_iStackPos = bc.m_iStackPos ∧
      bc1.m_bEnableOptimizer = bc.m_bEnableOptimizer := by
  unfold ParserByteCode.Finalize at h
  simp only [bind, Except.bind] at h
  split at h
  · cases h
  · cases h; exact ⟨rfl, rfl, rfl⟩

/-- `CreateRPN` on the tokens of a valid expression is the translation `emit` of its tree,
finalized. -/
theorem Expr.CreateRPN_eq {env : CallEnv} {mem : Mem} {e : Expr} {m : Expr.Mode}
    (hv : Expr.Valid m none e = true) (hm : m ≠ .strArgs) (bc0 : ParserByteCode)
    (formula : String) (hf : formula.length ≠ 0) :
    CreateRPN env mem bc0 { m_strFormula := formula, m_tokens := e.toks } =
      Except.bind (Expr.emit env mem e (bc0.clear, [])) Expr.finish := by
  have hS : Expr.Good none (initState bc0) := ⟨rfl, by simp [initState], le_refl _⟩
  have sp := @Expr.spec env mem e m none (initState bc0) hv hS
  unfold CreateRPN
  simp only [hf, if_false]
  have e1 : tokenLoop env mem e.toks (initState bc0) =
      Except.bind (Expr.completeR env mem e (initState bc0))
        (fun S1 => finishLoop { S1 with opta := tokEND }) := by
    have e0 : tokenLoop env mem e.toks (initState bc0) =
        Except.bind (readTokens env mem e.toks (initState bc0)) (tokenLoop env mem []) := by
      have := @tokenLoop_append env mem e.toks [] (initState bc0) (Expr.toks_code hv)
      rw [List.append_nil] at this
      rw [this]
      cases readTokens env mem e.toks (initState bc0) <;> rfl
    have e2 : ∀ s, tokenLoop env mem [] s =
        Except.bind (ApplyRemainingOprt env mem s)
          (fun S1 => finishLoop { S1 with opta := tokEND }) := by
      intro s
      rw [tokenLoop, processToken_eq]
      have : dispatchToken env mem s tokEND = ApplyRemainingOprt env mem s := by
        rw [dispatchToken]; rfl
      rw [this]
      cases ApplyRemainingOprt env mem s <;> rfl
    rw [e0, sp.1, funext e2]
    rw [← Result.bind_assoc, sp.2.1, Result.bind_assoc]
    apply Result.bind_congr
    intro S1 h1
    have inv := Expr.completeR_inv hv h1
    rw [ApplyRemainingOprt_stop (Or.inl (by rw [inv.1]; rfl))]
    rfl
  rw [e1, Expr.completeR]
  cases h1 : Expr.emit env mem e ((initState bc0).m_vRPN, (initState bc0).m_vStringBuf) with
  | error err =>
    have : Expr.emit env mem e (bc0.clear, []) = .error err := h1
    rw [this]; rfl
  | ok r =>
    have h1' : Expr.emit env mem e (bc0.clear, []) = .ok r := h1
    rw [h1']
    have it := Expr.emit_toks e _ _ _ _ _ hv h1
    simp only [Result.bind_ok, finishLoop, Expr.finish]
    cases hF : r.1.1.Finalize with
    | error err => simp only [Expr.putS, hF, Result.bind_error]
    | ok bcF =>
      have hnum : ∀ t ∈ r.2, Expr.NumTok t := by
        have := it.2
        cases m with
        | expr => exact this
        | args => exact this
        | strArgs => exact absurd rfl hm
      have hlen := it.1
      have hpos := Expr.items_pos e
      have hany : (r.2.reverse ++ ([] : List token_type)).any
          (fun t => decide (t.GetType ≠ .tpDBL)) = false := by
        rw [List.any_eq_false]
        intro t ht
        simp only [List.append_nil, List.mem_reverse] at ht
        simp [(hnum t ht).getType]
      have hM := (ParserByteCode.Finalize_max hF).1
      simp only [Expr.putS, hF, Result.bind_ok, finalChecks, initState, bumpTop,
        List.length_singleton, List.headD_cons, List.length_append, List.length_reverse,
        List.length_nil, add_zero, hany, ParserByteCode.GetMaxStackSize, hM]
      have h0 : ¬((0 : Int) > 0) := by decide
      have h2 : ¬((1 : Int) + ((r.2.length : Int) - 1) = 0) := by omega
      have h3 : ¬(r.2.length = 0) := by omega
      simp only [h0, h2, h3, if_false, ne_eq, not_true_eq_false, Bool.false_eq_true]
      congr 2
      ring

theorem Code.le {fin : Bool} {k h : Nat} {b : List SToken} (hc : Code fin k h b) : k ≤ h := by
  induction hc with
  | nil h => exact Nat.zero_le _
  | push t _ _ hk _ => exact hk
  | binop t _ _ ih => omega
  | func t n _ _ _ hk _ => exact hk
  | bulk t n _ _ _ hk _ => exact hk
  | strfun t n _ _ _ hk _ => exact hk
  | cond tIf tElse tEnd _ _ _ _ _ _ _ _ _ ih _ _ => exact ih

theorem Code.mono {fin : Bool} {k h : Nat} {b : List SToken} (hc : Code fin k h b) :
    ∀ {h' : Nat}, h ≤ h' → Code fin k h' b := by
  induction hc with
  | nil h => intro h' _; exact Code.nil h'
  | push t _ hv hk ih => intro h' hh; exact Code.push t (ih hh) hv (by omega)
  | binop t _ hv ih => intro h' hh; exact Code.binop t (ih hh) hv
  | func t n _ h1 h2 hk ih => intro h' hh; exact Code.func t n (ih hh) h1 h2 (by omega)
  | bulk t n _ h1 h2 hk ih => intro h' hh; exact Code.bulk t n (ih hh) h1 h2 (by omega)
  | strfun t n _ h1 h2 hk ih => intro h' hh; exact Code.strfun t n (ih hh) h1 h2 (by omega)
  | cond tIf tElse tEnd _ ct ce h1 h2 h3 h4 h5 h6 ih _ _ =>
    intro h' hh
    exact Code.cond tIf tElse tEnd (ih hh) ct ce (by omega) (by omega) h3 h4 h5 h6

theorem Code.append {fin : Bool} {k h : Nat} {b : List SToken} (hc : Code fin k h b)
    {k' h' : Nat} {b' : List SToken} (hc' : Code fin k' h' b') :
    ∀ {H : Nat}, h ≤ H → k + h' ≤ H → Code fin (k + k') H (b ++ b') := by
  induction hc' with
  | nil h => intro H h1 _; rw [List.append_nil]; exact hc.mono h1
  | @push k1 hh bs t _ hv hk ih =>
    intro H h1 h2
    rw [← List.append_assoc]
    exact Code.push (k := k + k1) t (ih h1 h2) hv (by omega)
  | @binop k1 hh bs t _ hv ih =>
    intro H h1 h2
    rw [← List.append_assoc]
    exact Code.binop (k := k + k1) t (ih h1 h2) hv
  | @func k1 hh bs t n _ e1 e2 hk ih =>
    intro H h1 h2
    rw [← List.append_assoc]
    have i := ih h1 h2
    rw [← Nat.add_assoc] at i
    exact Code.func (k := k + k1) t n i e1 e2 (by omega)
  | @bulk k1 hh bs t n _ e1 e2 hk ih =>
    intro H h1 h2
    rw [← List.append_assoc]
    have i := ih h1 h2
    rw [← Nat.add_assoc] at i
    exact Code.bulk (k := k + k1) t n i e1 e2 (by omega)
  | @strfun k1 hh bs t n _ e1 e2 hk ih =>
    intro H h1 h2
    rw [← List.append_assoc]
    have i := ih h1 h2
    rw [← Nat.add_assoc] at i
    exact Code.strfun (k := k + k1) t n i e1 e2 (by omega)
  | @cond k1 hh ht he bs bt be tIf tElse tEnd _ ct ce e1 e2 e3 e4 e5 e6 ih _ _ =>
    intro H h1 h2
    rw [← List.append_assoc]
    exact Code.cond (k := k + k1) tIf tElse tEnd (ih h1 h2) ct ce (by omega) (by omega)
      e3 e4 e5 e6

theorem Code.length_ge {fin : Bool} {k h : Nat} {b : List SToken} (hc : Code fin k h b) :
    k ≤ b.length := by
  induction hc with
  | nil h => exact Nat.zero_le _
  | push t _ _ _ ih => simp only [List.length_append, List.length_singleton]; omega
  | binop t _ _ ih => simp only [List.length_append, List.length_singleton]; omega
  | func t n _ _ _ _ ih => simp only [List.length_append, List.length_singleton]; omega
  | bulk t n _ _ _ _ ih => simp only [List.length_append, List.length_singleton]; omega
  | strfun t n _ _ _ _ ih => simp only [List.length_append, List.length_singleton]; omega
  | cond tIf tElse tEnd _ _ _ _ _ _ _ _ _ ih _ _ =>
    simp only [List.length_append, List.length_cons]; omega

/-- Entries that compute `k` values and end in `k` value entries are just these. -/
theorem Code.length_of_values {fin : Bool} {k h : Nat} {b : List SToken} (hc : Code fin k h b) :
    (∀ t ∈ b.reverse.take k, isValueCmd t.Cmd = true) → b.length = k := by
  induction hc with
  | nil h => intro _; rfl
  | push t _ _ _ ih =>
    intro hv
    simp only [List.reverse_append, List.reverse_singleton, List.singleton_append,
      List.take_succ_cons, List.mem_cons, forall_eq_or_imp] at hv
    simp only [List.length_append, List.length_singleton, ih hv.2]
  | binop t _ hb _ =>
    intro hv
    simp only [List.reverse_append, List.reverse_singleton, List.singleton_append,
      List.take_succ_cons, List.mem_cons, forall_eq_or_imp] at hv
    have := hv.1
    generalize t.Cmd = c at hb this
    cases c <;> first | exact absurd this (by decide) | exact absurd hb (by decide)
  | func t n _ e1 _ _ _ =>
    intro hv
    simp only [List.reverse_append, List.reverse_singleton, List.singleton_append,
      List.take_succ_cons, List.mem_cons, forall_eq_or_imp] at hv
    have := hv.1
    rw [e1] at this; cases this
  | bulk t n _ e1 _ _ _ =>
    intro hv
    simp only [List.reverse_append, List.reverse_singleton, List.singleton_append,
      List.take_succ_cons, List.mem_cons, forall_eq_or_imp] at hv
    have := hv.1
    rw [e1] at this; cases this
  | strfun t n _ e1 _ _ _ =>
    intro hv
    simp only [List.reverse_append, List.reverse_singleton, List.singleton_append,
      List.take_succ_cons, List.mem_cons, forall_eq_or_imp] at hv
    have := hv.1
    rw [e1] at this; cases this
  | @cond k1 hh ht he bs bt be tIf tElse tEnd _ _ _ _ _ _ _ e5 _ _ _ _ =>
    intro hv
    have : tEnd ∈ (bs ++ tIf :: (bt ++ tElse :: (be ++ [tEnd]))).reverse.take (k1 + 1) := by
      simp [List.reverse_append]
    have := hv _ this
    rw [e5] at this; cases this

theorem ParserByteCode.addSubPattern_value {x y : SToken}
    (hp : ParserByteCode.addSubPattern x y = true) :
    isValueCmd x.Cmd = true ∧ isValueCmd y.Cmd = true := by
  simp only [ParserByteCode.addSubPattern, Bool.or_eq_true, Bool.and_eq_true,
    decide_eq_true_eq] at hp
  rcases hp with ((((((h | h) | h) | h) | h) | h) | h) | h <;>
    first
    | exact ⟨by rw [h.2]; rfl, by rw [h.1]; rfl⟩
    | exact ⟨by rw [h.1.2]; rfl, by rw [h.1.1]; rfl⟩

theorem ParserByteCode.peephole_value {op : ECmdCode} {x y x' : SToken}
    (h : ParserByteCode.peephole op x y = .ok (some x')) :
    isValueCmd x.Cmd = true ∧ isValueCmd y.Cmd = true ∧ isValueCmd x'.Cmd = true := by
  cases op <;> simp only [ParserByteCode.peephole] at h <;> try cases h
  case cmPOW =>
    split at h
    · rename_i hxy
      have hx : isValueCmd x.Cmd = true := by rw [hxy.1]; rfl
      have hy : isValueCmd y.Cmd = true := by rw [hxy.2]; rfl
      split_ifs at h <;> first | (cases h; exact ⟨hx, hy, rfl⟩) | cases h
    · cases h
  case cmSUB =>
    split at h
    · rename_i hp
      have hxy := ParserByteCode.addSubPattern_value hp
      simp only [bind, Except.bind, MUP_ASSERT] at h
      split at h
      · cases h
      · cases h; exact ⟨hxy.1, hxy.2, rfl⟩
    · cases h
  case cmADD =>
    split at h
    · rename_i hp
      have hxy := ParserByteCode.addSubPattern_value hp
      simp only [bind, Except.bind, MUP_ASSERT] at h
      split at h
      · cases h
      · cases h; exact ⟨hxy.1, hxy.2, rfl⟩
    · cases h
  case cmMUL =>
    split at h
    · rename_i hp
      cases h
      rcases hp with h | h
      · exact ⟨by rw [h.2]; rfl, by rw [h.1]; rfl, rfl⟩
      · exact ⟨by rw [h.2]; rfl, by rw [h.1]; rfl, rfl⟩
    · split at h
      · rename_i hp
        have hxy : isValueCmd x.Cmd = true ∧ isValueCmd y.Cmd = true := by
          rcases hp with h | h
          · exact ⟨by rw [h.2]; rfl, by rw [h.1]; rfl⟩
          · exact ⟨by rw [h.2]; rfl, by rw [h.1]; rfl⟩
        split at h
        · cases h; exact ⟨hxy.1, hxy.2, rfl⟩
        · cases h; exact ⟨hxy.1, hxy.2, rfl⟩
      · split at h
        · rename_i hp
          cases h
          exact ⟨by rw [hp.2.1]; rfl, by rw [hp.1]; rfl, rfl⟩
        · cases h
  case cmDIV =>
    split at h
    · rename_i hp
      cases h
      exact ⟨by rw [hp.2.1]; rfl, by rw [hp.1]; rfl,
        by show isValueCmd x.Cmd = true; rw [hp.2.1]; rfl⟩
    · cases h

theorem ParserByteCode.ConstantFolding_eq (env : CallEnv) {op : ECmdCode} (x y : SToken)
    (hop : isBuiltinBinCode op = true) (hne : op ≠ .cmASSIGN) :
    ∃ v, ParserByteCode.ConstantFolding env op x y = [{ x with data2 := v }] := by
  cases op <;> first
    | exact absurd hop (by decide)
    | exact absurd rfl hne
    | exact ⟨_, rfl⟩

theorem List.exists_two_of_length {α : Type} {l : List α} (h : 2 ≤ l.length) :
    ∃ rest x y, l = rest ++ [x, y] := by
  have h1 : l ≠ [] := by intro h0; rw [h0] at h; simp at h
  obtain ⟨l1, y, rfl⟩ : ∃ l1 y, l = l1 ++ [y] :=
    ⟨l.dropLast, l.getLast h1, (List.dropLast_append_getLast h1).symm⟩
  have h2 : l1 ≠ [] := by intro h0; rw [h0] at h; simp at h
  obtain ⟨l2, x, rfl⟩ : ∃ l2 x, l1 = l2 ++ [x] :=
    ⟨l1.dropLast, l1.getLast h2, (List.dropLast_append_getLast h2).symm⟩
  exact ⟨l2, x, y, by simp⟩

/-- The effect of `AddOp` on bytecode that ends in the code of the two operands. -/
theorem ParserByteCode.AddOp_code {env : CallEnv} {bc bc' : ParserByteCode}
    {pre b : List SToken} {h : Nat} {op : ECmdCode} (hb : bc.m_vRPN = pre ++ b)
    (hc : Code false 2 h b) (hop : isBuiltinBinCode op = true) (hne : op ≠ .cmASSIGN)
    (h1 : bc.AddOp env op = .ok bc') :
    ∃ b', bc'.m_vRPN = pre ++ b' ∧ Code false 1 h b' ∧
      bc'.m_iStackPos ≤ bc.m_iStackPos ∧ bc.m_iStackPos - 1 ≤ bc'.m_iStackPos ∧
      bc'.m_iMaxStackSize = bc.m_iMaxStackSize ∧
      bc'.m_bEnableOptimizer = bc.m_bEnableOptimizer := by
  have hpush : ∃ b', (bc.pushOp op).m_vRPN = pre ++ b' ∧ Code false 1 h b' ∧
      (bc.pushOp op).m_iStackPos ≤ bc.m_iStackPos ∧
      bc.m_iStackPos - 1 ≤ (bc.pushOp op).m_iStackPos ∧
      (bc.pushOp op).m_iMaxStackSize = bc.m_iMaxStackSize ∧
      (bc.pushOp op).m_bEnableOptimizer = bc.m_bEnableOptimizer := by
    refine ⟨b ++ [{ Cmd := op }], ?_, Code.binop (k := 0) _ hc hop, ?_, ?_, rfl, rfl⟩
    · simp only [ParserByteCode.pushOp, hb, List.append_assoc]
    · simp only [ParserByteCode.pushOp]; omega
    · simp only [ParserByteCode.pushOp]; omega
  have h2 : 2 ≤ h := hc.le
  obtain ⟨rest, x, y, rfl⟩ := List.exists_two_of_length hc.length_ge
  have hval : isValueCmd x.Cmd = true → isValueCmd y.Cmd = true → rest = [] := by
    intro hx hy
    have := hc.length_of_values (by
      intro t ht
      simp only [List.reverse_append, List.reverse_cons, List.reverse_nil, List.nil_append,
        List.singleton_append, List.cons_append, List.take_succ_cons, List.take_zero,
        List.mem_cons, List.not_mem_nil, or_false] at ht
      rcases ht with rfl | rfl
      · exact hy
      · exact hx)
    simp only [List.length_append, List.length_cons, List.length_nil] at this
    exact List.length_eq_zero.mp (by omega)
  have hsingle : ∀ t : SToken, isValueCmd t.Cmd = true → Code false 1 h [t] := fun t ht =>
    @Code.push _ 0 _ [] t (Code.nil h) ht (by omega)
  unfold ParserByteCode.AddOp at h1
  split at h1
  · have hrev : bc.m_vRPN.reverse = y :: x :: (rest.reverse ++ pre.reverse) := by
      rw [hb]; simp
    rw [hrev] at h1
    simp only at h1
    split at h1
    · rename_i hxy
      cases h1
      have hr := hval (by rw [hxy.1]; rfl) (by rw [hxy.2]; rfl)
      obtain ⟨v, hv⟩ := ParserByteCode.ConstantFolding_eq env x y hop hne
      refine ⟨[{ x with data2 := v }], ?_,
        hsingle _ (by show isValueCmd x.Cmd = true; rw [hxy.1]; rfl),
        le_refl _, by show bc.m_iStackPos - 1 ≤ bc.m_iStackPos; omega, rfl, rfl⟩
      simp only [hv, hr, List.reverse_nil, List.nil_append, List.reverse_reverse]
    · simp only [bind, Except.bind] at h1
      split at h1
      · cases h1
      · rename_i r hr
        cases r with
        | some x' =>
          simp only at h1
          cases h1
          have hp := ParserByteCode.peephole_value hr
          have hr0 := hval hp.1 hp.2.1
          refine ⟨[x'], ?_, hsingle _ hp.2.2, le_refl _,
            by show bc.m_iStackPos - 1 ≤ bc.m_iStackPos; omega, rfl, rfl⟩
          simp only [hr0, List.reverse_nil, List.nil_append, List.reverse_reverse]
        | none =>
          simp only at h1
          cases h1; exact hpush
  · cases h1; exact hpush

/-- The effect of `AddFun` on bytecode that ends in the code of the `n` arguments. -/
theorem ParserByteCode.AddFun_code {env : CallEnv} {bc bc' : ParserByteCode}
    {pre b : List SToken} {h n : Nat} {f : generic_callable_type} {argc : Int} {opt : Bool}
    (hb : bc.m_vRPN = pre ++ b) (hc : Code false n h b)
    (hargc : argc = n ∨ (argc = -(n : Int) ∧ 1 ≤ n)) (hUP : f = env.UnaryPlus → n = 1)
    (h1 : bc.AddFun env f argc opt = .ok bc') :
    ∃ b', bc'.m_vRPN = pre ++ b' ∧ Code false 1 (max h 1) b' ∧
      ((bc'.m_iStackPos = bc.m_iStackPos - n + 1 ∧
          bc'.m_iMaxStackSize =
            max bc.m_iMaxStackSize (ParserByteCode.castSize (bc.m_iStackPos - n + 1))) ∨
        (n = 1 ∧ bc'.m_iStackPos = bc.m_iStackPos ∧
          bc'.m_iMaxStackSize = bc.m_iMaxStackSize)) ∧
      bc'.m_bEnableOptimizer = bc.m_bEnableOptimizer := by
  have habs : |argc| = (n : Int) := by
    rcases hargc with h | h
    · rw [h]; exact abs_of_nonneg (Int.natCast_nonneg n)
    · rw [h.1, abs_neg]; exact abs_of_nonneg (Int.natCast_nonneg n)
  have hplain : ∀ bc1 : ParserByteCode,
      bc1 = ParserByteCode.funStackPos
        { bc with m_vRPN := bc.m_vRPN ++ [{ Cmd := .cmFUNC, argc := argc, cb := f }] } argc →
      ∃ b', bc1.m_vRPN = pre ++ b' ∧ Code false 1 (max h 1) b' ∧
      ((bc1.m_iStackPos = bc.m_iStackPos - n + 1 ∧
          bc1.m_iMaxStackSize =
            max bc.m_iMaxStackSize (ParserByteCode.castSize (bc.m_iStackPos - n + 1))) ∨
        (n = 1 ∧ bc1.m_iStackPos = bc.m_iStackPos ∧
          bc1.m_iMaxStackSize = bc.m_iMaxStackSize)) ∧
      bc1.m_bEnableOptimizer = bc.m_bEnableOptimizer := by
    intro bc1 e1
    subst e1
    refine ⟨b ++ [{ Cmd := .cmFUNC, argc := argc, cb := f }], ?_, ?_, Or.inl ⟨?_, ?_⟩, rfl⟩
    · simp only [ParserByteCode.funStackPos, hb, List.append_assoc]
    · have hc' : Code false (0 + n) (max h 1) b := by
        rw [Nat.zero_add]; exact hc.mono (le_max_left _ _)
      exact Code.func (k := 0) _ n hc' rfl hargc (le_max_right _ _)
    · simp only [ParserByteCode.funStackPos, habs]
    · simp only [ParserByteCode.funStackPos, habs]
  unfold ParserByteCode.AddFun at h1
  simp only at h1
  split at h1
  · rename_i hopt
    have hn : argc = (n : Int) := by
      rcases hargc with h | h
      · exact h
      · have := hopt.2.2; omega
    split at h1
    · rename_i hup
      cases h1
      have hn1 := hUP hup
      subst hn1
      exact ⟨b, hb, hc.mono (le_max_left _ _), Or.inr ⟨rfl, rfl, rfl⟩, rfl⟩
    · have htake : bc.m_vRPN.reverse.take argc.toNat = b.reverse.take n := by
        rw [hb, hn, Int.toNat_ofNat, List.reverse_append]
        exact List.take_append_of_le_length (by rw [List.length_reverse]; exact hc.length_ge)
      rw [htake] at h1
      split at h1
      · rename_i hall
        have hlen : b.length = n := hc.length_of_values (by
          intro t ht
          have := List.all_eq_true.mp hall t ht
          simp only [decide_eq_true_eq] at this
          rw [this]; rfl)
        split at h1
        · cases h1
        · split at h1
          · cases h1
            generalize env.call_fun f (List.map (fun t => t.data2)
              (List.take n b.reverse).reverse) = v
            refine ⟨[{ Cmd := .cmVAL, data := 0, ptr := 0, data2 := v }], ?_, ?_,
              Or.inl ⟨?_, ?_⟩, rfl⟩
            · simp only [ParserByteCode.funStackPos, hb, hn, Int.toNat_ofNat,
                List.reverse_append]
              rw [List.drop_append_of_le_length (by rw [List.length_reverse, hlen]),
                List.drop_of_length_le (by rw [List.length_reverse, hlen])]
              simp
            · exact @Code.push _ 0 _ [] _ (Code.nil _) rfl (le_max_right _ _)
            · simp only [ParserByteCode.funStackPos, habs]
            · simp only [ParserByteCode.funStackPos, habs]
          · cases h1
      · cases h1; exact hplain _ rfl
  · cases h1; exact hplain _ rfl

theorem ParserByteCode.castSize_eq {x : Int} (h0 : 0 ≤ x) (h1 : x < 2 ^ 64) :
    ((ParserByteCode.castSize x : Nat) : Int) = x := by
  unfold ParserByteCode.castSize
  rw [Int.emod_eq_of_lt h0 h1, Int.toNat_of_nonneg h0]

theorem Emits.nil {bc : ParserByteCode} (h : bc.m_iStackPos ≤ (bc.m_iMaxStackSize : Int))
    (len : Nat) : Emits bc bc 0 len :=
  ⟨[], 0, by simp, Code.nil 0, by simpa using h, le_refl _, by simp, by omega, h, rfl⟩

theorem Emits.weaken {bc bc' : ParserByteCode} {k len L : Nat} (h : Emits bc bc' k len)
    (hl : len ≤ L) : Emits bc bc' k L := by
  obtain ⟨b, hh, h1, h2, h3, h4, h5, h6, h7, h8⟩ := h
  exact ⟨b, hh, h1, h2, h3, h4, h5, by omega, h7, h8⟩

theorem Emits.andThen {bc bc1 bc2 : ParserByteCode} {k1 k2 len1 len2 : Nat}
    (h1 : Emits bc bc1 k1 len1) (h2 : Emits bc1 bc2 k2 len2) :
    Emits bc bc2 (k1 + k2) (len1 + len2) := by
  obtain ⟨b1, hh1, a1, a2, a3, a4, a5, a6, a7, a8⟩ := h1
  obtain ⟨b2, hh2, c1, c2, c3, c4, c5, c6, c7, c8⟩ := h2
  refine ⟨b1 ++ b2, max hh1 (k1 + hh2), ?_, a2.append c2 (le_max_left _ _) (le_max_right _ _),
    ?_, le_trans a4 c4, ?_, ?_, c7, c8.trans a8⟩
  · rw [c1, a1, List.append_assoc]
  · have : ((max hh1 (k1 + hh2) : Nat) : Int) = max (hh1 : Int) ((k1 : Int) + hh2) := by
      push_cast; rfl
    rw [this]
    have h4' : (bc1.m_iMaxStackSize : Int) ≤ bc2.m_iMaxStackSize := by exact_mod_cast c4
    rcases le_total (hh1 : Int) ((k1 : Int) + hh2) with h | h
    · rw [max_eq_right h]; omega
    · rw [max_eq_left h]; omega
  · push_cast; omega
  · push_cast; omega

theorem Emits.val {bc : ParserByteCode} (v : value_type) (h0 : 0 ≤ bc.m_iStackPos)
    (h1 : bc.m_iStackPos + 1 < 2 ^ 64) : Emits bc (bc.AddVal v) 1 1 := by
  have hc := ParserByteCode.castSize_eq (x := bc.m_iStackPos + 1) (by omega) h1
  refine ⟨[{ Cmd := .cmVAL, ptr := 0, data := 0, data2 := v }], 1, rfl,
    @Code.push _ 0 _ [] _ (Code.nil 1) rfl (le_refl _), ?_, ?_, ?_, ?_, ?_, rfl⟩
  · simp only [ParserByteCode.AddVal, Nat.cast_max, hc, Nat.cast_one]; exact le_max_right _ _
  · simp only [ParserByteCode.AddVal]; exact le_max_left _ _
  · simp only [ParserByteCode.AddVal, Nat.cast_one]; omega
  · simp only [ParserByteCode.AddVal, Nat.cast_one]; omega
  · simp only [ParserByteCode.AddVal, Nat.cast_max, hc]; exact le_max_right _ _

theorem Emits.var {bc : ParserByteCode} (v : Nat) (h0 : 0 ≤ bc.m_iStackPos)
    (h1 : bc.m_iStackPos + 1 < 2 ^ 64) : Emits bc (bc.AddVar v) 1 1 := by
  have hc := ParserByteCode.castSize_eq (x := bc.m_iStackPos + 1) (by omega) h1
  refine ⟨[{ Cmd := .cmVAR, ptr := v, data := 1, data2 := 0 }], 1, rfl,
    @Code.push _ 0 _ [] _ (Code.nil 1) rfl (le_refl _), ?_, ?_, ?_, ?_, ?_, rfl⟩
  · simp only [ParserByteCode.AddVar, Nat.cast_max, hc, Nat.cast_one]; exact le_max_right _ _
  · simp only [ParserByteCode.AddVar]; exact le_max_left _ _
  · simp only [ParserByteCode.AddVar, Nat.cast_one]; omega
  · simp only [ParserByteCode.AddVar, Nat.cast_one]; omega
  · simp only [ParserByteCode.AddVar, Nat.cast_max, hc]; exact le_max_right _ _

theorem Emits.binop {env : CallEnv} {bc bc2 bc' : ParserByteCode} {len : Nat} {op : ECmdCode}
    (h : Emits bc bc2 2 len) (hop : isBuiltinBinCode op = true) (hne : op ≠ .cmASSIGN)
    (h1 : bc2.AddOp env op = .ok bc') : Emits bc bc' 1 (len + 1) := by
  obtain ⟨b, hh, a1, a2, a3, a4, a5, a6, a7, a8⟩ := h
  obtain ⟨b', c1, c2, c3, c4, c5, c6⟩ := ParserByteCode.AddOp_code a1 a2 hop hne h1
  refine ⟨b', hh, c1, c2, by rw [c5]; exact a3, by rw [c5]; exact a4, ?_, ?_,
    by rw [c5]; omega, c6.trans a8⟩
  · push_cast at a5 ⊢; omega
  · push_cast; omega

theorem Emits.assign {bc bc2 : ParserByteCode} {len : Nat} (v : Nat)
    (h : Emits bc bc2 2 len) : Emits bc (bc2.AddAssignOp v) 1 (len + 1) := by
  obtain ⟨b, hh, a1, a2, a3, a4, a5, a6, a7, a8⟩ := h
  refine ⟨b ++ [{ Cmd := .cmASSIGN, ptr := v }], hh, ?_,
    Code.binop (k := 0) { Cmd := .cmASSIGN, ptr := v } a2 rfl, a3, a4,
    ?_, ?_, ?_, a8⟩
  · simp only [ParserByteCode.AddAssignOp, a1, List.append_assoc]
  · simp only [ParserByteCode.AddAssignOp]; push_cast at a5 ⊢; omega
  · simp only [ParserByteCode.AddAssignOp]; push_cast; omega
  · simp only [ParserByteCode.AddAssignOp]; omega

theorem Emits.func {env : CallEnv} {bc bc2 bc' : ParserByteCode} {n len : Nat}
    {f : generic_callable_type} {argc : Int} {opt : Bool}
    (h : Emits bc bc2 n len) (hargc : argc = n ∨ (argc = -(n : Int) ∧ 1 ≤ n))
    (hUP : f = env.UnaryPlus → n = 1) (h0 : 0 ≤ bc.m_iStackPos)
    (hlt : bc.m_iStackPos + (len : Int) + 1 < 2 ^ 64)
    (h1 : bc2.AddFun env f argc opt = .ok bc') : Emits bc bc' 1 (len + 1) := by
  obtain ⟨b, hh, a1, a2, a3, a4, a5, a6, a7, a8⟩ := h
  obtain ⟨b', c1, c2, c3, c4⟩ := ParserByteCode.AddFun_code a1 a2 hargc hUP h1
  have hmax : ((max hh 1 : Nat) : Int) = max (hh : Int) 1 := by push_cast; rfl
  rcases c3 with ⟨c5, c6⟩ | ⟨c5, c6, c7⟩
  · have hc := ParserByteCode.castSize_eq (x := bc2.m_iStackPos - n + 1) (by omega) (by omega)
    have hM : (bc'.m_iMaxStackSize : Int) =
        max (bc2.m_iMaxStackSize : Int) (bc2.m_iStackPos - n + 1) := by
      rw [c6, Nat.cast_max, hc]
    have hM1 : (bc2.m_iMaxStackSize : Int) ≤ bc'.m_iMaxStackSize := by
      rw [hM]; exact le_max_left _ _
    have hM2 : bc2.m_iStackPos - n + 1 ≤ (bc'.m_iMaxStackSize : Int) := by
      rw [hM]; exact le_max_right _ _
    refine ⟨b', max hh 1, c1, c2, ?_, ?_, ?_, ?_, ?_, c4.trans a8⟩
    · rw [hmax]
      rcases le_total (hh : Int) 1 with h | h
      · rw [max_eq_right h]; omega
      · rw [max_eq_left h]; omega
    · exact le_trans a4 (by exact_mod_cast hM1)
    · rw [c5]; push_cast; omega
    · rw [c5]; push_cast; omega
    · rw [c5]; exact hM2
  · subst c5
    refine ⟨b', max hh 1, c1, c2, ?_, by rw [c7]; exact a4, ?_, ?_, by rw [c6, c7]; exact a7,
      c4.trans a8⟩
    · rw [hmax, c7]
      rcases le_total (hh : Int) 1 with h | h
      · rw [max_eq_right h]; push_cast at a5; omega
      · rw [max_eq_left h]; omega
    · rw [c6]; exact a5
    · rw [c6]; push_cast; omega

theorem Emits.bulk {bc bc2 : ParserByteCode} {n len : Nat} (f : generic_callable_type)
    (h : Emits bc bc2 n len) (h0 : 0 ≤ bc.m_iStackPos)
    (hlt : bc.m_iStackPos + (len : Int) + 1 < 2 ^ 64) :
    Emits bc (bc2.AddBulkFun f n) 1 (len + 1) := by
  obtain ⟨b, hh, a1, a2, a3, a4, a5, a6, a7, a8⟩ := h
  have hmax : ((max hh 1 : Nat) : Int) = max (hh : Int) 1 := by push_cast; rfl
  have hc := ParserByteCode.castSize_eq (x := bc2.m_iStackPos - n + 1) (by omega) (by omega)
  have hM : ((bc2.AddBulkFun f n).m_iMaxStackSize : Int) =
      max (bc2.m_iMaxStackSize : Int) (bc2.m_iStackPos - n + 1) := by
    simp only [ParserByteCode.AddBulkFun, Nat.cast_max, hc]
  have hM1 : (bc2.m_iMaxStackSize : Int) ≤ (bc2.AddBulkFun f n).m_iMaxStackSize := by
    rw [hM]; exact le_max_left _ _
  have hM2 : bc2.m_iStackPos - n + 1 ≤ ((bc2.AddBulkFun f n).m_iMaxStackSize : Int) := by
    rw [hM]; exact le_max_right _ _
  have hp : (bc2.AddBulkFun f n).m_iStackPos = bc2.m_iStackPos - n + 1 := rfl
  refine ⟨b ++ [{ Cmd := .cmFUNC_BULK, argc := n, cb := f }], max hh 1, ?_, ?_, ?_, ?_, ?_, ?_,
    ?_, a8⟩
  · simp only [ParserByteCode.AddBulkFun, a1, List.append_assoc]
  · have hc' : Code false (0 + n) (max hh 1) b := by
      rw [Nat.zero_add]; exact a2.mono (le_max_left _ _)
    exact Code.bulk (k := 0) { Cmd := .cmFUNC_BULK, argc := n, cb := f } n hc' rfl rfl
      (le_max_right _ _)
  · rw [hmax]
    rcases le_total (hh : Int) 1 with h | h
    · rw [max_eq_right h]; omega
    · rw [max_eq_left h]; omega
  · exact le_trans a4 (by exact_mod_cast hM1)
  · rw [hp]; push_cast; omega
  · rw [hp]; push_cast; omega
  · rw [hp]; exact hM2

theorem Emits.strfun {bc bc2 : ParserByteCode} {n len : Nat} (f : generic_callable_type)
    (idx : Int) (h : Emits bc bc2 n len) (h0 : 0 ≤ bc.m_iStackPos)
    (hlt : bc.m_iStackPos + (len : Int) + 1 < 2 ^ 64) :
    Emits bc (bc2.AddStrFun f n idx) 1 (len + 1) := by
  obtain ⟨b, hh, a1, a2, a3, a4, a5, a6, a7, a8⟩ := h
  have hmax : ((max hh 1 : Nat) : Int) = max (hh : Int) 1 := by push_cast; rfl
  have hc := ParserByteCode.castSize_eq (x := bc2.m_iStackPos - n + 1) (by omega) (by omega)
  have hM : ((bc2.AddStrFun f n idx).m_iMaxStackSize : Int) =
      max (bc2.m_iMaxStackSize : Int) (bc2.m_iStackPos - n + 1) := by
    simp only [ParserByteCode.AddStrFun, Nat.cast_max, hc]
  have hM1 : (bc2.m_iMaxStackSize : Int) ≤ (bc2.AddStrFun f n idx).m_iMaxStackSize := by
    rw [hM]; exact le_max_left _ _
  have hM2 : bc2.m_iStackPos - n + 1 ≤ ((bc2.AddStrFun f n idx).m_iMaxStackSize : Int) := by
    rw [hM]; exact le_max_right _ _
  have hp : (bc2.AddStrFun f n idx).m_iStackPos = bc2.m_iStackPos - n + 1 := rfl
  refine ⟨b ++ [{ Cmd := .cmFUNC_STR, argc := n, idx := idx, cb := f }], max hh 1, ?_, ?_, ?_,
    ?_, ?_, ?_, ?_, a8⟩
  · simp only [ParserByteCode.AddStrFun, a1, List.append_assoc]
  · have hc' : Code false (0 + n) (max hh 1) b := by
      rw [Nat.zero_add]; exact a2.mono (le_max_left _ _)
    exact Code.strfun (k := 0) { Cmd := .cmFUNC_STR, argc := n, idx := idx, cb := f } n hc' rfl
      rfl (le_max_right _ _)
  · rw [hmax]
    rcases le_total (hh : Int) 1 with h | h
    · rw [max_eq_right h]; omega
    · rw [max_eq_left h]; omega
  · exact le_trans a4 (by exact_mod_cast hM1)
  · rw [hp]; push_cast; omega
  · rw [hp]; push_cast; omega
  · rw [hp]; exact hM2

theorem Emits.cond {bc bc1 bc2 bc3 : ParserByteCode} {len1 len2 len3 : Nat}
    (h1 : Emits bc bc1 1 len1) (h2 : Emits (bc1.AddIfElse .cmIF) bc2 1 len2)
    (h3 : Emits (bc2.AddIfElse .cmELSE) bc3 1 len3) :
    Emits bc (bc3.AddIfElse .cmENDIF) 1 (len1 + 1 + len2 + 1 + len3) := by
  obtain ⟨b1, hh1, a1, a2, a3, a4, a5, a6, a7, a8⟩ := h1
  obtain ⟨b2, hh2, c1, c2, c3, c4, c5, c6, c7, c8⟩ := h2
  obtain ⟨b3, hh3, d1, d2, d3, d4, d5, d6, d7, d8⟩ := h3
  simp only [ParserByteCode.AddIfElse] at c1 c3 c4 c5 c6 c8 d1 d3 d4 d5 d6 d8
  have e4 : (bc1.m_iMaxStackSize : Int) ≤ bc2.m_iMaxStackSize := by exact_mod_cast c4
  have f4 : (bc2.m_iMaxStackSize : Int) ≤ bc3.m_iMaxStackSize := by exact_mod_cast d4
  have hmax : ((max hh1 (max hh2 hh3) : Nat) : Int) = max (hh1 : Int) (max (hh2 : Int) hh3) := by
    push_cast; rfl
  refine ⟨b1 ++ { Cmd := .cmIF } :: (b2 ++ { Cmd := .cmELSE } :: (b3 ++ [{ Cmd := .cmENDIF }])),
    max hh1 (max hh2 hh3), ?_, ?_, ?_, ?_, ?_, ?_, ?_, ?_⟩
  · simp only [ParserByteCode.AddIfElse, d1, c1, a1, List.append_assoc, List.cons_append,
      List.nil_append]
  · exact Code.cond (k := 0) _ _ _ (a2.mono (le_max_left _ _)) c2 d2
      (by rw [Nat.zero_add]; exact le_trans (le_max_left _ _) (le_max_right _ _))
      (by rw [Nat.zero_add]; exact le_trans (le_max_right _ _) (le_max_right _ _))
      rfl rfl rfl (fun h => by cases h)
  · show bc.m_iStackPos + _ ≤ (bc3.m_iMaxStackSize : Int)
    rw [hmax]
    push_cast at a5 c5
    rcases le_total (hh2 : Int) hh3 with h | h
    · rw [max_eq_right h]
      rcases le_total (hh1 : Int) hh3 with h' | h'
      · rw [max_eq_right h']; omega
      · rw [max_eq_left h']; omega
    · rw [max_eq_left h]
      rcases le_total (hh1 : Int) hh2 with h' | h'
      · rw [max_eq_right h']; omega
      · rw [max_eq_left h']; omega
  · exact le_trans a4 (le_trans c4 d4)
  · show bc.m_iStackPos + _ ≤ bc3.m_iStackPos
    push_cast at a5 c5 d5 ⊢; omega
  · show bc3.m_iStackPos ≤ _
    push_cast; omega
  · exact d7
  · exact d8.trans (c8.trans a8)

theorem Expr.numItems_expr {m : Expr.Mode} {e : Expr} (hm : m ≠ .strArgs) (h : e.items = 1) :
    Expr.numItems m e = 1 := by
  cases m
  · exact h
  · exact h
  · exact absurd rfl hm

theorem Emits.next {bc bc' : ParserByteCode} {k len : Nat} (h : Emits bc bc' k len)
    (h0 : 0 ≤ bc.m_iStackPos) {L : Nat}
    (hlt : bc.m_iStackPos + (len : Int) + (L : Int) < 2 ^ 64) :
    0 ≤ bc'.m_iStackPos ∧ bc'.m_iStackPos ≤ (bc'.m_iMaxStackSize : Int) ∧
      bc'.m_iStackPos + (L : Int) < 2 ^ 64 := by
  obtain ⟨b, hh, a1, a2, a3, a4, a5, a6, a7, a8⟩ := h
  exact ⟨by omega, a7, by omega⟩

theorem Expr.emit_code {env : CallEnv} {mem : Mem} (e : Expr) :
    ∀ (m : Expr.Mode) (ctx : Option token_type) (bc bc' : ParserByteCode) (sb sb' : List String)
      (ts : List token_type), Expr.Valid m ctx e = true → Expr.PlusOK env e →
      Expr.emit env mem e (bc, sb) = .ok ((bc', sb'), ts) → 0 ≤ bc.m_iStackPos →
      bc.m_iStackPos ≤ (bc.m_iMaxStackSize : Int) →
      bc.m_iStackPos + (e.toks.length : Int) < 2 ^ 64 →
      Emits bc bc' (Expr.numItems m e) e.toks.length := by
  induction e with
  | val t =>
    intro m ctx bc bc' sb sb' ts hv _ he h0 _ hlt
    simp only [Expr.Valid, Bool.and_eq_true, decide_eq_true_eq] at hv
    simp only [Expr.emit, Except.ok.injEq, Prod.mk.injEq] at he
    rw [← he.1.1, Expr.numItems_expr (e := Expr.val t) hv.1 rfl]
    exact Emits.val _ h0 (by simpa [Expr.toks] using hlt)
  | var t =>
    intro m ctx bc bc' sb sb' ts hv _ he h0 _ hlt
    simp only [Expr.Valid, Bool.and_eq_true, decide_eq_true_eq] at hv
    simp only [Expr.emit, Except.ok.injEq, Prod.mk.injEq] at he
    rw [← he.1.1, Expr.numItems_expr (e := Expr.var t) hv.1 rfl]
    exact Emits.var _ h0 (by simpa [Expr.toks] using hlt)
  | str t =>
    intro m ctx bc bc' sb sb' ts hv _ he _ hM _
    simp only [Expr.Valid, Bool.and_eq_true, decide_eq_true_eq] at hv
    simp only [Expr.emit, Except.ok.injEq, Prod.mk.injEq] at he
    rw [← he.1.1, hv.1.1]
    exact Emits.nil hM _
  | bin op l r ihl ihr =>
    intro m ctx bc bc' sb sb' ts hv hp he h0 hM hlt
    simp only [Expr.Valid, Bool.and_eq_true, decide_eq_true_eq] at hv
    obtain ⟨⟨⟨⟨⟨⟨hm, hop⟩, hvl⟩, _⟩, _⟩, hvr⟩, _⟩ := hv
    have hpl : Expr.PlusOK env l := fun t ht => hp t (by simp [Expr.toks, ht])
    have hpr : Expr.PlusOK env r := fun t ht => hp t (by simp [Expr.toks, ht])
    simp only [Expr.toks, List.length_append, List.length_cons, Nat.cast_add, Nat.cast_one] at hlt
    rw [Expr.numItems_expr (e := Expr.bin op l r) hm rfl]
    simp only [Expr.emit] at he
    split at he
    · cases he
    · rename_i st1 tl h1
      obtain ⟨bc1, sb1⟩ := st1
      have e1 := ihl _ _ _ _ _ _ _ hvl hpl h1 h0 hM (by omega)
      rw [Expr.numItems_expr (by decide) (Expr.items_of_valid_expr hvl)] at e1
      have n1 := e1.next h0 (L := r.toks.length) (by omega)
      split at he
      · cases he
      · rename_i st2 tr h2
        obtain ⟨bc2, sb2⟩ := st2
        have e2 := ihr _ _ _ _ _ _ _ hvr hpr h2 n1.1 n1.2.1 n1.2.2
        rw [Expr.numItems_expr (by decide) (Expr.items_of_valid_expr hvr)] at e2
        have e12 := e1.andThen e2
        have hlen : (Expr.bin op l r).toks.length = l.toks.length + r.toks.length + 1 := by
          simp only [Expr.toks, List.length_append, List.length_cons]; omega
        rw [hlen]
        split at he
        · rename_i hcode
          split at he
          · cases he
          · rename_i bcf hA
            cases he
            have hcb : op.isCallback .cmOPRT_BIN .tpDBL = true ∧ op.argc = 2 := by
              rcases token_type.isBinTok_cases hop with h | h
              · exact absurd hcode (isBuiltinBinCode_ne h.2).1
              · exact h
            exact e12.func (n := 2) (Or.inl rfl) (fun hup => by
              have := hp op (by simp [Expr.toks]) hup
              rw [hcb.2] at this; cases this) h0 (by push_cast; omega) hA
        · rename_i hcode
          have hb : isBuiltinBinCode op.GetCode = true := by
            rcases token_type.isBinTok_cases hop with h | h
            · exact h.2
            · exact absurd (token_type.isCallback_code h.1).1 hcode
          split at he
          · cases he
            exact e12.assign _
          · rename_i hasg
            split at he
            · cases he
            · rename_i bcf hA
              cases he
              exact e12.binop hb hasg hA
  | ite q c cond thn els ihc iht ihe =>
    intro m ctx bc bc' sb sb' ts hv hp he h0 hM hlt
    simp only [Expr.Valid, Bool.and_eq_true, decide_eq_true_eq] at hv
    obtain ⟨⟨⟨⟨⟨⟨⟨hm, _⟩, _⟩, hvc⟩, _⟩, _⟩, hvt⟩, hve⟩ := hv
    have hpc : Expr.PlusOK env cond := fun t ht => hp t (by simp [Expr.toks, ht])
    have hpt : Expr.PlusOK env thn := fun t ht => hp t (by simp [Expr.toks, ht])
    have hpe : Expr.PlusOK env els := fun t ht => hp t (by simp [Expr.toks, ht])
    simp only [Expr.toks, List.length_append, List.length_cons, Nat.cast_add, Nat.cast_one] at hlt
    rw [Expr.numItems_expr (e := Expr.ite q c cond thn els) hm rfl]
    simp only [Expr.emit] at he
    split at he
    · cases he
    · rename_i st1 tc h1
      obtain ⟨bc1, sb1⟩ := st1
      have e1 := ihc _ _ _ _ _ _ _ hvc hpc h1 h0 hM (by omega)
      rw [Expr.numItems_expr (by decide) (Expr.items_of_valid_expr hvc)] at e1
      have n1 := e1.next h0 (L := thn.toks.length + els.toks.length) (by push_cast; omega)
      split at he
      · cases he
      · rename_i st2 tt h2
        obtain ⟨bc2, sb2⟩ := st2
        have e2 := iht _ _ _ _ _ _ _ hvt hpt h2 n1.1 n1.2.1 (by
          have := n1.2.2; push_cast at this
          show bc1.m_iStackPos + _ < _; omega)
        rw [Expr.numItems_expr (by decide) (Expr.items_of_valid_expr hvt)] at e2
        have n2 := e2.next (by exact n1.1) (L := els.toks.length) (by
          have := n1.2.2; push_cast at this
          show bc1.m_iStackPos + _ + _ < _; omega)
        split at he
        · cases he
        · rename_i st3 te h3
          obtain ⟨bc3, sb3⟩ := st3
          have e3 := ihe _ _ _ _ _ _ _ hve hpe h3 n2.1 n2.2.1 n2.2.2
          rw [Expr.numItems_expr (by decide) (Expr.items_of_valid_expr hve)] at e3
          split at he
          · cases he
          · cases he
            refine (Emits.cond e1 e2 e3).weaken ?_
            simp only [Expr.toks, List.length_append, List.length_cons]; omega
  | paren bo bc0 e ih =>
    intro m ctx bc bc' sb sb' ts hv hp he h0 hM hlt
    simp only [Expr.Valid, Bool.and_eq_true, decide_eq_true_eq] at hv
    have hpe : Expr.PlusOK env e := fun t ht => hp t (by simp [Expr.toks, ht])
    simp only [Expr.toks, List.length_append, List.length_cons, Nat.cast_add, Nat.cast_one,
      List.length_nil] at hlt
    rw [Expr.numItems_expr (e := Expr.paren bo bc0 e) hv.1.1.1.1 rfl]
    simp only [Expr.emit] at he
    have e1 := ih _ _ _ _ _ _ _ hv.2 hpe he h0 hM (by omega)
    rw [Expr.numItems_expr (by decide) (Expr.items_of_valid_expr hv.2)] at e1
    refine e1.weaken ?_
    simp only [Expr.toks, List.length_append, List.length_cons]; omega
  | call0 f bo bc0 =>
    intro m ctx bc bc' sb sb' ts hv hp he h0 hM hlt
    simp only [Expr.Valid, Bool.and_eq_true, decide_eq_true_eq, Bool.or_eq_true] at hv
    simp only [Expr.toks, List.length_cons, List.length_nil] at hlt
    rw [Expr.numItems_expr (e := Expr.call0 f bo bc0) hv.1.1.1 rfl]
    simp only [Expr.emit] at he
    have e0 : Emits bc bc 0 2 := Emits.nil hM 2
    have hlen : (Expr.call0 f bo bc0).toks.length = 2 + 1 := rfl
    rw [hlen]
    split at he
    · cases he
      exact e0.bulk (n := 0) _ h0 (by push_cast at hlt ⊢; omega)
    · split at he
      · cases he
      · rename_i bcf hA
        cases he
        exact e0.func (n := 0) (Or.inl rfl) (fun hup => by
          have := hp f (by simp [Expr.toks]) hup
          rw [hv.2.2] at this; cases this) h0 (by push_cast at hlt ⊢; omega) hA
  | call f bo bc0 args ih =>
    intro m ctx bc bc' sb sb' ts hv hp he h0 hM hlt
    simp only [Expr.Valid, Bool.and_eq_true, decide_eq_true_eq, Bool.or_eq_true] at hv
    have hpa : Expr.PlusOK env args := fun t ht => hp t (by simp [Expr.toks, ht])
    simp only [Expr.toks, List.length_append, List.length_cons, Nat.cast_add, Nat.cast_one,
      List.length_nil] at hlt
    rw [Expr.numItems_expr (e := Expr.call f bo bc0 args) hv.1.1.1 rfl]
    have hlen : (Expr.call f bo bc0 args).toks.length = (args.toks.length + 2) + 1 := by
      simp only [Expr.toks, List.length_append, List.length_cons, List.length_nil]
    rw [hlen]
    simp only [Expr.emit] at he
    split at he
    · cases he
    · rename_i st1 ta h1
      obtain ⟨bc1, sb1⟩ := st1
      rcases hv.2 with (hf | hf) | hf
      · have hcb := token_type.isCallback_code hf.1.1
        have it := Expr.emit_toks args _ _ _ _ _ hf.2 h1
        have e1 := (ih _ _ _ _ _ _ _ hf.2 hpa h1 h0 hM (by omega)).weaken
          (Nat.le_add_right _ 2)
        have hne1 : f.GetCode ≠ .cmFUNC_BULK := by rw [hcb.1]; decide
        have hne2 : f.GetCode ≠ .cmFUNC_STR := by rw [hcb.1]; decide
        simp only [hne1, hne2, if_false] at he
        split at he
        · cases he
        · rename_i bcf hA
          cases he
          have hn : Expr.numItems .args args = ta.length := it.1.symm
          rw [hn] at e1
          refine e1.func (n := ta.length) ?_ (fun hup => ?_) h0 (by push_cast; omega) hA
          · by_cases h : f.argc = -1
            · simp only [h, if_true]
              exact Or.inr ⟨trivial, by rw [it.1]; exact Expr.items_pos args⟩
            · simp only [h, if_false]; exact Or.inl trivial
          · have := hp f (by simp [Expr.toks]) hup
            rcases hf.1.2 with h | h
            · rw [this] at h
              rw [it.1]; exact_mod_cast h.symm
            · rw [this] at h; cases h
      · have hcb := token_type.isCallback_code hf.1.1
        have it := Expr.emit_toks args _ _ _ _ _ hf.2 h1
        have e1 := (ih _ _ _ _ _ _ _ hf.2 hpa h1 h0 hM (by omega)).weaken
          (Nat.le_add_right _ 2)
        simp only [hcb.1, if_true] at he
        cases he
        have hn : Expr.numItems .args args = ta.length := it.1.symm
        rw [hn] at e1
        exact e1.bulk _ h0 (by push_cast; omega)
      · have hcb := token_type.isCallback_code hf.1.1.1
        have it := Expr.emit_toks args _ _ _ _ _ hf.2 h1
        have e1 := (ih _ _ _ _ _ _ _ hf.2 hpa h1 h0 hM (by omega)).weaken
          (Nat.le_add_right _ 2)
        have hne1 : f.GetCode ≠ .cmFUNC_BULK := by rw [hcb.1]; decide
        simp only [hcb.1, hne1, if_true, if_false, reduceCtorEq] at he
        cases he
        have hn : f.argc = ((Expr.numItems .strArgs args : Nat) : Int) := by
          have := hf.1.1.2
          have hpos := Expr.items_pos args
          simp only [Expr.numItems]
          omega
        rw [hn]
        exact e1.strfun _ _ h0 (by push_cast; omega)
  | inf f e ih =>
    intro m ctx bc bc' sb sb' ts hv hp he h0 hM hlt
    simp only [Expr.Valid, Bool.and_eq_true, decide_eq_true_eq] at hv
    have hpe : Expr.PlusOK env e := fun t ht => hp t (by simp [Expr.toks, ht])
    simp only [Expr.toks, List.length_cons, Nat.cast_add, Nat.cast_one] at hlt
    rw [Expr.numItems_expr (e := Expr.inf f e) hv.1.1.1 rfl]
    simp only [Expr.emit] at he
    split at he
    · cases he
    · rename_i st1 ta h1
      obtain ⟨bc1, sb1⟩ := st1
      have e1 := ih _ _ _ _ _ _ _ hv.2 hpe h1 h0 hM (by omega)
      rw [Expr.numItems_expr (by decide) (Expr.items_of_valid_expr hv.2)] at e1
      split at he
      · cases he
      · rename_i bcf hA
        cases he
        exact e1.func (n := 1) (Or.inl rfl) (fun _ => rfl) h0 (by omega) hA
  | post f e ih =>
    intro m ctx bc bc' sb sb' ts hv hp he h0 hM hlt
    simp only [Expr.Valid, Bool.and_eq_true, decide_eq_true_eq] at hv
    have hpe : Expr.PlusOK env e := fun t ht => hp t (by simp [Expr.toks, ht])
    simp only [Expr.toks, List.length_append, List.length_cons, Nat.cast_add, Nat.cast_one,
      List.length_nil] at hlt
    rw [Expr.numItems_expr (e := Expr.post f e) hv.1.1.1.1 rfl]
    simp only [Expr.emit] at he
    split at he
    · cases he
    · rename_i st1 ta h1
      obtain ⟨bc1, sb1⟩ := st1
      have e1 := ih _ _ _ _ _ _ _ hv.2 hpe h1 h0 hM (by omega)
      rw [Expr.numItems_expr (by decide) (Expr.items_of_valid_expr hv.2)] at e1
      split at he
      · cases he
      · rename_i bcf hA
        cases he
        have := e1.func (n := 1) (Or.inl rfl) (fun _ => rfl) h0 (by omega) hA
        simpa [Expr.toks] using this
  | seq l sep r ihl ihr =>
    intro m ctx bc bc' sb sb' ts hv hp he h0 hM hlt
    simp only [Expr.Valid, Bool.and_eq_true, decide_eq_true_eq] at hv
    obtain ⟨⟨⟨⟨hm, _⟩, _⟩, hvl⟩, hvr⟩ := hv
    have hpl : Expr.PlusOK env l := fun t ht => hp t (by simp [Expr.toks, ht])
    have hpr : Expr.PlusOK env r := fun t ht => hp t (by simp [Expr.toks, ht])
    simp only [Expr.toks, List.length_append, List.length_cons, Nat.cast_add, Nat.cast_one] at hlt
    simp only [Expr.emit] at he
    split at he
    · cases he
    · rename_i st1 tl h1
      obtain ⟨bc1, sb1⟩ := st1
      have e1 := ihl _ _ _ _ _ _ _ hvl hpl h1 h0 hM (by omega)
      have n1 := e1.next h0 (L := r.toks.length) (by omega)
      split at he
      · cases he
      · rename_i st2 tr h2
        obtain ⟨bc2, sb2⟩ := st2
        cases he
        have e2 := ihr _ _ _ _ _ _ _ hvr hpr h2 n1.1 n1.2.1 n1.2.2
        rw [Expr.numItems_expr (by decide) (Expr.items_of_valid_expr hvr)] at e2
        have e12 := (e1.andThen e2).weaken (L := (Expr.seq l sep r).toks.length) (by
          simp only [Expr.toks, List.length_append, List.length_cons]; omega)
        have hk : Expr.numItems m (Expr.seq l sep r) = Expr.numItems m l + 1 := by
          have hpos := Expr.items_pos l
          cases m
          · exact absurd rfl hm
          · rfl
          · simp only [Expr.numItems, Expr.items]; omega
        rw [hk]
        exact e12

theorem List.modify_append_cons {α : Type} (f : α → α) (l1 : List α) (t : α) (l2 : List α) :
    (l1 ++ t :: l2).modify f l1.length = l1 ++ f t :: l2 := by
  induction l1 with
  | nil => rfl
  | cons a l1 ih =>
    simp only [List.cons_append, List.length_cons, List.modify_succ_cons, ih]

theorem ParserByteCode.finalizeLoop_other {c : ECmdCode} (cmds : List ECmdCode) (i : Nat)
    (stIf stElse : List Nat) (v : List SToken)
    (h : c ≠ .cmIF ∧ c ≠ .cmELSE ∧ c ≠ .cmENDIF) :
    ParserByteCode.finalizeLoop (c :: cmds) i stIf stElse v =
      ParserByteCode.finalizeLoop cmds (i + 1) stIf stElse v := by
  cases c <;> first
    | exact absurd rfl h.1
    | exact absurd rfl h.2.1
    | exact absurd rfl h.2.2
    | rfl

/-- The loop of `Finalize` over well typed code writes the jump offsets and nothing else. -/
theorem ParserByteCode.finalizeLoop_code {k h : Nat} {b : List SToken} (hc : Code false k h b) :
    ∀ (pre post : List SToken) (rest : List ECmdCode) (stIf stElse : List Nat),
      ∃ b', Code true k h b' ∧ b'.length = b.length ∧
        b'.map SToken.eraseOffset = b.map SToken.eraseOffset ∧
        ParserByteCode.finalizeLoop (b.map (fun t => t.Cmd) ++ rest) pre.length stIf stElse
            (pre ++ b ++ post) =
          ParserByteCode.finalizeLoop rest (pre.length + b.length) stIf stElse
            (pre ++ b' ++ post) := by
  have single : ∀ {k h : Nat} {bs : List SToken} (t : SToken),
      (t.Cmd ≠ .cmIF ∧ t.Cmd ≠ .cmELSE ∧ t.Cmd ≠ .cmENDIF) →
      (ih : ∀ (pre post : List SToken) (rest : List ECmdCode) (stIf stElse : List Nat),
        ∃ b', Code true k h b' ∧ b'.length = bs.length ∧
          b'.map SToken.eraseOffset = bs.map SToken.eraseOffset ∧
          ParserByteCode.finalizeLoop (bs.map (fun t => t.Cmd) ++ rest) pre.length stIf stElse
              (pre ++ bs ++ post) =
            ParserByteCode.finalizeLoop rest (pre.length + bs.length) stIf stElse
              (pre ++ b' ++ post)) →
      ∀ (pre post : List SToken) (rest : List ECmdCode) (stIf stElse : List Nat),
        ∃ b', Code true k h b' ∧ b'.length = bs.length ∧
          b'.map SToken.eraseOffset = bs.map SToken.eraseOffset ∧
          ParserByteCode.finalizeLoop ((bs ++ [t]).map (fun t => t.Cmd) ++ rest) pre.length
              stIf stElse (pre ++ (bs ++ [t]) ++ post) =
            ParserByteCode.finalizeLoop rest (pre.length + (bs ++ [t]).length) stIf stElse
              (pre ++ (b' ++ [t]) ++ post) := by
    intro k h bs t ht ih pre post rest stIf stElse
    obtain ⟨b', c1, c2, c3, c4⟩ := ih pre ([t] ++ post) (t.Cmd :: rest) stIf stElse
    refine ⟨b', c1, c2, c3, ?_⟩
    have e1 : (bs ++ [t]).map (fun t => t.Cmd) ++ rest =
        bs.map (fun t => t.Cmd) ++ t.Cmd :: rest := by simp
    have e2 : pre ++ (bs ++ [t]) ++ post = pre ++ bs ++ ([t] ++ post) := by simp
    have e3 : pre ++ (b' ++ [t]) ++ post = pre ++ b' ++ ([t] ++ post) := by simp
    rw [e1, e2, e3, c4, ParserByteCode.finalizeLoop_other _ _ _ _ _ ht]
    simp only [List.length_append, List.length_singleton, Nat.add_assoc]
  induction hc with
  | nil h =>
    intro pre post rest stIf stElse
    exact ⟨[], Code.nil h, rfl, rfl, by simp⟩
  | @push k h bs t _ hv hk ih =>
    intro pre post rest stIf stElse
    have ht : t.Cmd ≠ .cmIF ∧ t.Cmd ≠ .cmELSE ∧ t.Cmd ≠ .cmENDIF := by
      generalize t.Cmd = c at hv; cases c <;> first | exact absurd hv (by decide) | decide
    obtain ⟨b', c1, c2, c3, c4⟩ := single t ht ih pre post rest stIf stElse
    exact ⟨b' ++ [t], Code.push t c1 hv hk, by simp [c2], by simp [c3], c4⟩
  | @binop k h bs t _ hv ih =>
    intro pre post rest stIf stElse
    have ht : t.Cmd ≠ .cmIF ∧ t.Cmd ≠ .cmELSE ∧ t.Cmd ≠ .cmENDIF := by
      generalize t.Cmd = c at hv; cases c <;> first | exact absurd hv (by decide) | decide
    obtain ⟨b', c1, c2, c3, c4⟩ := single t ht ih pre post rest stIf stElse
    exact ⟨b' ++ [t], Code.binop t c1 hv, by simp [c2], by simp [c3], c4⟩
  | @func k h bs t n _ e1 e2 hk ih =>
    intro pre post rest stIf stElse
    have ht : t.Cmd ≠ .cmIF ∧ t.Cmd ≠ .cmELSE ∧ t.Cmd ≠ .cmENDIF := by rw [e1]; decide
    obtain ⟨b', c1, c2, c3, c4⟩ := single t ht ih pre post rest stIf stElse
    exact ⟨b' ++ [t], Code.func t n c1 e1 e2 hk, by simp [c2], by simp [c3], c4⟩
  | @bulk k h bs t n _ e1 e2 hk ih =>
    intro pre post rest stIf stElse
    have ht : t.Cmd ≠ .cmIF ∧ t.Cmd ≠ .cmELSE ∧ t.Cmd ≠ .cmENDIF := by rw [e1]; decide
    obtain ⟨b', c1, c2, c3, c4⟩ := single t ht ih pre post rest stIf stElse
    exact ⟨b' ++ [t], Code.bulk t n c1 e1 e2 hk, by simp [c2], by simp [c3], c4⟩
  | @strfun k h bs t n _ e1 e2 hk ih =>
    intro pre post rest stIf stElse
    have ht : t.Cmd ≠ .cmIF ∧ t.Cmd ≠ .cmELSE ∧ t.Cmd ≠ .cmENDIF := by rw [e1]; decide
    obtain ⟨b', c1, c2, c3, c4⟩ := single t ht ih pre post rest stIf stElse
    exact ⟨b' ++ [t], Code.strfun t n c1 e1 e2 hk, by simp [c2], by simp [c3], c4⟩
  | @cond k h ht he bs bt be tIf tElse tEnd _ _ _ h1 h2 e1 e2 e3 _ ihs iht ihe =>
    intro pre post rest stIf stElse
    obtain ⟨bs', a1, a2, a3, a4⟩ := ihs pre (tIf :: (bt ++ tElse :: (be ++ [tEnd])) ++ post)
      (.cmIF :: (bt.map (fun t => t.Cmd) ++ .cmELSE :: (be.map (fun t => t.Cmd) ++
        .cmENDIF :: rest))) stIf stElse
    obtain ⟨bt', b1, b2, b3, b4⟩ := iht (pre ++ bs' ++ [tIf])
      (tElse :: (be ++ [tEnd]) ++ post)
      (.cmELSE :: (be.map (fun t => t.Cmd) ++ .cmENDIF :: rest)) ((pre ++ bs').length :: stIf)
      stElse
    obtain ⟨be', c1, c2, c3, c4⟩ := ihe
      (pre ++ bs' ++ { tIf with offset := bt'.length + 1 } :: bt' ++ [tElse])
      ([tEnd] ++ post) (.cmENDIF :: rest) stIf
      ((pre ++ bs' ++ tIf :: bt').length :: stElse)
    refine ⟨bs' ++ { tIf with offset := bt'.length + 1 } ::
      (bt' ++ { tElse with offset := be'.length + 1 } :: (be' ++ [tEnd])), ?_, ?_, ?_, ?_⟩
    · exact Code.cond _ _ _ a1 b1 c1 h1 h2 e1 e2 e3 (fun _ => ⟨rfl, rfl⟩)
    · simp only [List.length_append, List.length_cons, a2, b2, c2]
    · simp only [List.map_append, List.map_cons, a3, b3, c3, SToken.eraseOffset]
    · have g1 : (bs ++ tIf :: (bt ++ tElse :: (be ++ [tEnd]))).map (fun t => t.Cmd) ++ rest =
          bs.map (fun t => t.Cmd) ++ (.cmIF :: (bt.map (fun t => t.Cmd) ++ .cmELSE ::
            (be.map (fun t => t.Cmd) ++ .cmENDIF :: rest))) := by
        simp [e1, e2, e3]
      have g2 : pre ++ (bs ++ tIf :: (bt ++ tElse :: (be ++ [tEnd]))) ++ post =
          pre ++ bs ++ (tIf :: (bt ++ tElse :: (be ++ [tEnd])) ++ post) := by simp
      rw [g1, g2, a4, ParserByteCode.finalizeLoop]
      have g3 : pre ++ bs' ++ (tIf :: (bt ++ tElse :: (be ++ [tEnd])) ++ post) =
          pre ++ bs' ++ [tIf] ++ bt ++ (tElse :: (be ++ [tEnd]) ++ post) := by simp
      have g4 : pre.length + bs.length + 1 = (pre ++ bs' ++ [tIf]).length := by
        simp only [List.length_append, List.length_singleton, a2]
      have g5 : pre.length + bs.length = (pre ++ bs').length := by simp [a2]
      rw [g3, g4, g5, b4, ParserByteCode.finalizeLoop]
      have g6 : ParserByteCode.setOffset
          (pre ++ bs' ++ [tIf] ++ bt' ++ (tElse :: (be ++ [tEnd]) ++ post)) (pre ++ bs').length
          ((pre ++ bs' ++ [tIf]).length + bt.length - (pre ++ bs').length) =
          pre ++ bs' ++ { tIf with offset := bt'.length + 1 } :: bt' ++ [tElse] ++ be ++
            ([tEnd] ++ post) := by
        have : pre ++ bs' ++ [tIf] ++ bt' ++ (tElse :: (be ++ [tEnd]) ++ post) =
            (pre ++ bs') ++ tIf :: (bt' ++ (tElse :: (be ++ [tEnd]) ++ post)) := by simp
        rw [ParserByteCode.setOffset, this, List.modify_append_cons]
        have : (pre ++ bs' ++ [tIf]).length + bt.length - (pre ++ bs').length =
            bt'.length + 1 := by
          simp only [List.length_append, List.length_singleton, List.length_cons,
            List.length_nil, b2]; omega
        rw [this]; simp
      have g7 : (pre ++ bs' ++ [tIf]).length + bt.length + 1 =
          (pre ++ bs' ++ { tIf with offset := bt'.length + 1 } :: bt' ++ [tElse]).length := by
        simp [b2]; omega
      have g8 : (pre ++ bs' ++ [tIf]).length + bt.length = (pre ++ bs' ++ tIf :: bt').length := by
        simp [b2]; omega
      rw [g6, g7, g8, c4, ParserByteCode.finalizeLoop]
      have g9 : ParserByteCode.setOffset
          (pre ++ bs' ++ { tIf with offset := bt'.length + 1 } :: bt' ++ [tElse] ++ be' ++
            ([tEnd] ++ post)) (pre ++ bs' ++ tIf :: bt').length
          ((pre ++ bs' ++ { tIf with offset := bt'.length + 1 } :: bt' ++ [tElse]).length +
            be.length - (pre ++ bs' ++ tIf :: bt').length) =
          pre ++ (bs' ++ { tIf with offset := bt'.length + 1 } ::
            (bt' ++ { tElse with offset := be'.length + 1 } :: (be' ++ [tEnd]))) ++ post := by
        have e5 : pre ++ bs' ++ { tIf with offset := bt'.length + 1 } :: bt' ++ [tElse] ++ be' ++
            ([tEnd] ++ post) =
            (pre ++ bs' ++ { tIf with offset := bt'.length + 1 } :: bt') ++
              tElse :: (be' ++ ([tEnd] ++ post)) := by simp
        have e6 : (pre ++ bs' ++ tIf :: bt').length =
            (pre ++ bs' ++ { tIf with offset := bt'.length + 1 } :: bt').length := by simp
        rw [ParserByteCode.setOffset, e5, e6, List.modify_append_cons]
        have : (pre ++ bs' ++ { tIf with offset := bt'.length + 1 } :: bt' ++ [tElse]).length +
            be.length - (pre ++ bs' ++ { tIf with offset := bt'.length + 1 } :: bt').length =
            be'.length + 1 := by
          simp only [List.length_append, List.length_singleton, List.length_cons,
            List.length_nil, c2]; omega
        rw [this]; simp
      rw [g9]
      congr 1
      simp only [List.length_append, List.length_cons, List.length_singleton, List.length_nil,
        a2, b2, c2]
      omega

/-- `Finalize` on well typed code writes the jump offsets and appends the end entry. -/
theorem ParserByteCode.Finalize_code {bc : ParserByteCode} {k h : Nat}
    (hc : Code false k h bc.m_vRPN) :
    ∃ b', Code true k h b' ∧ b'.length = bc.m_vRPN.length ∧
      b'.map SToken.eraseOffset = bc.m_vRPN.map SToken.eraseOffset ∧
      bc.Finalize = .ok { bc with m_vRPN := b' ++ [{ Cmd := .cmEND }] } := by
  obtain ⟨b', c1, c2, c3, c4⟩ :=
    ParserByteCode.finalizeLoop_code hc [] [{ Cmd := .cmEND }] [.cmEND] [] []
  refine ⟨b', c1, c2, c3, ?_⟩
  unfold ParserByteCode.Finalize
  simp only [List.nil_append, List.length_nil, Nat.zero_add] at c4
  simp only [List.map_append, List.map_cons, List.map_nil, c4, bind, Except.bind]
  rw [ParserByteCode.finalizeLoop_other _ _ _ _ _ (by decide)]
  rfl

/-- The compilation of a valid expression succeeds when its translation does. -/
theorem Expr.finish_ok {env : CallEnv} {mem : Mem} {e : Expr} {m : Expr.Mode}
    {ctx : Option token_type} (hv : Expr.Valid m ctx e = true) (hp : Expr.PlusOK env e)
    {bc0 bc' : ParserByteCode} {sb' : List String} {ts : List token_type}
    (hlt : (e.toks.length : Int) < 2 ^ 64)
    (he : Expr.emit env mem e (bc0.clear, []) = .ok ((bc', sb'), ts)) :
    ∃ b' h, Code true (Expr.numItems m e) h b' ∧ (h : Int) ≤ bc'.m_iMaxStackSize ∧
      b'.map SToken.eraseOffset = bc'.m_vRPN.map SToken.eraseOffset ∧
      Expr.finish ((bc', sb'), ts) =
        .ok { m_vRPN := { bc' with m_vRPN := b' ++ [{ Cmd := .cmEND }] }, m_vStringBuf := sb',
              m_nFinalResultIdx := ts.length,
              stackBufferSize := (bc'.m_iMaxStackSize + 1) * s_MaxNumOpenMPThreads } := by
  have hem := Expr.emit_code e m ctx _ _ _ _ _ hv hp he (le_refl _)
    (by simp [ParserByteCode.clear]) (by simpa [ParserByteCode.clear] using hlt)
  obtain ⟨b, h, a1, a2, a3, a4, a5, a6, a7, a8⟩ := hem
  simp only [ParserByteCode.clear, List.nil_append, zero_add] at a1 a3
  rw [← a1] at a2
  obtain ⟨b', c1, c2, c3, c4⟩ := ParserByteCode.Finalize_code a2
  refine ⟨b', h, c1, a3, c3, ?_⟩
  simp only [Expr.finish, c4, Result.bind_ok]

theorem vmSteps_append (env : CallEnv) (strBuf : List String) (nOffset nThreadID : Nat)
    (a b : List SToken) : ∀ (skip : Nat) (s : VMState),
    vmSteps env strBuf nOffset nThreadID (a ++ b) skip s =
      Except.bind (vmSteps env strBuf nOffset nThreadID a skip s)
        (fun r => vmSteps env strBuf nOffset nThreadID b r.2 r.1) := by
  induction a with
  | nil => intro skip s; rfl
  | cons t a ih =>
    intro skip s
    cases skip with
    | succ skip => simp only [List.cons_append, vmSteps]; exact ih skip s
    | zero =>
      simp only [List.cons_append, vmSteps]
      cases exec env strBuf nOffset nThreadID t s with
      | error e => rfl
      | ok r => exact ih r.2 r.1

theorem vmLoop_append (env : CallEnv) (strBuf : List String) (nOffset nThreadID : Nat)
    (a rest : List SToken) (ha : ∀ t ∈ a, t.Cmd ≠ .cmEND) : ∀ (skip : Nat) (s : VMState),
    vmLoop env strBuf nOffset nThreadID (a ++ rest) skip s =
      Except.bind (vmSteps env strBuf nOffset nThreadID a skip s)
        (fun r => vmLoop env strBuf nOffset nThreadID rest r.2 r.1) := by
  induction a with
  | nil => intro skip s; rfl
  | cons t a ih =>
    intro skip s
    have ha' : ∀ t ∈ a, t.Cmd ≠ .cmEND := fun x hx => ha x (List.mem_cons_of_mem _ hx)
    cases skip with
    | succ skip => simp only [List.cons_append, vmSteps, vmLoop]; exact ih ha' skip s
    | zero =>
      simp only [List.cons_append, vmSteps, vmLoop, ha t (List.mem_cons_self _ _), if_false]
      cases exec env strBuf nOffset nThreadID t s with
      | error e => rfl
      | ok r => exact ih ha' r.2 r.1

theorem traceSteps_append (env : CallEnv) (strBuf : List String) (nOffset nThreadID : Nat)
    (a b : List SToken) : ∀ (pc skip : Nat) (s : VMState),
    traceSteps env strBuf nOffset nThreadID (a ++ b) pc skip s =
      traceSteps env strBuf nOffset nThreadID a pc skip s ++
        match vmSteps env strBuf nOffset nThreadID a skip s with
        | .ok r => traceSteps env strBuf nOffset nThreadID b (pc + a.length) r.2 r.1
        | .error _ => [] := by
  induction a with
  | nil => intro pc skip s; rfl
  | cons t a ih =>
    intro pc skip s
    cases skip with
    | succ skip =>
      simp only [List.cons_append, vmSteps, traceSteps, List.length_cons]
      have e := ih (pc + 1) skip s
      rw [show pc + 1 + a.length = pc + (a.length + 1) by omega] at e
      exact e
    | zero =>
      simp only [List.cons_append, vmSteps, traceSteps, List.length_cons]
      cases exec env strBuf nOffset nThreadID t s with
      | error e => rfl
      | ok r =>
        have e := ih (pc + 1) r.2 r.1
        rw [show pc + 1 + a.length = pc + (a.length + 1) by omega] at e
        exact congrArg _ e

theorem vmTrace_append (env : CallEnv) (strBuf : List String) (nOffset nThreadID : Nat)
    (a rest : List SToken) (ha : ∀ t ∈ a, t.Cmd ≠ .cmEND) : ∀ (pc skip : Nat) (s : VMState),
    vmTrace env strBuf nOffset nThreadID (a ++ rest) pc skip s =
      (traceSteps env strBuf nOffset nThreadID a pc skip s).map (fun x => (x.1, x.2.2)) ++
        match vmSteps env strBuf nOffset nThreadID a skip s with
        | .ok r => vmTrace env strBuf nOffset nThreadID rest (pc + a.length) r.2 r.1
        | .error _ => [] := by
  induction a with
  | nil => intro pc skip s; rfl
  | cons t a ih =>
    intro pc skip s
    have ha' : ∀ t ∈ a, t.Cmd ≠ .cmEND := fun x hx => ha x (List.mem_cons_of_mem _ hx)
    cases skip with
    | succ skip =>
      simp only [List.cons_append, vmSteps, traceSteps, vmTrace, List.length_cons]
      have e := ih ha' (pc + 1) skip s
      rw [show pc + 1 + a.length = pc + (a.length + 1) by omega] at e
      exact e
    | zero =>
      simp only [List.cons_append, vmSteps, traceSteps, vmTrace, List.length_cons,
        ha t (List.mem_cons_self _ _), if_false]
      cases exec env strBuf nOffset nThreadID t s with
      | error e => rfl
      | ok r =>
        have e := ih ha' (pc + 1) r.2 r.1
        rw [show pc + 1 + a.length = pc + (a.length + 1) by omega] at e
        simp only [List.map_cons, List.cons_append]
        exact congrArg _ e

theorem vmSteps_skip (env : CallEnv) (strBuf : List String) (nOffset nThreadID : Nat)
    (a : List SToken) : ∀ (j : Nat) (s : VMState),
    vmSteps env strBuf nOffset nThreadID a (a.length + j) s = .ok (s, j) := by
  induction a with
  | nil => intro j s; simp [vmSteps]
  | cons t a ih =>
    intro j s
    have : (t :: a).length + j = (a.length + j) + 1 := by simp only [List.length_cons]; omega
    rw [this, vmSteps]
    exact ih j s

theorem traceSteps_skip (env : CallEnv) (strBuf : List String) (nOffset nThreadID : Nat)
    (a : List SToken) : ∀ (pc j : Nat) (s : VMState),
    traceSteps env strBuf nOffset nThreadID a pc (a.length + j) s = [] := by
  induction a with
  | nil => intro pc j s; rfl
  | cons t a ih =>
    intro pc j s
    have : (t :: a).length + j = (a.length + j) + 1 := by simp only [List.length_cons]; omega
    rw [this, traceSteps]
    exact ih (pc + 1) j s

theorem traceSteps_mem (env : CallEnv) (strBuf : List String) (nOffset nThreadID : Nat)
    (a : List SToken) : ∀ (pc skip : Nat) (s : VMState),
    ∀ x ∈ traceSteps env strBuf nOffset nThreadID a pc skip s,
      pc + skip ≤ x.1 ∧ x.1 < pc + a.length ∧ a[x.1 - pc]? = some x.2.1 := by
  induction a with
  | nil => intro pc skip s x hx; cases hx
  | cons t a ih =>
    intro pc skip s x hx
    cases skip with
    | succ skip =>
      rw [traceSteps] at hx
      have := ih (pc + 1) skip s x hx
      refine ⟨by omega, by simp only [List.length_cons]; omega, ?_⟩
      have h1 : x.1 - pc = (x.1 - (pc + 1)) + 1 := by omega
      rw [h1, List.getElem?_cons_succ]; exact this.2.2
    | zero =>
      rw [traceSteps] at hx
      have hhead : (pc, t, s).1 = pc ∧ True := ⟨rfl, trivial⟩
      cases he : exec env strBuf nOffset nThreadID t s with
      | error e =>
        rw [he] at hx
        simp only [List.mem_singleton] at hx
        subst hx
        exact ⟨by simp, by simp, by simp⟩
      | ok r =>
        rw [he] at hx
        simp only [List.mem_cons] at hx
        rcases hx with hx | hx
        · subst hx
          exact ⟨by simp, by simp, by simp⟩
        · have := ih (pc + 1) r.2 r.1 x hx
          refine ⟨by omega, by simp only [List.length_cons]; omega, ?_⟩
          have h1 : x.1 - pc = (x.1 - (pc + 1)) + 1 := by omega
          rw [h1, List.getElem?_cons_succ]; exact this.2.2

theorem Code.no_end {fin : Bool} {k h : Nat} {b : List SToken} (hc : Code fin k h b) :
    ∀ t ∈ b, t.Cmd ≠ .cmEND := by
  induction hc with
  | nil h => intro t ht; cases ht
  | push t _ hv _ ih =>
    intro x hx
    rcases List.mem_append.mp hx with h | h
    · exact ih x h
    · rw [List.mem_singleton.mp h]; intro h0; rw [h0] at hv; cases hv
  | binop t _ hv ih =>
    intro x hx
    rcases List.mem_append.mp hx with h | h
    · exact ih x h
    · rw [List.mem_singleton.mp h]; intro h0; rw [h0] at hv; cases hv
  | func t n _ e1 _ _ ih =>
    intro x hx
    rcases List.mem_append.mp hx with h | h
    · exact ih x h
    · rw [List.mem_singleton.mp h, e1]; decide
  | bulk t n _ e1 _ _ ih =>
    intro x hx
    rcases List.mem_append.mp hx with h | h
    · exact ih x h
    · rw [List.mem_singleton.mp h, e1]; decide
  | strfun t n _ e1 _ _ ih =>
    intro x hx
    rcases List.mem_append.mp hx with h | h
    · exact ih x h
    · rw [List.mem_singleton.mp h, e1]; decide
  | cond tIf tElse tEnd _ _ _ _ _ e1 e2 e3 _ ih1 ih2 ih3 =>
    intro x hx
    simp only [List.mem_append, List.mem_cons, List.mem_singleton, List.not_mem_nil,
      or_false] at hx
    rcases hx with h | h | h | h | h | h
    · exact ih1 x h
    · rw [h, e1]; decide
    · exact ih2 x h
    · rw [h, e2]; decide
    · exact ih3 x h
    · rw [h, e3]; decide

theorem vmSteps_single (env : CallEnv) (strBuf : List String) (nOffset nThreadID : Nat)
    (t : SToken) (s : VMState) :
    vmSteps env strBuf nOffset nThreadID [t] 0 s = exec env strBuf nOffset nThreadID t s := by
  rw [vmSteps]
  cases exec env strBuf nOffset nThreadID t s with
  | error e => rfl
  | ok r => rfl

theorem traceSteps_single (env : CallEnv) (strBuf : List String) (nOffset nThreadID : Nat)
    (t : SToken) (pc : Nat) (s : VMState) :
    traceSteps env strBuf nOffset nThreadID [t] pc 0 s = [(pc, t, s)] := by
  rw [traceSteps]
  cases exec env strBuf nOffset nThreadID t s with
  | error e => rfl
  | ok r => rfl

theorem exec_pops {env : CallEnv} {strBuf : List String} {nOffset nThreadID : Nat}
    {t : SToken} {n : Nat} (hp : Pops t n) (s : VMState) (r : VMState × Nat)
    (he : exec env strBuf nOffset nThreadID t s = .ok r) :
    r.1.sidx = s.sidx - n + 1 ∧ r.2 = 0 ∧ ∀ i, i ≤ s.sidx - n → r.1.stack i = s.stack i := by
  rcases hp with ⟨hv, hn⟩ | ⟨hv, hn⟩ | ⟨hv, hn⟩ | ⟨hv, hn⟩ | ⟨hv, hn⟩
  · subst hn
    cases hc : t.Cmd <;> rw [hc] at hv <;> cases hv <;>
      simp only [exec, hc, Except.ok.injEq] at he <;> subst he <;>
      exact ⟨by simp, rfl, fun i hi => Function.update_noteq (by omega) _ _⟩
  · subst hn
    cases hc : t.Cmd <;> rw [hc] at hv <;> cases hv <;>
      simp only [exec, hc, binaryOp, Except.ok.injEq] at he <;> subst he <;>
      exact ⟨by simp only [Nat.cast_ofNat]; omega, rfl,
        fun i hi => Function.update_noteq (by simp only [Nat.cast_ofNat] at hi; omega) _ _⟩
  · simp only [exec, hv] at he
    rcases hn with hn | ⟨hn, h1⟩
    · rw [hn] at he
      split at he
      · simp only [Except.ok.injEq] at he; subst he
        exact ⟨by simp only; omega, rfl, fun i hi => Function.update_noteq (by omega) _ _⟩
      · split at he
        · cases he
        · rename_i h2 h3; exfalso; omega
    · rw [hn] at he
      split at he
      · rename_i h2; exfalso; omega
      · split at he
        · cases he
        · split at he
          · cases he
          · simp only [Except.ok.injEq] at he; subst he
            exact ⟨by simp only; omega, rfl, fun i hi => Function.update_noteq (by omega) _ _⟩
  · simp only [exec, hv, hn] at he
    split at he
    · simp only [Except.ok.injEq] at he; subst he
      exact ⟨by simp only; omega, rfl, fun i hi => Function.update_noteq (by omega) _ _⟩
    · cases he
  · simp only [exec, hv, hn] at he
    split at he
    · cases he
    · split at he
      · simp only [Except.ok.injEq] at he; subst he
        exact ⟨by simp only; omega, rfl, fun i hi => Function.update_noteq (by omega) _ _⟩
      · simp only [Except.ok.injEq] at he; subst he
        exact ⟨by simp only; omega, rfl, fun i hi => rfl⟩

theorem slots_pops {t : SToken} {n : Nat} (hp : Pops t n) (sidx : Int) :
    ∀ i ∈ slotsTouched t sidx, sidx - n + 1 ≤ i ∧ (i ≤ sidx ∨ i = sidx - n + 1) := by
  have key : ∀ (a : Int) (m : Nat) (i : Int),
      i ∈ (sidx - (a - 1)) :: (List.range m).map (fun (j : Nat) => sidx - (a - 1) + (j : Int)) →
      a = m → sidx - a + 1 ≤ i ∧ (i ≤ sidx ∨ i = sidx - a + 1) := by
    intro a m i hi ha
    rcases List.mem_cons.mp hi with hi | hi
    · subst hi; exact ⟨by omega, Or.inr (by omega)⟩
    · obtain ⟨j, hj, hi⟩ := List.mem_map.mp hi
      have hj' := List.mem_range.mp hj
      subst hi; subst ha
      exact ⟨by omega, Or.inl (by omega)⟩
  intro i hi
  rcases hp with ⟨hv, hn⟩ | ⟨hv, hn⟩ | ⟨hv, hn⟩ | ⟨hv, hn⟩ | ⟨hv, hn⟩
  · subst hn
    cases hc : t.Cmd <;> rw [hc] at hv <;> cases hv <;>
      simp only [slotsTouched, hc, List.mem_singleton] at hi <;> subst hi <;>
      exact ⟨by simp, Or.inr (by simp)⟩
  · subst hn
    cases hc : t.Cmd <;> rw [hc] at hv <;> cases hv <;>
      simp only [slotsTouched, hc, List.mem_cons, List.mem_singleton, List.not_mem_nil,
        or_false] at hi <;>
      rcases hi with hi | hi <;> subst hi <;>
      exact ⟨by simp only [Nat.cast_ofNat]; omega, Or.inl (by omega)⟩
  · simp only [slotsTouched, hv] at hi
    rcases hn with hn | ⟨hn, h1⟩
    · split at hi
      · have := key t.argc t.argc.toNat i hi (by omega)
        rw [hn] at this; exact this
      · split at hi
        · cases hi
        · rename_i h2 h3; exfalso; omega
    · split at hi
      · rename_i h2; exfalso; omega
      · split at hi
        · cases hi
        · split at hi
          · cases hi
          · have := key (-t.argc) (-t.argc).toNat i hi (by omega)
            rw [hn] at this; simp only [neg_neg] at this; exact this
  · simp only [slotsTouched, hv] at hi
    split at hi
    · have := key t.argc t.argc.toNat i hi (by omega)
      rw [hn] at this; exact this
    · cases hi
  · simp only [slotsTouched, hv] at hi
    split at hi
    · have := key t.argc t.argc.toNat i hi (by omega)
      rw [hn] at this; exact this
    · cases hi

theorem vmSteps_endif (env : CallEnv) (strBuf : List String) (nOffset nThreadID : Nat)
    {tEnd : SToken} (h3 : tEnd.Cmd = .cmENDIF) (s : VMState) :
    vmSteps env strBuf nOffset nThreadID [tEnd] 0 s = .ok (s, 0) := by
  rw [vmSteps_single]; simp only [exec, h3]

theorem vmSteps_else (env : CallEnv) (strBuf : List String) (nOffset nThreadID : Nat)
    {tElse tEnd : SToken} {be : List SToken} (h2 : tElse.Cmd = .cmELSE)
    (ho : tElse.offset = be.length + 1) (s : VMState) :
    vmSteps env strBuf nOffset nThreadID (tElse :: (be ++ [tEnd])) 0 s = .ok (s, 0) := by
  rw [vmSteps]
  simp only [exec, h2, ho]
  rw [vmSteps_append, vmSteps_skip]
  rfl

theorem traceSteps_else (env : CallEnv) (strBuf : List String) (nOffset nThreadID : Nat)
    {tElse tEnd : SToken} {be : List SToken} (h2 : tElse.Cmd = .cmELSE)
    (ho : tElse.offset = be.length + 1) (pc : Nat) (s : VMState) :
    traceSteps env strBuf nOffset nThreadID (tElse :: (be ++ [tEnd])) pc 0 s =
      [(pc, tElse, s)] := by
  rw [traceSteps]
  simp only [exec, h2, ho]
  rw [traceSteps_append, traceSteps_skip, vmSteps_skip]
  rfl

theorem vmSteps_if (env : CallEnv) (strBuf : List String) (nOffset nThreadID : Nat)
    {tIf tElse tEnd : SToken} {bt be : List SToken} (h1 : tIf.Cmd = .cmIF)
    (o1 : tIf.offset = bt.length + 1) (s : VMState) :
    vmSteps env strBuf nOffset nThreadID (tIf :: (bt ++ tElse :: (be ++ [tEnd]))) 0 s =
      if s.stack s.sidx = 0 then
        if s.sidx - 1 ≥ 0 then
          Except.bind (vmSteps env strBuf nOffset nThreadID be 0 s.pop)
            (fun r => vmSteps env strBuf nOffset nThreadID [tEnd] r.2 r.1)
        else Error .ecINTERNAL_ERROR
      else
        Except.bind (vmSteps env strBuf nOffset nThreadID bt 0 s.pop)
          (fun r => vmSteps env strBuf nOffset nThreadID (tElse :: (be ++ [tEnd])) r.2 r.1) := by
  rw [vmSteps]
  simp only [exec, h1, o1]
  by_cases hz : s.stack s.sidx = 0
  · simp only [hz, if_true]
    by_cases hs : s.sidx - 1 ≥ 0
    · simp only [hs, if_true]
      rw [vmSteps_append, vmSteps_skip]
      show vmSteps env strBuf nOffset nThreadID (tElse :: (be ++ [tEnd])) 1 _ = _
      rw [vmSteps, vmSteps_append]
      rfl
    · simp only [hs, if_false]; rfl
  · simp only [hz, if_false]
    rw [vmSteps_append]
    rfl

theorem traceSteps_if (env : CallEnv) (strBuf : List String) (nOffset nThreadID : Nat)
    {tIf tElse tEnd : SToken} {bt be : List SToken} (h1 : tIf.Cmd = .cmIF)
    (o1 : tIf.offset = bt.length + 1) (pc : Nat) (s : VMState) :
    traceSteps env strBuf nOffset nThreadID (tIf :: (bt ++ tElse :: (be ++ [tEnd]))) pc 0 s =
      (pc, tIf, s) ::
        if s.stack s.sidx = 0 then
          if s.sidx - 1 ≥ 0 then
            traceSteps env strBuf nOffset nThreadID be (pc + 1 + bt.length + 1) 0 s.pop ++
              match vmSteps env strBuf nOffset nThreadID be 0 s.pop with
              | .ok r => traceSteps env strBuf nOffset nThreadID [tEnd]
                  (pc + 1 + bt.length + 1 + be.length) r.2 r.1
              | .error _ => []
          else []
        else
          traceSteps env strBuf nOffset nThreadID bt (pc + 1) 0 s.pop ++
            match vmSteps env strBuf nOffset nThreadID bt 0 s.pop with
            | .ok r => traceSteps env strBuf nOffset nThreadID (tElse :: (be ++ [tEnd]))
                (pc + 1 + bt.length) r.2 r.1
            | .error _ => [] := by
  rw [traceSteps]
  simp only [exec, h1, o1]
  by_cases hz : s.stack s.sidx = 0
  · simp only [hz, if_true]
    by_cases hs : s.sidx - 1 ≥ 0
    · simp only [hs, if_true]
      rw [traceSteps_append, traceSteps_skip, vmSteps_skip]
      show _ :: traceSteps env strBuf nOffset nThreadID (tElse :: (be ++ [tEnd])) _ 1 _ = _
      rw [traceSteps, traceSteps_append]
      rfl
    · simp only [hs, if_false]; rfl
  · simp only [hz, if_false]
    rw [traceSteps_append]
    rfl

theorem RunsIn.snoc {env : CallEnv} {strBuf : List String} {nOffset nThreadID : Nat}
    {k h n : Nat} {bs : List SToken} {t : SToken}
    (ih : RunsIn env strBuf nOffset nThreadID (k + n) h bs) (hp : Pops t n)
    (hk : k + 1 ≤ h) (hn : k + n ≤ h) :
    RunsIn env strBuf nOffset nThreadID (k + 1) h (bs ++ [t]) := by
  intro pc s
  obtain ⟨ih1, ih2⟩ := ih pc s
  constructor
  · intro x hx
    rw [traceSteps_append] at hx
    rcases List.mem_append.mp hx with hx | hx
    · exact ih1 x hx
    · cases hr : vmSteps env strBuf nOffset nThreadID bs 0 s with
      | error e => rw [hr] at hx; cases hx
      | ok r =>
        rw [hr] at hx
        obtain ⟨e1, e2, _⟩ := ih2 r hr
        simp only [e2, traceSteps_single, List.mem_singleton] at hx
        subst hx
        simp only [e1]
        refine ⟨by omega, by push_cast; omega, ?_⟩
        intro i hi
        have := slots_pops hp _ i hi
        push_cast at this ⊢
        omega
  · intro r hr
    rw [vmSteps_append] at hr
    obtain ⟨r1, hr1, hr2⟩ := Result.bind_eq_ok hr
    obtain ⟨e1, e2, e3⟩ := ih2 r1 hr1
    rw [e2, vmSteps_single] at hr2
    obtain ⟨f1, f2, f3⟩ := exec_pops hp _ _ hr2
    refine ⟨by rw [f1, e1]; push_cast; omega, f2, ?_⟩
    intro i hi
    rw [f3 i (by rw [e1]; push_cast; omega), e3 i hi]

theorem slots_if {t : SToken} (h : t.Cmd = .cmIF) (sidx : Int) :
    slotsTouched t sidx = [sidx] := by
  simp only [slotsTouched, h]

theorem slots_else {t : SToken} (h : t.Cmd = .cmELSE ∨ t.Cmd = .cmENDIF) (sidx : Int) :
    slotsTouched t sidx = [] := by
  rcases h with h | h <;> simp only [slotsTouched, h]

theorem RunsIn.ofCond {env : CallEnv} {strBuf : List String} {nOffset nThreadID : Nat}
    {k h ht he : Nat} {bs bt be : List SToken} {tIf tElse tEnd : SToken}
    (ihc : RunsIn env strBuf nOffset nThreadID (k + 1) h bs)
    (iht : RunsIn env strBuf nOffset nThreadID 1 ht bt)
    (ihe : RunsIn env strBuf nOffset nThreadID 1 he be)
    (hk : k + 1 ≤ h) (h1 : k + ht ≤ h) (h2 : k + he ≤ h)
    (c1 : tIf.Cmd = .cmIF) (c2 : tElse.Cmd = .cmELSE) (c3 : tEnd.Cmd = .cmENDIF)
    (o1 : tIf.offset = bt.length + 1) (o2 : tElse.offset = be.length + 1) :
    RunsIn env strBuf nOffset nThreadID (k + 1) h
      (bs ++ tIf :: (bt ++ tElse :: (be ++ [tEnd]))) := by
  intro pc s
  obtain ⟨ih1, ih2⟩ := ihc pc s
  constructor
  · intro x hx
    rw [traceSteps_append] at hx
    rcases List.mem_append.mp hx with hx | hx
    · exact ih1 x hx
    · cases hr : vmSteps env strBuf nOffset nThreadID bs 0 s with
      | error e => rw [hr] at hx; cases hx
      | ok r =>
        rw [hr] at hx
        obtain ⟨e1, e2, _⟩ := ih2 r hr
        simp only [e2] at hx
        rw [traceSteps_if env strBuf nOffset nThreadID c1 o1] at hx
        rcases List.mem_cons.mp hx with hx | hx
        · subst hx
          simp only [e1, slots_if c1, List.mem_singleton]
          refine ⟨by omega, by push_cast; omega, ?_⟩
          intro i hi; subst hi; push_cast; omega
        · have hpop : r.1.pop.sidx = s.sidx + k := by
            simp only [VMState.pop, e1]; push_cast; omega
          split at hx
          · split at hx
            · obtain ⟨j1, j2⟩ := ihe (pc + bs.length + 1 + bt.length + 1) r.1.pop
              rcases List.mem_append.mp hx with hx | hx
              · obtain ⟨a1, a2, a3⟩ := j1 x hx
                rw [hpop] at a1 a2 a3
                refine ⟨by omega, by omega, ?_⟩
                intro i hi
                have := a3 i hi
                omega
              · cases hr2 : vmSteps env strBuf nOffset nThreadID be 0 r.1.pop with
                | error e => rw [hr2] at hx; cases hx
                | ok r2 =>
                  rw [hr2] at hx
                  obtain ⟨g1, g2, _⟩ := j2 r2 hr2
                  simp only [g2, traceSteps_single, List.mem_singleton] at hx
                  subst hx
                  simp only [g1, hpop, slots_else (Or.inr c3)]
                  refine ⟨by omega, by push_cast; omega, ?_⟩
                  intro i hi; cases hi
            · cases hx
          · obtain ⟨j1, j2⟩ := iht (pc + bs.length + 1) r.1.pop
            rcases List.mem_append.mp hx with hx | hx
            · obtain ⟨a1, a2, a3⟩ := j1 x hx
              rw [hpop] at a1 a2 a3
              refine ⟨by omega, by omega, ?_⟩
              intro i hi
              have := a3 i hi
              omega
            · cases hr2 : vmSteps env strBuf nOffset nThreadID bt 0 r.1.pop with
              | error e => rw [hr2] at hx; cases hx
              | ok r2 =>
                rw [hr2] at hx
                obtain ⟨g1, g2, _⟩ := j2 r2 hr2
                simp only [g2, traceSteps_else env strBuf nOffset nThreadID c2 o2,
                  List.mem_singleton] at hx
                subst hx
                simp only [g1, hpop, slots_else (Or.inl c2)]
                refine ⟨by omega, by push_cast; omega, ?_⟩
                intro i hi; cases hi
  · intro r hr
    rw [vmSteps_append] at hr
    obtain ⟨r1, hr1, hr2⟩ := Result.bind_eq_ok hr
    obtain ⟨e1, e2, e3⟩ := ih2 r1 hr1
    rw [e2, vmSteps_if env strBuf nOffset nThreadID c1 o1] at hr2
    have hpop : r1.1.pop.sidx = s.sidx + k := by
      simp only [VMState.pop, e1]; push_cast; omega
    split at hr2
    · split at hr2
      · obtain ⟨r2, hr3, hr4⟩ := Result.bind_eq_ok hr2
        obtain ⟨g1, g2, g3⟩ := (ihe 0 r1.1.pop).2 r2 hr3
        rw [g2, vmSteps_endif env strBuf nOffset nThreadID c3] at hr4
        simp only [Except.ok.injEq] at hr4
        subst hr4
        refine ⟨by rw [g1, hpop]; push_cast; omega, rfl, ?_⟩
        intro i hi
        rw [g3 i (by rw [hpop]; omega)]
        exact e3 i hi
      · cases hr2
    · obtain ⟨r2, hr3, hr4⟩ := Result.bind_eq_ok hr2
      obtain ⟨g1, g2, g3⟩ := (iht 0 r1.1.pop).2 r2 hr3
      rw [g2, vmSteps_else env strBuf nOffset nThreadID c2 o2] at hr4
      simp only [Except.ok.injEq] at hr4
      subst hr4
      refine ⟨by rw [g1, hpop]; push_cast; omega, rfl, ?_⟩
      intro i hi
      rw [g3 i (by rw [hpop]; omega)]
      exact e3 i hi

/-- Finalised bytecode of stack type `(k, h)` runs within `h` slots above the stack index it
is started with and leaves `k` values. -/
theorem Code.run (env : CallEnv) (strBuf : List String) (nOffset nThreadID : Nat)
    {k h : Nat} {b : List SToken} (hc : Code true k h b) :
    RunsIn env strBuf nOffset nThreadID k h b := by
  induction hc with
  | nil h =>
    intro pc s
    refine ⟨fun x hx => (by cases hx), fun r hr => ?_⟩
    simp only [vmSteps, Except.ok.injEq] at hr
    subst hr
    exact ⟨by simp, rfl, fun i _ => rfl⟩
  | push t hb hv hk ih =>
    exact RunsIn.snoc (n := 0) ih (Or.inl ⟨hv, rfl⟩) hk (by omega)
  | binop t hb hv ih =>
    have := hb.le
    exact RunsIn.snoc (n := 2) ih (Or.inr (Or.inl ⟨hv, rfl⟩)) (by omega) (by omega)
  | func t n hb e1 e2 hk ih =>
    exact RunsIn.snoc ih (Or.inr (Or.inr (Or.inl ⟨e1, e2⟩))) hk hb.le
  | bulk t n hb e1 e2 hk ih =>
    exact RunsIn.snoc ih (Or.inr (Or.inr (Or.inr (Or.inl ⟨e1, e2⟩)))) hk hb.le
  | strfun t n hb e1 e2 hk ih =>
    exact RunsIn.snoc ih (Or.inr (Or.inr (Or.inr (Or.inr ⟨e1, e2⟩)))) hk hb.le
  | cond tIf tElse tEnd hb ht he h1 h2 c1 c2 c3 ho ih1 ih2 ih3 =>
    exact RunsIn.ofCond ih1 ih2 ih3 hb.le h1 h2 c1 c2 c3 (ho rfl).1 (ho rfl).2

theorem vmLoop_end (env : CallEnv) (strBuf : List String) (nOffset nThreadID : Nat)
    (tEnd : SToken) (h : tEnd.Cmd = .cmEND) (s : VMState) :
    vmLoop env strBuf nOffset nThreadID [tEnd] 0 s = .ok s := by
  simp only [vmLoop, h, if_true]

/-- What `CreateRPN` returns for a valid expression: finalised bytecode of stack type
`(items, h)` with `h` at most the recorded maximum, followed by the end entry. -/
theorem Expr.compiled_code {env : CallEnv} {mem : Mem} {bc0 : ParserByteCode} {formula : String}
    {e : Expr} {m : Expr.Mode} {c : Compiled}
    (hv : Expr.Valid m none e = true) (hm : m ≠ .strArgs) (hp : Expr.PlusOK env e)
    (hlen : (e.toks.length : Int) < 2 ^ 64)
    (hc : CreateRPN env mem bc0 { m_strFormula := formula, m_tokens := e.toks } = .ok c) :
    ∃ b h, Code true e.items h b ∧ h ≤ c.m_vRPN.m_iMaxStackSize ∧
      c.m_vRPN.m_vRPN = b ++ [{ Cmd := .cmEND }] ∧ c.m_nFinalResultIdx = e.items ∧
      c.stackBufferSize = c.m_vRPN.GetMaxStackSize * s_MaxNumOpenMPThreads := by
  have hf : formula.length ≠ 0 := by
    intro h0
    simp only [CreateRPN, h0, if_true] at hc
    cases hc
  rw [Expr.CreateRPN_eq hv hm bc0 formula hf] at hc
  obtain ⟨⟨⟨bc', sb'⟩, ts⟩, he, hfin⟩ := Result.bind_eq_ok hc
  obtain ⟨b', h, c1, c2, _, c4⟩ := Expr.finish_ok hv hp hlen he
  rw [c4] at hfin
  simp only [Except.ok.injEq] at hfin
  subst hfin
  have hts := (Expr.emit_toks e m none _ _ ts hv he).1
  have hn : Expr.numItems m e = e.items := by
    cases m
    · rfl
    · rfl
    · exact absurd rfl hm
  rw [hn] at c1
  exact ⟨b', h, c1, by exact_mod_cast c2, rfl, by simp only [hts], rfl⟩

theorem CreateRPN_no_text (env : CallEnv) (mem : Mem) (bc0 : ParserByteCode)
    (rd : token_reader_type) (h : rd.m_strFormula.length = 0) :
    CreateRPN env mem bc0 rd = Error .ecUNEXPECTED_EOF := by
  simp only [CreateRPN, h, if_true]

theorem CreateRPN_no_token (env : CallEnv) (mem : Mem) (bc0 : ParserByteCode)
    (rd : token_reader_type) (h : rd.m_strFormula.length ≠ 0) (ht : rd.m_tokens = []) :
    CreateRPN env mem bc0 rd = Error .ecEMPTY_EXPRESSION := by
  simp only [CreateRPN, h, if_false, ht]
  rfl

theorem ParserBase.Eval_of_CreateRPN_error (env : CallEnv) (mem : Mem) (p : ParserBase)
    (hm : p.m_pParseFormula = .ParseString) (e : Abort)
    (h : mu.CreateRPN env mem p.m_vRPN p.m_pTokenReader = .error e) :
    p.Eval env mem = .error e := by
  simp only [ParserBase.Eval, hm, ParserBase.ParseString, ParserBase.CreateRPN, h]

theorem ParserBase.SetExpr_ok {L : Limits} {a_sExpr : String} {toks : List token_type}
    {p p' : ParserBase} (h : p.SetExpr L a_sExpr toks = (.ok (), p')) :
    p' = ParserBase.ReInit
      { p with m_pTokenReader := p.m_pTokenReader.SetFormula (a_sExpr ++ " ") toks } := by
  unfold ParserBase.SetExpr at h
  split at h
  · cases h
  · split at h
    · cases h
    · cases h; rfl

/-- C11 (counterexample): evaluating a parser on which no expression text was set fails with the
unexpected-end-of-expression error, not with the empty-expression error. -/
theorem C11_counterexample :
    Result.value (Examples.parser0.Eval Examples.env Examples.mem) = Error .ecUNEXPECTED_EOF ∧
    Result.value (Examples.parser0.Eval Examples.env Examples.mem) ≠
      Error .ecEMPTY_EXPRESSION := by
  decide!

/-- C11 (amended): compiling or evaluating an expression text that yields no token before the
end of the input fails with the empty-expression error, in particular after every `SetExpr`
that succeeds with such a text; when no expression text was set (the text the reader keeps is
empty), compiling and evaluating fail with the unexpected-end-of-expression error. -/
theorem C11_empty_expression (env : CallEnv) (mem : Mem) (L : Limits) (p : ParserBase) :
    (p.GetExpr.length ≠ 0 → p.m_pTokenReader.m_tokens = [] →
      CreateRPN env mem p.m_vRPN p.m_pTokenReader = Error .ecEMPTY_EXPRESSION ∧
      (p.m_pParseFormula = .ParseString → p.Eval env mem = Error .ecEMPTY_EXPRESSION)) ∧
    (∀ (a_sExpr : String) (p' : ParserBase), p.SetExpr L a_sExpr [] = (.ok (), p') →
      p'.Eval env mem = Error .ecEMPTY_EXPRESSION) ∧
    (p.GetExpr.length = 0 →
      CreateRPN env mem p.m_vRPN p.m_pTokenReader = Error .ecUNEXPECTED_EOF ∧
      (p.m_pParseFormula = .ParseString → p.Eval env mem = Error .ecUNEXPECTED_EOF)) := by
  refine ⟨?_, ?_, ?_⟩
  · intro h ht
    have hc := CreateRPN_no_token env mem p.m_vRPN p.m_pTokenReader h ht
    exact ⟨hc, fun hm => ParserBase.Eval_of_CreateRPN_error env mem p hm _ hc⟩
  · intro a_sExpr p' h
    have hp := ParserBase.SetExpr_ok h
    subst hp
    refine ParserBase.Eval_of_CreateRPN_error env mem _ rfl _ ?_
    refine CreateRPN_no_token env mem _ _ ?_ rfl
    show (a_sExpr ++ " ").length ≠ 0
    rw [String.length_append]
    show a_sExpr.length + 1 ≠ 0
    omega
  · intro h
    have hc := CreateRPN_no_text env mem p.m_vRPN p.m_pTokenReader h
    exact ⟨hc, fun hm => ParserBase.Eval_of_CreateRPN_error env mem p hm _ hc⟩

/-- C11 (witness): the empty text is accepted by `SetExpr` and yields no token; evaluating it
fails with the empty-expression error. -/
theorem C11_empty_expression_witness :
    (Examples.parser0.SetExpr Examples.limits "" []).1 = .ok () ∧
    (Examples.parser0.SetExpr Examples.limits "" []).2.Eval Examples.env Examples.mem =
      Error .ecEMPTY_EXPRESSION :=
  ⟨by decide, (C11_empty_expression Examples.env Examples.mem Examples.limits
    Examples.parser0).2.1 "" _ rfl⟩

/-- C12 (counterexample): after `SetExpr("1")` the text `GetExpr` returns is `"1 "`. -/
theorem C12_counterexample :
    (Examples.parser0.SetExpr Examples.limits "1" [Examples.tokVal 1]).1 = .ok () ∧
    (Examples.parser0.SetExpr Examples.limits "1" [Examples.tokVal 1]).2.GetExpr = "1 " ∧
    (Examples.parser0.SetExpr Examples.limits "1" [Examples.tokVal 1]).2.GetExpr ≠ "1" := by
  decide

/-- C12 (amended): for every expression text `e` that `SetExpr` accepts, `GetExpr` called
afterwards returns `e` followed by one blank. -/
theorem C12_get_expr (L : Limits) (p p' : ParserBase) (a_sExpr : String)
    (toks : List token_type) (h : p.SetExpr L a_sExpr toks = (.ok (), p')) :
    p'.GetExpr = a_sExpr ++ " " := by
  rw [ParserBase.SetExpr_ok h]
  rfl

/-- C12 (witness): the text `"1"`. -/
theorem C12_get_expr_witness :
    (Examples.parser0.SetExpr Examples.limits "1" [Examples.tokVal 1]).2.GetExpr = "1 " :=
  C12_get_expr Examples.limits Examples.parser0 _ "1" [Examples.tokVal 1] rfl

theorem ParserBase.ReInit_invalidated (q : ParserBase) : (ParserBase.ReInit q).Invalidated :=
  ⟨rfl, rfl, rfl⟩

theorem ParserBase.Outcome.of_error {p : ParserBase} {r : ParserBase.Method Unit}
    (h : p.Outcome r) {e : Abort} (he : r.1 = .error e) : r.2 = p := by
  rcases h with ⟨_, _, h2⟩ | ⟨h1, _⟩
  · exact h2
  · rw [h1] at he; cases he

theorem ParserBase.Outcome.of_ok {p : ParserBase} {r : ParserBase.Method Unit}
    (h : p.Outcome r) (he : r.1 = .ok ()) : r.2.Invalidated := by
  rcases h with ⟨e, h1, _⟩ | ⟨_, q, h2⟩
  · rw [h1] at he; cases he
  · rw [h2]; exact ParserBase.ReInit_invalidated q

theorem ParserBase.AddCallback_outcome (a_strName : String) (a_Callback : ParserCallback)
    (a_Storage : FunMap) (a_szCharSet : String) (p : ParserBase) :
    p.Outcome (p.AddCallback a_strName a_Callback a_Storage a_szCharSet) := by
  unfold ParserBase.AddCallback
  split
  · exact Or.inl ⟨_, rfl, rfl⟩
  · split
    · exact Or.inl ⟨_, rfl, rfl⟩
    · split
      · exact Or.inl ⟨_, rfl, rfl⟩
      · split
        · exact Or.inl ⟨_, rfl, rfl⟩
        · split
          · exact Or.inl ⟨_, rfl, rfl⟩
          · split
            · exact Or.inl ⟨_, rfl, rfl⟩
            · exact Or.inr ⟨rfl, _, rfl⟩

theorem ParserBase.DefineFun_outcome (a_strName : String) (a_Callback : ParserCallback)
    (p : ParserBase) : p.Outcome (p.DefineFun a_strName a_Callback) := by
  unfold ParserBase.DefineFun
  split
  · exact Or.inl ⟨_, rfl, rfl⟩
  · exact ParserBase.AddCallback_outcome _ _ _ _ p

theorem ParserBase.DefinePostfixOprt_outcome (L : Limits) (a_sName : String)
    (a_pFun : generic_callable_type) (a_bAllowOpt : Bool) (p : ParserBase) :
    p.Outcome (p.DefinePostfixOprt L a_sName a_pFun a_bAllowOpt) := by
  unfold ParserBase.DefinePostfixOprt
  split
  · exact Or.inl ⟨_, rfl, rfl⟩
  · split
    · exact Or.inl ⟨_, rfl, rfl⟩
    · exact ParserBase.AddCallback_outcome _ _ _ _ p

theorem ParserBase.DefineInfixOprt_outcome (L : Limits) (a_sName : String)
    (a_pFun : generic_callable_type) (a_iPrec : Int) (a_bAllowOpt : Bool) (p : ParserBase) :
    p.Outcome (p.DefineInfixOprt L a_sName a_pFun a_iPrec a_bAllowOpt) := by
  unfold ParserBase.DefineInfixOprt
  split
  · exact Or.inl ⟨_, rfl, rfl⟩
  · split
    · exact Or.inl ⟨_, rfl, rfl⟩
    · exact ParserBase.AddCallback_outcome _ _ _ _ p

theorem ParserBase.DefineOprt_outcome (L : Limits) (a_sName : String)
    (a_pFun : generic_callable_type) (a_iPrec : Nat) (a_eAssociativity : EOprtAssociativity)
    (a_bAllowOpt : Bool) (p : ParserBase) :
    p.Outcome (p.DefineOprt L a_sName a_pFun a_iPrec a_eAssociativity a_bAllowOpt) := by
  unfold ParserBase.DefineOprt
  split
  · exact Or.inl ⟨_, rfl, rfl⟩
  · split
    · exact Or.inl ⟨_, rfl, rfl⟩
    · split
      · exact Or.inl ⟨_, rfl, rfl⟩
      · exact ParserBase.AddCallback_outcome _ _ _ _ p

theorem ParserBase.DefineStrConst_outcome (a_strName a_strVal : String) (p : ParserBase) :
    p.Outcome (p.DefineStrConst a_strName a_strVal) := by
  unfold ParserBase.DefineStrConst
  split
  · exact Or.inl ⟨_, rfl, rfl⟩
  · split
    · exact Or.inl ⟨_, rfl, rfl⟩
    · split
      · exact Or.inl ⟨_, rfl, rfl⟩
      · exact Or.inr ⟨rfl, _, rfl⟩

theorem ParserBase.DefineVar_outcome (L : Limits) (a_sName : String) (a_pVar : Nat)
    (p : ParserBase) : p.Outcome (p.DefineVar L a_sName a_pVar) := by
  unfold ParserBase.DefineVar
  split
  · exact Or.inl ⟨_, rfl, rfl⟩
  · split
    · exact Or.inl ⟨_, rfl, rfl⟩
    · split
      · exact Or.inl ⟨_, rfl, rfl⟩
      · split
        · exact Or.inl ⟨_, rfl, rfl⟩
        · split
          · exact Or.inl ⟨_, rfl, rfl⟩
          · exact Or.inr ⟨rfl, _, rfl⟩

theorem ParserBase.DefineConst_outcome (L : Limits) (a_sName : String) (a_fVal : value_type)
    (p : ParserBase) : p.Outcome (p.DefineConst L a_sName a_fVal) := by
  unfold ParserBase.DefineConst
  split
  · exact Or.inl ⟨_, rfl, rfl⟩
  · split
    · exact Or.inl ⟨_, rfl, rfl⟩
    · split
      · exact Or.inl ⟨_, rfl, rfl⟩
      · exact Or.inr ⟨rfl, _, rfl⟩

theorem ParserBase.SetExpr_outcome (L : Limits) (a_sExpr : String) (toks : List token_type)
    (p : ParserBase) : p.Outcome (p.SetExpr L a_sExpr toks) := by
  unfold ParserBase.SetExpr
  split
  · exact Or.inl ⟨_, rfl, rfl⟩
  · split
    · exact Or.inl ⟨_, rfl, rfl⟩
    · exact Or.inr ⟨rfl, _, rfl⟩

theorem ParserBase.DefineVar_ok {L : Limits} {a_sName : String} {a_pVar : Nat}
    {p p' : ParserBase} (h : p.DefineVar L a_sName a_pVar = (.ok (), p')) :
    p' = ParserBase.ReInit
      { p with m_VarDef := Function.update p.m_VarDef a_sName (some a_pVar) } := by
  unfold ParserBase.DefineVar at h
  split at h
  · cases h
  · split at h
    · cases h
    · split at h
      · cases h
      · split at h
        · cases h
        · split at h
          · cases h
          · cases h; rfl

/-- C13 (counterexample): `x` is bound to address 1; after `DefineVar("x", 2)`, which is
accepted, and `RemoveVar("x")` the variable table has no entry for `x`. -/
theorem C13_counterexample :
    Examples.parserX.m_VarDef "x" = some 1 ∧
    (Examples.parserX.DefineVar Examples.limits "x" 2).1 = .ok () ∧
    ((Examples.parserX.DefineVar Examples.limits "x" 2).2.RemoveVar "x").m_VarDef "x" = none := by
  decide

/-- C13 (amended): for every parser state and every name that is not bound in the variable
table, if `DefineVar(name, p)` is accepted then `RemoveVar(name)` after it leaves the variable
table, all other symbol tables and the pool of string constants as they were before the two
calls; the parser is then the one `ReInit` leaves when called before the two calls. -/
theorem C13_define_remove_var (L : Limits) (p p1 : ParserBase) (a_sName : String) (a_pVar : Nat)
    (hnew : p.m_VarDef a_sName = none)
    (h : p.DefineVar L a_sName a_pVar = (.ok (), p1)) :
    (p1.RemoveVar a_sName).m_VarDef = p.m_VarDef ∧
    (p1.RemoveVar a_sName).m_ConstDef = p.m_ConstDef ∧
    (p1.RemoveVar a_sName).m_StrVarDef = p.m_StrVarDef ∧
    (p1.RemoveVar a_sName).m_vStringVarBuf = p.m_vStringVarBuf ∧
    (p1.RemoveVar a_sName).m_FunDef = p.m_FunDef ∧
    (p1.RemoveVar a_sName).m_PostOprtDef = p.m_PostOprtDef ∧
    (p1.RemoveVar a_sName).m_InfixOprtDef = p.m_InfixOprtDef ∧
    (p1.RemoveVar a_sName).m_OprtDef = p.m_OprtDef ∧
    p1.RemoveVar a_sName = p.ReInit := by
  have hp := ParserBase.DefineVar_ok h
  subst hp
  have hv : Function.update (Function.update p.m_VarDef a_sName (some a_pVar)) a_sName none =
      p.m_VarDef := by
    rw [Function.update_idem]
    funext x
    by_cases hx : x = a_sName
    · subst hx; simp [hnew]
    · simp [Function.update_noteq hx]
  have key : ParserBase.RemoveVar a_sName (ParserBase.ReInit
      { p with m_VarDef := Function.update p.m_VarDef a_sName (some a_pVar) }) = p.ReInit := by
    simp only [ParserBase.RemoveVar, ParserBase.ReInit, Function.update_same, Option.isSome_some,
      if_true, hv, ParserByteCode.clear]
  rw [key]
  exact ⟨rfl, rfl, rfl, rfl, rfl, rfl, rfl, rfl, rfl⟩

/-- C13 (witness): `DefineVar("x", 1)` and `RemoveVar("x")` on a parser without variables. -/
theorem C13_define_remove_var_witness :
    ((Examples.parser0.DefineVar Examples.limits "x" 1).2.RemoveVar "x").m_VarDef =
      Examples.parser0.m_VarDef :=
  (C13_define_remove_var Examples.limits Examples.parser0 _ "x" 1 rfl rfl).1

/-- C14: after every successful `DefineVar`, `DefineConst`, `DefineStrConst`, definition of a
function or of a postfix, infix or binary operator, after `RemoveVar` of an existing name, after
every `Clear*` and after every successful `SetExpr` the bytecode is empty, the string buffer of
the expression is empty and the parser is in string-parse mode; a parser in that mode evaluates
through `ParseString`, which compiles the expression. -/
theorem C14_mutation_invalidates (L : Limits) (p : ParserBase) :
    (∀ n a, (p.DefineVar L n a).1 = .ok () → (p.DefineVar L n a).2.Invalidated) ∧
    (∀ n v, (p.DefineConst L n v).1 = .ok () → (p.DefineConst L n v).2.Invalidated) ∧
    (∀ n v, (p.DefineStrConst n v).1 = .ok () → (p.DefineStrConst n v).2.Invalidated) ∧
    (∀ n cb, (p.DefineFun n cb).1 = .ok () → (p.DefineFun n cb).2.Invalidated) ∧
    (∀ n f b, (p.DefinePostfixOprt L n f b).1 = .ok () →
      (p.DefinePostfixOprt L n f b).2.Invalidated) ∧
    (∀ n f i b, (p.DefineInfixOprt L n f i b).1 = .ok () →
      (p.DefineInfixOprt L n f i b).2.Invalidated) ∧
    (∀ n f i a b, (p.DefineOprt L n f i a b).1 = .ok () →
      (p.DefineOprt L n f i a b).2.Invalidated) ∧
    (∀ n, (p.m_VarDef n).isSome = true → (p.RemoveVar n).Invalidated) ∧
    p.ClearVar.Invalidated ∧ p.ClearFun.Invalidated ∧ p.ClearConst.Invalidated ∧
    p.ClearPostfixOprt.Invalidated ∧ p.ClearOprt.Invalidated ∧ p.ClearInfixOprt.Invalidated ∧
    (∀ e toks, (p.SetExpr L e toks).1 = .ok () → (p.SetExpr L e toks).2.Invalidated) ∧
    (p.Invalidated → ∀ env mem, p.Eval env mem = p.ParseString env mem) := by
  refine ⟨fun n a h => (ParserBase.DefineVar_outcome L n a p).of_ok h,
    fun n v h => (ParserBase.DefineConst_outcome L n v p).of_ok h,
    fun n v h => (ParserBase.DefineStrConst_outcome n v p).of_ok h,
    fun n cb h => (ParserBase.DefineFun_outcome n cb p).of_ok h,
    fun n f b h => (ParserBase.DefinePostfixOprt_outcome L n f b p).of_ok h,
    fun n f i b h => (ParserBase.DefineInfixOprt_outcome L n f i b p).of_ok h,
    fun n f i a b h => (ParserBase.DefineOprt_outcome L n f i a b p).of_ok h,
    ?_, ParserBase.ReInit_invalidated _, ParserBase.ReInit_invalidated _,
    ParserBase.ReInit_invalidated _, ParserBase.ReInit_invalidated _,
    ParserBase.ReInit_invalidated _, ParserBase.ReInit_invalidated _,
    fun e toks h => (ParserBase.SetExpr_outcome L e toks p).of_ok h, ?_⟩
  · intro n hn
    simp only [ParserBase.RemoveVar, hn, if_true]
    exact ParserBase.ReInit_invalidated _
  · intro h env mem
    simp only [ParserBase.Eval, h.2.2]

/-- C14 (witness): `DefineVar("x", 1)` succeeds on the example parser and leaves it
invalidated. -/
theorem C14_mutation_invalidates_witness :
    (Examples.parser0.DefineVar Examples.limits "x" 1).1 = .ok () ∧
    (Examples.parser0.DefineVar Examples.limits "x" 1).2.Invalidated :=
  ⟨by decide, (C14_mutation_invalidates Examples.limits Examples.parser0).1 "x" 1 (by decide)⟩

/-- C15: when `DefineVar`, `DefineConst`, `DefineStrConst`, the definition of a function or the
definition of a postfix, infix or binary operator throws, the parser object (every symbol table,
the pool of string constants, the bytecode and all other members) is as it was before the
call. -/
theorem C15_failed_definition (L : Limits) (p : ParserBase) (e : Abort) :
    (∀ n a, (p.DefineVar L n a).1 = .error e → (p.DefineVar L n a).2 = p) ∧
    (∀ n v, (p.DefineConst L n v).1 = .error e → (p.DefineConst L n v).2 = p) ∧
    (∀ n v, (p.DefineStrConst n v).1 = .error e → (p.DefineStrConst n v).2 = p) ∧
    (∀ n cb, (p.DefineFun n cb).1 = .error e → (p.DefineFun n cb).2 = p) ∧
    (∀ n f b, (p.DefinePostfixOprt L n f b).1 = .error e →
      (p.DefinePostfixOprt L n f b).2 = p) ∧
    (∀ n f i b, (p.DefineInfixOprt L n f i b).1 = .error e →
      (p.DefineInfixOprt L n f i b).2 = p) ∧
    (∀ n f i a b, (p.DefineOprt L n f i a b).1 = .error e →
      (p.DefineOprt L n f i a b).2 = p) :=
  ⟨fun n a h => (ParserBase.DefineVar_outcome L n a p).of_error h,
    fun n v h => (ParserBase.DefineConst_outcome L n v p).of_error h,
    fun n v h => (ParserBase.DefineStrConst_outcome n v p).of_error h,
    fun n cb h => (ParserBase.DefineFun_outcome n cb p).of_error h,
    fun n f b h => (ParserBase.DefinePostfixOprt_outcome L n f b p).of_error h,
    fun n f i b h => (ParserBase.DefineInfixOprt_outcome L n f i b p).of_error h,
    fun n f i a b h => (ParserBase.DefineOprt_outcome L n f i a b p).of_error h⟩

/-- C15 (witness): `DefineVar` with the null pointer fails and leaves the parser, on which `x`
is defined, as it was. -/
theorem C15_failed_definition_witness :
    (Examples.parserX.DefineVar Examples.limits "y" 0).1 = Error .ecINVALID_VAR_PTR ∧
    (Examples.parserX.DefineVar Examples.limits "y" 0).2 = Examples.parserX :=
  ⟨by decide, (C15_failed_definition Examples.limits Examples.parserX
    (.throw .ecINVALID_VAR_PTR)).1 "y" 0 (by decide)⟩

theorem ParserBase.AddCallback_conflict {p : ParserBase} {a_strName : String}
    {a_Callback : ParserCallback} {a_Storage : FunMap} (a_szCharSet : String)
    (hv : a_Callback.IsValid = true) (hc : p.conflict a_Storage a_strName) :
    p.AddCallback a_strName a_Callback a_Storage a_szCharSet = (Error .ecNAME_CONFLICT, p) := by
  obtain ⟨t, h1, h2, h3⟩ := hc
  unfold ParserBase.AddCallback
  simp only [hv, Bool.not_true, Bool.false_eq_true, if_false]
  cases t <;> cases a_Storage <;> simp only [ParserBase.table] at h3 <;>
    first
    | exact absurd rfl h1
    | (exfalso; revert h2; decide)
    | (simp only [h3, ne_eq, reduceCtorEq, not_false_eq_true, not_true_eq_false, and_self,
        and_true, true_and, false_and, if_true, if_false]
       repeat' split
       all_goals rfl)

theorem ParserBase.AddCallback_free {p : ParserBase} {a_strName : String}
    {a_Callback : ParserCallback} {a_Storage : FunMap} (a_szCharSet : String)
    (hv : a_Callback.IsValid = true) (hc : ¬ p.conflict a_Storage a_strName)
    (hn : badName a_strName a_szCharSet = false) :
    p.AddCallback a_strName a_Callback a_Storage a_szCharSet =
      (.ok (), (p.store a_Storage a_strName a_Callback).ReInit) := by
  have h1 : ¬ (a_Storage ≠ .m_FunDef ∧ (p.m_FunDef a_strName).isSome = true) := by
    intro h; exact hc ⟨.m_FunDef, fun e => h.1 e.symm, by cases a_Storage <;> rfl, h.2⟩
  have h2 : ¬ (a_Storage ≠ .m_PostOprtDef ∧ (p.m_PostOprtDef a_strName).isSome = true) := by
    intro h; exact hc ⟨.m_PostOprtDef, fun e => h.1 e.symm, by cases a_Storage <;> rfl, h.2⟩
  have h3 : ¬ (a_Storage ≠ .m_InfixOprtDef ∧ a_Storage ≠ .m_OprtDef ∧
      (p.m_InfixOprtDef a_strName).isSome = true) := by
    intro h
    refine hc ⟨.m_InfixOprtDef, fun e => h.1 e.symm, ?_, h.2.2⟩
    cases a_Storage
    · rfl
    · rfl
    · exact absurd rfl h.1
    · exact absurd rfl h.2.1
  have h4 : ¬ (a_Storage ≠ .m_InfixOprtDef ∧ a_Storage ≠ .m_OprtDef ∧
      (p.m_OprtDef a_strName).isSome = true) := by
    intro h
    refine hc ⟨.m_OprtDef, fun e => h.2.1 e.symm, ?_, h.2.2⟩
    cases a_Storage
    · rfl
    · rfl
    · exact absurd rfl h.1
    · exact absurd rfl h.2.1
  unfold ParserBase.AddCallback
  simp only [hv, Bool.not_true, Bool.false_eq_true, if_false, h1, h2, h3, h4,
    ParserBase.CheckOprt, hn]

theorem mem_c_DefaultOprt_length {name : String} (h : name ∈ c_DefaultOprt) : name.length ≤ 2 := by
  simp only [c_DefaultOprt, List.mem_cons, List.mem_singleton, List.not_mem_nil, or_false] at h
  rcases h with h | h | h | h | h | h | h | h | h | h | h | h | h | h | h | h | h | h <;>
    subst h <;> decide

theorem ParserBase.ValidOprtChars_ok {p : ParserBase} (h : p.m_sOprtChars.length ≠ 0) :
    p.ValidOprtChars = .ok p.m_sOprtChars := by
  simp [ParserBase.ValidOprtChars, MUP_ASSERT, h]

theorem ParserBase.ValidInfixOprtChars_ok {p : ParserBase} (h : p.m_sInfixOprtChars.length ≠ 0) :
    p.ValidInfixOprtChars = .ok p.m_sInfixOprtChars := by
  simp [ParserBase.ValidInfixOprtChars, MUP_ASSERT, h]

theorem ParserBase.ValidNameChars_ok {p : ParserBase} (h : p.m_sNameChars.length ≠ 0) :
    p.ValidNameChars = .ok p.m_sNameChars := by
  simp [ParserBase.ValidNameChars, MUP_ASSERT, h]

theorem ParserCallback.ofUnary_valid {f : generic_callable_type} (h : f.pRawFun ≠ 0) (b : Bool)
    (i : Int) (c : ECmdCode) : (ParserCallback.ofUnary f b i c).IsValid = true := by
  simp [ParserCallback.IsValid, ParserCallback.ofUnary, h]

theorem ParserCallback.ofBinary_valid {f : generic_callable_type} (h : f.pRawFun ≠ 0) (b : Bool)
    (i : Nat) (a : EOprtAssociativity) : (ParserCallback.ofBinary f b i a).IsValid = true := by
  simp [ParserCallback.IsValid, ParserCallback.ofBinary, h]

/-- C16 (counterexample): `+` is a postfix operator; with the built-in operators enabled,
defining the binary operator `+` fails with the built-in-overload error, not with the
name-conflict error. -/
theorem C16_counterexample :
    (Examples.parserPostPlus.m_PostOprtDef "+").isSome = true ∧
    (Examples.parserPostPlus.DefineOprt Examples.limits "+" Examples.oprtAddr 6 .oaLEFT true).1 =
      Error .ecBUILTIN_OVERLOAD := by
  decide

/-- C16 (amended): when the checks made before the tables are compared pass (the callback is
valid, the name is not longer than the maximum identifier length, the character set of the
definition is not empty and, for a binary operator, the name is not a built-in operator symbol
while the built-in operators are enabled), defining a function, a postfix operator, an infix
operator or a binary operator under a name present in another of these four tables fails with
the name-conflict error and leaves the parser as it was, with exactly one exception: a name in
the table of binary operators does not conflict with the definition of an infix operator and a
name in the table of infix operators does not conflict with the definition of a binary
operator; such a definition is stored when the name passes the character check and is neither
a function nor a postfix operator. -/
theorem C16_name_conflict (L : Limits) (p : ParserBase) (n : String) :
    (∀ cb, p.m_sNameChars.length ≠ 0 → cb.IsValid = true → p.conflict .m_FunDef n →
      p.DefineFun n cb = (Error .ecNAME_CONFLICT, p)) ∧
    (∀ f b, n.length ≤ L.MaxLenIdentifier → p.m_sOprtChars.length ≠ 0 → f.pRawFun ≠ 0 →
      p.conflict .m_PostOprtDef n →
      p.DefinePostfixOprt L n f b = (Error .ecNAME_CONFLICT, p)) ∧
    (∀ f i b, n.length ≤ L.MaxLenIdentifier → p.m_sInfixOprtChars.length ≠ 0 → f.pRawFun ≠ 0 →
      p.conflict .m_InfixOprtDef n →
      p.DefineInfixOprt L n f i b = (Error .ecNAME_CONFLICT, p)) ∧
    (∀ f i a b, n.length ≤ L.MaxLenIdentifier → p.m_sOprtChars.length ≠ 0 → f.pRawFun ≠ 0 →
      ¬ (p.m_bBuiltInOp = true ∧ n ∈ c_DefaultOprt) → p.conflict .m_OprtDef n →
      p.DefineOprt L n f i a b = (Error .ecNAME_CONFLICT, p)) ∧
    (∀ f i b, n.length ≤ L.MaxLenIdentifier → p.m_sInfixOprtChars.length ≠ 0 → f.pRawFun ≠ 0 →
      (p.m_OprtDef n).isSome = true → p.m_FunDef n = none → p.m_PostOprtDef n = none →
      badName n p.m_sInfixOprtChars = false →
      (p.DefineInfixOprt L n f i b).1 = .ok () ∧
      (p.DefineInfixOprt L n f i b).2.m_InfixOprtDef n =
        some (ParserCallback.ofUnary f b i .cmOPRT_INFIX) ∧
      (p.DefineInfixOprt L n f i b).2.m_OprtDef n = p.m_OprtDef n) ∧
    (∀ f i a b, n.length ≤ L.MaxLenIdentifier → p.m_sOprtChars.length ≠ 0 → f.pRawFun ≠ 0 →
      ¬ (p.m_bBuiltInOp = true ∧ n ∈ c_DefaultOprt) →
      (p.m_InfixOprtDef n).isSome = true → p.m_FunDef n = none → p.m_PostOprtDef n = none →
      badName n p.m_sOprtChars = false →
      (p.DefineOprt L n f i a b).1 = .ok () ∧
      (p.DefineOprt L n f i a b).2.m_OprtDef n = some (ParserCallback.ofBinary f b i a) ∧
      (p.DefineOprt L n f i a b).2.m_InfixOprtDef n = p.m_InfixOprtDef n) := by
  have hlen : ∀ {k : Nat}, n.length ≤ k → ¬ (n.length > k) := fun h => by omega
  have hbi : ¬ (p.m_bBuiltInOp = true ∧ n ∈ c_DefaultOprt) →
      (p.m_bBuiltInOp && (c_DefaultOprt.take ECmdCode.cmENDIF.toCtorIdx).contains n) = false := by
    intro h
    cases hb : p.m_bBuiltInOp
    · rfl
    · have hn : n ∉ c_DefaultOprt := fun hm => h ⟨hb, hm⟩
      simpa [c_DefaultOprt, ECmdCode.toCtorIdx] using hn
  have hfree : ∀ st, p.m_FunDef n = none → p.m_PostOprtDef n = none →
      (st = FunMap.m_InfixOprtDef ∨ st = FunMap.m_OprtDef) → ¬ p.conflict st n := by
    intro st h1 h2 hst ⟨t, t1, t2, t3⟩
    cases t
    · simp [ParserBase.table, h1] at t3
    · simp [ParserBase.table, h2] at t3
    · rcases hst with hst | hst <;> subst hst
      · exact t1 rfl
      · revert t2; decide
    · rcases hst with hst | hst <;> subst hst
      · revert t2; decide
      · exact t1 rfl
  refine ⟨?_, ?_, ?_, ?_, ?_, ?_⟩
  · intro cb hcs hv hc
    simp only [ParserBase.DefineFun, ParserBase.ValidNameChars_ok hcs]
    exact ParserBase.AddCallback_conflict _ hv hc
  · intro f b hl hcs hf hc
    simp only [ParserBase.DefinePostfixOprt, hlen hl, if_false,
      ParserBase.ValidOprtChars_ok hcs]
    exact ParserBase.AddCallback_conflict _ (ParserCallback.ofUnary_valid hf _ _ _) hc
  · intro f i b hl hcs hf hc
    simp only [ParserBase.DefineInfixOprt, hlen hl, if_false,
      ParserBase.ValidInfixOprtChars_ok hcs]
    exact ParserBase.AddCallback_conflict _ (ParserCallback.ofUnary_valid hf _ _ _) hc
  · intro f i a b hl hcs hf hb hc
    simp only [ParserBase.DefineOprt, hlen hl, if_false, hbi hb, Bool.false_eq_true,
      ParserBase.ValidOprtChars_ok hcs]
    exact ParserBase.AddCallback_conflict _ (ParserCallback.ofBinary_valid hf _ _ _) hc
  · intro f i b hl hcs hf _ h1 h2 hn
    simp only [ParserBase.DefineInfixOprt, hlen hl, if_false,
      ParserBase.ValidInfixOprtChars_ok hcs]
    rw [ParserBase.AddCallback_free _ (ParserCallback.ofUnary_valid hf _ _ _)
      (hfree _ h1 h2 (Or.inl rfl)) hn]
    exact ⟨rfl, by simp [ParserBase.store, ParserBase.ReInit], rfl⟩
  · intro f i a b hl hcs hf hb _ h1 h2 hn
    simp only [ParserBase.DefineOprt, hlen hl, if_false, hbi hb, Bool.false_eq_true,
      ParserBase.ValidOprtChars_ok hcs]
    rw [ParserBase.AddCallback_free _ (ParserCallback.ofBinary_valid hf _ _ _)
      (hfree _ h1 h2 (Or.inr rfl)) hn]
    exact ⟨rfl, by simp [ParserBase.store, ParserBase.ReInit], rfl⟩

/-- C16 (witness): `+` is a postfix operator, so defining the infix operator `+` fails with the
name-conflict error. -/
theorem C16_name_conflict_witness :
    Examples.parserPostPlus.DefineInfixOprt Examples.limits "+" Examples.oprtAddr 9 true =
      (Error .ecNAME_CONFLICT, Examples.parserPostPlus) :=
  (C16_name_conflict Examples.limits Examples.parserPostPlus "+").2.2.1 Examples.oprtAddr 9 true
    (by decide) (by decide) (by decide) ⟨.m_PostOprtDef, by decide, by decide, by decide⟩

/-- C17: `DefineConst` does not compare the name with the variable table: on the parser on which
the variable `x` is defined, `DefineConst("x", 5)` succeeds and leaves `x` both a variable and a
constant, and no call of `DefineConst` fails with the name-conflict error; `DefineVar` of the
constant `c` fails with the name-conflict error. -/
theorem C17_const_may_shadow_var :
    Examples.parserX.m_VarDef "x" = some 1 ∧
    (Examples.parserX.DefineConst Examples.limits "x" 5).1 = .ok () ∧
    (Examples.parserX.DefineConst Examples.limits "x" 5).2.m_VarDef "x" = some 1 ∧
    (Examples.parserX.DefineConst Examples.limits "x" 5).2.m_ConstDef "x" = some 5 ∧
    (∀ (L : Limits) (n : String) (v : value_type) (p : ParserBase),
      (p.DefineConst L n v).1 ≠ Error .ecNAME_CONFLICT) ∧
    (Examples.parserC.DefineVar Examples.limits "c" 1).1 = Error .ecNAME_CONFLICT := by
  refine ⟨by decide, by decide, by decide, by decide, ?_, by decide⟩
  intro L n v p h
  unfold ParserBase.DefineConst at h
  by_cases h1 : n.length > L.MaxLenIdentifier
  · simp only [h1, if_true] at h; cases h
  · simp only [h1, if_false] at h
    by_cases h2 : p.m_sNameChars.length ≠ 0
    · simp only [ParserBase.ValidNameChars_ok h2, ParserBase.CheckName] at h
      by_cases h3 : badName n p.m_sNameChars = true
      · simp only [h3, if_true] at h; cases h
      · simp only [h3] at h; cases h
    · simp only [ParserBase.ValidNameChars, MUP_ASSERT, h2, decide_False] at h
      cases h

/-- C18 (counterexample): with the built-in operators disabled, the definition of the binary
operator `+` with the null function pointer is not accepted, although the name passes the
character check and is neither a function nor a postfix operator. -/
theorem C18_counterexample :
    badName "+" Examples.parserOff.m_sOprtChars = false ∧
    Examples.parserOff.m_FunDef "+" = none ∧ Examples.parserOff.m_PostOprtDef "+" = none ∧
    (Examples.parserOff.DefineOprt Examples.limits "+" Examples.nullAddr 6 .oaLEFT true).1 =
      Error .ecINVALID_FUN_PTR := by
  decide

/-- C18 (amended): while the built-in operators are enabled, `DefineOprt` fails with the
built-in-overload error for every name equal to a built-in operator symbol and leaves the parser
as it was (the maximum identifier length being at least the length 2 of these symbols); after
`EnableBuiltInOprt(false)` a definition with a valid callback is accepted and stored whenever
the name is not longer than the maximum identifier length, passes the operator-character check
and is neither a function nor a postfix operator. -/
theorem C18_builtin_overload (L : Limits) (p : ParserBase) (n : String)
    (f : generic_callable_type) (i : Nat) (a : EOprtAssociativity) (b : Bool) :
    (p.m_bBuiltInOp = true → n ∈ c_DefaultOprt → 2 ≤ L.MaxLenIdentifier →
      p.DefineOprt L n f i a b = (Error .ecBUILTIN_OVERLOAD, p)) ∧
    (f.pRawFun ≠ 0 → n.length ≤ L.MaxLenIdentifier → badName n p.m_sOprtChars = false →
      p.m_FunDef n = none → p.m_PostOprtDef n = none →
      ((p.EnableBuiltInOprt false).DefineOprt L n f i a b).1 = .ok () ∧
      ((p.EnableBuiltInOprt false).DefineOprt L n f i a b).2.m_OprtDef n =
        some (ParserCallback.ofBinary f b i a)) := by
  constructor
  · intro hb hn hL
    have hlen := mem_c_DefaultOprt_length hn
    have h1 : ¬ (n.length > L.MaxLenIdentifier) := by omega
    have h2 : (c_DefaultOprt.take ECmdCode.cmENDIF.toCtorIdx).contains n = true := by
      simpa [c_DefaultOprt, ECmdCode.toCtorIdx] using hn
    simp only [ParserBase.DefineOprt, h1, if_false, hb, h2, Bool.and_self, if_true]
  · intro hf hl hn h1 h2
    have hcs : (p.EnableBuiltInOprt false).m_sOprtChars.length ≠ 0 := by
      show p.m_sOprtChars.length ≠ 0
      intro h0
      have : p.m_sOprtChars.toList = [] := List.length_eq_zero.mp h0
      simp only [badName, this, List.contains_nil, Bool.not_false, Bool.or_eq_false_iff,
        decide_eq_false_iff_not, List.any_eq_false, not_true_eq_false, imp_false] at hn
      cases hl2 : n.toList with
      | nil => exact hn.1.1 (by rw [← String.length_data]; simp [String.toList] at hl2; simp [hl2])
      | cons c cs => exact hn.1.2 c (by rw [hl2]; exact List.mem_cons_self _ _)
    have h3 : ¬ (n.length > L.MaxLenIdentifier) := by omega
    have hfree : ¬ (p.EnableBuiltInOprt false).conflict .m_OprtDef n := by
      rintro ⟨t, t1, t2, t3⟩
      cases t
      · simp [ParserBase.table, ParserBase.EnableBuiltInOprt, ParserBase.ReInit, h1] at t3
      · simp [ParserBase.table, ParserBase.EnableBuiltInOprt, ParserBase.ReInit, h2] at t3
      · revert t2; decide
      · exact t1 rfl
    have hb : ((p.EnableBuiltInOprt false).m_bBuiltInOp &&
        (c_DefaultOprt.take ECmdCode.cmENDIF.toCtorIdx).contains n) = false := rfl
    simp only [ParserBase.DefineOprt, h3, if_false, hb, Bool.false_eq_true,
      ParserBase.ValidOprtChars_ok hcs]
    have hn' : badName n (p.EnableBuiltInOprt false).m_sOprtChars = false := hn
    rw [ParserBase.AddCallback_free _ (ParserCallback.ofBinary_valid hf _ _ _) hfree hn']
    exact ⟨rfl, by simp [ParserBase.store, ParserBase.ReInit]⟩

/-- C18 (witness): the binary operator `+` on the example parser, before and after the built-in
operators are disabled. -/
theorem C18_builtin_overload_witness :
    Examples.parser0.DefineOprt Examples.limits "+" Examples.oprtAddr 6 .oaLEFT true =
      (Error .ecBUILTIN_OVERLOAD, Examples.parser0) ∧
    (Examples.parserOff.DefineOprt Examples.limits "+" Examples.oprtAddr 6 .oaLEFT true).1 =
      .ok () :=
  ⟨(C18_builtin_overload Examples.limits Examples.parser0 "+" Examples.oprtAddr 6 .oaLEFT
      true).1 rfl (by decide) (by decide),
   ((C18_builtin_overload Examples.limits Examples.parser0 "+" Examples.oprtAddr 6 .oaLEFT
      true).2 (by decide) (by decide) (by decide) rfl rfl).1⟩

/-- C19 (counterexample): when the argument separator is the decimal point, `SetExpr` fails
with the locale error also for a text longer than the maximum expression length. -/
theorem C19_counterexample :
    ("1+1+1+1+1+1+1+1+1".length > Examples.limits.MaxLenExpression) ∧
    (Examples.parserDot.SetExpr Examples.limits "1+1+1+1+1+1+1+1+1" []).1 = Error .ecLOCALE := by
  decide

/-- C19 (amended): when the argument separator differs from the decimal point, `SetExpr` fails
with the expression-too-long error, leaving the parser as it was, for every expression text
whose length is the maximum expression length or more; when the two characters are equal it
fails with the locale error. -/
theorem C19_expression_too_long (L : Limits) (p : ParserBase) (a_sExpr : String)
    (toks : List token_type) :
    (p.m_pTokenReader.GetArgSep ≠ p.s_locale.decimal_point →
      L.MaxLenExpression ≤ a_sExpr.length →
      p.SetExpr L a_sExpr toks = (Error .ecEXPRESSION_TOO_LONG, p)) ∧
    (p.m_pTokenReader.GetArgSep = p.s_locale.decimal_point →
      p.SetExpr L a_sExpr toks = (Error .ecLOCALE, p)) := by
  constructor
  · intro h1 h2
    simp only [ParserBase.SetExpr, h1, if_false, ge_iff_le, h2, if_true]
  · intro h1
    simp only [ParserBase.SetExpr, h1, if_true]

/-- C19 (witness): a text of 17 characters with the maximum expression length 16. -/
theorem C19_expression_too_long_witness :
    Examples.parser0.SetExpr Examples.limits "1+1+1+1+1+1+1+1+1" [] =
      (Error .ecEXPRESSION_TOO_LONG, Examples.parser0) :=
  (C19_expression_too_long Examples.limits Examples.parser0 "1+1+1+1+1+1+1+1+1" []).1
    (by decide) (by decide)

/-- C20 (counterexample): `DefineVar` with the null pointer fails with the
invalid-variable-pointer error also for a name longer than the maximum identifier length. -/
theorem C20_counterexample :
    ("abcde".length > Examples.limits.MaxLenIdentifier) ∧
    (Examples.parser0.DefineVar Examples.limits "abcde" 0).1 = Error .ecINVALID_VAR_PTR := by
  decide

/-- C20 (amended): for every name longer than the maximum identifier length, `DefineConst`,
`DefinePostfixOprt`, `DefineInfixOprt` and `DefineOprt` fail with the identifier-too-long error
and leave the parser as it was, and so does `DefineVar` when the variable reference is not the
null pointer; `DefineVar` with the null pointer fails with the invalid-variable-pointer error and
leaves the parser as it was, whatever the name. -/
theorem C20_identifier_too_long (L : Limits) (p : ParserBase) (n : String)
    (h : n.length > L.MaxLenIdentifier) :
    (∀ a, a ≠ 0 → p.DefineVar L n a = (Error .ecIDENTIFIER_TOO_LONG, p)) ∧
    (∀ v, p.DefineConst L n v = (Error .ecIDENTIFIER_TOO_LONG, p)) ∧
    (∀ f b, p.DefinePostfixOprt L n f b = (Error .ecIDENTIFIER_TOO_LONG, p)) ∧
    (∀ f i b, p.DefineInfixOprt L n f i b = (Error .ecIDENTIFIER_TOO_LONG, p)) ∧
    (∀ f i a b, p.DefineOprt L n f i a b = (Error .ecIDENTIFIER_TOO_LONG, p)) ∧
    (∀ m : String, p.DefineVar L m 0 = (Error .ecINVALID_VAR_PTR, p)) := by
  refine ⟨?_, ?_, ?_, ?_, ?_, ?_⟩
  · intro a ha; simp only [ParserBase.DefineVar, ha, if_false, h, if_true]
  · intro v; simp only [ParserBase.DefineConst, h, if_true]
  · intro f b; simp only [ParserBase.DefinePostfixOprt, h, if_true]
  · intro f i b; simp only [ParserBase.DefineInfixOprt, h, if_true]
  · intro f i a b; simp only [ParserBase.DefineOprt, h, if_true]
  · intro m; simp only [ParserBase.DefineVar, if_true]

/-- C20 (witness): the name `abcde` with the maximum identifier length 4. -/
theorem C20_identifier_too_long_witness :
    Examples.parser0.DefineConst Examples.limits "abcde" 1 =
      (Error .ecIDENTIFIER_TOO_LONG, Examples.parser0) :=
  (C20_identifier_too_long Examples.limits Examples.parser0 "abcde" (by decide)).2.1 1

theorem ApplyFunc_arity {env : CallEnv} {mem : Mem} {s : RPNState} {f : token_type}
    {R : List token_type} (n : Int) (hs : s.stOpt = f :: R)
    (hcb : f.isCallback .cmFUNC .tpDBL = true) :
    (0 ≤ f.argc → f.argc < n → ApplyFunc env mem s n = Error .ecTOO_MANY_PARAMS) ∧
    (n < f.argc → ApplyFunc env mem s n = Error .ecTOO_FEW_PARAMS) ∧
    (f.argc = -1 → n = 0 → ApplyFunc env mem s n = Error .ecTOO_FEW_PARAMS) := by
  obtain ⟨hcode, hty, hp, hargc⟩ := token_type.isCallback_code hcb
  have hne : f.GetCode ≠ .cmOPRT_BIN := by rw [hcode]; decide
  have hns : f.GetCode ≠ .cmFUNC_STR := by rw [hcode]; decide
  have hnt : f.GetType ≠ .tpSTR := by rw [hty]; decide
  refine ⟨?_, ?_, ?_⟩
  · intro h0 hlt
    simp only [ApplyFunc, hs, hp, if_false, applyFuncCore, funcArgCheck, hargc, hne, hns, hnt,
      bind, Except.bind, false_and, add_zero, sub_zero, ge_iff_le, h0, hlt, and_self, if_true,
      Error]
  · intro hlt
    have h1 : ¬ (0 ≤ f.argc ∧ n > f.argc) := by omega
    simp only [ApplyFunc, hs, hp, if_false, applyFuncCore, funcArgCheck, hargc, hne, hns, hnt,
      bind, Except.bind, false_and, add_zero, sub_zero, ge_iff_le, h1, hlt, ne_eq,
      not_false_eq_true, and_self, if_true, Error]
  · intro ha hn
    subst hn
    have h1 : funcArgCheck f 0 = .ok (0, 0) := by
      simp [funcArgCheck, hargc, hne, hns, hnt, ha, bind, Except.bind]
    have h2 : collectArgs f 0 s.stVal [] = .ok (s.stVal, []) := by rw [collectArgs]
    have h3 : funcEmit env mem f 0 0 s.stVal [] s.m_vRPN = Error .ecTOO_FEW_PARAMS := by
      simp [funcEmit, hcode, hargc, ha, bind, Except.bind]
    simp only [ApplyFunc, hs, hp, if_false, applyFuncCore, h1, bind, Except.bind,
      Int.toNat_zero, h2, h3, Error]

theorem Expr.valid_in_bracket {bo : token_type} (hbo : bo.isPlain .cmBO = true) (e : Expr) :
    ∀ (m : Expr.Mode), Expr.Valid m none e = true → Expr.Valid m (some bo) e = true := by
  have hcode := (token_type.isPlain_code hbo).2
  have hstop : ∀ op, Expr.stopsAt op (some bo) = true := fun op => by
    simp [Expr.stopsAt, hcode]
  induction e with
  | val t => intro m h; exact h
  | var t => intro m h; exact h
  | str t => intro m h; simp [Expr.Valid] at h
  | bin op l r ihl _ =>
    intro m h
    simp only [Expr.Valid, Bool.and_eq_true] at h ⊢
    obtain ⟨⟨⟨⟨⟨⟨h1, h2⟩, h3⟩, h4⟩, _⟩, h6⟩, h7⟩ := h
    exact ⟨⟨⟨⟨⟨⟨h1, h2⟩, ihl _ h3⟩, h4⟩, hstop op⟩, h6⟩, h7⟩
  | ite q c cond thn els ihc _ _ =>
    intro m h
    simp only [Expr.Valid, Bool.and_eq_true] at h ⊢
    obtain ⟨⟨⟨⟨⟨⟨⟨h1, h2⟩, h3⟩, h4⟩, h5⟩, _⟩, h7⟩, h8⟩ := h
    exact ⟨⟨⟨⟨⟨⟨⟨h1, h2⟩, h3⟩, ihc _ h4⟩, h5⟩, hstop q⟩, h7⟩, h8⟩
  | paren b c e _ =>
    intro m h
    simp only [Expr.Valid, Bool.and_eq_true] at h ⊢
    obtain ⟨⟨⟨⟨h1, h2⟩, h3⟩, _⟩, h5⟩ := h
    refine ⟨⟨⟨⟨h1, h2⟩, h3⟩, ?_⟩, h5⟩
    simp [Expr.parenCtx, token_type.GetFuncAddr, (token_type.isPlain_code hbo).1]
  | call0 f b c => intro m h; exact h
  | call f b c args _ => intro m h; exact h
  | inf f e _ => intro m h; exact h
  | post f e ih =>
    intro m h
    simp only [Expr.Valid, Bool.and_eq_true] at h ⊢
    obtain ⟨⟨⟨⟨h1, h2⟩, h3⟩, h4⟩, h5⟩ := h
    exact ⟨⟨⟨⟨h1, h2⟩, h3⟩, h4⟩, ih _ h5⟩
  | seq l sep r ihl ihr =>
    intro m h
    simp only [Expr.Valid, Bool.and_eq_true] at h ⊢
    obtain ⟨⟨⟨⟨h1, h2⟩, _⟩, h4⟩, h5⟩ := h
    exact ⟨⟨⟨⟨h1, h2⟩, by simpa [Expr.listCtx] using hbo⟩, ihl _ h4⟩, ihr _ h5⟩

/-- Reading the tokens of a call `f ( args )` of a numeric function: the arguments are compiled,
then the closing bracket is processed; no assumption relates the arity of `f` to the number of
arguments. -/
theorem readTokens_call {env : CallEnv} {mem : Mem} {f bo bc : token_type} {args : Expr}
    {m : Expr.Mode} {S : RPNState} (hf : f.isCallback .cmFUNC .tpDBL = true)
    (hbo : bo.isPlain .cmBO = true) (hbc : bc.isPlain .cmBC = true)
    (hva : Expr.Valid m (some bo) args = true) (hS : 0 ≤ S.ifElseCounter) :
    readTokens env mem (f :: bo :: (args.toks ++ [bc])) S =
      Except.bind (Expr.emit env mem args (S.m_vRPN, S.m_vStringBuf)) (fun r =>
        Except.bind
          (ApplyFunc env mem
            { Expr.putS (Expr.pushBO bo (Expr.pushOpt f S)) args.lastTok r with
              stArgCount := S.stArgCount, stOpt := f :: S.stOpt } (r.2.length : Int))
          (fun s1 => .ok { s1 with opta := bc })) := by
  have hcb := token_type.isCallback_code hf
  have hcode : f.GetCode = .cmOPRT_INFIX ∨ f.GetCode = .cmFUNC ∨ f.GetCode = .cmFUNC_BULK ∨
      f.GetCode = .cmFUNC_STR := Or.inr (Or.inl hcb.1)
  have hgood : Expr.Good (some bo) (Expr.pushBO bo (Expr.pushOpt f S)) :=
    ⟨rfl, List.cons_ne_nil _ _, hS⟩
  have he := @Expr.spec env mem args m (some bo) (Expr.pushBO bo (Expr.pushOpt f S)) hva hgood
  rw [readTokens_cons_dispatch, dispatchToken_push S hcode, Result.bind_ok,
    readTokens_cons_dispatch, dispatchToken_bo _ hbo, Result.bind_ok]
  show readTokens env mem (args.toks ++ [bc]) (Expr.pushBO bo (Expr.pushOpt f S)) = _
  rw [readTokens_append, he.1]
  have e1 : Except.bind (Expr.pendR env mem args (Expr.pushBO bo (Expr.pushOpt f S)))
        (readTokens env mem [bc]) =
      Except.bind (Expr.pendR env mem args (Expr.pushBO bo (Expr.pushOpt f S))) (fun s =>
        Except.bind (ApplyRemainingOprt env mem s) (fun s1 =>
          Except.bind (closeBracket env mem s1) (fun s2 => .ok { s2 with opta := bc }))) := by
    apply Result.bind_congr
    intro s hs
    have inv := Expr.pendR_inv args hva hs
    exact readTokens_bc hbc s (by rw [inv.2.1]; exact Expr.lastTok_code hva)
  rw [e1, ← Result.bind_assoc, he.2.1, Result.bind_assoc]
  have e2 : Except.bind (Expr.completeR env mem args (Expr.pushBO bo (Expr.pushOpt f S)))
        (fun S1 => Except.bind (ApplyRemainingOprt env mem S1) (fun s1 =>
          Except.bind (closeBracket env mem s1) (fun s2 => .ok { s2 with opta := bc }))) =
      Except.bind (Expr.completeR env mem args (Expr.pushBO bo (Expr.pushOpt f S)))
        (fun S1 => Except.bind (closeBracket env mem S1)
          (fun s2 => .ok { s2 with opta := bc })) := by
    apply Result.bind_congr
    intro S1 h1
    have inv := Expr.completeR_inv hva h1
    rw [Expr.stop_of_bo hbo inv.1, Result.bind_ok]
  rw [e2, Expr.completeR, Result.bind_assoc]
  apply Result.bind_congr
  intro r hr
  rw [Result.bind_ok]
  have hcl := @closeBracket_call env mem
    (Expr.putS (Expr.pushBO bo (Expr.pushOpt f S)) args.lastTok r) bo f S.stOpt
    (1 + ((r.2.length : Int) - 1)) S.stArgCount rfl (token_type.isPlain_code hbo).2
    (by simp [Expr.putS, Expr.pushBO, Expr.pushOpt, bumpTop]) (Or.inl hcb.1) hcb.2.2.1
  rw [hcl]
  have hn : (1 : Int) + ((r.2.length : Int) - 1) = (r.2.length : Int) := by ring
  rw [hn]

/-- Reading the tokens of a call `f ( )` without arguments. -/
theorem readTokens_call0 {env : CallEnv} {mem : Mem} {f bo bc : token_type} {S : RPNState}
    (hf : f.isCallback .cmFUNC .tpDBL = true) (hbo : bo.isPlain .cmBO = true)
    (hbc : bc.isPlain .cmBC = true) :
    readTokens env mem [f, bo, bc] S =
      Except.bind
        (ApplyFunc env mem
          { (Expr.pushBO bo (Expr.pushOpt f S)).setFrame S.ifElseCounter
              (bumpTop (-1) (1 :: S.stArgCount)) with
            stArgCount := S.stArgCount, stOpt := f :: S.stOpt } 0)
        (fun s1 => .ok { s1 with opta := bc }) := by
  have hcb := token_type.isCallback_code hf
  have hcode : f.GetCode = .cmOPRT_INFIX ∨ f.GetCode = .cmFUNC ∨ f.GetCode = .cmFUNC_BULK ∨
      f.GetCode = .cmFUNC_STR := Or.inr (Or.inl hcb.1)
  rw [readTokens_cons_dispatch, dispatchToken_push S hcode, Result.bind_ok,
    readTokens_cons_dispatch, dispatchToken_bo _ hbo, Result.bind_ok,
    readTokens_cons_dispatch,
    dispatchToken_bc_empty _ hbc (by exact (token_type.isPlain_code hbo).2),
    ApplyRemainingOprt_setFrame]
  have hstop : ApplyRemainingOprt env mem
      { ({ ({ S with stOpt := f :: S.stOpt } : RPNState) with opta := f } : RPNState) with
        stArgCount := 1 :: S.stArgCount, stOpt := bo :: f :: S.stOpt, opta := bo } =
      .ok { ({ ({ S with stOpt := f :: S.stOpt } : RPNState) with opta := f } : RPNState) with
        stArgCount := 1 :: S.stArgCount, stOpt := bo :: f :: S.stOpt, opta := bo } :=
    Expr.stop_of_bo hbo rfl
  simp only [hstop, Result.bind_ok, readTokens_nil, Result.bind_assoc]
  rw [closeBracket_call (B := bo) (f := f) (R := S.stOpt) (n := 0) (G := S.stArgCount) rfl
      (token_type.isPlain_code hbo).2 (by simp [RPNState.setFrame, bumpTop]) (Or.inl hcb.1)
      hcb.2.2.1]
  rfl

theorem CreateRPN_of_readTokens_error {env : CallEnv} {mem : Mem} {bc0 : ParserByteCode}
    {formula : String} (hform : formula.length ≠ 0) (pre rest : List token_type)
    (hpre : ∀ t ∈ pre, t.GetCode ≠ .cmEND) (e : Abort)
    (h : readTokens env mem pre (initState bc0) = .error e) :
    CreateRPN env mem bc0 { m_strFormula := formula, m_tokens := pre ++ rest } = .error e := by
  simp only [CreateRPN, hform, if_false, tokenLoop_append pre rest _ hpre, h]

theorem Expr.emit_of_compiles {env : CallEnv} {mem : Mem} {bc0 : ParserByteCode}
    {formula : String} {e : Expr} {m : Expr.Mode} (hv : Expr.Valid m none e = true)
    (hm : m ≠ .strArgs)
    (h : (CreateRPN env mem bc0 { m_strFormula := formula, m_tokens := e.toks }).isOk = true) :
    ∃ r, Expr.emit env mem e (bc0.clear, []) = .ok r := by
  have hform : formula.length ≠ 0 := by
    intro h0
    simp only [CreateRPN, h0, if_true] at h
    cases h
  rw [Expr.CreateRPN_eq hv hm bc0 formula hform] at h
  cases he : Expr.emit env mem e (bc0.clear, []) with
  | error err => rw [he] at h; cases h
  | ok r => exact ⟨r, rfl⟩

theorem call_tokens_not_end {f bo bc : token_type} {args : Expr} {m : Expr.Mode}
    {ctx : Option token_type} (hf : f.isCallback .cmFUNC .tpDBL = true)
    (hbo : bo.isPlain .cmBO = true) (hbc : bc.isPlain .cmBC = true)
    (hva : Expr.Valid m ctx args = true) :
    ∀ t ∈ f :: bo :: (args.toks ++ [bc]), t.GetCode ≠ .cmEND := by
  intro t ht
  simp only [List.mem_cons, List.mem_append, List.mem_singleton, List.not_mem_nil,
    or_false] at ht
  rcases ht with h | h | h | h
  · rw [h, (token_type.isCallback_code hf).1]; decide
  · rw [h, (token_type.isPlain_code hbo).2]; decide
  · exact Expr.toks_code hva t h
  · rw [h, (token_type.isPlain_code hbc).2]; decide

/-- C8: `f` is a numeric function token of arity `f.argc`, called with the argument list `args`
of `k = args.items` comma separated expressions (a valid list that compiles when taken as an
expression of its own), or with the empty list `f ( )`; any tokens `rest` may follow the call.
With `0 ≤ f.argc < k` compilation fails with the too-many-parameters error, with `k < f.argc`
with the too-few-parameters error; `f ( )` fails with the too-few-parameters error when the
arity is positive or -1; a compilation of `f ( args )` that succeeds has `k = f.argc` when the
arity is fixed, one of `f ( )` has arity 0; and a variadic function (arity -1) compiles with
every list of `k ≥ 1` arguments. -/
theorem C8_function_arity (env : CallEnv) (mem : Mem) (bc0 : ParserByteCode) (formula : String)
    (f bo bc : token_type) (rest : List token_type)
    (hform : formula.length ≠ 0) (hf : f.isCallback .cmFUNC .tpDBL = true)
    (hbo : bo.isPlain .cmBO = true) (hbc : bc.isPlain .cmBC = true) :
    (∀ args : Expr, Expr.Valid .args none args = true →
      (CreateRPN env mem bc0 { m_strFormula := formula, m_tokens := args.toks }).isOk = true →
      (0 ≤ f.argc → f.argc < args.items →
        CreateRPN env mem bc0
          { m_strFormula := formula, m_tokens := (f :: bo :: (args.toks ++ [bc])) ++ rest } =
          Error .ecTOO_MANY_PARAMS) ∧
      ((args.items : Int) < f.argc →
        CreateRPN env mem bc0
          { m_strFormula := formula, m_tokens := (f :: bo :: (args.toks ++ [bc])) ++ rest } =
          Error .ecTOO_FEW_PARAMS) ∧
      (f.argc = -1 → Expr.PlusOK env (.call f bo bc args) →
        (((Expr.call f bo bc args).toks.length : Nat) : Int) < 2 ^ 64 →
        (CreateRPN env mem bc0
          { m_strFormula := formula, m_tokens := f :: bo :: (args.toks ++ [bc]) }).isOk =
          true)) ∧
    (∀ (args : Expr) (c : Compiled), Expr.Valid .args none args = true → 0 ≤ f.argc →
      CreateRPN env mem bc0
        { m_strFormula := formula, m_tokens := f :: bo :: (args.toks ++ [bc]) } = .ok c →
      (args.items : Int) = f.argc) ∧
    ((0 < f.argc ∨ f.argc = -1) →
      CreateRPN env mem bc0 { m_strFormula := formula, m_tokens := [f, bo, bc] ++ rest } =
        Error .ecTOO_FEW_PARAMS) ∧
    (∀ c : Compiled, 0 ≤ f.argc →
      CreateRPN env mem bc0 { m_strFormula := formula, m_tokens := [f, bo, bc] } = .ok c →
      f.argc = 0) := by
  have hread : ∀ (args : Expr), Expr.Valid .args none args = true →
      ∀ r, Expr.emit env mem args (bc0.clear, []) = .ok r →
      readTokens env mem (f :: bo :: (args.toks ++ [bc])) (initState bc0) =
        Except.bind
          (ApplyFunc env mem
            { Expr.putS (Expr.pushBO bo (Expr.pushOpt f (initState bc0))) args.lastTok r with
              stArgCount := (initState bc0).stArgCount,
              stOpt := f :: (initState bc0).stOpt } (args.items : Int))
          (fun s1 => .ok { s1 with opta := bc }) := by
    intro args hva r hr
    have hvb := Expr.valid_in_bracket hbo args _ hva
    rw [readTokens_call hf hbo hbc hvb (le_refl _)]
    have hr' : Expr.emit env mem args ((initState bc0).m_vRPN, (initState bc0).m_vStringBuf) =
        .ok r := hr
    rw [hr', Result.bind_ok]
    have it := (Expr.emit_toks args .args none _ _ r.2 hva (by rw [hr])).1
    rw [it]
  have hread0 : ∀ (args : Expr), Expr.Valid .args none args = true →
      ∀ err, Expr.emit env mem args (bc0.clear, []) = .error err →
      readTokens env mem (f :: bo :: (args.toks ++ [bc])) (initState bc0) = .error err := by
    intro args hva err hr
    have hvb := Expr.valid_in_bracket hbo args _ hva
    rw [readTokens_call hf hbo hbc hvb (le_refl _)]
    have hr' : Expr.emit env mem args ((initState bc0).m_vRPN, (initState bc0).m_vStringBuf) =
        .error err := hr
    rw [hr']
    rfl
  have hcreate : ∀ (pre : List token_type), (∀ t ∈ pre, t.GetCode ≠ .cmEND) →
      ∀ (c : Compiled),
      CreateRPN env mem bc0 { m_strFormula := formula, m_tokens := pre } = .ok c →
      ∃ s, readTokens env mem pre (initState bc0) = .ok s := by
    intro pre hpre c hc
    cases hr : readTokens env mem pre (initState bc0) with
    | ok s => exact ⟨s, rfl⟩
    | error err =>
      have := CreateRPN_of_readTokens_error hform pre [] hpre err hr
      rw [List.append_nil, hc] at this
      cases this
  refine ⟨?_, ?_, ?_, ?_⟩
  · intro args hva hok
    obtain ⟨r, hr⟩ := Expr.emit_of_compiles hva (by decide) hok
    have hpre := call_tokens_not_end hf hbo hbc hva
    have hrd := hread args hva r hr
    refine ⟨?_, ?_, ?_⟩
    · intro h0 hlt
      refine CreateRPN_of_readTokens_error hform _ rest hpre _ ?_
      rw [hrd, (ApplyFunc_arity (args.items : Int) rfl hf).1 h0 hlt]
      rfl
    · intro hlt
      refine CreateRPN_of_readTokens_error hform _ rest hpre _ ?_
      rw [hrd, (ApplyFunc_arity (args.items : Int) rfl hf).2.1 hlt]
      rfl
    · intro ha hp hlen
      have hvc : Expr.Valid .expr none (.call f bo bc args) = true := by
        simp only [Expr.Valid, Bool.and_eq_true, decide_eq_true_eq, Bool.or_eq_true]
        exact ⟨⟨⟨by decide, hbo⟩, hbc⟩,
          Or.inl (Or.inl ⟨⟨hf, Or.inr ha⟩, Expr.valid_in_bracket hbo args _ hva⟩)⟩
      have hcode := (token_type.isCallback_code hf).1
      have hne1 : f.GetCode ≠ .cmFUNC_BULK := by rw [hcode]; decide
      have hne2 : f.GetCode ≠ .cmFUNC_STR := by rw [hcode]; decide
      obtain ⟨st1, ta⟩ := r
      have hadd : ∃ b1, st1.1.AddFun env f.GetFuncAddr (-(ta.length : Int)) f.IsOptimizable =
          .ok b1 := by
        have hneg : ¬ (-(ta.length : Int) > 0) := by omega
        simp only [ParserByteCode.AddFun, hneg, and_false, if_false]
        exact ⟨_, rfl⟩
      obtain ⟨b1, hb1⟩ := hadd
      have hem : Expr.emit env mem (.call f bo bc args) (bc0.clear, []) =
          .ok ((b1, st1.2), [token_type.SetVal 1]) := by
        simp only [Expr.emit, hr, hne1, hne2, if_false, ha, if_true, hb1]
      obtain ⟨b', h, _, _, _, hfin⟩ := Expr.finish_ok hvc hp hlen hem
      have := @Expr.CreateRPN_eq env mem _ _ hvc (by decide) bc0 formula hform
      rw [Expr.toks] at this
      rw [this, hem, Result.bind_ok, hfin]
      rfl
  · intro args c hva h0 hc
    have hpre := call_tokens_not_end hf hbo hbc hva
    obtain ⟨s, hs⟩ := hcreate _ hpre c hc
    cases hr : Expr.emit env mem args (bc0.clear, []) with
    | error err => rw [hread0 args hva err hr] at hs; cases hs
    | ok r =>
      rw [hread args hva r hr] at hs
      by_contra hne
      rcases lt_or_gt_of_ne hne with hlt | hgt
      · rw [(ApplyFunc_arity (args.items : Int) rfl hf).2.1 hlt] at hs; cases hs
      · rw [(ApplyFunc_arity (args.items : Int) rfl hf).1 h0 hgt] at hs; cases hs
  · intro ha
    have hpre : ∀ t ∈ [f, bo, bc], t.GetCode ≠ .cmEND := by
      intro t ht
      simp only [List.mem_cons, List.mem_singleton, List.not_mem_nil, or_false] at ht
      rcases ht with h | h | h
      · rw [h, (token_type.isCallback_code hf).1]; decide
      · rw [h, (token_type.isPlain_code hbo).2]; decide
      · rw [h, (token_type.isPlain_code hbc).2]; decide
    refine CreateRPN_of_readTokens_error hform _ rest hpre _ ?_
    rw [readTokens_call0 hf hbo hbc]
    rcases ha with ha | ha
    · rw [(ApplyFunc_arity 0 rfl hf).2.1 ha]; rfl
    · rw [(ApplyFunc_arity 0 rfl hf).2.2 ha rfl]; rfl
  · intro c h0 hc
    have hpre : ∀ t ∈ [f, bo, bc], t.GetCode ≠ .cmEND := by
      intro t ht
      simp only [List.mem_cons, List.mem_singleton, List.not_mem_nil, or_false] at ht
      rcases ht with h | h | h
      · rw [h, (token_type.isCallback_code hf).1]; decide
      · rw [h, (token_type.isPlain_code hbo).2]; decide
      · rw [h, (token_type.isPlain_code hbc).2]; decide
    obtain ⟨s, hs⟩ := hcreate _ hpre c hc
    rw [readTokens_call0 hf hbo hbc] at hs
    by_contra hne
    have hpos : 0 < f.argc := by omega
    rw [(ApplyFunc_arity 0 rfl hf).2.1 hpos] at hs
    cases hs

/-- C8 (witness): the function of two arguments called as `add2(1, 2, 3)` fails with the
too-many-parameters error. -/
theorem C8_function_arity_witness :
    CreateRPN Examples.env Examples.mem {}
      { m_strFormula := "expr ",
        m_tokens := (Examples.tokAdd2 :: Examples.tokOp .cmBO ::
          (Examples.args123.toks ++ [Examples.tokOp .cmBC])) ++ [] } =
      Error .ecTOO_MANY_PARAMS :=
  ((C8_function_arity Examples.env Examples.mem {} "expr " Examples.tokAdd2
    (Examples.tokOp .cmBO) (Examples.tokOp .cmBC) [] (by decide) (by decide) (by decide)
    (by decide)).1 Examples.args123 (by decide!) (by decide!)).1 (by decide) (by decide)

set_option maxHeartbeats 4000000 in
/-- With the optimizer, `x + y * z` evaluates to `x + (y * z)`. -/
theorem eval_add_mul (env : CallEnv) (mem : Mem) (x y z : Operand) :
    evalWith env true [x.tok, Examples.tokOp .cmADD, y.tok, Examples.tokOp .cmMUL, z.tok] mem =
      .ok (x.value mem + y.value mem * z.value mem) := by
  have hv : Expr.Valid .args none (Expr.bin (Examples.tokOp .cmADD) x.expr
      (Expr.bin (Examples.tokOp .cmMUL) y.expr z.expr)) = true := by
    cases x <;> cases y <;> cases z <;> rfl
  have hc := @Expr.CreateRPN_eq env mem _ _ hv (by decide) { m_bEnableOptimizer := true }
    "expr " (by decide)
  have ht : (Expr.bin (Examples.tokOp .cmADD) x.expr
      (Expr.bin (Examples.tokOp .cmMUL) y.expr z.expr)).toks =
      [x.tok, Examples.tokOp .cmADD, y.tok, Examples.tokOp .cmMUL, z.tok] := by
    cases x <;> cases y <;> cases z <;> rfl
  rw [ht] at hc
  simp only [evalWith, Examples.parser, ParserBase.Eval, ParserBase.ParseString,
    ParserBase.CreateRPN, hc]
  clear hv hc ht
  have h0 : ∀ p : Nat, (¬p = 0 ∨ 0 = p) := fun p => by omega
  have h1 : ∀ p : Nat, (¬p = 0 ∨ p = 0) := fun p => by omega
  rcases x with a | p <;> rcases y with b | q <;> rcases z with c | r
  all_goals try (by_cases hpq : p = q)
  all_goals try (by_cases hqr : q = r)
  all_goals try (by_cases hpr : p = r)
  all_goals try (have hpq' : ¬ q = p := fun h => hpq h.symm)
  all_goals try (have hqr' : ¬ r = q := fun h => hqr h.symm)
  all_goals try (have hpr' : ¬ r = p := fun h => hpr h.symm)
  all_goals try subst hpq
  all_goals try subst hqr
  all_goals try subst hpr
  all_goals
    simp [Operand.expr, Operand.value, Operand.tok, Expr.emit, ParserByteCode.AddVal,
      ParserByteCode.AddVar, ParserByteCode.AddOp,
      ParserByteCode.peephole, ParserByteCode.addSubPattern, MUP_ASSERT,
      ParserByteCode.ConstantFolding, ParserByteCode.pushOp, ParserByteCode.clear,
      Examples.tokVal, Examples.tokVar, Examples.tokOp, token_type.GetCode, bind, Except.bind,
      Expr.finish, ParserByteCode.Finalize, ParserByteCode.finalizeLoop,
      ParserBase.ParseCmdCodeShort, ParserBase.ParseCmdCode, ParserBase.ParseCmdCodeBulk,
      vmLoop, exec, binaryOp, Result.value, ParserBase.stackBase, h0, h1, *]
  all_goals try ring

set_option maxHeartbeats 4000000 in
/-- With the optimizer, `x - y - z` evaluates to `(x - y) - z`. -/
theorem eval_sub_sub (env : CallEnv) (mem : Mem) (x y z : Operand) :
    evalWith env true [x.tok, Examples.tokOp .cmSUB, y.tok, Examples.tokOp .cmSUB, z.tok] mem =
      .ok (x.value mem - y.value mem - z.value mem) := by
  have hv : Expr.Valid .args none (Expr.bin (Examples.tokOp .cmSUB)
      (Expr.bin (Examples.tokOp .cmSUB) x.expr y.expr) z.expr) = true := by
    cases x <;> cases y <;> cases z <;> rfl
  have hc := @Expr.CreateRPN_eq env mem _ _ hv (by decide) { m_bEnableOptimizer := true }
    "expr " (by decide)
  have ht : (Expr.bin (Examples.tokOp .cmSUB)
      (Expr.bin (Examples.tokOp .cmSUB) x.expr y.expr) z.expr).toks =
      [x.tok, Examples.tokOp .cmSUB, y.tok, Examples.tokOp .cmSUB, z.tok] := by
    cases x <;> cases y <;> cases z <;> rfl
  rw [ht] at hc
  simp only [evalWith, Examples.parser, ParserBase.Eval, ParserBase.ParseString,
    ParserBase.CreateRPN, hc]
  clear hv hc ht
  have h0 : ∀ p : Nat, (¬p = 0 ∨ 0 = p) := fun p => by omega
  have h1 : ∀ p : Nat, (¬p = 0 ∨ p = 0) := fun p => by omega
  rcases x with a | p <;> rcases y with b | q <;> rcases z with c | r
  all_goals try (by_cases hpq : p = q)
  all_goals try (by_cases hqr : q = r)
  all_goals try (by_cases hpr : p = r)
  all_goals try (have hpq' : ¬ q = p := fun h => hpq h.symm)
  all_goals try (have hqr' : ¬ r = q := fun h => hqr h.symm)
  all_goals try (have hpr' : ¬ r = p := fun h => hpr h.symm)
  all_goals try subst hpq
  all_goals try subst hqr
  all_goals try subst hpr
  all_goals
    simp [Operand.expr, Operand.value, Operand.tok, Expr.emit, ParserByteCode.AddVal,
      ParserByteCode.AddVar, ParserByteCode.AddOp,
      ParserByteCode.peephole, ParserByteCode.addSubPattern, MUP_ASSERT,
      ParserByteCode.ConstantFolding, ParserByteCode.pushOp, ParserByteCode.clear,
      Examples.tokVal, Examples.tokVar, Examples.tokOp, token_type.GetCode, bind, Except.bind,
      Expr.finish, ParserByteCode.Finalize, ParserByteCode.finalizeLoop,
      ParserBase.ParseCmdCodeShort, ParserBase.ParseCmdCode, ParserBase.ParseCmdCodeBulk,
      vmLoop, exec, binaryOp, Result.value, ParserBase.stackBase, h0, h1, *]
  all_goals try ring

set_option maxHeartbeats 4000000 in
/-- With the optimizer, `x / y / z` evaluates to `(x / y) / z`. -/
theorem eval_div_div (env : CallEnv) (mem : Mem) (x y z : Operand) :
    evalWith env true [x.tok, Examples.tokOp .cmDIV, y.tok, Examples.tokOp .cmDIV, z.tok] mem =
      .ok (x.value mem / y.value mem / z.value mem) := by
  have hv : Expr.Valid .args none (Expr.bin (Examples.tokOp .cmDIV)
      (Expr.bin (Examples.tokOp .cmDIV) x.expr y.expr) z.expr) = true := by
    cases x <;> cases y <;> cases z <;> rfl
  have hc := @Expr.CreateRPN_eq env mem _ _ hv (by decide) { m_bEnableOptimizer := true }
    "expr " (by decide)
  have ht : (Expr.bin (Examples.tokOp .cmDIV)
      (Expr.bin (Examples.tokOp .cmDIV) x.expr y.expr) z.expr).toks =
      [x.tok, Examples.tokOp .cmDIV, y.tok, Examples.tokOp .cmDIV, z.tok] := by
    cases x <;> cases y <;> cases z <;> rfl
  rw [ht] at hc
  simp only [evalWith, Examples.parser, ParserBase.Eval, ParserBase.ParseString,
    ParserBase.CreateRPN, hc]
  clear hv hc ht
  have h0 : ∀ p : Nat, (¬p = 0 ∨ 0 = p) := fun p => by omega
  have h1 : ∀ p : Nat, (¬p = 0 ∨ p = 0) := fun p => by omega
  rcases x with a | p <;> rcases y with b | q <;> rcases z with c | r
  all_goals try (by_cases hpq : p = q)
  all_goals try (by_cases hqr : q = r)
  all_goals try (by_cases hpr : p = r)
  all_goals try (have hpq' : ¬ q = p := fun h => hpq h.symm)
  all_goals try (have hqr' : ¬ r = q := fun h => hqr h.symm)
  all_goals try (have hpr' : ¬ r = p := fun h => hpr h.symm)
  all_goals try subst hpq
  all_goals try subst hqr
  all_goals try subst hpr
  all_goals
    simp [Operand.expr, Operand.value, Operand.tok, Expr.emit, ParserByteCode.AddVal,
      ParserByteCode.AddVar, ParserByteCode.AddOp,
      ParserByteCode.peephole, ParserByteCode.addSubPattern, MUP_ASSERT,
      ParserByteCode.ConstantFolding, ParserByteCode.pushOp, ParserByteCode.clear,
      Examples.tokVal, Examples.tokVar, Examples.tokOp, token_type.GetCode, bind, Except.bind,
      Expr.finish, ParserByteCode.Finalize, ParserByteCode.finalizeLoop,
      ParserBase.ParseCmdCodeShort, ParserBase.ParseCmdCode, ParserBase.ParseCmdCodeBulk,
      vmLoop, exec, binaryOp, Result.value, ParserBase.stackBase, h0, h1, *]

set_option maxHeartbeats 4000000 in
/-- With the optimizer, `x ^ y ^ z` evaluates to `x ^ (y ^ z)`. -/
theorem eval_pow_pow (env : CallEnv) (mem : Mem) (x y z : Operand)
    (hP0 : ∀ v, env.Pow v 0 = 1) (hP1 : ∀ v, env.Pow v 1 = v) (hP2 : ∀ v, env.Pow v 2 = v * v)
    (hP3 : ∀ v, env.Pow v 3 = v * v * v) (hP4 : ∀ v, env.Pow v 4 = v * v * v * v) :
    evalWith env true [x.tok, Examples.tokOp .cmPOW, y.tok, Examples.tokOp .cmPOW, z.tok] mem =
      .ok (env.Pow (x.value mem) (env.Pow (y.value mem) (z.value mem))) := by
  have hv : Expr.Valid .args none (Expr.bin (Examples.tokOp .cmPOW) x.expr
      (Expr.bin (Examples.tokOp .cmPOW) y.expr z.expr)) = true := by
    cases x <;> cases y <;> cases z <;> rfl
  have hc := @Expr.CreateRPN_eq env mem _ _ hv (by decide) { m_bEnableOptimizer := true }
    "expr " (by decide)
  have ht : (Expr.bin (Examples.tokOp .cmPOW) x.expr
      (Expr.bin (Examples.tokOp .cmPOW) y.expr z.expr)).toks =
      [x.tok, Examples.tokOp .cmPOW, y.tok, Examples.tokOp .cmPOW, z.tok] := by
    cases x <;> cases y <;> cases z <;> rfl
  rw [ht] at hc
  simp only [evalWith, Examples.parser, ParserBase.Eval, ParserBase.ParseString,
    ParserBase.CreateRPN, hc]
  clear hv hc ht
  have h0 : ∀ p : Nat, (¬p = 0 ∨ 0 = p) := fun p => by omega
  have h1 : ∀ p : Nat, (¬p = 0 ∨ p = 0) := fun p => by omega
  rcases x with a | p <;> rcases y with b | q <;> rcases z with c | r
  all_goals try (by_cases hpq : p = q)
  all_goals try (by_cases hqr : q = r)
  all_goals try (by_cases hpr : p = r)
  all_goals try (have hpq' : ¬ q = p := fun h => hpq h.symm)
  all_goals try (have hqr' : ¬ r = q := fun h => hqr h.symm)
  all_goals try (have hpr' : ¬ r = p := fun h => hpr h.symm)
  all_goals try subst hpq
  all_goals try subst hqr
  all_goals try subst hpr
  all_goals try
    (have _hc := c; (fail_if_success (have _hb := b))
     rcases Classical.em (c = 0) with rfl | n0)
  all_goals try
    (have _hc := c; (fail_if_success (have _hb := b))
     rcases Classical.em (c = 1) with rfl | n1)
  all_goals try
    (have _hc := c; (fail_if_success (have _hb := b))
     rcases Classical.em (c = 2) with rfl | n2)
  all_goals try
    (have _hc := c; (fail_if_success (have _hb := b))
     rcases Classical.em (c = 3) with rfl | n3)
  all_goals try
    (have _hc := c; (fail_if_success (have _hb := b))
     rcases Classical.em (c = 4) with rfl | n4)
  all_goals try
    (have _hp := p; have _hb := b; have _hc := c
     rcases Classical.em (env.Pow b c = 0) with e0 | f0)
  all_goals try
    (have _hp := f0; have _hb := b; have _hc := c
     rcases Classical.em (env.Pow b c = 1) with e1 | f1)
  all_goals try
    (have _hp := f1; have _hb := b; have _hc := c
     rcases Classical.em (env.Pow b c = 2) with e2 | f2)
  all_goals try
    (have _hp := f2; have _hb := b; have _hc := c
     rcases Classical.em (env.Pow b c = 3) with e3 | f3)
  all_goals try
    (have _hp := f3; have _hb := b; have _hc := c
     rcases Classical.em (env.Pow b c = 4) with e4 | f4)
  all_goals
    simp [Operand.expr, Operand.value, Operand.tok, Expr.emit, ParserByteCode.AddVal,
      ParserByteCode.AddVar, ParserByteCode.AddOp,
      ParserByteCode.peephole, ParserByteCode.addSubPattern, MUP_ASSERT,
      ParserByteCode.ConstantFolding, ParserByteCode.pushOp, ParserByteCode.clear,
      Examples.tokVal, Examples.tokVar, Examples.tokOp, token_type.GetCode, bind, Except.bind,
      Expr.finish, ParserByteCode.Finalize, ParserByteCode.finalizeLoop,
      ParserBase.ParseCmdCodeShort, ParserBase.ParseCmdCode, ParserBase.ParseCmdCodeBulk,
      vmLoop, exec, binaryOp, Result.value, ParserBase.stackBase, h0, h1, *]

/-- C5 (counterexample): `x - 1 - 1` at `x = 1e16` in `double` arithmetic.  With the optimizer
the bytecode is `VARMUL(1, -2, x), END` (the two calls of `AddOp(cmSUB)` that build the entry
compute the same constants in `double` arithmetic) and the evaluation returns
9999999999999998; the value of `(x - 1) - 1` in `double` arithmetic is 1e16, which the
evaluation returns without the optimizer. -/
theorem C5_counterexample :
    roundDouble 10000000000000000 = 10000000000000000 ∧
    compiledCode Examples.env true Examples.toksSubSub (Examples.memAt 10000000000000000) =
      .ok [SToken.VARMUL 1 (-2) 10, { Cmd := .cmEND }] ∧
    ParserByteCode.AddOpWith Arith.double Examples.env
        { m_vRPN := [SToken.VAR 10, SToken.VAL 1] } .cmSUB =
      .ok { m_vRPN := [SToken.VARMUL 1 (-1) 10] } ∧
    ParserByteCode.AddOpWith Arith.double Examples.env
        { m_vRPN := [SToken.VARMUL 1 (-1) 10, SToken.VAL 1] } .cmSUB =
      .ok { m_vRPN := [SToken.VARMUL 1 (-2) 10] } ∧
    evalArith Arith.double Examples.env true Examples.toksSubSub
        (Examples.memAt 10000000000000000) = .ok 9999999999999998 ∧
    Arith.double.sub (Arith.double.sub 10000000000000000 1) 1 = 10000000000000000 ∧
    evalArith Arith.double Examples.env false Examples.toksSubSub
        (Examples.memAt 10000000000000000) = .ok 10000000000000000 := by
  decide!

/-- C5 (amended): for operands `x`, `y`, `z` that are literals or variables.  In exact
arithmetic, with or without the optimizer, scalar `Eval` of the token stream `x + y * z` returns
`x + (y * z)`, of `x - y - z` returns `(x - y) - z`, of `x / y / z` returns `(x / y) / z`, and of
`x ^ y ^ z` returns `x ^ (y ^ z)` (with the optimizer, which rewrites the powers 0 to 4 of a
variable, provided the power function agrees with these rewritings); `2 + 3 * 4` evaluates
to 14.  Without the optimizer, whatever the arithmetic, `Eval` returns these groupings computed
with the operations of the arithmetic; `2 + 3 * 4` is 14 in `double` arithmetic. -/
theorem C5_operator_grouping (env : CallEnv) (mem : Mem) (optimizer : Bool) (x y z : Operand) :
    evalWith env optimizer
        [x.tok, Examples.tokOp .cmADD, y.tok, Examples.tokOp .cmMUL, z.tok] mem =
      .ok (x.value mem + (y.value mem * z.value mem)) ∧
    evalWith env optimizer
        [x.tok, Examples.tokOp .cmSUB, y.tok, Examples.tokOp .cmSUB, z.tok] mem =
      .ok ((x.value mem - y.value mem) - z.value mem) ∧
    evalWith env optimizer
        [x.tok, Examples.tokOp .cmDIV, y.tok, Examples.tokOp .cmDIV, z.tok] mem =
      .ok ((x.value mem / y.value mem) / z.value mem) ∧
    ((optimizer = true →
        (∀ v, env.Pow v 0 = 1) ∧ (∀ v, env.Pow v 1 = v) ∧ (∀ v, env.Pow v 2 = v * v) ∧
        (∀ v, env.Pow v 3 = v * v * v) ∧ (∀ v, env.Pow v 4 = v * v * v * v)) →
      evalWith env optimizer
          [x.tok, Examples.tokOp .cmPOW, y.tok, Examples.tokOp .cmPOW, z.tok] mem =
        .ok (env.Pow (x.value mem) (env.Pow (y.value mem) (z.value mem)))) ∧
    evalWith env optimizer
        [Examples.tokVal 2, Examples.tokOp .cmADD, Examples.tokVal 3, Examples.tokOp .cmMUL,
          Examples.tokVal 4] mem = .ok 14 ∧
    (∀ A : Arith,
      evalArith A env false
          [x.tok, Examples.tokOp .cmADD, y.tok, Examples.tokOp .cmMUL, z.tok] mem =
        .ok (A.add (x.value mem) (A.mul (y.value mem) (z.value mem))) ∧
      evalArith A env false
          [x.tok, Examples.tokOp .cmSUB, y.tok, Examples.tokOp .cmSUB, z.tok] mem =
        .ok (A.sub (A.sub (x.value mem) (y.value mem)) (z.value mem)) ∧
      evalArith A env false
          [x.tok, Examples.tokOp .cmDIV, y.tok, Examples.tokOp .cmDIV, z.tok] mem =
        .ok (A.div (A.div (x.value mem) (y.value mem)) (z.value mem)) ∧
      evalArith A env false
          [x.tok, Examples.tokOp .cmPOW, y.tok, Examples.tokOp .cmPOW, z.tok] mem =
        .ok (env.Pow (x.value mem) (env.Pow (y.value mem) (z.value mem)))) ∧
    evalArith Arith.double env false
        [Examples.tokVal 2, Examples.tokOp .cmADD, Examples.tokVal 3, Examples.tokOp .cmMUL,
          Examples.tokVal 4] mem = .ok 14 := by
  have hA := fun A : Arith => evalArith_grouping A env mem x y z
  have e14 : Arith.double.add 2 (Arith.double.mul 3 4) = 14 := by decide!
  have h14 : evalArith Arith.double env false
      [Examples.tokVal 2, Examples.tokOp .cmADD, Examples.tokVal 3, Examples.tokOp .cmMUL,
        Examples.tokVal 4] mem = .ok 14 :=
    (evalArith_grouping Arith.double env mem (.lit 2) (.lit 3) (.lit 4)).1.trans
      (congrArg Except.ok e14)
  cases optimizer
  · refine ⟨?_, ?_, ?_, fun _ => ?_, ?_, hA, h14⟩
    · cases x <;> cases y <;> cases z <;> rfl
    · cases x <;> cases y <;> cases z <;> rfl
    · cases x <;> cases y <;> cases z <;> rfl
    · cases x <;> cases y <;> cases z <;> rfl
    · have h : evalWith env false [Examples.tokVal 2, Examples.tokOp .cmADD, Examples.tokVal 3,
          Examples.tokOp .cmMUL, Examples.tokVal 4] mem = .ok (2 + 3 * 4) := rfl
      rw [h]; norm_num
  · refine ⟨eval_add_mul env mem x y z, eval_sub_sub env mem x y z, eval_div_div env mem x y z,
      fun h => ?_, ?_, hA, h14⟩
    · obtain ⟨h0, h1, h2, h3, h4⟩ := h rfl
      exact eval_pow_pow env mem x y z h0 h1 h2 h3 h4
    · have h := eval_add_mul env mem (.lit 2) (.lit 3) (.lit 4)
      simp only [Operand.tok, Operand.value] at h
      rw [h]; norm_num

/-- C5 (witness): with the optimizer and the exact power function, `a ^ 3 ^ 2` for the variable
`a = 4` is `4 ^ 9 = 262144` (and not `(4 ^ 3) ^ 2 = 4096`). -/
theorem C5_operator_grouping_witness :
    evalWith Examples.env true
        [Examples.tokVar 10, Examples.tokOp .cmPOW, Examples.tokVal 3, Examples.tokOp .cmPOW,
          Examples.tokVal 2] Examples.mem = .ok 262144 := by
  have e : Examples.env.Pow (Examples.mem 10) (Examples.env.Pow 3 2) = 262144 := by
    norm_num [Examples.env, Examples.mem]
  exact ((C5_operator_grouping Examples.env Examples.mem true (.var 10) (.lit 3)
    (.lit 2)).2.2.2.1 (fun _ => ⟨fun v => by simp [Examples.env],
      fun v => by simp [Examples.env], fun v => by simp [Examples.env]; exact zpow_two v,
      fun v => by
        simp only [Examples.env]
        rw [if_pos (by norm_num), show (3 : ℚ).num = ((3 : ℕ) : ℤ) from rfl, zpow_natCast]; ring,
      fun v => by
        simp only [Examples.env]
        rw [if_pos (by norm_num), show (4 : ℚ).num = ((4 : ℕ) : ℤ) from rfl, zpow_natCast]
        ring⟩)).trans (congrArg Except.ok e)

/-- The loop of `Finalize` over a conditional: each of the three pieces gets its own offsets
written, the `IF` entry the distance to the entry behind the `ELSE` entry, the `ELSE` entry the
distance to the entry behind the `ENDIF` entry. -/
theorem ParserByteCode.finalizeLoop_cond {k h ht he : Nat} {bs bt be : List SToken}
    {tIf tElse tEnd : SToken} (cs : Code false k h bs) (ct : Code false 1 ht bt)
    (ce : Code false 1 he be) (e1 : tIf.Cmd = .cmIF) (e2 : tElse.Cmd = .cmELSE)
    (e3 : tEnd.Cmd = .cmENDIF) :
    ∀ (pre post : List SToken) (rest : List ECmdCode) (stIf stElse : List Nat),
      ∃ bs' bt' be', Code true k h bs' ∧ Code true 1 ht bt' ∧ Code true 1 he be' ∧
        bs'.length = bs.length ∧ bt'.length = bt.length ∧ be'.length = be.length ∧
        bs'.map SToken.eraseOffset = bs.map SToken.eraseOffset ∧
        bt'.map SToken.eraseOffset = bt.map SToken.eraseOffset ∧
        be'.map SToken.eraseOffset = be.map SToken.eraseOffset ∧
        ParserByteCode.finalizeLoop
            ((bs ++ tIf :: (bt ++ tElse :: (be ++ [tEnd]))).map (fun t => t.Cmd) ++ rest)
            pre.length stIf stElse
            (pre ++ (bs ++ tIf :: (bt ++ tElse :: (be ++ [tEnd]))) ++ post) =
          ParserByteCode.finalizeLoop rest
            (pre.length + (bs ++ tIf :: (bt ++ tElse :: (be ++ [tEnd]))).length) stIf stElse
            (pre ++ (bs' ++ { tIf with offset := bt'.length + 1 } ::
              (bt' ++ { tElse with offset := be'.length + 1 } :: (be' ++ [tEnd]))) ++ post) := by
  have ihs := ParserByteCode.finalizeLoop_code cs
  have iht := ParserByteCode.finalizeLoop_code ct
  have ihe := ParserByteCode.finalizeLoop_code ce
  intro pre post rest stIf stElse
  obtain ⟨bs', a1, a2, a3, a4⟩ := ihs pre (tIf :: (bt ++ tElse :: (be ++ [tEnd])) ++ post)
    (.cmIF :: (bt.map (fun t => t.Cmd) ++ .cmELSE :: (be.map (fun t => t.Cmd) ++
      .cmENDIF :: rest))) stIf stElse
  obtain ⟨bt', b1, b2, b3, b4⟩ := iht (pre ++ bs' ++ [tIf])
    (tElse :: (be ++ [tEnd]) ++ post)
    (.cmELSE :: (be.map (fun t => t.Cmd) ++ .cmENDIF :: rest)) ((pre ++ bs').length :: stIf)
    stElse
  obtain ⟨be', c1, c2, c3, c4⟩ := ihe
    (pre ++ bs' ++ { tIf with offset := bt'.length + 1 } :: bt' ++ [tElse])
    ([tEnd] ++ post) (.cmENDIF :: rest) stIf
    ((pre ++ bs' ++ tIf :: bt').length :: stElse)
  refine ⟨bs', bt', be', a1, b1, c1, a2, b2, c2, a3, b3, c3, ?_⟩
  · have g1 : (bs ++ tIf :: (bt ++ tElse :: (be ++ [tEnd]))).map (fun t => t.Cmd) ++ rest =
        bs.map (fun t => t.Cmd) ++ (.cmIF :: (bt.map (fun t => t.Cmd) ++ .cmELSE ::
          (be.map (fun t => t.Cmd) ++ .cmENDIF :: rest))) := by
      simp [e1, e2, e3]
    have g2 : pre ++ (bs ++ tIf :: (bt ++ tElse :: (be ++ [tEnd]))) ++ post =
        pre ++ bs ++ (tIf :: (bt ++ tElse :: (be ++ [tEnd])) ++ post) := by simp
    rw [g1, g2, a4, ParserByteCode.finalizeLoop]
    have g3 : pre ++ bs' ++ (tIf :: (bt ++ tElse :: (be ++ [tEnd])) ++ post) =
        pre ++ bs' ++ [tIf] ++ bt ++ (tElse :: (be ++ [tEnd]) ++ post) := by simp
    have g4 : pre.length + bs.length + 1 = (pre ++ bs' ++ [tIf]).length := by
      simp only [List.length_append, List.length_singleton, a2]
    have g5 : pre.length + bs.length = (pre ++ bs').length := by simp [a2]
    rw [g3, g4, g5, b4, ParserByteCode.finalizeLoop]
    have g6 : ParserByteCode.setOffset
        (pre ++ bs' ++ [tIf] ++ bt' ++ (tElse :: (be ++ [tEnd]) ++ post)) (pre ++ bs').length
        ((pre ++ bs' ++ [tIf]).length + bt.length - (pre ++ bs').length) =
        pre ++ bs' ++ { tIf with offset := bt'.length + 1 } :: bt' ++ [tElse] ++ be ++
          ([tEnd] ++ post) := by
      have : pre ++ bs' ++ [tIf] ++ bt' ++ (tElse :: (be ++ [tEnd]) ++ post) =
          (pre ++ bs') ++ tIf :: (bt' ++ (tElse :: (be ++ [tEnd]) ++ post)) := by simp
      rw [ParserByteCode.setOffset, this, List.modify_append_cons]
      have : (pre ++ bs' ++ [tIf]).length + bt.length - (pre ++ bs').length =
          bt'.length + 1 := by
        simp only [List.length_append, List.length_singleton, List.length_cons,
          List.length_nil, b2]; omega
      rw [this]; simp
    have g7 : (pre ++ bs' ++ [tIf]).length + bt.length + 1 =
        (pre ++ bs' ++ { tIf with offset := bt'.length + 1 } :: bt' ++ [tElse]).length := by
      simp [b2]; omega
    have g8 : (pre ++ bs' ++ [tIf]).length + bt.length = (pre ++ bs' ++ tIf :: bt').length := by
      simp [b2]; omega
    rw [g6, g7, g8, c4, ParserByteCode.finalizeLoop]
    have g9 : ParserByteCode.setOffset
        (pre ++ bs' ++ { tIf with offset := bt'.length + 1 } :: bt' ++ [tElse] ++ be' ++
          ([tEnd] ++ post)) (pre ++ bs' ++ tIf :: bt').length
        ((pre ++ bs' ++ { tIf with offset := bt'.length + 1 } :: bt' ++ [tElse]).length +
          be.length - (pre ++ bs' ++ tIf :: bt').length) =
        pre ++ (bs' ++ { tIf with offset := bt'.length + 1 } ::
          (bt' ++ { tElse with offset := be'.length + 1 } :: (be' ++ [tEnd]))) ++ post := by
      have e5 : pre ++ bs' ++ { tIf with offset := bt'.length + 1 } :: bt' ++ [tElse] ++ be' ++
          ([tEnd] ++ post) =
          (pre ++ bs' ++ { tIf with offset := bt'.length + 1 } :: bt') ++
            tElse :: (be' ++ ([tEnd] ++ post)) := by simp
      have e6 : (pre ++ bs' ++ tIf :: bt').length =
          (pre ++ bs' ++ { tIf with offset := bt'.length + 1 } :: bt').length := by simp
      rw [ParserByteCode.setOffset, e5, e6, List.modify_append_cons]
      have : (pre ++ bs' ++ { tIf with offset := bt'.length + 1 } :: bt' ++ [tElse]).length +
          be.length - (pre ++ bs' ++ { tIf with offset := bt'.length + 1 } :: bt').length =
          be'.length + 1 := by
        simp only [List.length_append, List.length_singleton, List.length_cons,
          List.length_nil, c2]; omega
      rw [this]; simp
    rw [g9]
    congr 1
    simp only [List.length_append, List.length_cons, List.length_singleton, List.length_nil,
      a2, b2, c2]
    omega

theorem vmTrace_last (env : CallEnv) (strBuf : List String) (nOffset nThreadID : Nat)
    (tEnd : SToken) (h : tEnd.Cmd = .cmEND) (pc skip : Nat) (s : VMState) :
    vmTrace env strBuf nOffset nThreadID [tEnd] pc skip s = [] := by
  cases skip with
  | zero => simp only [vmTrace, h, if_true]
  | succ n => simp only [vmTrace]

/-- The run of the bytecode of a conditional at top level, from the registers `s0`, once the
code of the condition has run to the registers `r1.1`: with a condition different from zero the
loop dispatches the entries of the condition, the `IF` entry, the entries of the first branch
and the `ELSE` entry, and ends in the registers the first branch leaves; with a condition equal
to zero it dispatches the entries of the condition, the `IF` entry, the entries of the second
branch and the `ENDIF` entry, and ends in the registers the second branch leaves. -/
theorem vmLoop_cond (env : CallEnv) (strBuf : List String) (nOffset nThreadID : Nat)
    {hs ht he : Nat} {bs bt be : List SToken} {tIf tElse tEnd : SToken}
    (cs : Code true 1 hs bs) (ct : Code true 1 ht bt) (ce : Code true 1 he be)
    (c1 : tIf.Cmd = .cmIF) (c2 : tElse.Cmd = .cmELSE) (c3 : tEnd.Cmd = .cmENDIF)
    (o1 : tIf.offset = bt.length + 1) (o2 : tElse.offset = be.length + 1)
    (s0 : VMState) (h0 : 0 ≤ s0.sidx) (r1 : VMState × Nat)
    (hr1 : vmSteps env strBuf nOffset nThreadID bs 0 s0 = .ok r1) :
    (r1.1.stack r1.1.sidx ≠ 0 →
      vmLoop env strBuf nOffset nThreadID
          (bs ++ tIf :: (bt ++ tElse :: (be ++ [tEnd])) ++ [{ Cmd := .cmEND }]) 0 s0 =
        Except.bind (vmSteps env strBuf nOffset nThreadID bt 0 r1.1.pop) (fun r => .ok r.1) ∧
      vmTrace env strBuf nOffset nThreadID
          (bs ++ tIf :: (bt ++ tElse :: (be ++ [tEnd])) ++ [{ Cmd := .cmEND }]) 0 0 s0 =
        (traceSteps env strBuf nOffset nThreadID bs 0 0 s0).map (fun x => (x.1, x.2.2)) ++
          (bs.length, r1.1) ::
            ((traceSteps env strBuf nOffset nThreadID bt (bs.length + 1) 0 r1.1.pop).map
                (fun x => (x.1, x.2.2)) ++
              match vmSteps env strBuf nOffset nThreadID bt 0 r1.1.pop with
              | .ok r2 => [(bs.length + 1 + bt.length, r2.1)]
              | .error _ => [])) ∧
    (r1.1.stack r1.1.sidx = 0 →
      vmLoop env strBuf nOffset nThreadID
          (bs ++ tIf :: (bt ++ tElse :: (be ++ [tEnd])) ++ [{ Cmd := .cmEND }]) 0 s0 =
        Except.bind (vmSteps env strBuf nOffset nThreadID be 0 r1.1.pop) (fun r => .ok r.1) ∧
      vmTrace env strBuf nOffset nThreadID
          (bs ++ tIf :: (bt ++ tElse :: (be ++ [tEnd])) ++ [{ Cmd := .cmEND }]) 0 0 s0 =
        (traceSteps env strBuf nOffset nThreadID bs 0 0 s0).map (fun x => (x.1, x.2.2)) ++
          (bs.length, r1.1) ::
            ((traceSteps env strBuf nOffset nThreadID be (bs.length + 1 + bt.length + 1) 0
                r1.1.pop).map (fun x => (x.1, x.2.2)) ++
              match vmSteps env strBuf nOffset nThreadID be 0 r1.1.pop with
              | .ok r2 => [(bs.length + 1 + bt.length + 1 + be.length, r2.1)]
              | .error _ => [])) := by
  have hblock : Code true 1 (max hs (max ht he))
      (bs ++ tIf :: (bt ++ tElse :: (be ++ [tEnd]))) :=
    Code.cond (k := 0) tIf tElse tEnd (cs.mono (le_max_left _ _)) ct ce
      (by rw [Nat.zero_add]; exact le_trans (le_max_left _ _) (le_max_right _ _))
      (by rw [Nat.zero_add]; exact le_trans (le_max_right _ _) (le_max_right _ _))
      c1 c2 c3 (fun _ => ⟨o1, o2⟩)
  obtain ⟨_, q1⟩ := Code.run env strBuf nOffset nThreadID cs 0 s0
  obtain ⟨e1, e2, _⟩ := q1 r1 hr1
  have runT := Code.run env strBuf nOffset nThreadID ct
  have runE := Code.run env strBuf nOffset nThreadID ce
  obtain ⟨s1, k1⟩ := r1
  simp only at e1 e2 ⊢
  subst e2
  have hL := vmLoop_append env strBuf nOffset nThreadID
    (bs ++ tIf :: (bt ++ tElse :: (be ++ [tEnd]))) [{ Cmd := .cmEND }] hblock.no_end 0 s0
  have hT := vmTrace_append env strBuf nOffset nThreadID
    (bs ++ tIf :: (bt ++ tElse :: (be ++ [tEnd]))) [{ Cmd := .cmEND }] hblock.no_end 0 0 s0
  have hT' : vmTrace env strBuf nOffset nThreadID
      (bs ++ tIf :: (bt ++ tElse :: (be ++ [tEnd])) ++ [{ Cmd := .cmEND }]) 0 0 s0 =
      (traceSteps env strBuf nOffset nThreadID (bs ++ tIf :: (bt ++ tElse :: (be ++ [tEnd])))
        0 0 s0).map (fun x => (x.1, x.2.2)) := by
    rw [hT]
    cases vmSteps env strBuf nOffset nThreadID (bs ++ tIf :: (bt ++ tElse :: (be ++ [tEnd])))
        0 s0 with
    | error e => exact List.append_nil _
    | ok r =>
      simp only [vmTrace_last env strBuf nOffset nThreadID { Cmd := .cmEND } rfl]
      exact List.append_nil _
  rw [hL, hT', vmSteps_append, traceSteps_append, hr1]
  simp only [Result.bind_ok, Nat.zero_add]
  rw [vmSteps_if env strBuf nOffset nThreadID c1 o1,
    traceSteps_if env strBuf nOffset nThreadID c1 o1]
  constructor
  · intro hnz
    simp only [hnz, if_false]
    cases hb : vmSteps env strBuf nOffset nThreadID bt 0 s1.pop with
    | error e => simp [Result.bind_error, Except.bind]
    | ok r2 =>
      obtain ⟨_, q2⟩ := runT 0 s1.pop
      obtain ⟨_, f2, _⟩ := q2 r2 hb
      obtain ⟨s2, k2⟩ := r2
      simp only at f2
      subst f2
      simp only [Result.bind_ok, vmSteps_else env strBuf nOffset nThreadID c2 o2,
        traceSteps_else env strBuf nOffset nThreadID c2 o2,
        vmLoop_end env strBuf nOffset nThreadID { Cmd := .cmEND } rfl, List.map_append,
        List.map_cons, List.map_nil]
      exact ⟨trivial, trivial⟩
  · intro hz
    have hs : s1.sidx - 1 ≥ 0 := by omega
    simp only [hz, if_true, hs]
    cases hb : vmSteps env strBuf nOffset nThreadID be 0 s1.pop with
    | error e => simp [Result.bind_error, Except.bind]
    | ok r2 =>
      obtain ⟨_, q2⟩ := runE 0 s1.pop
      obtain ⟨_, f2, _⟩ := q2 r2 hb
      obtain ⟨s2, k2⟩ := r2
      simp only at f2
      subst f2
      simp only [Result.bind_ok, vmSteps_endif env strBuf nOffset nThreadID c3,
        traceSteps_single, exec, c3,
        vmLoop_end env strBuf nOffset nThreadID { Cmd := .cmEND } rfl, List.map_append,
        List.map_cons, List.map_nil]
      exact ⟨trivial, trivial⟩

/-- What `CreateRPN` returns for a conditional at top level: the entries written for the
condition, the `IF` entry, the entries written for the first branch, the `ELSE` entry, the
entries written for the second branch, the `ENDIF` entry and the end entry, with the jump
offsets `Finalize` writes; the three pieces are stack typed. -/
theorem Expr.compiled_cond {env : CallEnv} {mem : Mem} {bc0 : ParserByteCode} {formula : String}
    {q c : token_type} {cond thn els : Expr} {m : Expr.Mode} {comp : Compiled}
    (hv : Expr.Valid m none (.ite q c cond thn els) = true) (hm : m ≠ .strArgs)
    (hp : Expr.PlusOK env (.ite q c cond thn els))
    (hlen : ((Expr.ite q c cond thn els).toks.length : Int) < 2 ^ 64)
    (hc : CreateRPN env mem bc0
      { m_strFormula := formula, m_tokens := (Expr.ite q c cond thn els).toks } = .ok comp) :
    ∃ (st1 st2 st3 : ParserByteCode × List String) (tc tt te : List token_type)
      (bs bt be : List SToken) (tIf tElse tEnd : SToken) (hs ht he : Nat),
      Expr.emit env mem cond (bc0.clear, []) = .ok (st1, tc) ∧
      Expr.emit env mem thn (st1.1.AddIfElse .cmIF, st1.2) = .ok (st2, tt) ∧
      Expr.emit env mem els (st2.1.AddIfElse .cmELSE, st2.2) = .ok (st3, te) ∧
      Code true 1 hs bs ∧ Code true 1 ht bt ∧ Code true 1 he be ∧
      tIf.Cmd = .cmIF ∧ tElse.Cmd = .cmELSE ∧ tEnd.Cmd = .cmENDIF ∧
      tIf.offset = bt.length + 1 ∧ tElse.offset = be.length + 1 ∧
      bs.map SToken.eraseOffset = st1.1.m_vRPN.map SToken.eraseOffset ∧
      (bs ++ tIf :: bt).map SToken.eraseOffset = st2.1.m_vRPN.map SToken.eraseOffset ∧
      (bs ++ tIf :: (bt ++ tElse :: be)).map SToken.eraseOffset =
        st3.1.m_vRPN.map SToken.eraseOffset ∧
      comp.m_vRPN.m_vRPN = bs ++ tIf :: (bt ++ tElse :: (be ++ [tEnd])) ++ [{ Cmd := .cmEND }] ∧
      comp.m_vStringBuf = st3.2 := by
  have hf : formula.length ≠ 0 := by
    intro h0
    simp only [CreateRPN, h0, if_true] at hc
    cases hc
  rw [Expr.CreateRPN_eq hv hm bc0 formula hf] at hc
  obtain ⟨⟨⟨bc', sb'⟩, ts⟩, he, hfin⟩ := Result.bind_eq_ok hc
  simp only [Expr.Valid, Bool.and_eq_true, decide_eq_true_eq] at hv
  obtain ⟨⟨⟨⟨⟨⟨⟨_, _⟩, _⟩, hvc⟩, _⟩, _⟩, hvt⟩, hve⟩ := hv
  have hpc : Expr.PlusOK env cond := fun t ht => hp t (by simp [Expr.toks, ht])
  have hpt : Expr.PlusOK env thn := fun t ht => hp t (by simp [Expr.toks, ht])
  have hpe : Expr.PlusOK env els := fun t ht => hp t (by simp [Expr.toks, ht])
  simp only [Expr.toks, List.length_append, List.length_cons, Nat.cast_add, Nat.cast_one] at hlen
  have h0 : (0 : Int) ≤ (bc0.clear).m_iStackPos := by simp [ParserByteCode.clear]
  have hM : (bc0.clear).m_iStackPos ≤ ((bc0.clear).m_iMaxStackSize : Int) := by
    simp [ParserByteCode.clear]
  have hS : (bc0.clear).m_iStackPos = 0 := by simp [ParserByteCode.clear]
  simp only [Expr.emit] at he
  split at he
  · cases he
  · rename_i st1 tc h1
    obtain ⟨bc1, sb1⟩ := st1
    have e1 := Expr.emit_code cond _ _ _ _ _ _ _ hvc hpc h1 h0 hM (by rw [hS]; omega)
    rw [Expr.numItems_expr (by decide) (Expr.items_of_valid_expr hvc)] at e1
    have n1 := @Emits.next _ _ _ _ e1 h0 (thn.toks.length + els.toks.length)
      (by rw [hS]; push_cast; omega)
    split at he
    · cases he
    · rename_i st2 tt h2
      obtain ⟨bc2, sb2⟩ := st2
      have e2 := Expr.emit_code thn _ _ _ _ _ _ _ hvt hpt h2 n1.1 n1.2.1 (by
        have := n1.2.2; push_cast at this
        show bc1.m_iStackPos + _ < _; omega)
      rw [Expr.numItems_expr (by decide) (Expr.items_of_valid_expr hvt)] at e2
      have n2 := @Emits.next _ _ _ _ e2 (by exact n1.1) els.toks.length (by
        have := n1.2.2; push_cast at this
        show bc1.m_iStackPos + _ + _ < _; omega)
      split at he
      · cases he
      · rename_i st3 te h3
        obtain ⟨bc3, sb3⟩ := st3
        have e3 := Expr.emit_code els _ _ _ _ _ _ _ hve hpe h3 n2.1 n2.2.1 n2.2.2
        rw [Expr.numItems_expr (by decide) (Expr.items_of_valid_expr hve)] at e3
        split at he
        · cases he
        · simp only [Except.ok.injEq, Prod.mk.injEq] at he
          obtain ⟨⟨hbc, hsb⟩, _⟩ := he
          obtain ⟨b1, hh1, a1, a2, _⟩ := e1
          obtain ⟨b2, hh2, c1, c2, _⟩ := e2
          obtain ⟨b3, hh3, d1, d2, _⟩ := e3
          simp only [ParserByteCode.clear, List.nil_append] at a1
          simp only [ParserByteCode.AddIfElse] at c1 d1
          have hcode : bc'.m_vRPN =
              b1 ++ { Cmd := .cmIF } ::
                (b2 ++ { Cmd := .cmELSE } :: (b3 ++ [{ Cmd := .cmENDIF }])) := by
            rw [← hbc]
            simp only [ParserByteCode.AddIfElse, d1, c1, a1, List.append_assoc, List.cons_append,
              List.nil_append]
          obtain ⟨bs', bt', be', f1, f2, f3, g1, g2, g3, k1, k2, k3, hfl⟩ :=
            @ParserByteCode.finalizeLoop_cond _ _ _ _ _ _ _ { Cmd := .cmIF }
              { Cmd := .cmELSE } { Cmd := .cmENDIF } a2 c2 d2 rfl rfl rfl
              [] [{ Cmd := .cmEND }] [.cmEND] [] []
          simp only [List.nil_append, List.length_nil, Nat.zero_add] at hfl
          have hFin : bc'.Finalize = .ok { bc' with m_vRPN :=
              bs' ++ { Cmd := .cmIF, offset := bt'.length + 1 } ::
                (bt' ++ { Cmd := .cmELSE, offset := be'.length + 1 } ::
                  (be' ++ [{ Cmd := .cmENDIF }])) ++ [{ Cmd := .cmEND }] } := by
            unfold ParserByteCode.Finalize
            simp only [hcode, List.map_append, List.map_cons, List.map_nil, bind, Except.bind]
            simp only [List.map_append, List.map_cons, List.map_nil] at hfl
            rw [hfl, ParserByteCode.finalizeLoop_other _ _ _ _ _ (by decide)]
            rfl
          simp only [Expr.finish, hFin, Result.bind_ok, Except.ok.injEq] at hfin
          subst hfin
          refine ⟨(bc1, sb1), (bc2, sb2), (bc3, sb3), tc, tt, te, bs', bt', be',
            { Cmd := .cmIF, offset := bt'.length + 1 },
            { Cmd := .cmELSE, offset := be'.length + 1 }, { Cmd := .cmENDIF }, hh1, hh2, hh3,
            h1, h2, h3, f1, f2, f3, rfl, rfl, rfl, rfl, rfl, ?_, ?_, ?_, rfl, hsb.symm⟩
          · rw [k1, a1]
          · rw [c1, a1]
            simp only [List.map_append, List.map_cons, k1, k2, SToken.eraseOffset,
              List.append_assoc, List.cons_append, List.nil_append, List.map_nil]
          · rw [d1, c1, a1]
            simp only [List.map_append, List.map_cons, k1, k2, k3, SToken.eraseOffset,
              List.append_assoc, List.cons_append, List.nil_append, List.map_nil]

/-- C4: for a conditional `cond ? thn : els` that `CreateRPN` compiles, the bytecode is the
entries written for the condition, an `IF` entry, the entries written for the first branch, an
`ELSE` entry, the entries written for the second branch, an `ENDIF` entry and the end entry (up to
the jump offsets `Finalize` writes).  Once the entries of the condition have run: if the value of
the condition is not zero, the loop dispatches the `IF` entry, runs the entries of the first
branch, dispatches the `ELSE` entry and stops at the end entry, so no entry of the second branch
is dispatched; if the value is zero, it dispatches the `IF` entry, runs the entries of the second
branch, dispatches the `ENDIF` entry and stops at the end entry, so no entry of the first branch
is dispatched.  In both cases the registers at the end are those the branch leaves: one value
above the start of the stack, which is the result.  The expression `x > 0 ? 1 : -1` evaluates to
1 for `x = 2` and to -1 for `x = -2`. -/
theorem C4_conditional_one_branch (env : CallEnv) (mem : Mem) (bc0 : ParserByteCode)
    (formula : String) (q c : token_type) (cond thn els : Expr) (comp : Compiled)
    (hv : Expr.Valid .expr none (.ite q c cond thn els) = true)
    (hp : Expr.PlusOK env (.ite q c cond thn els))
    (hlen : ((Expr.ite q c cond thn els).toks.length : Int) < 2 ^ 64)
    (hc : CreateRPN env mem bc0
      { m_strFormula := formula, m_tokens := (Expr.ite q c cond thn els).toks } = .ok comp) :
    (∃ (st1 st2 st3 : ParserByteCode × List String) (tc tt te : List token_type)
      (bs bt be : List SToken) (tIf tElse tEnd : SToken),
      Expr.emit env mem cond (bc0.clear, []) = .ok (st1, tc) ∧
      Expr.emit env mem thn (st1.1.AddIfElse .cmIF, st1.2) = .ok (st2, tt) ∧
      Expr.emit env mem els (st2.1.AddIfElse .cmELSE, st2.2) = .ok (st3, te) ∧
      bs.map SToken.eraseOffset = st1.1.m_vRPN.map SToken.eraseOffset ∧
      (bs ++ tIf :: bt).map SToken.eraseOffset = st2.1.m_vRPN.map SToken.eraseOffset ∧
      (bs ++ tIf :: (bt ++ tElse :: be)).map SToken.eraseOffset =
        st3.1.m_vRPN.map SToken.eraseOffset ∧
      tIf.Cmd = .cmIF ∧ tElse.Cmd = .cmELSE ∧ tEnd.Cmd = .cmENDIF ∧
      comp.m_vRPN.m_vRPN = bs ++ tIf :: (bt ++ tElse :: (be ++ [tEnd])) ++ [{ Cmd := .cmEND }] ∧
      comp.m_nFinalResultIdx = 1 ∧
      ∀ (nOffset nThreadID : Nat) (s0 : VMState) (r1 : VMState × Nat), 0 ≤ s0.sidx →
        vmSteps env comp.m_vStringBuf nOffset nThreadID bs 0 s0 = .ok r1 →
        (r1.1.stack r1.1.sidx ≠ 0 →
          vmLoop env comp.m_vStringBuf nOffset nThreadID comp.m_vRPN.m_vRPN 0 s0 =
            Except.bind (vmSteps env comp.m_vStringBuf nOffset nThreadID bt 0 r1.1.pop)
              (fun r => .ok r.1) ∧
          vmTrace env comp.m_vStringBuf nOffset nThreadID comp.m_vRPN.m_vRPN 0 0 s0 =
            (traceSteps env comp.m_vStringBuf nOffset nThreadID bs 0 0 s0).map
                (fun x => (x.1, x.2.2)) ++
              (bs.length, r1.1) ::
                ((traceSteps env comp.m_vStringBuf nOffset nThreadID bt (bs.length + 1) 0
                    r1.1.pop).map (fun x => (x.1, x.2.2)) ++
                  match vmSteps env comp.m_vStringBuf nOffset nThreadID bt 0 r1.1.pop with
                  | .ok r2 => [(bs.length + 1 + bt.length, r2.1)]
                  | .error _ => []) ∧
          ∀ x ∈ vmTrace env comp.m_vStringBuf nOffset nThreadID comp.m_vRPN.m_vRPN 0 0 s0,
            x.1 < bs.length + 1 + bt.length + 1) ∧
        (r1.1.stack r1.1.sidx = 0 →
          vmLoop env comp.m_vStringBuf nOffset nThreadID comp.m_vRPN.m_vRPN 0 s0 =
            Except.bind (vmSteps env comp.m_vStringBuf nOffset nThreadID be 0 r1.1.pop)
              (fun r => .ok r.1) ∧
          vmTrace env comp.m_vStringBuf nOffset nThreadID comp.m_vRPN.m_vRPN 0 0 s0 =
            (traceSteps env comp.m_vStringBuf nOffset nThreadID bs 0 0 s0).map
                (fun x => (x.1, x.2.2)) ++
              (bs.length, r1.1) ::
                ((traceSteps env comp.m_vStringBuf nOffset nThreadID be
                    (bs.length + 1 + bt.length + 1) 0 r1.1.pop).map (fun x => (x.1, x.2.2)) ++
                  match vmSteps env comp.m_vStringBuf nOffset nThreadID be 0 r1.1.pop with
                  | .ok r2 => [(bs.length + 1 + bt.length + 1 + be.length, r2.1)]
                  | .error _ => []) ∧
          ∀ x ∈ vmTrace env comp.m_vStringBuf nOffset nThreadID comp.m_vRPN.m_vRPN 0 0 s0,
            x.1 ≤ bs.length ∨ bs.length + 1 + bt.length + 1 ≤ x.1) ∧
        ∀ s, vmLoop env comp.m_vStringBuf nOffset nThreadID comp.m_vRPN.m_vRPN 0 s0 = .ok s →
          s.sidx = s0.sidx + 1 ∧ ∀ i, i ≤ s0.sidx → s.stack i = s0.stack i) ∧
    ∀ optimizer : Bool,
      evalWith Examples.env optimizer Examples.exprSign.toks (fun _ => 2) = .ok 1 ∧
      evalWith Examples.env optimizer Examples.exprSign.toks (fun _ => -2) = .ok (-1) := by
  refine ⟨?_, fun optimizer => by cases optimizer <;> exact ⟨by decide!, by decide!⟩⟩
  obtain ⟨st1, st2, st3, tc, tt, te, bs, bt, be, tIf, tElse, tEnd, hs, ht, he, m1, m2, m3,
    cs, ct, ce, c1, c2, c3, o1, o2, k1, k2, k3, hcode, hsb⟩ :=
    Expr.compiled_cond hv (by decide) hp hlen hc
  obtain ⟨_, _, _, _, _, hidx, _⟩ := Expr.compiled_code hv (by decide) hp hlen hc
  refine ⟨st1, st2, st3, tc, tt, te, bs, bt, be, tIf, tElse, tEnd, m1, m2, m3, k1, k2, k3,
    c1, c2, c3, hcode, by rw [hidx]; rfl, ?_⟩
  intro nOffset nThreadID s0 r1 h0 hr1
  rw [hcode]
  obtain ⟨thenCase, elseCase⟩ := vmLoop_cond env comp.m_vStringBuf nOffset nThreadID cs ct ce
    c1 c2 c3 o1 o2 s0 h0 r1 hr1
  obtain ⟨_, q1⟩ := Code.run env comp.m_vStringBuf nOffset nThreadID cs 0 s0
  obtain ⟨e1, _, e3⟩ := q1 r1 hr1
  have memS := traceSteps_mem env comp.m_vStringBuf nOffset nThreadID bs 0 0 s0
  refine ⟨fun hnz => ?_, fun hz => ?_, ?_⟩
  · obtain ⟨hl, htr⟩ := thenCase hnz
    refine ⟨hl, htr, ?_⟩
    intro x hx
    rw [htr] at hx
    rcases List.mem_append.mp hx with hx | hx
    · obtain ⟨y, hy, rfl⟩ := List.mem_map.mp hx
      have := (memS y hy).2.1
      simp only; omega
    · rcases List.mem_cons.mp hx with hx | hx
      · subst hx; simp only; omega
      · rcases List.mem_append.mp hx with hx | hx
        · obtain ⟨y, hy, rfl⟩ := List.mem_map.mp hx
          have := (traceSteps_mem env comp.m_vStringBuf nOffset nThreadID bt (bs.length + 1) 0
            r1.1.pop y hy).2.1
          simp only; omega
        · cases hb : vmSteps env comp.m_vStringBuf nOffset nThreadID bt 0 r1.1.pop with
          | error e => rw [hb] at hx; cases hx
          | ok r2 =>
            rw [hb] at hx
            simp only [List.mem_singleton] at hx
            subst hx; simp only; omega
  · obtain ⟨hl, htr⟩ := elseCase hz
    refine ⟨hl, htr, ?_⟩
    intro x hx
    rw [htr] at hx
    rcases List.mem_append.mp hx with hx | hx
    · obtain ⟨y, hy, rfl⟩ := List.mem_map.mp hx
      have := (memS y hy).2.1
      left; simp only; omega
    · rcases List.mem_cons.mp hx with hx | hx
      · subst hx; left; simp only; omega
      · rcases List.mem_append.mp hx with hx | hx
        · obtain ⟨y, hy, rfl⟩ := List.mem_map.mp hx
          have := (traceSteps_mem env comp.m_vStringBuf nOffset nThreadID be
            (bs.length + 1 + bt.length + 1) 0 r1.1.pop y hy).1
          right; simp only; omega
        · cases hb : vmSteps env comp.m_vStringBuf nOffset nThreadID be 0 r1.1.pop with
          | error e => rw [hb] at hx; cases hx
          | ok r2 =>
            rw [hb] at hx
            simp only [List.mem_singleton] at hx
            subst hx; right; simp only; omega
  · intro s hs
    have branch : ∀ (hb : Nat) (b : List SToken), Code true 1 hb b →
        Except.bind (vmSteps env comp.m_vStringBuf nOffset nThreadID b 0 r1.1.pop)
          (fun r => .ok r.1) = .ok s →
        s.sidx = s0.sidx + 1 ∧ ∀ i, i ≤ s0.sidx → s.stack i = s0.stack i := by
      intro hb b cb hrun
      obtain ⟨r2, hr2, hs2⟩ := Result.bind_eq_ok hrun
      simp only [Except.ok.injEq] at hs2
      subst hs2
      obtain ⟨_, q2⟩ := Code.run env comp.m_vStringBuf nOffset nThreadID cb 0 r1.1.pop
      obtain ⟨f1, _, f3⟩ := q2 r2 hr2
      simp only [VMState.pop] at f1 f3
      refine ⟨by rw [f1, e1]; push_cast; ring, fun i hi => ?_⟩
      rw [f3 i (by rw [e1]; push_cast; omega)]
      exact e3 i hi
    by_cases hz : r1.1.stack r1.1.sidx = 0
    · rw [(elseCase hz).1] at hs
      exact branch he be ce hs
    · rw [(thenCase hz).1] at hs
      exact branch ht bt ct hs

/-- C4 (witness): the bytecode of `x > 0 ? 1 : -1` is a condition, an `IF` entry, a branch, an
`ELSE` entry, a branch, an `ENDIF` entry and the end entry; with the optimizer the expression
evaluates to 1 for `x = 2` and to -1 for `x = -2`. -/
theorem C4_conditional_one_branch_witness :
    (∃ (bs bt be : List SToken) (tIf tElse tEnd : SToken),
      Examples.codeSign = bs ++ tIf :: (bt ++ tElse :: (be ++ [tEnd])) ++ [{ Cmd := .cmEND }] ∧
      tIf.Cmd = .cmIF ∧ tElse.Cmd = .cmELSE ∧ tEnd.Cmd = .cmENDIF) ∧
    evalWith Examples.env true Examples.exprSign.toks (fun _ => 2) = .ok 1 ∧
    evalWith Examples.env true Examples.exprSign.toks (fun _ => -2) = .ok (-1) := by
  obtain ⟨⟨_, _, _, _, _, _, bs, bt, be, tIf, tElse, tEnd, _, _, _, _, _, _, c1, c2, c3, hcode,
    _⟩, hex⟩ := C4_conditional_one_branch Examples.env Examples.mem {} "expr "
      (Examples.tokOp .cmIF) (Examples.tokOp .cmELSE)
      (.bin (Examples.tokOp .cmGT) (.var (Examples.tokVar 20)) (.val (Examples.tokVal 0)))
      (.val (Examples.tokVal 1)) (.inf Examples.tokMinus (.val (Examples.tokVal 1)))
      Examples.compiledSign (by decide!)
      (by
        intro t ht
        simp only [Expr.toks, List.mem_append, List.mem_cons,
          List.mem_singleton, List.not_mem_nil, or_false, List.cons_append,
          List.nil_append] at ht
        rcases ht with h | h | h | h | h | h | h | h <;> subst h <;> decide)
      (by decide) (by decide!)
  exact ⟨⟨bs, bt, be, tIf, tElse, tEnd, hcode, c1, c2, c3⟩, hex true⟩

/-- What `CreateRPN` returns for a comma separated list `l, r`: the entries written for the items
of `l` followed by the entries written for `r` and the end entry, with the jump offsets
`Finalize` writes; both pieces are stack typed. -/
theorem Expr.compiled_seq {env : CallEnv} {mem : Mem} {bc0 : ParserByteCode} {formula : String}
    {sep : token_type} {l r : Expr} {comp : Compiled}
    (hv : Expr.Valid .args none (.seq l sep r) = true)
    (hp : Expr.PlusOK env (.seq l sep r))
    (hlen : ((Expr.seq l sep r).toks.length : Int) < 2 ^ 64)
    (hc : CreateRPN env mem bc0
      { m_strFormula := formula, m_tokens := (Expr.seq l sep r).toks } = .ok comp) :
    ∃ (st1 st2 : ParserByteCode × List String) (tl tr : List token_type)
      (bl br : List SToken) (hl hr : Nat),
      Expr.emit env mem l (bc0.clear, []) = .ok (st1, tl) ∧
      Expr.emit env mem r st1 = .ok (st2, tr) ∧
      Code true l.items hl bl ∧ Code true 1 hr br ∧
      bl.map SToken.eraseOffset = st1.1.m_vRPN.map SToken.eraseOffset ∧
      (bl ++ br).map SToken.eraseOffset = st2.1.m_vRPN.map SToken.eraseOffset ∧
      comp.m_vRPN.m_vRPN = bl ++ br ++ [{ Cmd := .cmEND }] ∧
      comp.m_vStringBuf = st2.2 := by
  have hf : formula.length ≠ 0 := by
    intro h0
    simp only [CreateRPN, h0, if_true] at hc
    cases hc
  rw [Expr.CreateRPN_eq hv (by decide) bc0 formula hf] at hc
  obtain ⟨⟨⟨bc', sb'⟩, ts⟩, he, hfin⟩ := Result.bind_eq_ok hc
  simp only [Expr.Valid, Bool.and_eq_true, decide_eq_true_eq] at hv
  obtain ⟨⟨⟨⟨_, _⟩, _⟩, hvl⟩, hvr⟩ := hv
  have hpl : Expr.PlusOK env l := fun t ht => hp t (by simp [Expr.toks, ht])
  have hpr : Expr.PlusOK env r := fun t ht => hp t (by simp [Expr.toks, ht])
  simp only [Expr.toks, List.length_append, List.length_cons, Nat.cast_add, Nat.cast_one] at hlen
  have h0 : (0 : Int) ≤ (bc0.clear).m_iStackPos := by simp [ParserByteCode.clear]
  have hM : (bc0.clear).m_iStackPos ≤ ((bc0.clear).m_iMaxStackSize : Int) := by
    simp [ParserByteCode.clear]
  have hS : (bc0.clear).m_iStackPos = 0 := by simp [ParserByteCode.clear]
  simp only [Expr.emit] at he
  split at he
  · cases he
  · rename_i st1 tl h1
    obtain ⟨bc1, sb1⟩ := st1
    have e1 := Expr.emit_code l _ _ _ _ _ _ _ hvl hpl h1 h0 hM (by rw [hS]; omega)
    have n1 := @Emits.next _ _ _ _ e1 h0 r.toks.length (by rw [hS]; omega)
    split at he
    · cases he
    · rename_i st2 tr h2
      obtain ⟨bc2, sb2⟩ := st2
      have e2 := Expr.emit_code r _ _ _ _ _ _ _ hvr hpr h2 n1.1 n1.2.1 n1.2.2
      rw [Expr.numItems_expr (by decide) (Expr.items_of_valid_expr hvr)] at e2
      simp only [Except.ok.injEq, Prod.mk.injEq] at he
      obtain ⟨⟨hbc, hsb⟩, _⟩ := he
      obtain ⟨b1, hh1, a1, a2, _⟩ := e1
      obtain ⟨b2, hh2, c1, c2, _⟩ := e2
      simp only [ParserByteCode.clear, List.nil_append] at a1
      have hn : Expr.numItems .args l = l.items := rfl
      rw [hn] at a2
      have hcode : bc'.m_vRPN = b1 ++ b2 := by rw [← hbc, c1, a1]
      obtain ⟨bl', f1, g1, k1, hfl1⟩ := ParserByteCode.finalizeLoop_code a2 []
        (b2 ++ [{ Cmd := .cmEND }]) (b2.map (fun t => t.Cmd) ++ [.cmEND]) [] []
      obtain ⟨br', f2, g2, k2, hfl2⟩ := ParserByteCode.finalizeLoop_code c2 bl'
        [{ Cmd := .cmEND }] [.cmEND] [] []
      have hFin : bc'.Finalize = .ok { bc' with m_vRPN := bl' ++ br' ++ [{ Cmd := .cmEND }] } := by
        unfold ParserByteCode.Finalize
        simp only [hcode, List.map_append, List.map_cons, List.map_nil, bind, Except.bind]
        simp only [List.nil_append, List.length_nil, Nat.zero_add, List.append_assoc] at hfl1
        simp only [List.append_assoc] at hfl2 ⊢
        rw [hfl1, g1.symm, hfl2, ParserByteCode.finalizeLoop_other _ _ _ _ _ (by decide)]
        rfl
      simp only [Expr.finish, hFin, Result.bind_ok, Except.ok.injEq] at hfin
      subst hfin
      refine ⟨(bc1, sb1), (bc2, sb2), tl, tr, bl', br', hh1, hh2, h1, h2, f1, f2, ?_, ?_, rfl,
        hsb.symm⟩
      · rw [k1, a1]
      · rw [c1, a1, List.map_append, List.map_append, k1, k2]

/-- The run of the bytecode of a list `l, r`: the entries of `l`, then the entries of `r` from
the registers the entries of `l` leave. -/
theorem vmLoop_seq (env : CallEnv) (strBuf : List String) (nOffset nThreadID : Nat)
    {k hl hr : Nat} {bl br : List SToken} (cl : Code true k hl bl) (cr : Code true 1 hr br)
    (s0 : VMState) :
    vmLoop env strBuf nOffset nThreadID (bl ++ br ++ [{ Cmd := .cmEND }]) 0 s0 =
      Except.bind (vmSteps env strBuf nOffset nThreadID bl 0 s0) (fun r1 =>
        Except.bind (vmSteps env strBuf nOffset nThreadID br 0 r1.1) (fun r2 => .ok r2.1)) := by
  rw [List.append_assoc, vmLoop_append env strBuf nOffset nThreadID bl _ cl.no_end]
  cases h1 : vmSteps env strBuf nOffset nThreadID bl 0 s0 with
  | error e => rfl
  | ok r1 =>
    obtain ⟨_, q1⟩ := Code.run env strBuf nOffset nThreadID cl 0 s0
    obtain ⟨_, e2, _⟩ := q1 r1 h1
    simp only [Result.bind_ok, e2]
    rw [vmLoop_append env strBuf nOffset nThreadID br _ cr.no_end]
    cases h2 : vmSteps env strBuf nOffset nThreadID br 0 r1.1 with
    | error e => rfl
    | ok r2 =>
      obtain ⟨_, q2⟩ := Code.run env strBuf nOffset nThreadID cr 0 r1.1
      obtain ⟨_, f2, _⟩ := q2 r2 h2
      simp only [Result.bind_ok, f2]
      exact vmLoop_end env strBuf nOffset nThreadID { Cmd := .cmEND } rfl r2.1

theorem ParserBase.CreateRPN_ok {env : CallEnv} {mem : Mem} {p p1 : ParserBase}
    (hc : p.CreateRPN env mem = .ok p1) :
    ∃ comp, mu.CreateRPN env mem p.m_vRPN p.m_pTokenReader = .ok comp ∧
      p1 = { p with
        m_pParseFormula := .ParseString
        m_vRPN := comp.m_vRPN
        m_vStringBuf := comp.m_vStringBuf
        m_nFinalResultIdx := comp.m_nFinalResultIdx
        m_vStackBufferSize := comp.stackBufferSize } := by
  unfold ParserBase.CreateRPN at hc
  split at hc
  · rename_i c h
    simp only [Except.ok.injEq] at hc
    exact ⟨c, h, hc.symm⟩
  · cases hc

theorem ParserBase.Eval_numResults {env : CallEnv} {mem : Mem} {p p1 : ParserBase}
    (hmode : p.m_pParseFormula = .ParseString) (hc : p.CreateRPN env mem = .ok p1)
    {v : value_type} {p' : ParserBase} {mem' : Mem}
    (hE : p.Eval env mem = .ok (v, p', mem')) : p'.GetNumResults = p1.GetNumResults := by
  simp only [ParserBase.Eval, hmode, ParserBase.ParseString, hc] at hE
  split at hE
  · split at hE
    · simp only [Except.ok.injEq, Prod.mk.injEq] at hE
      rw [← hE.2.1]; rfl
    · cases hE
  · simp only [ParserBase.ParseCmdCode, ParserBase.ParseCmdCodeBulk] at hE
    split at hE
    · simp only [Except.ok.injEq, Prod.mk.injEq] at hE
      rw [← hE.2.1]; rfl
    · cases hE

set_option maxHeartbeats 4000000 in
/-- The list `b = x, b * b` evaluates to the square of `x`, leaves `x` in `b` and reports two
results. -/
theorem eval_assign_square (env : CallEnv) (mem : Mem) (optimizer : Bool) (x : Operand)
    (pb : Nat) :
    Result.outcome pb ((Examples.parser optimizer
      [Examples.tokVar pb, Examples.tokOp .cmASSIGN, x.tok, Examples.tokOp .cmARG_SEP,
        Examples.tokVar pb, Examples.tokOp .cmMUL, Examples.tokVar pb]).Eval env mem) =
      .ok (x.value mem * x.value mem, x.value mem, 2) := by
  have hv : Expr.Valid .args none (.seq (.bin (Examples.tokOp .cmASSIGN)
      (.var (Examples.tokVar pb)) x.expr) (Examples.tokOp .cmARG_SEP)
      (.bin (Examples.tokOp .cmMUL) (.var (Examples.tokVar pb)) (.var (Examples.tokVar pb)))) =
      true := by
    cases x <;> rfl
  have hc := @Expr.CreateRPN_eq env mem _ _ hv (by decide) { m_bEnableOptimizer := optimizer }
    "expr " (by decide)
  have ht : (Expr.seq (.bin (Examples.tokOp .cmASSIGN)
      (.var (Examples.tokVar pb)) x.expr) (Examples.tokOp .cmARG_SEP)
      (.bin (Examples.tokOp .cmMUL) (.var (Examples.tokVar pb))
        (.var (Examples.tokVar pb)))).toks =
      [Examples.tokVar pb, Examples.tokOp .cmASSIGN, x.tok, Examples.tokOp .cmARG_SEP,
        Examples.tokVar pb, Examples.tokOp .cmMUL, Examples.tokVar pb] := by
    cases x <;> rfl
  rw [ht] at hc
  simp only [Examples.parser, ParserBase.Eval, ParserBase.ParseString,
    ParserBase.CreateRPN, hc]
  clear hv hc ht
  rcases x with a | pa <;> cases optimizer
  all_goals
    simp [Operand.expr, Operand.value, Operand.tok, Expr.emit, ParserByteCode.AddVal,
      ParserByteCode.AddVar, ParserByteCode.AddOp, ParserByteCode.AddAssignOp,
      ParserByteCode.peephole, ParserByteCode.addSubPattern, MUP_ASSERT,
      ParserByteCode.ConstantFolding, ParserByteCode.pushOp, ParserByteCode.clear,
      Examples.tokVal, Examples.tokVar, Examples.tokOp, token_type.GetCode, bind, Except.bind,
      Expr.finish, ParserByteCode.Finalize, ParserByteCode.finalizeLoop,
      ParserBase.ParseCmdCodeShort, ParserBase.ParseCmdCode, ParserBase.ParseCmdCodeBulk,
      vmLoop, exec, binaryOp, Result.outcome, ParserBase.GetNumResults, ParserBase.stackBase]

/-- C6: for a comma separated list `e` of `k = e.items` expressions that compiles on a parser in
string-parse mode: `k >= 1`, and `GetNumResults()` is `k` after the compilation and after
`Eval()`.  If the list is `l, r`, the bytecode is the entries written for the items of `l`
followed by the entries written for `r` and the end entry, and `Eval()` runs the entries of `l`,
then the entries of `r` from the registers and the memory the entries of `l` leave (so what `l`
assigned is what `r` reads), and returns the value at stack index `k`, which is the one value
the entries of `r` put on top of the `k - 1` values of `l`.  The list `b = x, b * b` returns the
square of `x`, leaves `x` in `b` and reports two results; `b = a + 1, b * b` with `a = 4` returns
25, leaves `b = 5` and reports 2 results. -/
theorem C6_multiple_results (env : CallEnv) (mem : Mem) (p : ParserBase) (formula : String)
    (e : Expr) (comp : Compiled) (hmode : p.m_pParseFormula = .ParseString)
    (hrd : p.m_pTokenReader = { m_strFormula := formula, m_tokens := e.toks })
    (hv : Expr.Valid .args none e = true) (hp : Expr.PlusOK env e)
    (hlen : (e.toks.length : Int) < 2 ^ 64)
    (hcomp : CreateRPN env mem p.m_vRPN p.m_pTokenReader = .ok comp) :
    1 ≤ e.items ∧
    (∃ p1, p.CreateRPN env mem = .ok p1 ∧ p1.GetNumResults = e.items) ∧
    (∀ v p' mem', p.Eval env mem = .ok (v, p', mem') → p'.GetNumResults = e.items) ∧
    (∀ l sep r, e = .seq l sep r →
      ∃ (st1 st2 : ParserByteCode × List String) (tl tr : List token_type)
        (bl br : List SToken),
        Expr.emit env mem l (p.m_vRPN.clear, []) = .ok (st1, tl) ∧
        Expr.emit env mem r st1 = .ok (st2, tr) ∧
        bl.map SToken.eraseOffset = st1.1.m_vRPN.map SToken.eraseOffset ∧
        (bl ++ br).map SToken.eraseOffset = st2.1.m_vRPN.map SToken.eraseOffset ∧
        comp.m_vRPN.m_vRPN = bl ++ br ++ [{ Cmd := .cmEND }] ∧
        Result.valueMem (p.Eval env mem) =
          Except.bind (vmSteps env comp.m_vStringBuf 0 0 bl 0
              { sidx := 0, stack := p.m_vStackBuffer, mem := mem }) (fun r1 =>
            Except.bind (vmSteps env comp.m_vStringBuf 0 0 br 0 r1.1) (fun r2 =>
              .ok (r2.1.stack e.items, r2.1.mem))) ∧
        ∀ r1 r2, vmSteps env comp.m_vStringBuf 0 0 bl 0
              { sidx := 0, stack := p.m_vStackBuffer, mem := mem } = .ok r1 →
          vmSteps env comp.m_vStringBuf 0 0 br 0 r1.1 = .ok r2 →
          r1.1.sidx = l.items ∧ r2.1.sidx = e.items ∧
            ∀ i, i ≤ (l.items : Int) → r2.1.stack i = r1.1.stack i) ∧
    (∀ (optimizer : Bool) (x : Operand) (pb : Nat),
      Result.outcome pb ((Examples.parser optimizer
        [Examples.tokVar pb, Examples.tokOp .cmASSIGN, x.tok, Examples.tokOp .cmARG_SEP,
          Examples.tokVar pb, Examples.tokOp .cmMUL, Examples.tokVar pb]).Eval env mem) =
        .ok (x.value mem * x.value mem, x.value mem, 2)) ∧
    ∀ optimizer : Bool,
      Result.outcome 11
        ((Examples.parser optimizer Examples.toksAssignSquare).Eval Examples.env Examples.mem) =
        .ok (25, 5, 2) := by
  obtain ⟨p1, hc⟩ : ∃ p1, p.CreateRPN env mem = .ok p1 :=
    ⟨_, by unfold ParserBase.CreateRPN; rw [hcomp]⟩
  obtain ⟨comp', hcomp', hp1⟩ := ParserBase.CreateRPN_ok hc
  rw [hcomp, Except.ok.injEq] at hcomp'
  subst hcomp'
  rw [hrd] at hcomp
  have hsb1 : p1.m_vStringBuf = comp.m_vStringBuf := by rw [hp1]
  obtain ⟨_, _, _, _, _, hidx, _⟩ := Expr.compiled_code hv (by decide) hp hlen hcomp
  have hnum : p1.GetNumResults = e.items := by
    rw [hp1]; exact hidx
  refine ⟨Expr.items_pos e, ⟨p1, hc, hnum⟩, fun v p' mem' hE => ?_, ?_,
    fun optimizer x pb => eval_assign_square env mem optimizer x pb,
    fun optimizer => by cases optimizer <;> decide!⟩
  · rw [ParserBase.Eval_numResults hmode hc hE, hnum]
  · intro l sep r he
    subst he
    obtain ⟨st1, st2, tl, tr, bl, br, hl, hr, m1, m2, cl, cr, k1, k2, hcode, hsb⟩ :=
      Expr.compiled_seq hv hp hlen hcomp
    have hcode1 : p1.m_vRPN.m_vRPN = bl ++ br ++ [{ Cmd := .cmEND }] := by
      rw [hp1]; exact hcode
    have hlenge : p1.m_vRPN.m_vRPN.length ≠ 2 := by
      have := cl.length_ge
      have := cr.length_ge
      have := Expr.items_pos l
      rw [hcode1]
      simp only [List.length_append, List.length_singleton]
      omega
    have hlenge' := hlenge
    rw [hcode1] at hlenge'
    rw [← hsb1]
    refine ⟨st1, st2, tl, tr, bl, br, m1, m2, k1, k2, hcode, ?_, ?_⟩
    · simp only [ParserBase.Eval, hmode, ParserBase.ParseString, hc, hlenge, hlenge', if_false,
        ParserBase.ParseCmdCode, ParserBase.ParseCmdCodeBulk, hcode1]
      have hst : (fun i => p1.m_vStackBuffer (ParserBase.stackBase
            { p1 with m_pParseFormula := .ParseCmdCode } 0 0 + i)) = p.m_vStackBuffer := by
        funext i
        simp only [ParserBase.stackBase, and_self, if_true, zero_add]
        rw [hp1]
      have hst' : (fun i => p1.m_vStackBuffer (ParserBase.stackBase
            { p1 with m_pParseFormula := .ParseCmdCode } 0 0 + i)) = p.m_vStackBuffer := hst
      simp only [hst']
      rw [vmLoop_seq env p1.m_vStringBuf 0 0 cl cr]
      cases vmSteps env p1.m_vStringBuf 0 0 bl 0
          { sidx := 0, stack := p.m_vStackBuffer, mem := mem } with
      | error e => rfl
      | ok r1 =>
        simp only [Result.bind_ok]
        cases vmSteps env p1.m_vStringBuf 0 0 br 0 r1.1 with
        | error e => rfl
        | ok r2 =>
          simp only [Result.bind_ok, Result.valueMem, Except.ok.injEq, Prod.mk.injEq, and_true]
          have : p1.m_nFinalResultIdx = ((Expr.seq l sep r).items : Int) := hnum
          rw [this]
    · intro r1 r2 h1 h2
      obtain ⟨_, q1⟩ := Code.run env p1.m_vStringBuf 0 0 cl 0
        { sidx := 0, stack := p.m_vStackBuffer, mem := mem }
      obtain ⟨e1, _, _⟩ := q1 r1 h1
      obtain ⟨_, q2⟩ := Code.run env p1.m_vStringBuf 0 0 cr 0 r1.1
      obtain ⟨f1, _, f3⟩ := q2 r2 h2
      simp only [zero_add] at e1
      refine ⟨e1, ?_, fun i hi => f3 i (by rw [e1]; exact hi)⟩
      rw [f1, e1]
      simp only [Expr.items]
      push_cast
      ring

/-- C6 (witness): the list `b = a + 1, b * b` compiles, `GetNumResults()` is 2 afterwards, and
with `a = 4` the evaluation returns 25, leaves `b = 5` and reports 2 results. -/
theorem C6_multiple_results_witness :
    (∃ p1, (Examples.parser true Examples.toksAssignSquare).CreateRPN Examples.env
        Examples.mem = .ok p1 ∧ p1.GetNumResults = 2) ∧
    Result.outcome 11 ((Examples.parser true Examples.toksAssignSquare).Eval Examples.env
      Examples.mem) = .ok (25, 5, 2) :=
  have h := C6_multiple_results Examples.env Examples.mem
    (Examples.parser true Examples.toksAssignSquare) "expr " Examples.exprAssignSquare
    Examples.compiledAssignSquare rfl rfl (by decide!)
    (by
      intro t ht
      simp only [Examples.exprAssignSquare, Expr.toks, List.mem_append, List.mem_cons,
        List.mem_singleton, List.not_mem_nil, or_false, List.cons_append,
        List.nil_append] at ht
      rcases ht with h | h | h | h | h | h | h | h | h <;> subst h <;> decide)
    (by decide) (by decide!)
  ⟨h.2.1, h.2.2.2.2.2 true⟩

/-- C21: `DefineStrConst` does not compare the length of the name with the maximum identifier
length.  With the maximum 4, `DefineStrConst("abcde", "v")` on a parser without definitions
returns, binds `abcde` to the buffer index 0 and stores the value; no call of `DefineStrConst`
fails with the identifier-too-long error; every name that is not a string constant yet and passes
the character check is accepted, whatever its length.  `DefineVar` and `DefineConst` reject the
same name with the identifier-too-long error. -/
theorem C21_str_const_name_unbounded :
    Examples.limits.MaxLenIdentifier < "abcde".length ∧
    (Examples.parser0.DefineStrConst "abcde" "v").1 = .ok () ∧
    (Examples.parser0.DefineStrConst "abcde" "v").2.m_StrVarDef "abcde" = some 0 ∧
    (Examples.parser0.DefineStrConst "abcde" "v").2.m_vStringVarBuf = ["v"] ∧
    (∀ (name val : String) (p : ParserBase),
      (p.DefineStrConst name val).1 ≠ Error .ecIDENTIFIER_TOO_LONG) ∧
    (∀ (name val : String) (p : ParserBase), p.m_StrVarDef name = none →
      p.m_sNameChars.length ≠ 0 → badName name p.m_sNameChars = false →
      (p.DefineStrConst name val).1 = .ok () ∧
      (p.DefineStrConst name val).2.m_StrVarDef name = some p.m_vStringVarBuf.length ∧
      (p.DefineStrConst name val).2.m_vStringVarBuf = p.m_vStringVarBuf ++ [val]) ∧
    (Examples.parser0.DefineVar Examples.limits "abcde" 1).1 = Error .ecIDENTIFIER_TOO_LONG ∧
    (Examples.parser0.DefineConst Examples.limits "abcde" 5).1 =
      Error .ecIDENTIFIER_TOO_LONG := by
  refine ⟨by decide, by decide, by decide, by decide, ?_, ?_, by decide, by decide⟩
  · intro name val p h
    unfold ParserBase.DefineStrConst at h
    by_cases h1 : (p.m_StrVarDef name).isSome = true
    · simp only [h1, if_true] at h; cases h
    · simp only [h1] at h
      by_cases h2 : p.m_sNameChars.length ≠ 0
      · simp only [ParserBase.ValidNameChars_ok h2, ParserBase.CheckName] at h
        by_cases h3 : badName name p.m_sNameChars = true
        · simp only [h3, if_true] at h; cases h
        · simp only [h3] at h; cases h
      · simp only [ParserBase.ValidNameChars, MUP_ASSERT, h2, decide_False] at h
        cases h
  · intro name val p h1 h2 h3
    unfold ParserBase.DefineStrConst
    simp [h1, ParserBase.ValidNameChars_ok h2, ParserBase.CheckName, h3, ParserBase.ReInit]

/-- C22: when the argument separator of the token reader equals the decimal point of the locale,
`SetExpr` fails with the locale error for every expression text (and every maximum length) and
leaves the parser, the expression set before included, as it was; this is the case after
`SetDecSep(c)` and `SetArgSep(c)` with the same character, in either order. -/
theorem C22_locale_conflict (L : Limits) (p : ParserBase) (a_sExpr : String)
    (toks : List token_type)
    (h : p.m_pTokenReader.GetArgSep = p.s_locale.decimal_point) :
    p.SetExpr L a_sExpr toks = (Error .ecLOCALE, p) ∧
    (p.SetExpr L a_sExpr toks).2.GetExpr = p.GetExpr ∧
    (∀ (c : Char) (q : ParserBase),
      ((q.SetDecSep c).SetArgSep c).SetExpr L a_sExpr toks =
        (Error .ecLOCALE, (q.SetDecSep c).SetArgSep c) ∧
      ((q.SetArgSep c).SetDecSep c).SetExpr L a_sExpr toks =
        (Error .ecLOCALE, (q.SetArgSep c).SetDecSep c)) := by
  have key : ∀ r : ParserBase, r.m_pTokenReader.GetArgSep = r.s_locale.decimal_point →
      r.SetExpr L a_sExpr toks = (Error .ecLOCALE, r) := by
    intro r hr
    unfold ParserBase.SetExpr
    simp only [hr, if_true]
  refine ⟨key p h, by rw [key p h], fun c q => ⟨key _ rfl, key _ rfl⟩⟩

/-- C22 (witness): after `SetDecSep(',')` the decimal point is the argument separator, and
`SetExpr("1+2")` fails with the locale error and changes nothing. -/
theorem C22_locale_conflict_witness :
    Examples.parserComma.SetExpr Examples.limits "1+2"
        [Examples.tokVal 1, Examples.tokOp .cmADD, Examples.tokVal 2] =
      (Error .ecLOCALE, Examples.parserComma) :=
  (C22_locale_conflict Examples.limits Examples.parserComma "1+2"
    [Examples.tokVal 1, Examples.tokOp .cmADD, Examples.tokVal 2] (by decide)).1

theorem Computes.single (env : CallEnv) {t : SToken}
    (h : t.Cmd = .cmVAL ∨ t.Cmd = .cmVAR ∨ t.Cmd = .cmVARMUL ∨ t.Cmd = .cmVARPOW2) :
    Computes env [t] t.pushed := by
  intro strBuf nOffset nThreadID s
  refine ⟨{ s with sidx := s.sidx + 1,
                    stack := Function.update s.stack (s.sidx + 1) (t.pushed s.mem nOffset) },
    ?_, rfl, Function.update_same _ _ _, rfl, fun i hi => Function.update_noteq (by omega) _ _⟩
  rw [vmSteps_single]
  rcases h with h | h | h | h <;> simp only [exec, h, SToken.pushed]

theorem Computes.append_op (env : CallEnv) {a b : List SToken} {f g : Mem → Nat → value_type}
    {op : ECmdCode} {h : value_type → value_type → value_type}
    (ha : Computes env a f) (hb : Computes env b g)
    (hop : isBuiltinBinCode op = true) (hne : op ≠ .cmASSIGN)
    (hv : ∀ u w, binaryOp env op u w = some (h u w)) :
    Computes env (a ++ b ++ [{ Cmd := op }]) (fun mem off => h (f mem off) (g mem off)) := by
  intro strBuf nOffset nThreadID s
  obtain ⟨r1, e1, i1, v1, m1, l1⟩ := ha strBuf nOffset nThreadID s
  obtain ⟨r2, e2, i2, v2, m2, l2⟩ := hb strBuf nOffset nThreadID r1
  have hx : exec env strBuf nOffset nThreadID { Cmd := op } r2 =
      .ok ({ r2 with sidx := r2.sidx - 1,
                     stack := Function.update r2.stack (r2.sidx - 1)
                       (h (r2.stack (r2.sidx - 1)) (r2.stack r2.sidx)) }, 0) := by
    cases op <;> first
      | exact absurd hop (by decide)
      | exact absurd rfl hne
      | (simp only [exec, hv])
  refine ⟨{ r2 with sidx := r2.sidx - 1,
                     stack := Function.update r2.stack (r2.sidx - 1)
                       (h (r2.stack (r2.sidx - 1)) (r2.stack r2.sidx)) }, ?_, ?_, ?_, ?_, ?_⟩
  · rw [vmSteps_append, vmSteps_append, e1]
    simp only [Result.bind_ok, e2, vmSteps_single, hx]
  · simp only [i2, i1]; ring
  · have e3 : r2.sidx - 1 = s.sidx + 1 := by rw [i2, i1]; ring
    have e4 : r2.sidx = r1.sidx + 1 := i2
    show Function.update r2.stack (r2.sidx - 1) _ (s.sidx + 1) = _
    rw [e3, Function.update_same, l2 (s.sidx + 1) (by rw [i1]), v1, e4, v2, m1]
  · simp only [m2, m1]
  · intro i hi
    have e3 : r2.sidx - 1 = s.sidx + 1 := by rw [i2, i1]; ring
    show Function.update r2.stack (r2.sidx - 1) _ i = _
    rw [e3, Function.update_noteq (by omega), l2 i (by rw [i1]; omega), l1 i hi]

theorem binaryOp_some (env : CallEnv) {op : ECmdCode} (hop : isBuiltinBinCode op = true)
    (hne : op ≠ .cmASSIGN) (u w : value_type) :
    binaryOp env op u w = some ((binaryOp env op u w).getD 0) := by
  cases op <;> first
    | exact absurd hop (by decide)
    | exact absurd rfl hne
    | rfl

/-- The run of two value entries and a built-in binary operator. -/
theorem Computes.triple (env : CallEnv) {x y : SToken} {op : ECmdCode}
    (hx : x.Cmd = .cmVAL ∨ x.Cmd = .cmVAR ∨ x.Cmd = .cmVARMUL ∨ x.Cmd = .cmVARPOW2)
    (hy : y.Cmd = .cmVAL ∨ y.Cmd = .cmVAR ∨ y.Cmd = .cmVARMUL ∨ y.Cmd = .cmVARPOW2)
    (hop : isBuiltinBinCode op = true) (hne : op ≠ .cmASSIGN) :
    Computes env [x, y, { Cmd := op }]
      (fun mem off => (binaryOp env op (x.pushed mem off) (y.pushed mem off)).getD 0) :=
  Computes.append_op env (Computes.single env hx) (Computes.single env hy) hop hne
    (binaryOp_some env hop hne)

theorem Computes.congr {env : CallEnv} {b : List SToken} {f g : Mem → Nat → value_type}
    (h : Computes env b f) (hfg : ∀ mem off, f mem off = g mem off) : Computes env b g := by
  intro strBuf nOffset nThreadID s
  obtain ⟨r, e, i, v, m, l⟩ := h strBuf nOffset nThreadID s
  exact ⟨r, e, i, by rw [v, hfg], m, l⟩

/-- C27: with the optimizer enabled and the last two entries `x`, `y` both `cmVAL`, `AddOp` for
an arithmetic or comparison operator appends nothing and replaces the two entries by the first
one with the value `r` in it (the entry `VAL r` when `x` is the entry `VAL a`), where `r` is the
value the evaluation loop computes for the operator on the two values: running `x, y, op` and
running the new entry both leave `r` on top of the stack; for a comparison `r` is 0 or 1. -/
theorem C27_constant_folding (env : CallEnv) (bc : ParserByteCode) (pre : List SToken)
    (x y : SToken) (op : ECmdCode) (hopt : bc.m_bEnableOptimizer = true)
    (hcode : bc.m_vRPN = pre ++ [x, y]) (hx : x.Cmd = .cmVAL) (hy : y.Cmd = .cmVAL)
    (hop : op ∈ [ECmdCode.cmADD, .cmSUB, .cmMUL, .cmDIV, .cmPOW, .cmLT, .cmGT, .cmLE, .cmGE,
      .cmEQ, .cmNEQ]) :
    ∃ r, binaryOp env op x.data2 y.data2 = some r ∧
      bc.AddOp env op = .ok { bc with m_vRPN := pre ++ [{ x with data2 := r }] } ∧
      (x = SToken.VAL x.data2 → { x with data2 := r } = SToken.VAL r) ∧
      Computes env [x, y, { Cmd := op }] (fun _ _ => r) ∧
      Computes env [{ x with data2 := r }] (fun _ _ => r) ∧
      (op ∈ [ECmdCode.cmLT, .cmGT, .cmLE, .cmGE, .cmEQ, .cmNEQ] → r = 0 ∨ r = 1) ∧
      (op = .cmADD → r = x.data2 + y.data2) ∧ (op = .cmSUB → r = x.data2 - y.data2) ∧
      (op = .cmMUL → r = x.data2 * y.data2) ∧ (op = .cmDIV → r = x.data2 / y.data2) ∧
      (op = .cmPOW → r = env.Pow x.data2 y.data2) ∧
      (op = .cmLT → r = ofBool (decide (x.data2 < y.data2))) ∧
      (op = .cmGT → r = ofBool (decide (x.data2 > y.data2))) ∧
      (op = .cmLE → r = ofBool (decide (x.data2 ≤ y.data2))) ∧
      (op = .cmGE → r = ofBool (decide (x.data2 ≥ y.data2))) ∧
      (op = .cmEQ → r = ofBool (decide (x.data2 = y.data2))) ∧
      (op = .cmNEQ → r = ofBool (decide (x.data2 ≠ y.data2))) := by
  have hb : isBuiltinBinCode op = true ∧ op ≠ .cmASSIGN := by
    simp only [List.mem_cons, List.mem_singleton, List.not_mem_nil, or_false] at hop
    rcases hop with h | h | h | h | h | h | h | h | h | h | h <;> subst h <;>
      exact ⟨rfl, by decide⟩
  refine ⟨(binaryOp env op x.data2 y.data2).getD 0, binaryOp_some env hb.1 hb.2 _ _, ?_, ?_, ?_,
    ?_, ?_, ?_, ?_, ?_, ?_, ?_, ?_, ?_, ?_, ?_, ?_, ?_⟩
  · simp only [List.mem_cons, List.mem_singleton, List.not_mem_nil, or_false] at hop
    rcases hop with h | h | h | h | h | h | h | h | h | h | h <;> subst h <;>
      simp [ParserByteCode.AddOp, hopt, hcode, hx, hy, ParserByteCode.ConstantFolding, binaryOp]
  · intro h
    rw [h]
    rfl
  · refine (Computes.triple env (Or.inl hx) (Or.inl hy) hb.1 hb.2).congr ?_
    intro mem off
    simp only [SToken.pushed, hx, hy]
  · refine (@Computes.single env { x with data2 := (binaryOp env op x.data2 y.data2).getD 0 }
      (Or.inl hx)).congr ?_
    intro mem off
    simp only [SToken.pushed, hx]
  · intro hc
    simp only [List.mem_cons, List.mem_singleton, List.not_mem_nil, or_false] at hc
    rcases hc with h | h | h | h | h | h <;> subst h <;>
      simp only [binaryOp, Option.getD_some, ofBool] <;> split <;> simp
  all_goals (intro h; subst h; rfl)

/-- C27 (witness): with `VAL 2, VAL 3` as the last entries, `AddOp(cmMUL)` leaves the single
entry `VAL 6`. -/
theorem C27_constant_folding_witness :
    ParserByteCode.AddOp Examples.env { m_vRPN := [SToken.VAL 2, SToken.VAL 3] } .cmMUL =
      .ok { m_vRPN := [SToken.VAL 6] } := by
  obtain ⟨r, _, h, _, _, _, _, _, _, hm, _⟩ := C27_constant_folding Examples.env
    { m_vRPN := [SToken.VAL 2, SToken.VAL 3] } [] (SToken.VAL 2) (SToken.VAL 3) .cmMUL rfl rfl
    rfl rfl (by decide)
  have hr : r = 6 := by rw [hm rfl]; norm_num [SToken.VAL]
  rw [h, hr]
  rfl

/-- C28: the folding of `&&` and `||` converts both values to `int` first, the evaluation loop
does not.  With the optimizer enabled and the last two entries `VAL a`, `VAL b`, `AddOp(cmLAND)`
leaves `VAL r` with `r = 1` when the truncations of `a` and `b` are both not zero, and
`AddOp(cmLOR)` when one of them is not zero, while the loop run on `VAL a, VAL b, LAND` (`LOR`)
compares `a` and `b` themselves with zero.  For `a = b = 1/2` the folded entries are `VAL 0` and
`VAL 0`, and the loop computes 1 and 1. -/
theorem C28_folding_truncates_logical :
    (∀ (env : CallEnv) (bc : ParserByteCode) (pre : List SToken) (a b : value_type),
      bc.m_bEnableOptimizer = true →
      ParserByteCode.AddOp env { bc with m_vRPN := pre ++ [SToken.VAL a, SToken.VAL b] }
          .cmLAND =
        .ok { bc with m_vRPN := pre ++
          [SToken.VAL (ofBool (decide (toInt a ≠ 0 ∧ toInt b ≠ 0)))] } ∧
      ParserByteCode.AddOp env { bc with m_vRPN := pre ++ [SToken.VAL a, SToken.VAL b] }
          .cmLOR =
        .ok { bc with m_vRPN := pre ++
          [SToken.VAL (ofBool (decide (toInt a ≠ 0 ∨ toInt b ≠ 0)))] }) ∧
    (∀ (env : CallEnv) (a b : value_type),
      Computes env [SToken.VAL a, SToken.VAL b, { Cmd := .cmLAND }]
        (fun _ _ => ofBool (decide (a ≠ 0 ∧ b ≠ 0))) ∧
      Computes env [SToken.VAL a, SToken.VAL b, { Cmd := .cmLOR }]
        (fun _ _ => ofBool (decide (a ≠ 0 ∨ b ≠ 0)))) ∧
    ofBool (decide (toInt (1 / 2) ≠ 0 ∧ toInt (1 / 2) ≠ 0)) = 0 ∧
    ofBool (decide (toInt (1 / 2) ≠ 0 ∨ toInt (1 / 2) ≠ 0)) = 0 ∧
    ofBool (decide ((1 / 2 : value_type) ≠ 0 ∧ (1 / 2 : value_type) ≠ 0)) = 1 ∧
    ofBool (decide ((1 / 2 : value_type) ≠ 0 ∨ (1 / 2 : value_type) ≠ 0)) = 1 := by
  refine ⟨fun env bc pre a b hopt => ?_, fun env a b => ⟨?_, ?_⟩, by decide!, by decide!,
    by decide!, by decide!⟩
  · constructor <;>
      simp [ParserByteCode.AddOp, hopt, SToken.VAL, ParserByteCode.ConstantFolding]
  · exact (@Computes.triple env (SToken.VAL a) (SToken.VAL b) .cmLAND (Or.inl rfl) (Or.inl rfl)
      rfl (by decide)).congr (fun mem off => rfl)
  · exact (@Computes.triple env (SToken.VAL a) (SToken.VAL b) .cmLOR (Or.inl rfl) (Or.inl rfl)
      rfl (by decide)).congr (fun mem off => rfl)

/-- C29 (counterexample): `x + 1e16 - 1e16` at `x = 1` in `double` arithmetic.  `AddOp(cmADD)`
turns `VAR x, VAL 1e16` into `VARMUL(1, 1e16, x)`, and with `VARMUL(1, 1e16, x), VAL 1e16` as
the last entries, `AddOp(cmSUB)` leaves the single entry `VARMUL(1, 0, x)`.  The left operand `VARMUL(1, 1e16, x)` has the value 1e16 (`1 + 1e16` is
rounded), the right operand has the value 1e16, the evaluation loop computes `left - right = 0`
for the unfused sequence and 1 for the fused entry; scalar `Eval` of the expression returns 1
with the optimizer and 0 without. -/
theorem C29_counterexample :
    roundDouble 10000000000000000 = 10000000000000000 ∧
    ParserByteCode.AddOpWith Arith.double Examples.env
        { m_vRPN := [SToken.VAR 10, SToken.VAL 10000000000000000] } .cmADD =
      .ok { m_vRPN := [SToken.VARMUL 1 10000000000000000 10] } ∧
    ParserByteCode.AddOpWith Arith.double Examples.env
        { m_vRPN := [SToken.VARMUL 1 10000000000000000 10, SToken.VAL 10000000000000000] }
        .cmSUB =
      .ok { m_vRPN := [SToken.VARMUL 1 0 10] } ∧
    topWith Arith.double Examples.env [SToken.VARMUL 1 10000000000000000 10]
        (Examples.memAt 1) = .ok 10000000000000000 ∧
    topWith Arith.double Examples.env [SToken.VAL 10000000000000000] (Examples.memAt 1) =
      .ok 10000000000000000 ∧
    topWith Arith.double Examples.env
        [SToken.VARMUL 1 10000000000000000 10, SToken.VAL 10000000000000000, { Cmd := .cmSUB }]
        (Examples.memAt 1) = .ok 0 ∧
    topWith Arith.double Examples.env [SToken.VARMUL 1 0 10] (Examples.memAt 1) = .ok 1 ∧
    compiledCode Examples.env true Examples.toksAddSub (Examples.memAt 1) =
      .ok [SToken.VARMUL 1 0 10, { Cmd := .cmEND }] ∧
    evalArith Arith.double Examples.env true Examples.toksAddSub (Examples.memAt 1) = .ok 1 ∧
    evalArith Arith.double Examples.env false Examples.toksAddSub (Examples.memAt 1) = .ok 0 := by
  decide!

/-- C29 (amended): with the optimizer enabled, let the last two entries `l`, `r` be of the forms
`VAL a`, `VAR x`, `VARMUL(k, c, x)`, not both `VAL`, and let `op` be `cmADD` or `cmSUB`.  If one
of them is a `VAL` or both refer to the same variable, `AddOp` appends nothing and replaces the
two entries by `VARMUL(k_l ± k_r, c_l ± c_r, x)` (the factor of a `VAL` is 0, that of a `VAR` is
1), the two constants being computed by `AddOp` with the operations of the arithmetic, whatever
the arithmetic; in exact arithmetic the evaluation loop computes the same value, `left ± right`,
for `l, r, op` and for the new entry, in every memory.  If both refer to variables and the
variables differ, `AddOp` appends the operator, whatever the arithmetic. -/
theorem C29_affine_fusion (env : CallEnv) (bc : ParserByteCode) (pre : List SToken)
    (l r : SToken) (op : ECmdCode) (hopt : bc.m_bEnableOptimizer = true)
    (hcode : bc.m_vRPN = pre ++ [l, r]) (hop : op = .cmADD ∨ op = .cmSUB)
    (hl : l.IsAffine) (hr : r.IsAffine) (hnot : ¬(l.Cmd = .cmVAL ∧ r.Cmd = .cmVAL)) :
    ((l.Cmd = .cmVAL ∨ r.Cmd = .cmVAL ∨ l.ptr = r.ptr) →
      bc.AddOp env op = .ok { bc with m_vRPN := pre ++
        [SToken.VARMUL (l.data + (if op = .cmSUB then -1 else 1) * r.data)
          (l.data2 + (if op = .cmSUB then -1 else 1) * r.data2)
          (if l.Cmd = .cmVAL then r.ptr else l.ptr)] } ∧
      Computes env [l, r, { Cmd := op }] (fun mem off =>
        if op = .cmSUB then l.pushed mem off - r.pushed mem off
        else l.pushed mem off + r.pushed mem off) ∧
      Computes env
        [SToken.VARMUL (l.data + (if op = .cmSUB then -1 else 1) * r.data)
          (l.data2 + (if op = .cmSUB then -1 else 1) * r.data2)
          (if l.Cmd = .cmVAL then r.ptr else l.ptr)] (fun mem off =>
        if op = .cmSUB then l.pushed mem off - r.pushed mem off
        else l.pushed mem off + r.pushed mem off)) ∧
    (l.Cmd ≠ .cmVAL → r.Cmd ≠ .cmVAL → l.ptr ≠ r.ptr →
      bc.AddOp env op = .ok (bc.pushOp op)) ∧
    (∀ A : Arith,
      ((l.Cmd = .cmVAL ∨ r.Cmd = .cmVAL ∨ l.ptr = r.ptr) →
        bc.AddOpWith A env op = .ok { bc with m_vRPN := pre ++
          [SToken.VARMUL (A.add l.data (A.mul (if op = .cmSUB then -1 else 1) r.data))
            (A.add l.data2 (A.mul (if op = .cmSUB then -1 else 1) r.data2))
            (if l.Cmd = .cmVAL then r.ptr else l.ptr)] }) ∧
      (l.Cmd ≠ .cmVAL → r.Cmd ≠ .cmVAL → l.ptr ≠ r.ptr →
        bc.AddOpWith A env op = .ok (bc.pushOp op))) := by
  have hA := fun A : Arith => AddOpWith_affine A env bc pre l r op hopt hcode hop hl hr hnot
  have hlc : l.Cmd = .cmVAL ∨ l.Cmd = .cmVAR ∨ l.Cmd = .cmVARMUL ∨ l.Cmd = .cmVARPOW2 := by
    rcases hl with h | h | h <;> rw [h] <;> simp [SToken.VAL, SToken.VAR, SToken.VARMUL]
  have hrc : r.Cmd = .cmVAL ∨ r.Cmd = .cmVAR ∨ r.Cmd = .cmVARMUL ∨ r.Cmd = .cmVARPOW2 := by
    rcases hr with h | h | h <;> rw [h] <;> simp [SToken.VAL, SToken.VAR, SToken.VARMUL]
  have hb : isBuiltinBinCode op = true ∧ op ≠ .cmASSIGN := by
    rcases hop with h | h <;> subst h <;> exact ⟨rfl, by decide⟩
  have h0 : ∀ p : Nat, (¬p = 0 ∨ 0 = p) := fun p => by omega
  have h1 : ∀ p : Nat, (¬p = 0 ∨ p = 0) := fun p => by omega
  obtain ⟨a1, k1, x1, hl'⟩ : ∃ a k x, l = SToken.VAL a ∨ l = SToken.VAR x ∨
      l = SToken.VARMUL k a x := ⟨_, _, _, hl⟩
  obtain ⟨a2, k2, x2, hr'⟩ : ∃ a k x, r = SToken.VAL a ∨ r = SToken.VAR x ∨
      r = SToken.VARMUL k a x := ⟨_, _, _, hr⟩
  clear hl hr
  refine ⟨fun hf => ⟨?_, ?_, ?_⟩, ?_, hA⟩
  · rcases hl' with rfl | rfl | rfl <;> rcases hr' with rfl | rfl | rfl <;>
      rcases hop with rfl | rfl <;>
      simp_all [ParserByteCode.AddOp, ParserByteCode.peephole, ParserByteCode.addSubPattern,
        MUP_ASSERT, SToken.VAL, SToken.VAR, SToken.VARMUL, bind, Except.bind]
  · refine (Computes.triple env hlc hrc hb.1 hb.2).congr ?_
    intro mem off
    rcases hop with rfl | rfl <;> rfl
  · refine (Computes.single env (Or.inr (Or.inr (Or.inl rfl)))).congr ?_
    intro mem off
    rcases hl' with rfl | rfl | rfl <;> rcases hr' with rfl | rfl | rfl <;>
      rcases hop with rfl | rfl <;>
      simp_all [SToken.pushed, SToken.VAL, SToken.VAR, SToken.VARMUL] <;> ring
  · intro c1 c2 hne
    rcases hl' with rfl | rfl | rfl <;> rcases hr' with rfl | rfl | rfl <;>
      rcases hop with rfl | rfl <;>
      simp_all [ParserByteCode.AddOp, ParserByteCode.peephole, ParserByteCode.addSubPattern,
        MUP_ASSERT, SToken.VAL, SToken.VAR, SToken.VARMUL, bind, Except.bind]

/-- C29 (witness): with `VAL 3, VAR a` as the last entries (`a` at address 10), `AddOp(cmSUB)`
leaves the single entry `VARMUL(-1, 3, a)`. -/
theorem C29_affine_fusion_witness :
    ParserByteCode.AddOp Examples.env { m_vRPN := [SToken.VAL 3, SToken.VAR 10] } .cmSUB =
      .ok { m_vRPN := [SToken.VARMUL (-1) 3 10] } := by
  have h := ((C29_affine_fusion Examples.env { m_vRPN := [SToken.VAL 3, SToken.VAR 10] } []
    (SToken.VAL 3) (SToken.VAR 10) .cmSUB rfl rfl (Or.inr rfl) (Or.inl rfl) (Or.inr (Or.inl rfl))
    (by decide)).1 (Or.inl rfl)).1
  rw [h]
  simp [SToken.VAL, SToken.VAR, SToken.VARMUL]

/-- C30 (counterexample): `(x + 1) * 3` and `(x * 3 + 3) / 3` at `x = 2 ^ 53` in `double`
arithmetic.  With `VARMUL(1, 1, x), VAL 3` as the last entries (`VARMUL(1, 1, x)` is what
`AddOp` writes for `x + 1`), `AddOp(cmMUL)` leaves `VARMUL(3, 3, x)`: the evaluation loop
computes `3 * 2 ^ 53` for the unfused sequence (`x + 1` is rounded to `x`) and `3 * 2 ^ 53 + 4`
for the fused entry.  With `VARMUL(3, 3, x), VAL 3` as the last entries (`VARMUL(3, 3, x)` is
what `AddOp` writes for `x * 3 + 3`), `AddOp(cmDIV)` leaves `VARMUL(1, 1, x)`: the loop computes
`2 ^ 53 + 2` for the unfused sequence and `2 ^ 53` for the fused entry.  Scalar `Eval` of the two
expressions returns the fused values with the optimizer and the unfused values without. -/
theorem C30_counterexample :
    roundDouble 9007199254740992 = 9007199254740992 ∧
    ParserByteCode.AddOpWith Arith.double Examples.env
        { m_vRPN := [SToken.VAR 10, SToken.VAL 1] } .cmADD =
      .ok { m_vRPN := [SToken.VARMUL 1 1 10] } ∧
    ParserByteCode.AddOpWith Arith.double Examples.env
        { m_vRPN := [SToken.VARMUL 1 1 10, SToken.VAL 3] } .cmMUL =
      .ok { m_vRPN := [SToken.VARMUL 3 3 10] } ∧
    topWith Arith.double Examples.env [SToken.VARMUL 1 1 10, SToken.VAL 3, { Cmd := .cmMUL }]
        (Examples.memAt 9007199254740992) = .ok 27021597764222976 ∧
    topWith Arith.double Examples.env [SToken.VARMUL 3 3 10]
        (Examples.memAt 9007199254740992) = .ok 27021597764222980 ∧
    ParserByteCode.AddOpWith Arith.double Examples.env
        { m_vRPN := [SToken.VAR 10, SToken.VAL 3] } .cmMUL =
      .ok { m_vRPN := [SToken.VARMUL 3 0 10] } ∧
    ParserByteCode.AddOpWith Arith.double Examples.env
        { m_vRPN := [SToken.VARMUL 3 0 10, SToken.VAL 3] } .cmADD =
      .ok { m_vRPN := [SToken.VARMUL 3 3 10] } ∧
    ParserByteCode.AddOpWith Arith.double Examples.env
        { m_vRPN := [SToken.VARMUL 3 3 10, SToken.VAL 3] } .cmDIV =
      .ok { m_vRPN := [SToken.VARMUL 1 1 10] } ∧
    topWith Arith.double Examples.env [SToken.VARMUL 3 3 10, SToken.VAL 3, { Cmd := .cmDIV }]
        (Examples.memAt 9007199254740992) = .ok 9007199254740994 ∧
    topWith Arith.double Examples.env [SToken.VARMUL 1 1 10]
        (Examples.memAt 9007199254740992) = .ok 9007199254740992 ∧
    compiledCode Examples.env true Examples.toksSumTimes (Examples.memAt 9007199254740992) =
      .ok [SToken.VARMUL 3 3 10, { Cmd := .cmEND }] ∧
    evalArith Arith.double Examples.env true Examples.toksSumTimes
        (Examples.memAt 9007199254740992) = .ok 27021597764222980 ∧
    evalArith Arith.double Examples.env false Examples.toksSumTimes
        (Examples.memAt 9007199254740992) = .ok 27021597764222976 ∧
    compiledCode Examples.env true Examples.toksSumOver (Examples.memAt 9007199254740992) =
      .ok [SToken.VARMUL 1 1 10, { Cmd := .cmEND }] ∧
    evalArith Arith.double Examples.env true Examples.toksSumOver
        (Examples.memAt 9007199254740992) = .ok 9007199254740992 ∧
    evalArith Arith.double Examples.env false Examples.toksSumOver
        (Examples.memAt 9007199254740992) = .ok 9007199254740994 := by
  decide!

/-- C30 (amended): with the optimizer enabled, `AddOp(cmMUL)` replaces the last two entries
`VAL a, VAR x` or `VAR x, VAL a` by `VARMUL(a, 0, x)`, the entries `VARMUL(k, c, x), VAL a` or
`VAL a, VARMUL(k, c, x)` by `VARMUL(a * k, a * c, x)`, and `VAR x, VAR x` by `VARPOW2 x`, and
appends the operator after `VAR x, VAR y` with different variables; `AddOp(cmDIV)` replaces
`VARMUL(k, c, x), VAL a` by `VARMUL(k / a, c / a, x)` when `a` is not zero and appends the
operator when `a` is zero.  In exact arithmetic, in every case of a replacement the evaluation
loop computes the same value for the two entries followed by the operator and for the new entry,
in every memory.  Whatever the arithmetic, the same replacements are made, the constants being
computed by `AddOp` with the operations of the arithmetic: `a + 0` or `0 + a`, `k * a` and
`c * a`, `k / a` and `c / a`. -/
theorem C30_multiplicative_fusion (env : CallEnv) (bc : ParserByteCode) (pre : List SToken)
    (a k c : value_type) (x y : Nat) (hopt : bc.m_bEnableOptimizer = true) :
    ParserByteCode.AddOp env { bc with m_vRPN := pre ++ [SToken.VAL a, SToken.VAR x] } .cmMUL =
      .ok { bc with m_vRPN := pre ++ [SToken.VARMUL a 0 x] } ∧
    ParserByteCode.AddOp env { bc with m_vRPN := pre ++ [SToken.VAR x, SToken.VAL a] } .cmMUL =
      .ok { bc with m_vRPN := pre ++ [SToken.VARMUL a 0 x] } ∧
    ParserByteCode.AddOp env
        { bc with m_vRPN := pre ++ [SToken.VARMUL k c x, SToken.VAL a] } .cmMUL =
      .ok { bc with m_vRPN := pre ++ [SToken.VARMUL (a * k) (a * c) x] } ∧
    ParserByteCode.AddOp env
        { bc with m_vRPN := pre ++ [SToken.VAL a, SToken.VARMUL k c x] } .cmMUL =
      .ok { bc with m_vRPN := pre ++ [SToken.VARMUL (a * k) (a * c) x] } ∧
    ParserByteCode.AddOp env { bc with m_vRPN := pre ++ [SToken.VAR x, SToken.VAR x] } .cmMUL =
      .ok { bc with m_vRPN := pre ++ [SToken.VARPOW2 x] } ∧
    (x ≠ y →
      ParserByteCode.AddOp env { bc with m_vRPN := pre ++ [SToken.VAR x, SToken.VAR y] }
          .cmMUL =
        .ok { bc with m_iStackPos := bc.m_iStackPos - 1,
                      m_vRPN := pre ++ [SToken.VAR x, SToken.VAR y, { Cmd := .cmMUL }] }) ∧
    (a ≠ 0 →
      ParserByteCode.AddOp env
          { bc with m_vRPN := pre ++ [SToken.VARMUL k c x, SToken.VAL a] } .cmDIV =
        .ok { bc with m_vRPN := pre ++ [SToken.VARMUL (k / a) (c / a) x] }) ∧
    ParserByteCode.AddOp env
        { bc with m_vRPN := pre ++ [SToken.VARMUL k c x, SToken.VAL 0] } .cmDIV =
      .ok { bc with m_iStackPos := bc.m_iStackPos - 1,
                    m_vRPN := pre ++ [SToken.VARMUL k c x, SToken.VAL 0, { Cmd := .cmDIV }] } ∧
    Computes env [SToken.VAL a, SToken.VAR x, { Cmd := .cmMUL }]
      (fun mem off => a * mem (x + off)) ∧
    Computes env [SToken.VAR x, SToken.VAL a, { Cmd := .cmMUL }]
      (fun mem off => a * mem (x + off)) ∧
    Computes env [SToken.VARMUL a 0 x] (fun mem off => a * mem (x + off)) ∧
    Computes env [SToken.VARMUL k c x, SToken.VAL a, { Cmd := .cmMUL }]
      (fun mem off => a * (k * mem (x + off) + c)) ∧
    Computes env [SToken.VAL a, SToken.VARMUL k c x, { Cmd := .cmMUL }]
      (fun mem off => a * (k * mem (x + off) + c)) ∧
    Computes env [SToken.VARMUL (a * k) (a * c) x]
      (fun mem off => a * (k * mem (x + off) + c)) ∧
    Computes env [SToken.VAR x, SToken.VAR x, { Cmd := .cmMUL }]
      (fun mem off => mem (x + off) * mem (x + off)) ∧
    Computes env [SToken.VARPOW2 x] (fun mem off => mem (x + off) * mem (x + off)) ∧
    Computes env [SToken.VARMUL k c x, SToken.VAL a, { Cmd := .cmDIV }]
      (fun mem off => (k * mem (x + off) + c) / a) ∧
    (a ≠ 0 → Computes env [SToken.VARMUL (k / a) (c / a) x]
      (fun mem off => (k * mem (x + off) + c) / a)) ∧
    (∀ A : Arith,
      ParserByteCode.AddOpWith A env { bc with m_vRPN := pre ++ [SToken.VAL a, SToken.VAR x] }
          .cmMUL =
        .ok { bc with m_vRPN := pre ++ [SToken.VARMUL (A.add a 0) 0 x] } ∧
      ParserByteCode.AddOpWith A env { bc with m_vRPN := pre ++ [SToken.VAR x, SToken.VAL a] }
          .cmMUL =
        .ok { bc with m_vRPN := pre ++ [SToken.VARMUL (A.add 0 a) 0 x] } ∧
      ParserByteCode.AddOpWith A env
          { bc with m_vRPN := pre ++ [SToken.VARMUL k c x, SToken.VAL a] } .cmMUL =
        .ok { bc with m_vRPN := pre ++ [SToken.VARMUL (A.mul k a) (A.mul c a) x] } ∧
      ParserByteCode.AddOpWith A env
          { bc with m_vRPN := pre ++ [SToken.VAL a, SToken.VARMUL k c x] } .cmMUL =
        .ok { bc with m_vRPN := pre ++ [SToken.VARMUL (A.mul k a) (A.mul c a) x] } ∧
      ParserByteCode.AddOpWith A env { bc with m_vRPN := pre ++ [SToken.VAR x, SToken.VAR x] }
          .cmMUL =
        .ok { bc with m_vRPN := pre ++ [SToken.VARPOW2 x] } ∧
      (x ≠ y →
        ParserByteCode.AddOpWith A env
            { bc with m_vRPN := pre ++ [SToken.VAR x, SToken.VAR y] } .cmMUL =
          .ok { bc with m_iStackPos := bc.m_iStackPos - 1,
                        m_vRPN := pre ++ [SToken.VAR x, SToken.VAR y, { Cmd := .cmMUL }] }) ∧
      (a ≠ 0 →
        ParserByteCode.AddOpWith A env
            { bc with m_vRPN := pre ++ [SToken.VARMUL k c x, SToken.VAL a] } .cmDIV =
          .ok { bc with m_vRPN := pre ++ [SToken.VARMUL (A.div k a) (A.div c a) x] }) ∧
      ParserByteCode.AddOpWith A env
          { bc with m_vRPN := pre ++ [SToken.VARMUL k c x, SToken.VAL 0] } .cmDIV =
        .ok { bc with m_iStackPos := bc.m_iStackPos - 1,
                      m_vRPN := pre ++ [SToken.VARMUL k c x, SToken.VAL 0,
                        { Cmd := .cmDIV }] }) := by
  have tr : ∀ (l r : SToken) (op : ECmdCode) (v : Mem → Nat → value_type),
      (l.Cmd = .cmVAL ∨ l.Cmd = .cmVAR ∨ l.Cmd = .cmVARMUL ∨ l.Cmd = .cmVARPOW2) →
      (r.Cmd = .cmVAL ∨ r.Cmd = .cmVAR ∨ r.Cmd = .cmVARMUL ∨ r.Cmd = .cmVARPOW2) →
      isBuiltinBinCode op = true → op ≠ .cmASSIGN →
      (∀ mem off, (binaryOp env op (l.pushed mem off) (r.pushed mem off)).getD 0 = v mem off) →
      Computes env [l, r, { Cmd := op }] v :=
    fun l r op v hl hr h1 h2 hv => (Computes.triple env hl hr h1 h2).congr hv
  have sg : ∀ (t : SToken) (v : Mem → Nat → value_type),
      (t.Cmd = .cmVAL ∨ t.Cmd = .cmVAR ∨ t.Cmd = .cmVARMUL ∨ t.Cmd = .cmVARPOW2) →
      (∀ mem off, t.pushed mem off = v mem off) → Computes env [t] v :=
    fun t v ht hv => (Computes.single env ht).congr hv
  refine ⟨?_, ?_, ?_, ?_, ?_, ?_, ?_, ?_, ?_, ?_, ?_, ?_, ?_, ?_, ?_, ?_, ?_, ?_,
    fun A => AddOpWith_multiplicative A env bc pre a k c x y hopt⟩
  · simp [ParserByteCode.AddOp, ParserByteCode.peephole, hopt, bind, Except.bind, SToken.VAL,
      SToken.VAR,
      SToken.VARMUL]
  · simp [ParserByteCode.AddOp, ParserByteCode.peephole, hopt, bind, Except.bind, SToken.VAL,
      SToken.VAR,
      SToken.VARMUL]
  · simp [ParserByteCode.AddOp, ParserByteCode.peephole, hopt, bind, Except.bind, SToken.VAL,
      SToken.VAR,
      SToken.VARMUL, mul_comm]
  · simp [ParserByteCode.AddOp, ParserByteCode.peephole, hopt, bind, Except.bind, SToken.VAL,
      SToken.VAR,
      SToken.VARMUL, mul_comm]
  · simp [ParserByteCode.AddOp, ParserByteCode.peephole, hopt, bind, Except.bind, SToken.VAL,
      SToken.VAR,
      SToken.VARPOW2]
  · intro hne
    have hne' : ¬ y = x := fun h => hne h.symm
    simp [ParserByteCode.AddOp, ParserByteCode.peephole, ParserByteCode.pushOp, hopt, bind,
      Except.bind,
      SToken.VAL, SToken.VAR, hne, hne']
  · intro ha
    simp [ParserByteCode.AddOp, ParserByteCode.peephole, hopt, bind, Except.bind, SToken.VAL,
      SToken.VARMUL, ha]
  · simp [ParserByteCode.AddOp, ParserByteCode.peephole, ParserByteCode.pushOp, hopt, bind,
      Except.bind,
      SToken.VAL, SToken.VARMUL]
  · exact tr _ _ _ _ (Or.inl rfl) (Or.inr (Or.inl rfl)) rfl (by decide) (fun mem off => rfl)
  · exact tr _ _ _ _ (Or.inr (Or.inl rfl)) (Or.inl rfl) rfl (by decide)
      (fun mem off => mul_comm _ _)
  · exact sg _ _ (Or.inr (Or.inr (Or.inl rfl))) (fun mem off => by
      simp [SToken.pushed, SToken.VARMUL, mul_comm])
  · exact tr _ _ _ _ (Or.inr (Or.inr (Or.inl rfl))) (Or.inl rfl) rfl (by decide)
      (fun mem off => by
        simp only [SToken.pushed, SToken.VARMUL, SToken.VAL, binaryOp, Option.getD_some]; ring)
  · exact tr _ _ _ _ (Or.inl rfl) (Or.inr (Or.inr (Or.inl rfl))) rfl (by decide)
      (fun mem off => by
        simp only [SToken.pushed, SToken.VARMUL, SToken.VAL, binaryOp, Option.getD_some]; ring)
  · exact sg _ _ (Or.inr (Or.inr (Or.inl rfl))) (fun mem off => by
      simp only [SToken.pushed, SToken.VARMUL]; ring)
  · exact tr _ _ _ _ (Or.inr (Or.inl rfl)) (Or.inr (Or.inl rfl)) rfl (by decide)
      (fun mem off => rfl)
  · exact sg _ _ (Or.inr (Or.inr (Or.inr rfl))) (fun mem off => rfl)
  · exact tr _ _ _ _ (Or.inr (Or.inr (Or.inl rfl))) (Or.inl rfl) rfl (by decide)
      (fun mem off => by
        simp only [SToken.pushed, SToken.VARMUL, SToken.VAL, binaryOp, Option.getD_some]; ring)
  · intro ha
    exact sg _ _ (Or.inr (Or.inr (Or.inl rfl))) (fun mem off => by
      simp only [SToken.pushed, SToken.VARMUL]; field_simp; ring)

/-- C30 (witness): with `VARMUL(4, 2, a), VAL 2` as the last entries (`a` at address 10),
`AddOp(cmDIV)` leaves the single entry `VARMUL(2, 1, a)`. -/
theorem C30_multiplicative_fusion_witness :
    ParserByteCode.AddOp Examples.env { m_vRPN := [SToken.VARMUL 4 2 10, SToken.VAL 2] } .cmDIV =
      .ok { m_vRPN := [SToken.VARMUL 2 1 10] } := by
  have h := (C30_multiplicative_fusion Examples.env {} [] 2 4 2 10 10 rfl).2.2.2.2.2.2.1
    (by norm_num)
  have e : (4 : value_type) / 2 = 2 ∧ (2 : value_type) / 2 = 1 := by norm_num
  rw [e.1, e.2] at h
  exact h

/-- Stack typed code of one entry: the entry pushes a value and pops none. -/
theorem Code.single_pops {fin : Bool} {k h : Nat} {b : List SToken} (hc : Code fin k h b) :
    ∀ t, b = [t] → k = 1 ∧ Pops t 0 := by
  have snoc : ∀ {bs : List SToken} {t' t : SToken}, bs ++ [t'] = [t] → bs = [] ∧ t' = t := by
    intro bs t' t h
    cases bs with
    | nil => simpa using h
    | cons a bs => simp at h
  cases hc with
  | nil h => intro t ht; cases ht
  | push t' hb hv hk =>
    intro t ht
    obtain ⟨h1, h2⟩ := snoc ht
    subst h1 h2
    have := hb.length_ge
    simp only [List.length_nil, Nat.le_zero_eq] at this
    exact ⟨by omega, Or.inl ⟨hv, rfl⟩⟩
  | binop t' hb hv =>
    intro t ht
    obtain ⟨h1, h2⟩ := snoc ht
    subst h1 h2
    have := hb.length_ge
    simp only [List.length_nil, Nat.le_zero_eq] at this
    omega
  | func t' n hb e1 e2 hk =>
    intro t ht
    obtain ⟨h1, h2⟩ := snoc ht
    subst h1 h2
    have := hb.length_ge
    simp only [List.length_nil, Nat.le_zero_eq] at this
    have hn : n = 0 := by omega
    subst hn
    exact ⟨by omega, Or.inr (Or.inr (Or.inl ⟨e1, e2⟩))⟩
  | bulk t' n hb e1 e2 hk =>
    intro t ht
    obtain ⟨h1, h2⟩ := snoc ht
    subst h1 h2
    have := hb.length_ge
    simp only [List.length_nil, Nat.le_zero_eq] at this
    have hn : n = 0 := by omega
    subst hn
    exact ⟨by omega, Or.inr (Or.inr (Or.inr (Or.inl ⟨e1, e2⟩)))⟩
  | strfun t' n hb e1 e2 hk =>
    intro t ht
    obtain ⟨h1, h2⟩ := snoc ht
    subst h1 h2
    have := hb.length_ge
    simp only [List.length_nil, Nat.le_zero_eq] at this
    have hn : n = 0 := by omega
    subst hn
    exact ⟨by omega, Or.inr (Or.inr (Or.inr (Or.inr ⟨e1, e2⟩)))⟩
  | cond tIf tElse tEnd hb ht he h1 h2 c1 c2 c3 ho =>
    intro t ht'
    have := congrArg List.length ht'
    simp only [List.length_append, List.length_cons, List.length_nil] at this
    omega

/-- The short evaluation and the evaluation loop on bytecode of one entry that pushes a value and
is not a bulk function. -/
theorem ParserBase.ParseCmdCodeShort_eq (env : CallEnv) (p : ParserBase) (mem : Mem)
    (tok : SToken) (hcode : p.m_vRPN.m_vRPN = [tok, { Cmd := .cmEND }])
    (hidx : p.m_nFinalResultIdx = 1) (hp : Pops tok 0) (hb : tok.Cmd ≠ .cmFUNC_BULK)
    (hs : tok.Cmd = .cmFUNC_STR → tok.idx = 0 ∧ p.m_vStringBuf ≠ []) :
    p.ParseCmdCodeShort env mem = Result.value (p.ParseCmdCode env mem) := by
  have hne : tok.Cmd ≠ .cmEND := by
    rcases hp with ⟨hv, _⟩ | ⟨hv, _⟩ | ⟨hv, _⟩ | ⟨hv, _⟩ | ⟨hv, _⟩
    · intro h; rw [h] at hv; cases hv
    · intro h; rw [h] at hv; cases hv
    · rw [hv]; decide
    · rw [hv]; decide
    · rw [hv]; decide
  simp only [ParserBase.ParseCmdCodeShort, ParserBase.ParseCmdCode, ParserBase.ParseCmdCodeBulk,
    hcode, vmLoop, hne, if_false, hidx]
  rcases hp with ⟨hv, _⟩ | ⟨hv, h2⟩ | ⟨hv, h2⟩ | ⟨hv, h2⟩ | ⟨hv, h2⟩
  · cases hc : tok.Cmd <;> rw [hc] at hv <;> cases hv <;>
      simp [exec, hc, Result.value, vmLoop]
  · exact absurd h2 (by decide)
  · have ha : tok.argc = 0 := by
      rcases h2 with h | ⟨_, h⟩
      · simpa using h
      · omega
    simp [exec, hv, ha, Result.value, stackArgs, vmLoop]
  · exact absurd hv hb
  · obtain ⟨hi, hbuf⟩ := hs hv
    have ha : tok.argc = 0 := by simpa using h2
    cases hsb : p.m_vStringBuf with
    | nil => exact absurd hsb hbuf
    | cons str rest =>
      have hlen : ¬ ((rest.length : Int) + 1 ≤ 0) := by omega
      simp [exec, hv, ha, hi, Result.value, stackArgs, vmLoop, hlen]

/-- C23 (code bug): the short evaluation has no case for a bulk function.  The expression `off()`,
the call of a bulk function without arguments, compiles to one entry followed by the end entry,
so `ParseString` selects the short evaluation; it raises the internal error, while the
evaluation loop run on the same bytecode returns the value of the function (here 0), as the
bulk evaluation does.  On every
bytecode of one entry that pushes a value and is not a bulk function (a string function reading
the first string of the buffer) the two agree. -/
theorem C23_short_form_misses_bulk :
    ((Examples.parser true Examples.toksOffset).CreateRPN Examples.env Examples.mem).toOption =
      some Examples.parserOffset ∧
    Examples.parserOffset.m_vRPN.m_vRPN =
      [{ Cmd := .cmFUNC_BULK, cb := Examples.offsetAddr, argc := 0 }, { Cmd := .cmEND }] ∧
    Examples.parserOffset.m_vRPN.m_vRPN.length = 2 ∧
    Examples.parserOffset.ParseCmdCodeShort Examples.env Examples.mem =
      Error .ecINTERNAL_ERROR ∧
    Result.value (Examples.parserOffset.ParseCmdCode Examples.env Examples.mem) = .ok 0 ∧
    Examples.evalValue true Examples.toksOffset Examples.mem = Error .ecINTERNAL_ERROR ∧
    Examples.bulkValues true Examples.toksOffset Examples.mem 3 = .ok [0, 1, 2] ∧
    ∀ (env : CallEnv) (p : ParserBase) (mem : Mem) (tok : SToken),
      p.m_vRPN.m_vRPN = [tok, { Cmd := .cmEND }] → p.m_nFinalResultIdx = 1 → Pops tok 0 →
      tok.Cmd ≠ .cmFUNC_BULK → (tok.Cmd = .cmFUNC_STR → tok.idx = 0 ∧ p.m_vStringBuf ≠ []) →
      p.ParseCmdCodeShort env mem = Result.value (p.ParseCmdCode env mem) := by
  have hc : CreateRPN Examples.env Examples.mem { m_bEnableOptimizer := true }
      { m_strFormula := "expr ", m_tokens := Examples.toksOffset } =
      .ok Examples.compiledOffset := by decide!
  refine ⟨?_, rfl, rfl, rfl, ?_, ?_, ?_, ?_⟩
  · simp only [Examples.parser, ParserBase.CreateRPN, hc, Examples.parserOffset]
    rfl
  · simp [ParserBase.ParseCmdCode, ParserBase.ParseCmdCodeBulk, Examples.parserOffset,
      Examples.compiledOffset, vmLoop, exec, Result.value, stackArgs, Examples.env,
      Examples.offsetAddr]
  · simp only [Examples.evalValue, ParserBase.Eval, Examples.parser, ParserBase.ParseString,
      ParserBase.CreateRPN, hc]
    rfl
  · simp only [Examples.bulkValues, ParserBase.EvalBulk, Examples.parser,
      ParserBase.CreateRPN, hc]
    simp [ParserBase.bulkLoop, ParserBase.ParseCmdCodeBulk,
      Examples.compiledOffset, vmLoop, exec, stackArgs, Examples.env, Examples.offsetAddr]
  · intro env p mem tok h1 h2 h3 h4 h5
    exact ParserBase.ParseCmdCodeShort_eq env p mem tok h1 h2 h3 h4 h5

/-- What `CreateRPN` returns for `a = (b = e)`: the entries that push `a` and `b`, the entries
written for `e`, the assignment to `b`, the assignment to `a` and the end entry. -/
theorem Expr.compiled_assignChain {env : CallEnv} {mem : Mem} {bc0 : ParserByteCode}
    {formula : String} {eq1 eq2 bo bc a b : token_type} {e : Expr} {comp : Compiled}
    (h1 : eq1.GetCode = .cmASSIGN) (h2 : eq2.GetCode = .cmASSIGN)
    (hv : Expr.Valid .args none (Expr.assignChain eq1 eq2 bo bc a b e) = true)
    (hp : Expr.PlusOK env (Expr.assignChain eq1 eq2 bo bc a b e))
    (hlen : ((Expr.assignChain eq1 eq2 bo bc a b e).toks.length : Int) < 2 ^ 64)
    (hc : CreateRPN env mem bc0
      { m_strFormula := formula, m_tokens := (Expr.assignChain eq1 eq2 bo bc a b e).toks } =
      .ok comp) :
    ∃ (st : ParserByteCode × List String) (te : List token_type) (be : List SToken) (h : Nat),
      Expr.emit env mem e (((bc0.clear).AddVar a.m_pTok).AddVar b.m_pTok, []) = .ok (st, te) ∧
      Code true 1 h be ∧
      ([SToken.VAR a.m_pTok, SToken.VAR b.m_pTok] ++ be).map SToken.eraseOffset =
        st.1.m_vRPN.map SToken.eraseOffset ∧
      comp.m_vRPN.m_vRPN =
        [SToken.VAR a.m_pTok, SToken.VAR b.m_pTok] ++ be ++
          [{ Cmd := .cmASSIGN, ptr := b.m_pTok }, { Cmd := .cmASSIGN, ptr := a.m_pTok },
            { Cmd := .cmEND }] ∧
      comp.m_vStringBuf = st.2 ∧ comp.m_nFinalResultIdx = 1 := by
  have hf : formula.length ≠ 0 := by
    intro h0
    simp only [CreateRPN, h0, if_true] at hc
    cases hc
  have hidx := (Expr.compiled_code hv (by decide) hp hlen hc).choose_spec.choose_spec.2.2.2.1
  rw [Expr.CreateRPN_eq hv (by decide) bc0 formula hf] at hc
  obtain ⟨⟨⟨bc', sb'⟩, ts⟩, he, hfin⟩ := Result.bind_eq_ok hc
  simp only [Expr.assignChain, Expr.Valid, Bool.and_eq_true, decide_eq_true_eq] at hv
  have hve : Expr.Valid .expr (some eq2) e = true := hv.1.2.2.1.2
  have hpe : Expr.PlusOK env e := fun t ht => hp t (by simp [Expr.assignChain, Expr.toks, ht])
  simp only [Expr.assignChain, Expr.toks, List.length_append, List.length_cons, Nat.cast_add,
    Nat.cast_one] at hlen
  have n1 : ¬ (ECmdCode.cmASSIGN = ECmdCode.cmOPRT_BIN) := by decide
  simp only [Expr.assignChain, Expr.emit, h1, h2, n1, if_false, if_true, List.headD_cons] at he
  split at he
  · cases he
  · rename_i st3 t3 hst3
    split at hst3
    · cases hst3
    rename_i st te hst
    simp only [Except.ok.injEq, Prod.mk.injEq] at hst3
    obtain ⟨hst3, _⟩ := hst3
    subst hst3
    obtain ⟨bc2, sb2⟩ := st
    simp only [Except.ok.injEq, Prod.mk.injEq] at he
    obtain ⟨⟨hbc, hsb⟩, _⟩ := he
    have e2 := Expr.emit_code e _ _ _ _ _ _ _ hve hpe hst
      (by simp [ParserByteCode.AddVar, ParserByteCode.clear])
      (by simp [ParserByteCode.AddVar, ParserByteCode.clear, ParserByteCode.castSize])
      (by simp only [ParserByteCode.AddVar, ParserByteCode.clear]; omega)
    rw [Expr.numItems_expr (by decide) (Expr.items_of_valid_expr hve)] at e2
    obtain ⟨b2, hh2, c1, c2, _⟩ := e2
    simp only [ParserByteCode.AddVar, ParserByteCode.clear, List.nil_append,
      List.singleton_append] at c1
    obtain ⟨be, f1, g1, k1, hfl⟩ := ParserByteCode.finalizeLoop_code c2
      [SToken.VAR a.m_pTok, SToken.VAR b.m_pTok]
      [{ Cmd := .cmASSIGN, ptr := b.m_pTok }, { Cmd := .cmASSIGN, ptr := a.m_pTok },
        { Cmd := .cmEND }] [.cmASSIGN, .cmASSIGN, .cmEND] [] []
    have hcode : bc'.m_vRPN = [SToken.VAR a.m_pTok, SToken.VAR b.m_pTok] ++ b2 ++
        [{ Cmd := .cmASSIGN, ptr := b.m_pTok }, { Cmd := .cmASSIGN, ptr := a.m_pTok }] := by
      rw [← hbc]
      simp [ParserByteCode.AddAssignOp, c1, SToken.VAR]
    have hFin : bc'.Finalize = .ok { bc' with m_vRPN :=
        [SToken.VAR a.m_pTok, SToken.VAR b.m_pTok] ++ be ++
        [{ Cmd := .cmASSIGN, ptr := b.m_pTok }, { Cmd := .cmASSIGN, ptr := a.m_pTok },
          { Cmd := .cmEND }] } := by
      unfold ParserByteCode.Finalize
      simp only [hcode, List.map_append, List.map_cons, List.map_nil, bind, Except.bind,
        List.cons_append, List.nil_append, List.append_assoc, SToken.VAR]
      rw [ParserByteCode.finalizeLoop_other _ _ _ _ _ (by decide),
        ParserByteCode.finalizeLoop_other _ _ _ _ _ (by decide)]
      simp only [List.cons_append, List.nil_append, List.length_cons, List.length_nil,
        List.append_assoc, Nat.zero_add, SToken.VAR] at hfl
      rw [hfl]
      rw [ParserByteCode.finalizeLoop_other _ _ _ _ _ (by decide),
        ParserByteCode.finalizeLoop_other _ _ _ _ _ (by decide),
        ParserByteCode.finalizeLoop_other _ _ _ _ _ (by decide)]
      rfl
    simp only [Expr.finish, hFin, Result.bind_ok, Except.ok.injEq] at hfin
    subst hfin
    refine ⟨(bc2, sb2), te, be, hh2, hst, f1, ?_, rfl, hsb.symm, ?_⟩
    · rw [c1, List.map_append, List.map_append, k1]
      rfl
    · simpa [Expr.assignChain, Expr.items] using hidx

/-- The run of the bytecode of `a = (b = e)`: `a` and `b` are pushed, the entries of `e` run, and
the value they leave is stored in `b`, then in `a`, and is what stands at the index of the
result. -/
theorem vmLoop_assignChain (env : CallEnv) (strBuf : List String) (nOffset nThreadID : Nat)
    {h : Nat} {be : List SToken} (ce : Code true 1 h be) (pa pb : Nat) (s0 : VMState) :
    vmLoop env strBuf nOffset nThreadID
      ([SToken.VAR pa, SToken.VAR pb] ++ be ++
        [{ Cmd := .cmASSIGN, ptr := pb }, { Cmd := .cmASSIGN, ptr := pa }, { Cmd := .cmEND }])
      0 s0 =
      Except.bind (vmSteps env strBuf nOffset nThreadID be 0
        { s0 with
          sidx := s0.sidx + 1 + 1
          stack := Function.update (Function.update s0.stack (s0.sidx + 1) (s0.mem (pa + nOffset)))
            (s0.sidx + 1 + 1) (s0.mem (pb + nOffset)) }) (fun r =>
        .ok { sidx := s0.sidx + 1
              stack := Function.update (Function.update r.1.stack (s0.sidx + 2)
                (r.1.stack (s0.sidx + 3))) (s0.sidx + 1) (r.1.stack (s0.sidx + 3))
              mem := Function.update (Function.update r.1.mem (pb + nOffset)
                (r.1.stack (s0.sidx + 3))) (pa + nOffset) (r.1.stack (s0.sidx + 3)) }) := by
  have hl : [SToken.VAR pa, SToken.VAR pb] ++ be ++
      [{ Cmd := .cmASSIGN, ptr := pb }, { Cmd := .cmASSIGN, ptr := pa }, { Cmd := .cmEND }] =
      SToken.VAR pa :: SToken.VAR pb :: (be ++ [{ Cmd := .cmASSIGN, ptr := pb },
        { Cmd := .cmASSIGN, ptr := pa }, ({ Cmd := .cmEND } : SToken)]) := by
    simp
  rw [hl]
  simp only [vmLoop, SToken.VAR, exec, reduceCtorEq, if_false]
  rw [vmLoop_append env strBuf nOffset nThreadID be _ ce.no_end]
  cases h1 : vmSteps env strBuf nOffset nThreadID be 0
      { sidx := s0.sidx + 1 + 1,
        stack := Function.update (Function.update s0.stack (s0.sidx + 1) (s0.mem (pa + nOffset)))
          (s0.sidx + 1 + 1) (s0.mem (pb + nOffset)), mem := s0.mem } with
  | error e => rfl
  | ok r =>
    obtain ⟨_, q⟩ := Code.run env strBuf nOffset nThreadID ce 0
      { sidx := s0.sidx + 1 + 1,
        stack := Function.update (Function.update s0.stack (s0.sidx + 1) (s0.mem (pa + nOffset)))
          (s0.sidx + 1 + 1) (s0.mem (pb + nOffset)), mem := s0.mem }
    obtain ⟨e1, e2, _⟩ := q r h1
    simp only at e1
    have e1' : r.1.sidx = s0.sidx + 3 := by rw [e1]; push_cast; ring
    simp only [Result.bind_ok, e2, vmLoop, exec, reduceCtorEq, if_false, if_true, e1']
    have a1 : s0.sidx + 3 - 1 = s0.sidx + 2 := by ring
    have a2 : s0.sidx + 2 - 1 = s0.sidx + 1 := by ring
    simp only [a1, a2, Function.update_same]

theorem readTokens_assignPrefix (env : CallEnv) (mem : Mem) (bc0 : ParserByteCode)
    (pa pb : Nat) :
    readTokens env mem [Examples.tokVar pa, Examples.tokOp .cmASSIGN, Examples.tokVar pb,
      Examples.tokOp .cmASSIGN] (initState bc0) = .ok (assignPrefixState bc0 pa pb) := by
  rfl

/-- The chained assignment `a = b = e` without brackets does not compile: the first assignment
is reduced when the second is read, and the second then finds a value, not a variable, as its
left operand. -/
theorem CreateRPN_assignChain_fails (env : CallEnv) (mem : Mem) (bc0 : ParserByteCode)
    (formula : String) (hf : formula.length ≠ 0) (pa pb : Nat) (e : Expr)
    (hv : Expr.Valid .expr (some (Examples.tokOp .cmASSIGN)) e = true) :
    CreateRPN env mem bc0 { m_strFormula := formula, m_tokens :=
        [Examples.tokVar pa, Examples.tokOp .cmASSIGN, Examples.tokVar pb,
          Examples.tokOp .cmASSIGN] ++ e.toks } =
      match Expr.emit env mem e ((((bc0.clear).AddVar pa).AddVar pb).AddAssignOp pa, []) with
      | .ok _ => Error .ecUNEXPECTED_OPERATOR
      | .error err => .error err := by
  have hS : Expr.Good (some (Examples.tokOp .cmASSIGN)) (assignPrefixState bc0 pa pb) :=
    ⟨rfl, by simp [assignPrefixState], le_refl _⟩
  have sp := @Expr.spec env mem e .expr _ (assignPrefixState bc0 pa pb) hv hS
  unfold CreateRPN
  simp only [hf, if_false]
  have hpre : ∀ t ∈ [Examples.tokVar pa, Examples.tokOp .cmASSIGN, Examples.tokVar pb,
      Examples.tokOp .cmASSIGN], t.GetCode ≠ .cmEND := by
    intro t ht
    simp only [List.mem_cons, List.mem_singleton, List.not_mem_nil, or_false] at ht
    rcases ht with h | h | h | h <;> subst h <;>
      simp [Examples.tokVar, Examples.tokOp, token_type.GetCode]
  rw [tokenLoop_append _ _ _ hpre, readTokens_assignPrefix]
  simp only
  have e0 : tokenLoop env mem e.toks (assignPrefixState bc0 pa pb) =
      Except.bind (readTokens env mem e.toks (assignPrefixState bc0 pa pb))
        (tokenLoop env mem []) := by
    have := @tokenLoop_append env mem e.toks [] (assignPrefixState bc0 pa pb)
      (Expr.toks_code hv)
    rw [List.append_nil] at this
    rw [this]
    cases readTokens env mem e.toks (assignPrefixState bc0 pa pb) <;> rfl
  have e2 : ∀ s, tokenLoop env mem [] s =
      Except.bind (ApplyRemainingOprt env mem s)
        (fun S1 => finishLoop { S1 with opta := tokEND }) := by
    intro s
    rw [tokenLoop, processToken_eq]
    have : dispatchToken env mem s tokEND = ApplyRemainingOprt env mem s := by
      rw [dispatchToken]; rfl
    rw [this]
    cases ApplyRemainingOprt env mem s <;> rfl
  rw [e0, sp.1, funext e2, ← Result.bind_assoc, sp.2.1, Expr.completeR]
  have hm : (assignPrefixState bc0 pa pb).m_vRPN =
      (((bc0.clear).AddVar pa).AddVar pb).AddAssignOp pa := rfl
  have hb : (assignPrefixState bc0 pa pb).m_vStringBuf = [] := rfl
  rw [hm, hb]
  cases h1 : Expr.emit env mem e ((((bc0.clear).AddVar pa).AddVar pb).AddAssignOp pa, []) with
  | error err => rfl
  | ok r =>
    obtain ⟨st, ts⟩ := r
    have hit := Expr.emit_toks e _ _ _ _ _ hv h1
    rw [Expr.items_of_valid_expr hv] at hit
    obtain ⟨t, rfl, ht⟩ := Expr.itemToks_one hit
    simp only [Result.bind_ok]
    have hstep : ApplyRemainingOprt env mem
        (Expr.putS (assignPrefixState bc0 pa pb) e.lastTok (st, [t])) =
        Error .ecUNEXPECTED_OPERATOR := by
      rw [@ApplyRemainingOprt_step env mem (Examples.tokOp .cmASSIGN) [] _ rfl (by decide),
        remainingStep_oprt _ (by decide)]
      have hty : t.GetType = .tpDBL := ht.getType
      simp only [Expr.putS, assignPrefixState, ApplyBinOprt, applyBinCore, List.reverse_cons,
        List.reverse_nil, List.nil_append, List.singleton_append, hty]
      rfl
    rw [hstep]
    rfl

/-- The evaluation of `a = (b = e)` on a parser in string-parse mode: `a` and `b` are pushed,
the entries of `e` run, and the value they leave is returned and stored in `b` and in `a`. -/
theorem ParserBase.Eval_assignChain {env : CallEnv} {mem : Mem} {p : ParserBase}
    {comp : Compiled} {h : Nat} {be : List SToken} (pa pb : Nat)
    (hmode : p.m_pParseFormula = .ParseString)
    (hcomp : mu.CreateRPN env mem p.m_vRPN p.m_pTokenReader = .ok comp)
    (ce : Code true 1 h be)
    (hcode : comp.m_vRPN.m_vRPN = [SToken.VAR pa, SToken.VAR pb] ++ be ++
      [{ Cmd := .cmASSIGN, ptr := pb }, { Cmd := .cmASSIGN, ptr := pa }, { Cmd := .cmEND }])
    (hidx : comp.m_nFinalResultIdx = 1) :
    Result.valueMem (p.Eval env mem) =
      Except.bind (vmSteps env comp.m_vStringBuf 0 0 be 0
        { sidx := 2
          stack := Function.update (Function.update p.m_vStackBuffer 1 (mem pa)) 2 (mem pb)
          mem := mem }) (fun r =>
        .ok (r.1.stack 3,
          Function.update (Function.update r.1.mem pb (r.1.stack 3)) pa (r.1.stack 3))) := by
  have hlen2 : ([SToken.VAR pa, SToken.VAR pb] ++ be ++
      [{ Cmd := .cmASSIGN, ptr := pb }, { Cmd := .cmASSIGN, ptr := pa },
        ({ Cmd := .cmEND } : SToken)]).length ≠ 2 := by
    simp only [List.length_append, List.length_cons, List.length_nil]
    omega
  simp only [ParserBase.Eval, hmode, ParserBase.ParseString, ParserBase.CreateRPN, hcomp, hcode,
    hlen2, if_false, ParserBase.ParseCmdCode, ParserBase.ParseCmdCodeBulk, hidx]
  have hst : (fun i => p.m_vStackBuffer (ParserBase.stackBase
      { p with m_pParseFormula := .ParseCmdCode, m_vRPN := comp.m_vRPN,
               m_vStringBuf := comp.m_vStringBuf, m_nFinalResultIdx := 1,
               m_vStackBufferSize := comp.stackBufferSize } 0 0 + i)) = p.m_vStackBuffer := by
    funext i
    simp only [ParserBase.stackBase, and_self, if_true, zero_add]
  simp only [hst]
  rw [vmLoop_assignChain env comp.m_vStringBuf 0 0 ce pa pb]
  simp only [zero_add, add_zero]
  have e11 : (1 : Int) + 1 = 2 := rfl
  simp only [e11]
  cases vmSteps env comp.m_vStringBuf 0 0 be 0
      { sidx := 2
        stack := Function.update (Function.update p.m_vStackBuffer 1 (mem pa)) 2 (mem pb)
        mem := mem } with
  | error e => rfl
  | ok r =>
    simp only [Result.bind_ok, Result.valueMem, Except.ok.injEq, Prod.mk.injEq, and_true]
    simp

set_option maxHeartbeats 4000000 in
/-- The expression `a = (b = x)` evaluates to `x` and leaves `x` in `b` and in `a`. -/
theorem eval_assign_nested (env : CallEnv) (mem : Mem) (optimizer : Bool) (x : Operand)
    (pa pb : Nat) :
    Result.outcome pa ((Examples.parser optimizer
      (Expr.assignChain (Examples.tokOp .cmASSIGN) (Examples.tokOp .cmASSIGN)
        (Examples.tokOp .cmBO) (Examples.tokOp .cmBC) (Examples.tokVar pa) (Examples.tokVar pb)
        x.expr).toks).Eval env mem) = .ok (x.value mem, x.value mem, 1) ∧
    Result.outcome pb ((Examples.parser optimizer
      (Expr.assignChain (Examples.tokOp .cmASSIGN) (Examples.tokOp .cmASSIGN)
        (Examples.tokOp .cmBO) (Examples.tokOp .cmBC) (Examples.tokVar pa) (Examples.tokVar pb)
        x.expr).toks).Eval env mem) = .ok (x.value mem, x.value mem, 1) := by
  have hv : Expr.Valid .args none (Expr.assignChain (Examples.tokOp .cmASSIGN)
      (Examples.tokOp .cmASSIGN) (Examples.tokOp .cmBO) (Examples.tokOp .cmBC)
      (Examples.tokVar pa) (Examples.tokVar pb) x.expr) = true := by
    cases x <;> rfl
  have hc := @Expr.CreateRPN_eq env mem _ _ hv (by decide) { m_bEnableOptimizer := optimizer }
    "expr " (by decide)
  simp only [Examples.parser, ParserBase.Eval, ParserBase.ParseString,
    ParserBase.CreateRPN, hc]
  clear hv hc
  rcases x with a | px <;> cases optimizer
  all_goals
    simp [Expr.assignChain, Operand.expr, Operand.value, Expr.emit, ParserByteCode.AddVal,
      ParserByteCode.AddVar, ParserByteCode.AddAssignOp, ParserByteCode.clear,
      Examples.tokVal, Examples.tokVar, Examples.tokOp, token_type.GetCode, bind, Except.bind,
      Expr.finish, ParserByteCode.Finalize, ParserByteCode.finalizeLoop,
      ParserBase.ParseCmdCodeShort, ParserBase.ParseCmdCode, ParserBase.ParseCmdCodeBulk,
      vmLoop, exec, Result.outcome, ParserBase.GetNumResults, ParserBase.stackBase,
      Function.update_apply]

/-- C25 (counterexample): the assignment operator is left-associative for the compiler, and
`a = b = 5` does not compile: compilation and evaluation fail with the unexpected-operator
error, with the optimizer on or off. -/
theorem C25_counterexample :
    GetOprtAssociativity (Examples.tokOp .cmASSIGN) = .ok .oaLEFT ∧
    CreateRPN Examples.env Examples.mem {}
      { m_strFormula := "expr ", m_tokens := Examples.toksAssignChain } =
      Error .ecUNEXPECTED_OPERATOR ∧
    ∀ optimizer : Bool,
      Examples.evalValue optimizer Examples.toksAssignChain Examples.mem =
        Error .ecUNEXPECTED_OPERATOR := by
  refine ⟨rfl, by decide!, fun optimizer => ?_⟩
  cases optimizer <;> decide!

/-- C25 (amended): the text `a = b = e` without brackets does not compile, for any variables
`a`, `b` and any valid expression `e`: the first assignment is reduced when the second `=` is
read, so the second finds a value and not a variable on its left, and compilation fails with
the unexpected-operator error (or with the error that emitting `e` raises).  With brackets,
`a = (b = e)` that compiles on a parser in string-parse mode has the bytecode
`VAR a, VAR b`, the entries of `e`, `ASSIGN b, ASSIGN a, END`; `Eval()` runs the entries of `e`
on top of the two pushed values and returns the value they leave, and every evaluation that
returns has stored the returned value in `b` and in `a`.  For an operand `x` (a literal or a
variable) `a = (b = x)` returns the value of `x`, leaves it in `a` and in `b`, and reports one
result. -/
theorem C25_assignment_chain (env : CallEnv) (mem : Mem) (p : ParserBase) (formula : String)
    (eq1 eq2 bo bc a b : token_type) (e : Expr) (comp : Compiled)
    (hmode : p.m_pParseFormula = .ParseString)
    (hrd : p.m_pTokenReader =
      { m_strFormula := formula, m_tokens := (Expr.assignChain eq1 eq2 bo bc a b e).toks })
    (h1 : eq1.GetCode = .cmASSIGN) (h2 : eq2.GetCode = .cmASSIGN)
    (hv : Expr.Valid .args none (Expr.assignChain eq1 eq2 bo bc a b e) = true)
    (hp : Expr.PlusOK env (Expr.assignChain eq1 eq2 bo bc a b e))
    (hlen : ((Expr.assignChain eq1 eq2 bo bc a b e).toks.length : Int) < 2 ^ 64)
    (hcomp : CreateRPN env mem p.m_vRPN p.m_pTokenReader = .ok comp) :
    (∃ (st : ParserByteCode × List String) (te : List token_type) (be : List SToken) (h : Nat),
      Expr.emit env mem e ((((p.m_vRPN).clear).AddVar a.m_pTok).AddVar b.m_pTok, []) =
        .ok (st, te) ∧
      Code true 1 h be ∧
      ([SToken.VAR a.m_pTok, SToken.VAR b.m_pTok] ++ be).map SToken.eraseOffset =
        st.1.m_vRPN.map SToken.eraseOffset ∧
      comp.m_vRPN.m_vRPN = [SToken.VAR a.m_pTok, SToken.VAR b.m_pTok] ++ be ++
        [{ Cmd := .cmASSIGN, ptr := b.m_pTok }, { Cmd := .cmASSIGN, ptr := a.m_pTok },
          { Cmd := .cmEND }] ∧
      comp.m_nFinalResultIdx = 1 ∧
      Result.valueMem (p.Eval env mem) =
        Except.bind (vmSteps env comp.m_vStringBuf 0 0 be 0
          { sidx := 2
            stack := Function.update (Function.update p.m_vStackBuffer 1 (mem a.m_pTok)) 2
              (mem b.m_pTok)
            mem := mem }) (fun r =>
          .ok (r.1.stack 3, Function.update (Function.update r.1.mem b.m_pTok (r.1.stack 3))
            a.m_pTok (r.1.stack 3)))) ∧
    (∀ v mem', Result.valueMem (p.Eval env mem) = .ok (v, mem') →
      mem' a.m_pTok = v ∧ mem' b.m_pTok = v) ∧
    (∀ (optimizer : Bool) (x : Operand) (pa pb : Nat),
      Result.outcome pa ((Examples.parser optimizer
        (Expr.assignChain (Examples.tokOp .cmASSIGN) (Examples.tokOp .cmASSIGN)
          (Examples.tokOp .cmBO) (Examples.tokOp .cmBC) (Examples.tokVar pa)
          (Examples.tokVar pb) x.expr).toks).Eval env mem) =
        .ok (x.value mem, x.value mem, 1) ∧
      Result.outcome pb ((Examples.parser optimizer
        (Expr.assignChain (Examples.tokOp .cmASSIGN) (Examples.tokOp .cmASSIGN)
          (Examples.tokOp .cmBO) (Examples.tokOp .cmBC) (Examples.tokVar pa)
          (Examples.tokVar pb) x.expr).toks).Eval env mem) =
        .ok (x.value mem, x.value mem, 1)) ∧
    (∀ (bc0 : ParserByteCode) (text : String) (pa pb : Nat) (e' : Expr),
      text.length ≠ 0 → Expr.Valid .expr (some (Examples.tokOp .cmASSIGN)) e' = true →
      CreateRPN env mem bc0 { m_strFormula := text, m_tokens :=
          [Examples.tokVar pa, Examples.tokOp .cmASSIGN, Examples.tokVar pb,
            Examples.tokOp .cmASSIGN] ++ e'.toks } =
        (match Expr.emit env mem e'
            ((((bc0.clear).AddVar pa).AddVar pb).AddAssignOp pa, []) with
          | .ok _ => Error .ecUNEXPECTED_OPERATOR
          | .error err => .error err) ∧
      ∀ c, CreateRPN env mem bc0 { m_strFormula := text, m_tokens :=
          [Examples.tokVar pa, Examples.tokOp .cmASSIGN, Examples.tokVar pb,
            Examples.tokOp .cmASSIGN] ++ e'.toks } ≠ .ok c) := by
  have hcomp' := hcomp
  rw [hrd] at hcomp'
  obtain ⟨st, te, be, h, k1, k2, k3, k4, k5, k6⟩ :=
    Expr.compiled_assignChain h1 h2 hv hp hlen hcomp'
  have hE := ParserBase.Eval_assignChain a.m_pTok b.m_pTok hmode hcomp k2 k4 k6
  refine ⟨⟨st, te, be, h, k1, k2, k3, k4, k6, hE⟩, ?_,
    fun optimizer x pa pb => eval_assign_nested env mem optimizer x pa pb, ?_⟩
  · intro v mem' hr
    rw [hE] at hr
    obtain ⟨r, _, hr'⟩ := Result.bind_eq_ok hr
    simp only [Except.ok.injEq, Prod.mk.injEq] at hr'
    obtain ⟨rfl, rfl⟩ := hr'
    constructor
    · simp
    · simp [Function.update_apply]
  · intro bc0 text pa pb e' ht hv'
    have hf := CreateRPN_assignChain_fails env mem bc0 text ht pa pb e' hv'
    refine ⟨hf, fun c hc => ?_⟩
    rw [hf] at hc
    split at hc <;> cases hc

/-- C25 (witness): `a = (b = 5)` compiles to `VAR a, VAR b, VAL 5, ASSIGN b, ASSIGN a, END`;
its evaluation returns 5 and leaves 5 in `a` and in `b`. -/
theorem C25_assignment_chain_witness :
    CreateRPN Examples.env Examples.mem { m_bEnableOptimizer := true }
      { m_strFormula := "expr ", m_tokens := Examples.exprAssignNested.toks } =
      .ok Examples.compiledAssignNested ∧
    Result.outcome 10 ((Examples.parser true Examples.exprAssignNested.toks).Eval Examples.env
      Examples.mem) = .ok (5, 5, 1) ∧
    Result.outcome 11 ((Examples.parser true Examples.exprAssignNested.toks).Eval Examples.env
      Examples.mem) = .ok (5, 5, 1) :=
  have hcomp : CreateRPN Examples.env Examples.mem { m_bEnableOptimizer := true }
      { m_strFormula := "expr ", m_tokens := Examples.exprAssignNested.toks } =
      .ok Examples.compiledAssignNested := by decide!
  have h := C25_assignment_chain Examples.env Examples.mem
    (Examples.parser true Examples.exprAssignNested.toks) "expr "
    (Examples.tokOp .cmASSIGN) (Examples.tokOp .cmASSIGN) (Examples.tokOp .cmBO)
    (Examples.tokOp .cmBC) (Examples.tokVar 10) (Examples.tokVar 11)
    (.val (Examples.tokVal 5)) Examples.compiledAssignNested rfl rfl rfl rfl (by decide!)
    (by
      intro t ht
      simp only [Expr.assignChain, Expr.toks, List.mem_append, List.mem_cons,
        List.mem_singleton, List.not_mem_nil, or_false, List.cons_append,
        List.nil_append] at ht
      rcases ht with h | h | h | h | h | h | h <;> subst h <;> decide)
    (by decide) hcomp
  ⟨hcomp, h.2.2.1 true (.lit 5) 10 11⟩

/-- A piece of bytecode of one entry computes `v` when executing the entry pushes `v`. -/
theorem Computes.of_exec (env : CallEnv) {t : SToken} {v : Mem → Nat → value_type}
    (h : ∀ strBuf nOffset nThreadID (s : VMState),
      exec env strBuf nOffset nThreadID t s =
        .ok ({ s with sidx := s.sidx + 1,
                      stack := Function.update s.stack (s.sidx + 1) (v s.mem nOffset) }, 0)) :
    Computes env [t] v := by
  intro strBuf nOffset nThreadID s
  refine ⟨{ s with sidx := s.sidx + 1,
                    stack := Function.update s.stack (s.sidx + 1) (v s.mem nOffset) },
    ?_, rfl, Function.update_same _ _ _, rfl, fun i hi => Function.update_noteq (by omega) _ _⟩
  rw [vmSteps_single, h]

/-- C31: with the optimizer enabled and the last two entries `VAR x`, `VAL k`, `AddOp(cmPOW)`
appends nothing and replaces the two entries by `VAL 1` for `k = 0`, by `VAR x` for `k = 1` and
by `VARPOW2 x`, `VARPOW3 x`, `VARPOW4 x` for `k = 2, 3, 4`; for every other `k` the two entries
stay and the entry `POW` is appended.  The evaluation loop computes `x * x`, `x * x * x` and
`x * x * x * x` for the three `VARPOW` entries (1 and `x` for `VAL 1` and `VAR x`), `x` being the
value of the variable at the evaluation offset. -/
theorem C31_pow_rewrite (env : CallEnv) (bc : ParserByteCode) (pre : List SToken) (x : Nat)
    (k : value_type) (hopt : bc.m_bEnableOptimizer = true)
    (hcode : bc.m_vRPN = pre ++ [SToken.VAR x, SToken.VAL k]) :
    (k = 0 → bc.AddOp env .cmPOW = .ok { bc with m_vRPN := pre ++ [SToken.VAL 1] }) ∧
    (k = 1 → bc.AddOp env .cmPOW = .ok { bc with m_vRPN := pre ++ [SToken.VAR x] }) ∧
    (k = 2 → bc.AddOp env .cmPOW = .ok { bc with m_vRPN := pre ++ [SToken.VARPOW2 x] }) ∧
    (k = 3 → bc.AddOp env .cmPOW = .ok { bc with m_vRPN := pre ++ [SToken.VARPOW3 x] }) ∧
    (k = 4 → bc.AddOp env .cmPOW = .ok { bc with m_vRPN := pre ++ [SToken.VARPOW4 x] }) ∧
    (k ≠ 0 → k ≠ 1 → k ≠ 2 → k ≠ 3 → k ≠ 4 →
      bc.AddOp env .cmPOW = .ok { bc with
        m_iStackPos := bc.m_iStackPos - 1
        m_vRPN := pre ++ [SToken.VAR x, SToken.VAL k, { Cmd := .cmPOW }] }) ∧
    Computes env [SToken.VAL 1] (fun _ _ => 1) ∧
    Computes env [SToken.VAR x] (fun mem off => mem (x + off)) ∧
    Computes env [SToken.VARPOW2 x] (fun mem off => mem (x + off) * mem (x + off)) ∧
    Computes env [SToken.VARPOW3 x]
      (fun mem off => mem (x + off) * mem (x + off) * mem (x + off)) ∧
    Computes env [SToken.VARPOW4 x]
      (fun mem off => mem (x + off) * mem (x + off) * mem (x + off) * mem (x + off)) ∧
    Computes env [SToken.VAR x, SToken.VAL k, { Cmd := .cmPOW }]
      (fun mem off => env.Pow (mem (x + off)) k) := by
  refine ⟨?_, ?_, ?_, ?_, ?_, ?_, ?_, ?_, ?_, ?_, ?_, ?_⟩
  · intro hk
    simp [ParserByteCode.AddOp, hopt, hcode, ParserByteCode.peephole, SToken.VAR, SToken.VAL, hk,
      bind, Except.bind]
  · intro hk
    simp [ParserByteCode.AddOp, hopt, hcode, ParserByteCode.peephole, SToken.VAR, SToken.VAL, hk,
      bind, Except.bind]
  · intro hk
    simp [ParserByteCode.AddOp, hopt, hcode, ParserByteCode.peephole, SToken.VAR, SToken.VAL, hk,
      bind, Except.bind, SToken.VARPOW2]
  · intro hk
    simp [ParserByteCode.AddOp, hopt, hcode, ParserByteCode.peephole, SToken.VAR, SToken.VAL, hk,
      bind, Except.bind, SToken.VARPOW3]
  · intro hk
    simp [ParserByteCode.AddOp, hopt, hcode, ParserByteCode.peephole, SToken.VAR, SToken.VAL, hk,
      bind, Except.bind, SToken.VARPOW4]
  · intro k0 k1 k2 k3 k4
    simp [ParserByteCode.AddOp, hopt, hcode, ParserByteCode.peephole, SToken.VAR, SToken.VAL,
      k0, k1, k2, k3, k4, bind, Except.bind, ParserByteCode.pushOp]
  · exact Computes.of_exec env (fun _ _ _ _ => rfl)
  · exact Computes.of_exec env (fun _ _ _ _ => rfl)
  · exact Computes.of_exec env (fun _ _ _ _ => rfl)
  · exact Computes.of_exec env (fun _ _ _ _ => rfl)
  · exact Computes.of_exec env (fun _ _ _ _ => rfl)
  · exact (@Computes.triple env (SToken.VAR x) (SToken.VAL k) .cmPOW (Or.inr (Or.inl rfl))
      (Or.inl rfl) rfl (by decide)).congr (fun mem off => rfl)

/-- C31 (witness): `VAR x, VAL 3` and `POW` give `VARPOW3 x`; `VAR x, VAL 5` and `POW` give
`VAR x, VAL 5, POW`. -/
theorem C31_pow_rewrite_witness :
    ParserByteCode.AddOp Examples.env { m_vRPN := [SToken.VAR 10, SToken.VAL 3] } .cmPOW =
      .ok { m_vRPN := [SToken.VARPOW3 10] } ∧
    ParserByteCode.AddOp Examples.env { m_vRPN := [SToken.VAR 10, SToken.VAL 5] } .cmPOW =
      .ok { m_iStackPos := -1, m_vRPN := [SToken.VAR 10, SToken.VAL 5, { Cmd := .cmPOW }] } :=
  ⟨(C31_pow_rewrite Examples.env { m_vRPN := [SToken.VAR 10, SToken.VAL 3] } [] 10 3 rfl
      rfl).2.2.2.1 rfl,
    (C31_pow_rewrite Examples.env { m_vRPN := [SToken.VAR 10, SToken.VAL 5] } [] 10 5 rfl
      rfl).2.2.2.2.2.1 (by norm_num) (by norm_num) (by norm_num) (by norm_num) (by norm_num)⟩

theorem ParserByteCode.lastN (pre args : List SToken) (n : Nat) (hlen : args.length = n) :
    (pre ++ args).reverse.take n = args.reverse ∧
    ((pre ++ args).reverse.drop n).reverse = pre := by
  subst hlen
  rw [List.reverse_append]
  constructor
  · rw [← List.length_reverse args, List.take_left]
  · rw [← List.length_reverse args, List.drop_left, List.reverse_reverse]

/-- C32: `AddFun` for a function `f` of fixed arity `n` between 1 and 10 that is not the unary
plus, with at least `n` entries written (the last `n` entries are `args`).  If the function is
optimizable, the optimizer is enabled and all of `args` are `cmVAL` entries, the `n` entries are
removed and the one entry `VAL f(v1, ..., vn)` is appended, the arguments being the values of
`args` in the order of the entries; otherwise the entry `FUNC` with argument count `n` is
appended and nothing is removed.  In both cases the recorded stack position decreases by
`n - 1`. -/
theorem C32_function_folding (env : CallEnv) (bc : ParserByteCode) (pre args : List SToken)
    (f : generic_callable_type) (n : Nat) (isFunctionOptimizable : Bool)
    (hn1 : 1 ≤ n) (hn10 : n ≤ 10) (hplus : f ≠ env.UnaryPlus)
    (hcode : bc.m_vRPN = pre ++ args) (hlen : args.length = n) :
    (isFunctionOptimizable = true → bc.m_bEnableOptimizer = true →
      (∀ t ∈ args, t.Cmd = .cmVAL) →
      bc.AddFun env f n isFunctionOptimizable = .ok { bc with
        m_iStackPos := bc.m_iStackPos - (n - 1 : Nat)
        m_iMaxStackSize :=
          max bc.m_iMaxStackSize (ParserByteCode.castSize (bc.m_iStackPos - (n - 1 : Nat)))
        m_vRPN := pre ++ [SToken.VAL (env.call_fun f (args.map (fun t => t.data2)))] }) ∧
    ((isFunctionOptimizable = false ∨ bc.m_bEnableOptimizer = false ∨
        ∃ t ∈ args, t.Cmd ≠ .cmVAL) →
      bc.AddFun env f n isFunctionOptimizable = .ok { bc with
        m_iStackPos := bc.m_iStackPos - (n - 1 : Nat)
        m_iMaxStackSize :=
          max bc.m_iMaxStackSize (ParserByteCode.castSize (bc.m_iStackPos - (n - 1 : Nat)))
        m_vRPN := pre ++ args ++ [{ Cmd := .cmFUNC, argc := n, cb := f }] }) ∧
    ∃ bc', bc.AddFun env f n isFunctionOptimizable = .ok bc' ∧
      bc'.m_iStackPos = bc.m_iStackPos - (n - 1 : Nat) := by
  obtain ⟨l1, l2⟩ := ParserByteCode.lastN pre args n hlen
  have hpos : ((n : Int) > 0) := by omega
  have habs : |(n : Int)| = n := abs_of_nonneg (by omega)
  have hsub : bc.m_iStackPos - (n : Int) + 1 = bc.m_iStackPos - ((n - 1 : Nat) : Int) := by omega
  have hle : ((n : Int) ≤ 10) := by omega
  have A : isFunctionOptimizable = true → bc.m_bEnableOptimizer = true →
      (∀ t ∈ args, t.Cmd = .cmVAL) →
      bc.AddFun env f n isFunctionOptimizable = .ok { bc with
        m_iStackPos := bc.m_iStackPos - (n - 1 : Nat)
        m_iMaxStackSize :=
          max bc.m_iMaxStackSize (ParserByteCode.castSize (bc.m_iStackPos - (n - 1 : Nat)))
        m_vRPN := pre ++ [SToken.VAL (env.call_fun f (args.map (fun t => t.data2)))] } := by
    intro h1 h2 h3
    have hall : (args.reverse.all fun t => decide (t.Cmd = .cmVAL)) = true := by
      rw [List.all_eq_true]
      intro t ht
      simpa using h3 t (List.mem_reverse.mp ht)
    have hnl : ¬ (args.reverse.length < n) := by simp [hlen]
    simp only [ParserByteCode.AddFun, h1, h2, hpos, hplus, and_self, if_true, if_false, hcode,
      Int.toNat_ofNat, l1, l2, hall, hnl, hle, List.reverse_reverse,
      ParserByteCode.funStackPos, habs, hsub, SToken.VAL]
  have B : (isFunctionOptimizable = false ∨ bc.m_bEnableOptimizer = false ∨
        ∃ t ∈ args, t.Cmd ≠ .cmVAL) →
      bc.AddFun env f n isFunctionOptimizable = .ok { bc with
        m_iStackPos := bc.m_iStackPos - (n - 1 : Nat)
        m_iMaxStackSize :=
          max bc.m_iMaxStackSize (ParserByteCode.castSize (bc.m_iStackPos - (n - 1 : Nat)))
        m_vRPN := pre ++ args ++ [{ Cmd := .cmFUNC, argc := n, cb := f }] } := by
    intro h
    by_cases hc : isFunctionOptimizable = true ∧ bc.m_bEnableOptimizer = true ∧ (n : Int) > 0
    · obtain ⟨t, ht, hne⟩ : ∃ t ∈ args, t.Cmd ≠ .cmVAL := by
        rcases h with h | h | h
        · rw [hc.1] at h; cases h
        · rw [hc.2.1] at h; cases h
        · exact h
      have hall : (args.reverse.all fun t => decide (t.Cmd = .cmVAL)) = false := by
        rw [List.all_eq_false]
        exact ⟨t, List.mem_reverse.mpr ht, by simpa using hne⟩
      simp only [ParserByteCode.AddFun, hc, and_self, if_true, hplus, if_false, hcode,
        Int.toNat_ofNat, l1, hall, ParserByteCode.funStackPos, habs, hsub,
        Bool.false_eq_true]
    · simp only [ParserByteCode.AddFun, hc, if_false, hcode, ParserByteCode.funStackPos, habs,
        hsub]
  refine ⟨A, B, ?_⟩
  by_cases hc : isFunctionOptimizable = true ∧ bc.m_bEnableOptimizer = true ∧
      ∀ t ∈ args, t.Cmd = .cmVAL
  · exact ⟨_, A hc.1 hc.2.1 hc.2.2, rfl⟩
  · refine ⟨_, B ?_, rfl⟩
    by_contra hcon
    push_neg at hcon
    apply hc
    refine ⟨by simpa using hcon.1, by simpa using hcon.2.1, hcon.2.2⟩

/-- C32 (witness): the optimizable function `add` of two arguments after `VAL 3, VAL 4` is
folded to `VAL 7`, and the recorded stack position goes from 2 to 1. -/
theorem C32_function_folding_witness :
    ParserByteCode.AddFun Examples.env
      { m_iStackPos := 2, m_iMaxStackSize := 2, m_vRPN := [SToken.VAL 3, SToken.VAL 4] }
      Examples.addAddr 2 true =
    .ok { m_iStackPos := 1, m_iMaxStackSize := 2, m_vRPN := [SToken.VAL 7] } := by
  have h := (C32_function_folding Examples.env
    { m_iStackPos := 2, m_iMaxStackSize := 2, m_vRPN := [SToken.VAL 3, SToken.VAL 4] } []
    [SToken.VAL 3, SToken.VAL 4] Examples.addAddr 2 true (by decide) (by decide) (by decide)
    rfl rfl).1 rfl rfl (by
      intro t ht
      simp only [List.mem_cons, List.mem_singleton, List.not_mem_nil, or_false] at ht
      rcases ht with h | h <;> subst h <;> rfl)
  have e : Examples.env.call_fun Examples.addAddr
      ([SToken.VAL 3, SToken.VAL 4].map (fun t => t.data2)) = 7 := by
    simp [Examples.env, Examples.addAddr, SToken.VAL]
    norm_num
  rw [e] at h
  exact h

/-- C33 (counterexample): for an optimizable function without arguments and with the optimizer
enabled, `AddFun` appends a `FUNC` entry and no `VAL` entry, and the expression `zero()` compiles
to `FUNC, END`. -/
theorem C33_counterexample :
    ParserByteCode.AddFun Examples.env { m_bEnableOptimizer := true } Examples.zeroAddr 0 true =
      .ok { m_iStackPos := 1, m_iMaxStackSize := 1, m_bEnableOptimizer := true,
            m_vRPN := [{ Cmd := .cmFUNC, cb := Examples.zeroAddr, argc := 0 }] } ∧
    Examples.tokZero.IsOptimizable = true ∧
    CreateRPN Examples.env Examples.mem { m_bEnableOptimizer := true }
      { m_strFormula := "expr ", m_tokens := Examples.toksZero } = .ok Examples.compiledZero := by
  decide!

/-- C33 (amended): a function without arguments (and a function with a variable number of
arguments, whose argument count is negative) is never folded: whatever the optimizer switch and
the optimizable flag, `AddFun` appends the entry `FUNC` with the argument count and the callback,
and the recorded stack position changes by `1 - |argc|`.  The callback of a function without
arguments is called when the entry is executed: the entry pushes the value `f()`. -/
theorem C33_no_fold_without_arguments (env : CallEnv) (bc : ParserByteCode)
    (f : generic_callable_type) (a_iArgc : Int) (isFunctionOptimizable : Bool)
    (h : a_iArgc ≤ 0) :
    bc.AddFun env f a_iArgc isFunctionOptimizable = .ok { bc with
      m_iStackPos := bc.m_iStackPos - |a_iArgc| + 1
      m_iMaxStackSize :=
        max bc.m_iMaxStackSize (ParserByteCode.castSize (bc.m_iStackPos - |a_iArgc| + 1))
      m_vRPN := bc.m_vRPN ++ [{ Cmd := .cmFUNC, argc := a_iArgc, cb := f }] } ∧
    Computes env [{ Cmd := .cmFUNC, argc := 0, cb := f }] (fun _ _ => env.call_fun f []) := by
  constructor
  · have hn : ¬ (a_iArgc > 0) := by omega
    simp only [ParserByteCode.AddFun, hn, and_false, if_false, ParserByteCode.funStackPos]
  · exact Computes.of_exec env (fun _ _ _ s => by
      simp [exec, stackArgs])

/-- C33 (witness): `AddFun` for the optimizable function `zero` without arguments on empty
bytecode with the optimizer on appends `FUNC zero`. -/
theorem C33_no_fold_without_arguments_witness :
    ParserByteCode.AddFun Examples.env {} Examples.zeroAddr 0 true =
      .ok { m_iStackPos := 1, m_iMaxStackSize := 1,
            m_vRPN := [{ Cmd := .cmFUNC, cb := Examples.zeroAddr, argc := 0 }] } :=
  (C33_no_fold_without_arguments Examples.env {} Examples.zeroAddr 0 true (by decide)).1

theorem exec_sidxDelta {env : CallEnv} {strBuf : List String} {nOffset nThreadID : Nat}
    {tok : SToken} {s : VMState} {r : VMState × Nat}
    (h : exec env strBuf nOffset nThreadID tok s = .ok r) (hif : tok.Cmd ≠ .cmIF) :
    r.1.sidx = s.sidx + sidxDelta tok ∧ (tok.Cmd ≠ .cmELSE → r.2 = 0) := by
  unfold exec at h
  unfold sidxDelta
  cases hc : tok.Cmd <;> simp only [hc] at h hif ⊢
  all_goals first
    | exact absurd rfl hif
    | skip
  all_goals try split at h
  all_goals try split at h
  all_goals try split at h
  all_goals first
    | (cases h; done)
    | cases h
  all_goals refine ⟨?_, ?_⟩
  all_goals try simp
  all_goals try omega
  all_goals (rcases abs_cases tok.argc with ⟨h, _⟩ | ⟨h, _⟩ <;> rw [h] <;> omega)

theorem vmSteps_stackDepth {env : CallEnv} {strBuf : List String} {nOffset nThreadID : Nat}
    (b : List SToken) :
    ∀ (s : VMState) (r : VMState × Nat),
      (∀ t ∈ b, t.Cmd ≠ .cmIF ∧ t.Cmd ≠ .cmELSE) →
      vmSteps env strBuf nOffset nThreadID b 0 s = .ok r →
      r.1.sidx = s.sidx + stackDepth b := by
  induction b with
  | nil =>
    intro s r _ h
    simp only [vmSteps, Except.ok.injEq] at h
    subst h
    simp [stackDepth]
  | cons t rest ih =>
    intro s r hb h
    simp only [vmSteps] at h
    split at h
    · rename_i s' off he
      obtain ⟨e1, e2⟩ := exec_sidxDelta he (hb t (List.mem_cons_self _ _)).1
      have e2' := e2 (hb t (List.mem_cons_self _ _)).2
      simp only at e1 e2'
      subst e2'
      have := ih s' r (fun u hu => hb u (List.mem_cons_of_mem _ hu)) h
      rw [this, e1]
      simp only [stackDepth, List.map_cons, List.sum_cons]
      ring
    · cases h

theorem sidxDelta_value {t : SToken} (h : isValueCmd t.Cmd = true) : sidxDelta t = 1 := by
  unfold sidxDelta
  cases hc : t.Cmd <;> rw [hc] at h <;> first | rfl | cases h

theorem sidxDelta_binop {op : ECmdCode} (h : isBuiltinBinCode op = true) :
    sidxDelta { Cmd := op } = -1 := by
  cases op <;> first | rfl | cases h

theorem stackDepth_append (a b : List SToken) :
    stackDepth (a ++ b) = stackDepth a + stackDepth b := by
  simp [stackDepth]

/-- What `AddOp` does to the recorded stack position and to the number of values the bytecode
leaves on the stack: the number goes down by one; the position goes down by one when the
operator is appended and stays when the last two entries are rewritten. -/
theorem ParserByteCode.AddOp_position {env : CallEnv} {bc bc' : ParserByteCode} {op : ECmdCode}
    (hop : isBuiltinBinCode op = true) (hne : op ≠ .cmASSIGN)
    (h : bc.AddOp env op = .ok bc') :
    stackDepth bc'.m_vRPN = stackDepth bc.m_vRPN - 1 ∧
    ((bc' = bc.pushOp op ∧ bc'.m_iStackPos = bc.m_iStackPos - 1) ∨
      (bc'.m_vRPN.length + 1 = bc.m_vRPN.length ∧ bc'.m_iStackPos = bc.m_iStackPos)) := by
  have hpush : stackDepth (bc.pushOp op).m_vRPN = stackDepth bc.m_vRPN - 1 := by
    simp only [ParserByteCode.pushOp, stackDepth_append]
    simp only [stackDepth, List.map_cons, List.map_nil, List.sum_cons, List.sum_nil,
      sidxDelta_binop hop]
    ring
  unfold ParserByteCode.AddOp at h
  split at h
  · split at h
    · rename_i y x rest hrev
      have hcode : bc.m_vRPN = rest.reverse ++ [x, y] := by
        have := congrArg List.reverse hrev
        simpa using this
      split at h
      · rename_i hxy
        obtain ⟨v, hv⟩ := ParserByteCode.ConstantFolding_eq env x y hop hne
        simp only [Except.ok.injEq] at h
        subst h
        refine ⟨?_, Or.inr ⟨by simp [hcode, hv], rfl⟩⟩
        simp only [hcode, hv, stackDepth_append]
        have e1 : sidxDelta { x with data2 := v } = 1 :=
          sidxDelta_value (by simp only [hxy.1]; rfl)
        have e2 : sidxDelta x = 1 := sidxDelta_value (by rw [hxy.1]; rfl)
        have e3 : sidxDelta y = 1 := sidxDelta_value (by rw [hxy.2]; rfl)
        simp only [stackDepth, List.map_cons, List.map_nil, List.sum_cons, List.sum_nil, e1, e2,
          e3]
        ring
      · simp only [bind, Except.bind] at h
        split at h
        · cases h
        · rename_i o ho
          cases o with
          | none =>
            simp only [Except.ok.injEq] at h
            subst h
            exact ⟨hpush, Or.inl ⟨rfl, rfl⟩⟩
          | some x' =>
            simp only [Except.ok.injEq] at h
            subst h
            obtain ⟨e2, e3, e1⟩ := ParserByteCode.peephole_value ho
            refine ⟨?_, Or.inr ⟨by simp [hcode], rfl⟩⟩
            simp only [hcode, stackDepth_append]
            simp only [stackDepth, List.map_cons, List.map_nil, List.sum_cons, List.sum_nil,
              sidxDelta_value e1, sidxDelta_value e2, sidxDelta_value e3]
            ring
    · split at h
      · cases h
      · simp only [Except.ok.injEq] at h
        subst h
        exact ⟨hpush, Or.inl ⟨rfl, rfl⟩⟩
  · simp only [Except.ok.injEq] at h
    subst h
    exact ⟨hpush, Or.inl ⟨rfl, rfl⟩⟩

theorem stackDepth_values (l : List SToken) (h : ∀ t ∈ l, t.Cmd = .cmVAL) :
    stackDepth l = l.length := by
  induction l with
  | nil => rfl
  | cons t rest ih =>
    have e : sidxDelta t = 1 := sidxDelta_value (by rw [h t (List.mem_cons_self _ _)]; rfl)
    have := ih (fun u hu => h u (List.mem_cons_of_mem _ hu))
    simp only [stackDepth, List.map_cons, List.sum_cons, e, List.length_cons] at this ⊢
    rw [this]
    push_cast
    ring

/-- `AddFun` changes the recorded stack position exactly as it changes the number of values the
bytecode leaves on the stack, also when it folds. -/
theorem ParserByteCode.AddFun_position {env : CallEnv} {bc bc' : ParserByteCode}
    {f : generic_callable_type} {argc : Int} {opt : Bool}
    (h : bc.AddFun env f argc opt = .ok bc') :
    bc'.m_iStackPos - bc.m_iStackPos = stackDepth bc'.m_vRPN - stackDepth bc.m_vRPN := by
  have hplain : (ParserByteCode.funStackPos
      { bc with m_vRPN := bc.m_vRPN ++ [{ Cmd := .cmFUNC, argc := argc, cb := f }] }
        argc).m_iStackPos - bc.m_iStackPos =
      stackDepth (ParserByteCode.funStackPos
        { bc with m_vRPN := bc.m_vRPN ++ [{ Cmd := .cmFUNC, argc := argc, cb := f }] }
          argc).m_vRPN - stackDepth bc.m_vRPN := by
    simp only [ParserByteCode.funStackPos, stackDepth_append]
    simp only [stackDepth, List.map_cons, List.map_nil, List.sum_cons, List.sum_nil, sidxDelta]
    ring
  unfold ParserByteCode.AddFun at h
  simp only at h
  split at h
  · rename_i hc
    split at h
    · simp only [Except.ok.injEq] at h
      subst h
      simp
    · split at h
      · rename_i hall
        split at h
        · cases h
        · rename_i hlen
          split at h
          · simp only [Except.ok.injEq] at h
            subst h
            have hn : (argc.toNat : Int) = argc := Int.toNat_of_nonneg (by omega)
            have habs : |argc| = argc := abs_of_nonneg (by omega)
            have hsplit : bc.m_vRPN = (bc.m_vRPN.reverse.drop argc.toNat).reverse ++
                (bc.m_vRPN.reverse.take argc.toNat).reverse := by
              rw [← List.reverse_append, List.take_append_drop, List.reverse_reverse]
            have hd : stackDepth (bc.m_vRPN.reverse.take argc.toNat).reverse = argc := by
              rw [stackDepth_values]
              · rw [List.length_reverse]
                have : (bc.m_vRPN.reverse.take argc.toNat).length = argc.toNat := by
                  have := List.length_take_le argc.toNat bc.m_vRPN.reverse
                  omega
                rw [this, hn]
              · intro t ht
                rw [List.all_eq_true] at hall
                simpa using hall t (List.mem_reverse.mp ht)
            have hsd : stackDepth bc.m_vRPN =
                stackDepth (bc.m_vRPN.reverse.drop argc.toNat).reverse + argc := by
              conv_lhs => rw [hsplit]
              rw [stackDepth_append, hd]
            simp only [ParserByteCode.funStackPos, stackDepth_append, habs]
            rw [hsd]
            simp only [stackDepth, List.map_cons, List.map_nil, List.sum_cons, List.sum_nil,
              sidxDelta]
            ring
          · cases h
      · simp only [Except.ok.injEq] at h
        subst h
        exact hplain
  · simp only [Except.ok.injEq] at h
    subst h
    exact hplain

/-- C34 (code bug): a rewrite in `AddOp` does not touch the recorded stack position.  After
`AddVal(2)`, `AddVal(3)` the position is 2 and the bytecode leaves 2 values; `AddOp(cmADD)` with
the optimizer on folds the two entries into `VAL 5`, which leaves one value on the stack of the
evaluation loop, and the recorded position is still 2 (with the optimizer off it is 1).  In
general `AddOp` for a built-in operator takes the number of values the bytecode leaves down by
one, and the recorded position only when it appends the operator; a rewrite keeps the position,
one above what the unfused emission records.  `AddFun` (also when it folds) and the other
emitters change the position exactly as the number of values changes. -/
theorem C34_rewrite_keeps_stack_position :
    (∀ env : CallEnv,
      ((({} : ParserByteCode).AddVal 2).AddVal 3).m_iStackPos = 2 ∧
      stackDepth ((({} : ParserByteCode).AddVal 2).AddVal 3).m_vRPN = 2 ∧
      ((({} : ParserByteCode).AddVal 2).AddVal 3).AddOp env .cmADD =
        .ok { m_iStackPos := 2, m_iMaxStackSize := 2, m_vRPN := [SToken.VAL 5] } ∧
      ((({ m_bEnableOptimizer := false } : ParserByteCode).AddVal 2).AddVal 3).AddOp env
          .cmADD =
        .ok { m_iStackPos := 1, m_iMaxStackSize := 2, m_bEnableOptimizer := false,
              m_vRPN := [SToken.VAL 2, SToken.VAL 3, { Cmd := .cmADD }] }) ∧
    stackDepth [SToken.VAL 5] = 1 ∧
    stackDepth [SToken.VAL 2, SToken.VAL 3, { Cmd := .cmADD }] = 1 ∧
    (∀ (env : CallEnv) (strBuf : List String) (nOffset nThreadID : Nat) (s : VMState),
      ∃ r, vmSteps env strBuf nOffset nThreadID [SToken.VAL 5] 0 s = .ok r ∧
        r.1.sidx = s.sidx + 1) ∧
    (∀ (env : CallEnv) (strBuf : List String) (nOffset nThreadID : Nat) (b : List SToken)
        (s : VMState) (r : VMState × Nat),
      (∀ t ∈ b, t.Cmd ≠ .cmIF ∧ t.Cmd ≠ .cmELSE) →
      vmSteps env strBuf nOffset nThreadID b 0 s = .ok r → r.1.sidx = s.sidx + stackDepth b) ∧
    (∀ (env : CallEnv) (bc bc' : ParserByteCode) (op : ECmdCode),
      isBuiltinBinCode op = true → op ≠ .cmASSIGN → bc.AddOp env op = .ok bc' →
      stackDepth bc'.m_vRPN = stackDepth bc.m_vRPN - 1 ∧
      ((bc' = bc.pushOp op ∧ bc'.m_iStackPos = bc.m_iStackPos - 1) ∨
        (bc'.m_vRPN.length + 1 = bc.m_vRPN.length ∧ bc'.m_iStackPos = bc.m_iStackPos))) ∧
    (∀ (env : CallEnv) (bc bc' : ParserByteCode) (f : generic_callable_type) (argc : Int)
        (opt : Bool), bc.AddFun env f argc opt = .ok bc' →
      bc'.m_iStackPos - bc.m_iStackPos = stackDepth bc'.m_vRPN - stackDepth bc.m_vRPN) ∧
    (∀ (bc : ParserByteCode) (v : value_type) (x : Nat) (f : generic_callable_type)
        (argc idx : Int),
      (bc.AddVal v).m_iStackPos - bc.m_iStackPos =
        stackDepth (bc.AddVal v).m_vRPN - stackDepth bc.m_vRPN ∧
      (bc.AddVar x).m_iStackPos - bc.m_iStackPos =
        stackDepth (bc.AddVar x).m_vRPN - stackDepth bc.m_vRPN ∧
      (bc.AddAssignOp x).m_iStackPos - bc.m_iStackPos =
        stackDepth (bc.AddAssignOp x).m_vRPN - stackDepth bc.m_vRPN ∧
      (bc.AddBulkFun f argc).m_iStackPos - bc.m_iStackPos =
        stackDepth (bc.AddBulkFun f argc).m_vRPN - stackDepth bc.m_vRPN ∧
      (bc.AddStrFun f argc idx).m_iStackPos - bc.m_iStackPos =
        stackDepth (bc.AddStrFun f argc idx).m_vRPN - stackDepth bc.m_vRPN) := by
  refine ⟨fun env => ⟨rfl, by decide!, ?_, ?_⟩, by decide!, by decide!, ?_, ?_, ?_, ?_, ?_⟩
  · have e : (2 : value_type) + 3 = 5 := by norm_num
    simp [ParserByteCode.AddOp, ParserByteCode.AddVal, ParserByteCode.ConstantFolding,
      SToken.VAL, e, ParserByteCode.castSize]
  · simp [ParserByteCode.AddOp, ParserByteCode.AddVal, ParserByteCode.pushOp, SToken.VAL,
      ParserByteCode.castSize]
  · intro env strBuf nOffset nThreadID s
    exact ⟨_, by rw [vmSteps_single]; rfl, rfl⟩
  · intro env strBuf nOffset nThreadID b s r hb h
    exact vmSteps_stackDepth b s r hb h
  · intro env bc bc' op hop hne h
    exact ParserByteCode.AddOp_position hop hne h
  · intro env bc bc' f argc opt h
    exact ParserByteCode.AddFun_position h
  · intro bc v x f argc idx
    simp only [ParserByteCode.AddVal, ParserByteCode.AddVar, ParserByteCode.AddAssignOp,
      ParserByteCode.AddBulkFun, ParserByteCode.AddStrFun, stackDepth_append]
    simp only [stackDepth, List.map_cons, List.map_nil, List.sum_cons, List.sum_nil, sidxDelta]
    refine ⟨by ring, by ring, by ring, by ring, by ring⟩

theorem binValue_snoc (ds : List Char) (c : Char) :
    binValue (ds ++ [c]) = 2 * binValue ds + (if c = '1' then 1 else 0) := by
  simp [binValue, List.foldl_append]

theorem binValue_lt (ds : List Char) : binValue ds < 2 ^ ds.length := by
  induction ds using List.reverseRecOn with
  | nil => simp [binValue]
  | append_singleton ds c ih =>
    rw [binValue_snoc, List.length_append, List.length_singleton, pow_succ]
    split <;> omega

/-- The loop of `IsBinVal` over a text `#`, digits, rest: it stops after the digits or after
`iBits` of them, with the value of the digits read in the upper bits. -/
theorem ParserInt.binLoop_spec (iBits : Nat) (ds rest : List Char)
    (hds : ∀ c ∈ ds, isBinDigit c = true)
    (hrest : ds.length < iBits → isBinDigit (ParserInt.charAt rest 0) = false) :
    ∀ (left i : Nat), i + left = iBits → i ≤ ds.length →
      ParserInt.binLoop iBits ('#' :: (ds ++ rest)) left i
          (binValue (ds.take i) * 2 ^ (iBits - i)) =
        (min ds.length iBits,
          binValue (ds.take (min ds.length iBits)) * 2 ^ (iBits - min ds.length iBits)) := by
  intro left
  induction left with
  | zero =>
    intro i h1 h2
    have : min ds.length iBits = i := by omega
    simp only [ParserInt.binLoop, this]
  | succ left ih =>
    intro i h1 h2
    have hi : i < iBits := by omega
    rw [ParserInt.binLoop]
    by_cases hn : i < ds.length
    · have hc : ParserInt.charAt ('#' :: (ds ++ rest)) (i + 1) = ds[i] := by
        simp only [ParserInt.charAt, List.getD_cons_succ]
        rw [List.getD_append _ _ _ _ hn, List.getD_eq_getElem _ _ hn]
      have hb := hds ds[i] (List.getElem_mem _)
      simp only [isBinDigit, Bool.or_eq_true, decide_eq_true_eq] at hb
      rw [hc]
      simp only [hb, hi, and_self, if_true]
      have hbit : (if ds[i] = '1' then 1 else 0) <<< (iBits - 1 - i) <
          2 ^ (iBits - i) := by
        rw [Nat.shiftLeft_eq]
        have : 2 ^ (iBits - i) = 2 * 2 ^ (iBits - 1 - i) := by
          rw [← pow_succ']
          congr 1
          omega
        rw [this]
        have hp : 0 < 2 ^ (iBits - 1 - i) := by positivity
        split <;> omega
      have hlt : (if ds[i] = '1' then 1 else 0) <<< (iBits - 1 - i) < 2 ^ iBits :=
        lt_of_lt_of_le hbit (Nat.pow_le_pow_right (by decide) (by omega))
      have htake : ds.take (i + 1) = ds.take i ++ [ds[i]] := by
        rw [List.take_succ, List.getElem?_eq_getElem hn]
        rfl
      have hval : binValue (List.take i ds) * 2 ^ (iBits - i) |||
          (if ds[i] = '1' then 1 else 0) <<< (iBits - 1 - i) =
          binValue (ds.take (i + 1)) * 2 ^ (iBits - (i + 1)) := by
        rw [Nat.mul_comm, ← Nat.mul_add_lt_is_or hbit, htake, binValue_snoc, Nat.shiftLeft_eq]
        have : 2 ^ (iBits - i) = 2 * 2 ^ (iBits - 1 - i) := by
          rw [← pow_succ']
          congr 1
          omega
        rw [this]
        have e : iBits - (i + 1) = iBits - 1 - i := by omega
        rw [e]
        ring
      have hlt2 : binValue (ds.take (i + 1)) * 2 ^ (iBits - (i + 1)) < 2 ^ iBits := by
        have h1 := binValue_lt (ds.take (i + 1))
        have hl : (ds.take (i + 1)).length = i + 1 := by
          rw [List.length_take]; omega
        rw [hl] at h1
        calc binValue (ds.take (i + 1)) * 2 ^ (iBits - (i + 1))
            < 2 ^ (i + 1) * 2 ^ (iBits - (i + 1)) :=
              Nat.mul_lt_mul_of_pos_right h1 (by positivity)
          _ = 2 ^ iBits := by
              rw [← pow_add]
              congr 1
              omega
      rw [Nat.mod_eq_of_lt hlt, hval, Nat.mod_eq_of_lt hlt2]
      exact ih (i + 1) (by omega) (by omega)
    · have hin : i = ds.length := by omega
      have hr := hrest (by omega)
      have hc : ParserInt.charAt ('#' :: (ds ++ rest)) (i + 1) = ParserInt.charAt rest 0 := by
        simp only [ParserInt.charAt, List.getD_cons_succ, hin]
        cases rest with
        | nil => simp
        | cons r rs =>
          simp only [List.getD_eq_getElem?_getD, List.getElem?_append_right (le_refl _),
            Nat.sub_self, List.getElem?_cons_zero, Option.getD_some]
      simp only [isBinDigit, Bool.or_eq_false_iff, decide_eq_false_iff_not] at hr
      rw [hc]
      simp only [hr, false_or, false_and, if_false]
      have : min ds.length iBits = i := by omega
      rw [this]

/-- C40: `IsBinVal` with a 32 bit `unsigned`, on a text that starts with `#` followed by the
binary digits `ds`.  If `ds` are `n` digits with `1 <= n <= 31` and the character after them
(a character of the text or its terminating zero) is no binary digit, the function returns 1,
stores the number whose base-2 representation is `ds` and advances the position by `n + 1`.  If
the text does not start with `#`, or no binary digit follows the `#`, it returns 0 and changes
neither the value nor the position.  If at least 32 binary digits follow the `#` it throws the
overflow exception. -/
theorem C40_binary_literal (ds rest : List Char) (a_iPos : Int) (a_fVal : value_type)
    (hds : ∀ c ∈ ds, isBinDigit c = true) :
    (1 ≤ ds.length → ds.length ≤ 31 → isBinDigit (ParserInt.charAt rest 0) = false →
      ParserInt.IsBinVal 32 ('#' :: (ds ++ rest)) a_iPos a_fVal =
        .ok (1, a_iPos + (ds.length + 1), (binValue ds : value_type))) ∧
    (∀ text : List Char, ParserInt.charAt text 0 ≠ '#' →
      ParserInt.IsBinVal 32 text a_iPos a_fVal = .ok (0, a_iPos, a_fVal)) ∧
    (isBinDigit (ParserInt.charAt rest 0) = false →
      ParserInt.IsBinVal 32 ('#' :: rest) a_iPos a_fVal = .ok (0, a_iPos, a_fVal)) ∧
    (32 ≤ ds.length →
      ParserInt.IsBinVal 32 ('#' :: (ds ++ rest)) a_iPos a_fVal =
        .error "Binary to integer conversion error (overflow).") := by
  have hsharp : ∀ l : List Char, ¬ (ParserInt.charAt ('#' :: l) 0 ≠ '#') := by
    intro l h
    exact h rfl
  refine ⟨?_, ?_, ?_, ?_⟩
  · intro h1 h31 hr
    have hl := ParserInt.binLoop_spec 32 ds rest hds (fun _ => hr) 32 0 rfl (Nat.zero_le _)
    simp only [List.take_zero, binValue, List.foldl_nil, Nat.zero_mul] at hl
    have hmin : min ds.length 32 = ds.length := by omega
    rw [hmin, List.take_length] at hl
    have h0 : ds.length ≠ 0 := by omega
    have h32 : ds.length ≠ 32 := by omega
    simp only [ParserInt.IsBinVal, hsharp, if_false, hl, h0, h32, Nat.shiftRight_eq_div_pow]
    rw [Nat.mul_div_cancel _ (by positivity)]
    rfl
  · intro text h
    unfold ParserInt.IsBinVal
    rw [if_pos h]
  · intro hr
    have hl := ParserInt.binLoop_spec 32 [] rest (by simp) (fun _ => hr) 32 0 rfl
      (Nat.zero_le _)
    simp only [List.take_zero, binValue, List.foldl_nil, Nat.zero_mul, List.nil_append,
      List.length_nil, Nat.zero_min, List.take_nil] at hl
    simp only [ParserInt.IsBinVal, hsharp, if_false, hl, if_true]
  · intro h32
    have hl := ParserInt.binLoop_spec 32 ds rest hds (fun h => absurd h (by omega)) 32 0 rfl
      (Nat.zero_le _)
    simp only [List.take_zero, binValue, List.foldl_nil, Nat.zero_mul] at hl
    have hmin : min ds.length 32 = 32 := by omega
    rw [hmin] at hl
    simp only [ParserInt.IsBinVal, hsharp, if_false, hl]
    rfl

/-- C40 (witness): on the text `#101 ` at position 7, `IsBinVal` returns 1, stores 5 and moves
the position to 11. -/
theorem C40_binary_literal_witness :
    ParserInt.IsBinVal 32 ['#', '1', '0', '1', ' '] 7 0 = .ok (1, 11, 5) := by
  have h := (C40_binary_literal ['1', '0', '1'] [' '] 7 0 (by decide)).1 (by decide)
    (by decide) (by decide)
  have e : ((binValue ['1', '0', '1'] : Nat) : value_type) = 5 := by
    simp [binValue]
  rw [e] at h
  exact h

theorem Parser.diffStep_ne_zero (a_fPos a_fEpsilon : value_type) :
    Parser.diffStep a_fPos a_fEpsilon ≠ 0 := by
  unfold Parser.diffStep
  split
  · split
    · norm_num
    · rename_i h
      exact mul_ne_zero (by norm_num) h
  · assumption

/-- The five point formula is exact on polynomials of degree at most 4. -/
theorem five_point_exact (P : Polynomial ℚ) (hdeg : P.natDegree ≤ 4) (x h : ℚ) (hh : h ≠ 0) :
    (-P.eval (x + 2 * h) + 8 * P.eval (x + 1 * h) - 8 * P.eval (x - 1 * h) +
      P.eval (x - 2 * h)) / (12 * h) = (Polynomial.derivative P).eval x := by
  have hP := Polynomial.as_sum_range' P 5 (by omega)
  simp only [Finset.sum_range_succ, Finset.range_zero, Finset.sum_empty, zero_add] at hP
  rw [hP]
  simp only [Polynomial.eval_add, Polynomial.eval_monomial, Polynomial.derivative_add,
    Polynomial.derivative_monomial, pow_zero, mul_one, Nat.cast_zero, mul_zero,
    Polynomial.monomial_zero_right, Polynomial.eval_zero, zero_add, Nat.cast_one, pow_one,
    Nat.cast_ofNat, Nat.reduceSub, Nat.sub_self, Nat.reduceAdd]
  field_simp
  ring

/-- C39: let the evaluation behave as the function `x ↦ P(x)` of the differentiation variable,
for a polynomial `P` of degree at most 4 with rational coefficients: in every parser state of a
set `I` that contains the state `Diff` is called in, `Eval()` with the variable set to `x`
returns `P(x)`, leaves the memory as it is and stays in `I`.  Then for every position and every
`eps` the step `Diff` uses is non-zero (the divisor `12 * step` too), and `Diff` returns exactly
`P'(pos)`, with the memory, the differentiation variable included, as it was before the call. -/
theorem C39_diff_exact (env : CallEnv) (p : ParserBase) (mem : Mem) (a_Var : Nat)
    (a_fPos a_fEpsilon : value_type) (I : ParserBase → Prop) (P : Polynomial ℚ)
    (hdeg : P.natDegree ≤ 4) (hI : I p)
    (hEval : ∀ q, I q → ∀ x : value_type, ∃ q', I q' ∧
      q.Eval env (Function.update mem a_Var x) =
        .ok (P.eval x, q', Function.update mem a_Var x)) :
    Parser.diffStep a_fPos a_fEpsilon ≠ 0 ∧ 12 * Parser.diffStep a_fPos a_fEpsilon ≠ 0 ∧
    (a_fEpsilon ≠ 0 → Parser.diffStep a_fPos a_fEpsilon = a_fEpsilon) ∧
    ∃ q', I q' ∧ Parser.Diff env p mem a_Var a_fPos a_fEpsilon =
      .ok ((Polynomial.derivative P).eval a_fPos, q', mem) := by
  have hne := Parser.diffStep_ne_zero a_fPos a_fEpsilon
  refine ⟨hne, mul_ne_zero (by norm_num) hne, fun h => by simp [Parser.diffStep, h], ?_⟩
  obtain ⟨q0, i0, e0⟩ := hEval p hI (a_fPos + 2 * Parser.diffStep a_fPos a_fEpsilon)
  obtain ⟨q1, i1, e1⟩ := hEval q0 i0 (a_fPos + 1 * Parser.diffStep a_fPos a_fEpsilon)
  obtain ⟨q2, i2, e2⟩ := hEval q1 i1 (a_fPos - 1 * Parser.diffStep a_fPos a_fEpsilon)
  obtain ⟨q3, i3, e3⟩ := hEval q2 i2 (a_fPos - 2 * Parser.diffStep a_fPos a_fEpsilon)
  refine ⟨q3, i3, ?_⟩
  simp only [Parser.Diff, e0, Function.update_idem, e1, e2, e3, Function.update_eq_self]
  rw [five_point_exact P hdeg a_fPos _ hne]

theorem Examples.eval_square (env : CallEnv) (m : Mem) (q : ParserBase)
    (hq : Examples.SquareStates q) :
    ∃ q', Examples.SquareStates q' ∧ q.Eval env m = .ok (m 20 * m 20, q', m) := by
  rcases hq with rfl | ⟨h1, h2⟩
  · have hv : Expr.Valid .args none (.bin (Examples.tokOp .cmMUL) (.var (Examples.tokVar 20))
        (.var (Examples.tokVar 20))) = true := by decide
    have hc := @Expr.CreateRPN_eq env m _ _ hv (by decide) { m_bEnableOptimizer := true }
      "expr " (by decide)
    have ht : (Expr.bin (Examples.tokOp .cmMUL) (.var (Examples.tokVar 20))
        (.var (Examples.tokVar 20))).toks = Examples.toksSquare := rfl
    rw [ht] at hc
    simp only [Examples.parser, ParserBase.Eval, ParserBase.ParseString, ParserBase.CreateRPN,
      hc]
    simp [Expr.emit, ParserByteCode.AddVar, ParserByteCode.AddOp, ParserByteCode.peephole,
      ParserByteCode.clear, Examples.tokVar, Examples.tokOp, token_type.GetCode, bind,
      Except.bind, Expr.finish, ParserByteCode.Finalize, ParserByteCode.finalizeLoop,
      ParserBase.ParseCmdCodeShort, Examples.SquareStates, SToken.VARPOW2, SToken.VAR]
  · refine ⟨q, Or.inr ⟨h1, h2⟩, ?_⟩
    simp [ParserBase.Eval, h1, ParserBase.ParseCmdCodeShort, h2, SToken.VARPOW2, SToken.VAR]

/-- C39 (witness): for the expression `x * x`, set on a parser and not yet compiled, `Diff` with
respect to `x` at the position 3 with the default step returns 6 and leaves the memory as it
was. -/
theorem C39_diff_exact_witness :
    ∃ q', Parser.Diff Examples.env (Examples.parser true Examples.toksSquare) Examples.mem 20
      3 0 = .ok (6, q', Examples.mem) := by
  obtain ⟨_, _, _, q', _, h⟩ := C39_diff_exact Examples.env
    (Examples.parser true Examples.toksSquare) Examples.mem 20 3 0 Examples.SquareStates
    (Polynomial.X ^ 2) (by simp) (Or.inl rfl)
    (fun q hq x => by
      obtain ⟨q', h1, h2⟩ := Examples.eval_square Examples.env
        (Function.update Examples.mem 20 x) q hq
      refine ⟨q', h1, ?_⟩
      rw [h2]
      simp [pow_two])
  refine ⟨q', ?_⟩
  rw [h]
  simp
  norm_num

/-- C36 (counterexample): a user-defined right-associative operator `(+)` with the precedence of
the multiplication reduces a multiplication below it although the precedences are equal:
`a * b (+) c` compiles to `VAR a, VAR b, MUL, VAR c, FUNC (+)`, that is `(a * b) (+) c`, and with
`a = 4`, `b = 7`, `c = 1` and `(+)` the addition it evaluates to 29, not to `4 * (7 + 1)`.  An
operator without associativity reduces a user-defined operator of lower precedence. -/
theorem C36_counterexample :
    GetOprtPrecedence (Examples.tokOp .cmMUL) = .ok prMUL_DIV ∧
    GetOprtPrecedence Examples.tokRight = .ok prMUL_DIV ∧
    GetOprtAssociativity Examples.tokRight = .ok .oaRIGHT ∧
    specReduces prMUL_DIV prMUL_DIV .oaRIGHT = false ∧
    oprtStops (Examples.tokOp .cmMUL) Examples.tokRight = .ok false ∧
    CreateRPN Examples.env Examples.mem {}
      { m_strFormula := "expr ", m_tokens := Examples.toksMulRight } =
      .ok Examples.compiledMulRight ∧
    Examples.evalValue true Examples.toksMulRight Examples.mem = .ok 29 ∧
    GetOprtPrecedence (Examples.tokNone 1) = .ok 1 ∧
    GetOprtPrecedence (Examples.tokNone 5) = .ok 5 ∧
    GetOprtAssociativity (Examples.tokNone 5) = .ok .oaNONE ∧
    specReduces 1 5 .oaNONE = false ∧
    oprtStops (Examples.tokNone 1) (Examples.tokNone 5) = .ok false := by
  decide!

/-- The test of the `while` loop of the binary operator case in terms of the precedences and the
associativity. -/
theorem oprtStops_eq {top opt : token_type} {P' P : Int} {A : EOprtAssociativity}
    (hP' : GetOprtPrecedence top = .ok P') (hP : GetOprtPrecedence opt = .ok P)
    (hA : GetOprtAssociativity opt = .ok A) :
    oprtStops top opt = .ok (decide (if top.GetCode = opt.GetCode then
      (A = .oaRIGHT ∧ P' ≤ P) ∨ (A = .oaLEFT ∧ P' < P) else P' < P)) := by
  unfold oprtStops
  simp only [hP', hP, hA]
  split <;> rfl

theorem builtin_rule_agrees {top opt : token_type} {P' P : Int} {A : EOprtAssociativity}
    (ht : top.m_pCallback = none ∧ isBuiltinBinCode top.m_iCode = true)
    (ho : opt.m_pCallback = none ∧ isBuiltinBinCode opt.m_iCode = true)
    (hP' : GetOprtPrecedence top = .ok P') (hP : GetOprtPrecedence opt = .ok P)
    (hA : GetOprtAssociativity opt = .ok A) :
    oprtStops top opt = .ok (!specReduces P' P A) := by
  rw [oprtStops_eq hP' hP hA]
  obtain ⟨t1, t2⟩ := ht
  obtain ⟨o1, o2⟩ := ho
  have g1 : top.GetCode = top.m_iCode := by simp only [token_type.GetCode, t1]
  have g2 : opt.GetCode = opt.m_iCode := by simp only [token_type.GetCode, o1]
  unfold GetOprtPrecedence at hP' hP
  unfold GetOprtAssociativity at hA
  rw [g1] at hP' ⊢
  rw [g2] at hP hA ⊢
  generalize top.m_iCode = c1 at *
  generalize opt.m_iCode = c2 at *
  cases c1 <;> first
    | exact absurd t2 (by decide)
    | (cases c2 <;> first
        | exact absurd o2 (by decide)
        | (simp only [Except.ok.injEq] at hP' hP hA
           subst hP' hP hA
           decide))

/-- C36 (amended): when a binary operator token `opt` of precedence `P` and associativity `A` is
read and the operator `top` of precedence `P'` is on top of the operator stack: the loop stops at
an opening bracket, at `IF` and at `ELSE` (and at the empty stack); otherwise, if `top` and `opt`
have the same command code (the same built-in operator, or two user-defined operators), it
reduces `top` and goes on exactly when `A` is left and `P' >= P`, or `A` is right and `P' > P`,
or `A` is none; if the command codes differ it reduces exactly when `P' >= P`, whatever `A`.
This is the rule `P' > P, or P' = P and A is left` when the codes are equal and `A` is left or
right, when they differ and `A` is left or `P' ≠ P`, and always between two built-in operators.
A right-associative operator does not reduce an operator of equal precedence with the same
command code. -/
theorem C36_reduction_rule (env : CallEnv) (mem : Mem) (s : RPNState) (top opt : token_type)
    (rest : List token_type) (P' P : Int) (A : EOprtAssociativity)
    (hs : s.stOpt = top :: rest)
    (hc : ¬(top.GetCode = .cmBO ∨ top.GetCode = .cmELSE ∨ top.GetCode = .cmIF))
    (hP' : GetOprtPrecedence top = .ok P') (hP : GetOprtPrecedence opt = .ok P)
    (hA : GetOprtAssociativity opt = .ok A) :
    (top.GetCode = opt.GetCode →
      ((A = .oaLEFT ∧ P' ≥ P) ∨ (A = .oaRIGHT ∧ P' > P) ∨ A = .oaNONE →
        binLoop env mem opt s =
          Except.bind (reduceTop env mem top s) (binLoop env mem opt)) ∧
      ((A = .oaLEFT ∧ P' < P) ∨ (A = .oaRIGHT ∧ P' ≤ P) → binLoop env mem opt s = .ok s)) ∧
    (top.GetCode ≠ opt.GetCode →
      (P' ≥ P → binLoop env mem opt s =
        Except.bind (reduceTop env mem top s) (binLoop env mem opt)) ∧
      (P' < P → binLoop env mem opt s = .ok s)) ∧
    (top.GetCode = opt.GetCode → A ≠ .oaNONE →
      oprtStops top opt = .ok (!specReduces P' P A)) ∧
    (top.GetCode ≠ opt.GetCode → (A = .oaLEFT ∨ P' ≠ P) →
      oprtStops top opt = .ok (!specReduces P' P A)) ∧
    (top.m_pCallback = none ∧ isBuiltinBinCode top.m_iCode = true →
      opt.m_pCallback = none ∧ isBuiltinBinCode opt.m_iCode = true →
      oprtStops top opt = .ok (!specReduces P' P A)) ∧
    (∀ (s' : RPNState) (top' : token_type) (rest' : List token_type),
      s'.stOpt = [] ∨ (s'.stOpt = top' :: rest' ∧
        (top'.GetCode = .cmBO ∨ top'.GetCode = .cmELSE ∨ top'.GetCode = .cmIF)) →
      binLoop env mem opt s' = .ok s') := by
  have hst := oprtStops_eq hP' hP hA
  have hgo : oprtStops top opt = .ok false →
      binLoop env mem opt s = Except.bind (reduceTop env mem top s) (binLoop env mem opt) := by
    intro h
    apply binLoop_step_bind hs
    simp only [Expr.goesOn, Bool.and_eq_true, decide_eq_true_eq]
    exact ⟨⟨⟨fun h1 => hc (Or.inl h1), fun h1 => hc (Or.inr (Or.inl h1))⟩,
      fun h1 => hc (Or.inr (Or.inr h1))⟩, h⟩
  have hstop : oprtStops top opt = .ok true → binLoop env mem opt s = .ok s := by
    intro h
    apply binLoop_stop
    simp only [hs, List.head?_cons, Expr.stopsAt, Bool.or_eq_true, decide_eq_true_eq]
    exact Or.inr h
  refine ⟨?_, ?_, ?_, ?_, ?_, ?_⟩
  · intro hcode
    constructor
    · intro h
      apply hgo
      rw [hst]
      simp only [hcode, if_true, Except.ok.injEq, decide_eq_false_iff_not]
      rcases h with h | h | h
      · rintro (h1 | h1)
        · rw [h.1] at h1; exact absurd h1.1 (by decide)
        · omega
      · rintro (h1 | h1)
        · omega
        · rw [h.1] at h1; exact absurd h1.1 (by decide)
      · rintro (h1 | h1)
        · rw [h] at h1; exact absurd h1.1 (by decide)
        · rw [h] at h1; exact absurd h1.1 (by decide)
    · intro h
      apply hstop
      rw [hst]
      simp only [hcode, if_true, Except.ok.injEq, decide_eq_true_eq]
      rcases h with h | h
      · exact Or.inr h
      · exact Or.inl h
  · intro hcode
    constructor
    · intro h
      apply hgo
      rw [hst]
      simp only [hcode, if_false, Except.ok.injEq, decide_eq_false_iff_not]
      omega
    · intro h
      apply hstop
      rw [hst]
      simp only [hcode, if_false, Except.ok.injEq, decide_eq_true_eq]
      exact h
  · intro hcode hne
    rw [hst]
    simp only [hcode, if_true, specReduces, Except.ok.injEq]
    cases A
    · simp only [reduceCtorEq, false_and, false_or, and_true, true_and]
      rw [← decide_not]
      congr 1
      apply propext
      constructor <;> intro h <;> omega
    · simp only [reduceCtorEq, false_and, or_false, and_false, true_and]
      rw [← decide_not]
      congr 1
      apply propext
      constructor <;> intro h <;> omega
    · exact absurd rfl hne
  · intro hcode h
    rw [hst]
    simp only [hcode, if_false, specReduces, Except.ok.injEq]
    rw [← decide_not]
    congr 1
    apply propext
    rcases h with h | h
    · subst h
      simp only [and_true]
      constructor <;> intro h <;> omega
    · constructor
      · intro h1 h2
        rcases h2 with h2 | h2 <;> omega
      · intro h1
        by_contra h2
        exact h1 (Or.inl (by omega))
  · intro ht ho
    exact builtin_rule_agrees ht ho hP' hP hA
  · intro s' top' rest' h
    apply binLoop_stop
    rcases h with h | ⟨h, h1⟩
    · simp [h, Expr.stopsAt]
    · simp only [h, List.head?_cons, Expr.stopsAt, Bool.or_eq_true, decide_eq_true_eq]
      rcases h1 with h1 | h1 | h1
      · exact Or.inl (Or.inl (Or.inl h1))
      · exact Or.inl (Or.inl (Or.inr h1))
      · exact Or.inl (Or.inr h1)

/-- C36 (witness): with `^` on top of the operator stack and `^` read, nothing is reduced (the
power operator is right-associative); with `*` on top and `+` read, the multiplication is
reduced. -/
theorem C36_reduction_rule_witness :
    binLoop Examples.env Examples.mem (Examples.tokOp .cmPOW)
      { stOpt := [Examples.tokOp .cmPOW], stVal := [Examples.tokVar 11, Examples.tokVar 10],
        stArgCount := [1] } =
      .ok { stOpt := [Examples.tokOp .cmPOW], stVal := [Examples.tokVar 11, Examples.tokVar 10],
            stArgCount := [1] } ∧
    oprtStops (Examples.tokOp .cmMUL) (Examples.tokOp .cmADD) = .ok false :=
  have h1 := C36_reduction_rule Examples.env Examples.mem
    { stOpt := [Examples.tokOp .cmPOW], stVal := [Examples.tokVar 11, Examples.tokVar 10],
      stArgCount := [1] } (Examples.tokOp .cmPOW) (Examples.tokOp .cmPOW) [] prPOW prPOW
    .oaRIGHT rfl (by decide) rfl rfl rfl
  have h2 := C36_reduction_rule Examples.env Examples.mem
    { stOpt := [Examples.tokOp .cmMUL], stVal := [Examples.tokVar 11, Examples.tokVar 10],
      stArgCount := [1] } (Examples.tokOp .cmMUL) (Examples.tokOp .cmADD) [] prMUL_DIV
    prADD_SUB .oaLEFT rfl (by decide) rfl rfl rfl
  ⟨(h1.1 rfl).2 (Or.inr ⟨rfl, le_refl _⟩), h2.2.2.2.2.1 ⟨rfl, rfl⟩ ⟨rfl, rfl⟩⟩

theorem resolved_cons (t : SToken) (rest : List SToken) :
    resolved (t :: rest) = resolveEntry t rest :: resolved rest := rfl

theorem resolved_length (b : List SToken) : (resolved b).length = b.length := by
  induction b with
  | nil => rfl
  | cons t rest ih => simp [resolved, ih]

theorem resolved_getElem? (b : List SToken) :
    ∀ i, (resolved b)[i]? = (b[i]?).map (fun t => resolveEntry t (b.drop (i + 1))) := by
  induction b with
  | nil => intro i; simp [resolved]
  | cons t rest ih =>
    intro i
    cases i with
    | zero => simp [resolved]
    | succ j => simp [resolved, ih j]

theorem resolveEntry_Cmd (t : SToken) (rest : List SToken) : (resolveEntry t rest).Cmd = t.Cmd := by
  unfold resolveEntry
  split <;> rfl

theorem resolveEntry_plain {t : SToken} (rest : List SToken) (h1 : t.Cmd ≠ .cmIF)
    (h2 : t.Cmd ≠ .cmELSE) : resolveEntry t rest = t := by
  unfold resolveEntry
  split
  · rename_i h; exact absurd h h1
  · rename_i h; exact absurd h h2
  · rfl

theorem offsetToElse_plain {t : SToken} (rest : List SToken) (d k : Nat) (h1 : t.Cmd ≠ .cmIF)
    (h2 : t.Cmd ≠ .cmELSE) (h3 : t.Cmd ≠ .cmENDIF) :
    offsetToElse (t :: rest) d k = offsetToElse rest d (k + 1) := by
  rw [offsetToElse]
  split <;> first | rfl | (rename_i h; first | exact absurd h h1 | exact absurd h h2 | exact absurd h h3)

theorem offsetToEndif_plain {t : SToken} (rest : List SToken) (d k : Nat) (h1 : t.Cmd ≠ .cmIF)
    (h3 : t.Cmd ≠ .cmENDIF) :
    offsetToEndif (t :: rest) d k = offsetToEndif rest d (k + 1) := by
  rw [offsetToEndif]
  split <;> first | rfl | (rename_i h; first | exact absurd h h1 | exact absurd h h3)

theorem offsetToElse_if {t : SToken} (rest : List SToken) (d k : Nat) (h : t.Cmd = .cmIF) :
    offsetToElse (t :: rest) d k = offsetToElse rest (d + 1) (k + 1) := by
  rw [offsetToElse]; simp [h]

theorem offsetToEndif_if {t : SToken} (rest : List SToken) (d k : Nat) (h : t.Cmd = .cmIF) :
    offsetToEndif (t :: rest) d k = offsetToEndif rest (d + 1) (k + 1) := by
  rw [offsetToEndif]; simp [h]

theorem offsetToElse_endif {t : SToken} (rest : List SToken) (d k : Nat) (h : t.Cmd = .cmENDIF) :
    offsetToElse (t :: rest) (d + 1) k = offsetToElse rest d (k + 1) := by
  rw [offsetToElse]; simp [h]

theorem offsetToEndif_endif {t : SToken} (rest : List SToken) (d k : Nat)
    (h : t.Cmd = .cmENDIF) :
    offsetToEndif (t :: rest) (d + 1) k = offsetToEndif rest d (k + 1) := by
  rw [offsetToEndif]; simp [h]

theorem offsetToElse_else {t : SToken} (rest : List SToken) (d k : Nat) (h : t.Cmd = .cmELSE) :
    offsetToElse (t :: rest) (d + 1) k = offsetToElse rest (d + 1) (k + 1) := by
  rw [offsetToElse]; simp [h]

theorem offsetToEndif_else {t : SToken} (rest : List SToken) (d k : Nat) (h : t.Cmd = .cmELSE) :
    offsetToEndif (t :: rest) d k = offsetToEndif rest d (k + 1) := by
  rw [offsetToEndif]; simp [h]

/-- The search for the matching marker passes over a properly nested stream. -/
theorem Nested.offset_skip {b : List SToken} (hb : Nested b) :
    ∀ (y : List SToken) (d k : Nat),
      offsetToElse (b ++ y) d k = offsetToElse y d (k + b.length) ∧
      offsetToEndif (b ++ y) d k = offsetToEndif y d (k + b.length) := by
  induction hb with
  | nil => intro y d k; simp
  | plain t b h1 h2 h3 _ ih =>
    intro y d k
    obtain ⟨a1, a2⟩ := ih y d (k + 1)
    simp only [List.cons_append, offsetToElse_plain _ _ _ h1 h2 h3,
      offsetToEndif_plain _ _ _ h1 h3, a1, a2, List.length_cons]
    constructor <;> congr 1 <;> omega
  | cond tIf tElse tEnd bt be b e1 e2 e3 _ _ _ iht ihe ihb =>
    intro y d k
    have hl : tIf :: (bt ++ tElse :: (be ++ tEnd :: b)) ++ y =
        tIf :: (bt ++ (tElse :: (be ++ (tEnd :: (b ++ y))))) := by simp
    rw [hl]
    obtain ⟨a1, a2⟩ := iht (tElse :: (be ++ (tEnd :: (b ++ y)))) (d + 1) (k + 1)
    obtain ⟨b1, b2⟩ := ihe (tEnd :: (b ++ y)) (d + 1) (k + 1 + bt.length + 1)
    obtain ⟨c1, c2⟩ := ihb y d (k + 1 + bt.length + 1 + be.length + 1)
    simp only [offsetToElse_if _ _ _ e1, offsetToEndif_if _ _ _ e1, a1, a2,
      offsetToElse_else _ _ _ e2, offsetToEndif_else _ _ _ e2, b1, b2,
      offsetToElse_endif _ _ _ e3, offsetToEndif_endif _ _ _ e3, c1, c2]
    simp only [List.length_cons, List.length_append]
    constructor <;> congr 1 <;> omega

theorem offsetToElse_found {t : SToken} (rest : List SToken) (k : Nat) (h : t.Cmd = .cmELSE) :
    offsetToElse (t :: rest) 0 k = some k := by
  rw [offsetToElse]; simp [h]

theorem offsetToEndif_found {t : SToken} (rest : List SToken) (k : Nat) (h : t.Cmd = .cmENDIF) :
    offsetToEndif (t :: rest) 0 k = some k := by
  rw [offsetToEndif]; simp [h]

/-- Resolving the offsets of a properly nested stream does not look beyond it. -/
theorem Nested.resolved_append {b : List SToken} (hb : Nested b) :
    ∀ y : List SToken, resolved (b ++ y) = resolved b ++ resolved y := by
  induction hb with
  | nil => intro y; rfl
  | plain t b h1 h2 h3 _ ih =>
    intro y
    simp only [List.cons_append, resolved_cons, ih y, resolveEntry_plain _ h1 h2]
  | cond tIf tElse tEnd bt be b e1 e2 e3 hbt hbe _ iht ihe ihb =>
    intro y
    have hl : tIf :: (bt ++ tElse :: (be ++ tEnd :: b)) ++ y =
        tIf :: (bt ++ (tElse :: (be ++ (tEnd :: (b ++ y))))) := by simp
    have r1 : ∀ z, resolveEntry tIf (bt ++ tElse :: z) = { tIf with offset := bt.length + 1 } := by
      intro z
      simp only [resolveEntry, e1, (hbt.offset_skip _ _ _).1, offsetToElse_found _ _ e2,
        Option.getD_some]
      congr 1
      omega
    have r2 : ∀ z, resolveEntry tElse (be ++ tEnd :: z) =
        { tElse with offset := be.length + 1 } := by
      intro z
      simp only [resolveEntry, e2, (hbe.offset_skip _ _ _).2, offsetToEndif_found _ _ e3,
        Option.getD_some]
      congr 1
      omega
    have r3 : ∀ z, resolveEntry tEnd z = tEnd := fun z =>
      resolveEntry_plain z (by rw [e3]; decide) (by rw [e3]; decide)
    rw [hl]
    simp only [resolved_cons, iht, ihe, ihb, r1, r2, r3, List.cons_append, List.append_assoc]

theorem Nested.resolved_cond {tIf tElse tEnd : SToken} {bt be b : List SToken}
    (e1 : tIf.Cmd = .cmIF) (e2 : tElse.Cmd = .cmELSE) (e3 : tEnd.Cmd = .cmENDIF)
    (hbt : Nested bt) (hbe : Nested be) :
    resolved (tIf :: (bt ++ tElse :: (be ++ tEnd :: b))) =
      { tIf with offset := bt.length + 1 } ::
        (resolved bt ++ { tElse with offset := be.length + 1 } ::
          (resolved be ++ tEnd :: resolved b)) := by
  have r1 : resolveEntry tIf (bt ++ tElse :: (be ++ tEnd :: b)) =
      { tIf with offset := bt.length + 1 } := by
    simp only [resolveEntry, e1, (hbt.offset_skip _ _ _).1, offsetToElse_found _ _ e2,
      Option.getD_some]
    congr 1
    omega
  have r2 : resolveEntry tElse (be ++ tEnd :: b) = { tElse with offset := be.length + 1 } := by
    simp only [resolveEntry, e2, (hbe.offset_skip _ _ _).2, offsetToEndif_found _ _ e3,
      Option.getD_some]
    congr 1
    omega
  have r3 : resolveEntry tEnd b = tEnd :=
    resolveEntry_plain b (by rw [e3]; decide) (by rw [e3]; decide)
  simp only [resolved_cons, hbt.resolved_append, hbe.resolved_append, r1, r2, r3]

theorem ParserByteCode.setOffset_at (pre : List SToken) (t : SToken) (post : List SToken)
    (idx off : Nat) (h : idx = pre.length) :
    ParserByteCode.setOffset (pre ++ t :: post) idx off =
      pre ++ { t with offset := off } :: post := by
  rw [ParserByteCode.setOffset, h, List.modify_append_cons]

/-- The loop of `Finalize` over a properly nested stream resolves its jump offsets and changes
nothing else. -/
theorem Nested.finalizeLoop_resolved {b : List SToken} (hb : Nested b) :
    ∀ (pre post : List SToken) (rest : List ECmdCode) (stIf stElse : List Nat) (i : Nat),
      i = pre.length →
      ParserByteCode.finalizeLoop (b.map (fun t => t.Cmd) ++ rest) i stIf stElse
          (pre ++ (b ++ post)) =
        ParserByteCode.finalizeLoop rest (i + b.length) stIf stElse
          (pre ++ (resolved b ++ post)) := by
  induction hb with
  | nil => intro pre post rest stIf stElse i _; rfl
  | plain t b h1 h2 h3 hb ih =>
    intro pre post rest stIf stElse i hi
    have e1 : (t :: b).map (fun t => t.Cmd) ++ rest = t.Cmd :: (b.map (fun t => t.Cmd) ++ rest) :=
      rfl
    have e2 : pre ++ (t :: b ++ post) = (pre ++ [t]) ++ (b ++ post) := by simp
    have e3 : pre ++ (resolved (t :: b) ++ post) = (pre ++ [t]) ++ (resolved b ++ post) := by
      simp [resolved_cons, resolveEntry_plain _ h1 h2]
    rw [e1, ParserByteCode.finalizeLoop_other _ _ _ _ _ ⟨h1, h2, h3⟩, e2,
      ih (pre ++ [t]) post rest stIf stElse (i + 1) (by simp [hi]), e3]
    congr 1
    simp only [List.length_cons]
    omega
  | cond tIf tElse tEnd bt be b e1 e2 e3 hbt hbe hb iht ihe ihb =>
    intro pre post rest stIf stElse i hi
    have g1 : (tIf :: (bt ++ tElse :: (be ++ tEnd :: b))).map (fun t => t.Cmd) ++ rest =
        .cmIF :: (bt.map (fun t => t.Cmd) ++ (.cmELSE :: (be.map (fun t => t.Cmd) ++
          (.cmENDIF :: (b.map (fun t => t.Cmd) ++ rest))))) := by
      simp [e1, e2, e3]
    have g2 : pre ++ (tIf :: (bt ++ tElse :: (be ++ tEnd :: b)) ++ post) =
        (pre ++ [tIf]) ++ (bt ++ (tElse :: (be ++ (tEnd :: (b ++ post))))) := by simp
    rw [g1, g2, ParserByteCode.finalizeLoop,
      iht (pre ++ [tIf]) (tElse :: (be ++ (tEnd :: (b ++ post))))
        (.cmELSE :: (be.map (fun t => t.Cmd) ++ (.cmENDIF :: (b.map (fun t => t.Cmd) ++ rest))))
        (i :: stIf) stElse (i + 1) (by simp [hi]),
      ParserByteCode.finalizeLoop]
    have g3 : (pre ++ [tIf]) ++ (resolved bt ++ (tElse :: (be ++ (tEnd :: (b ++ post))))) =
        pre ++ tIf :: (resolved bt ++ (tElse :: (be ++ (tEnd :: (b ++ post))))) := by simp
    have g4 : i + 1 + bt.length - i = bt.length + 1 := by omega
    have g5 : pre ++ { tIf with offset := bt.length + 1 } ::
          (resolved bt ++ (tElse :: (be ++ (tEnd :: (b ++ post))))) =
        (pre ++ { tIf with offset := bt.length + 1 } :: (resolved bt ++ [tElse])) ++
          (be ++ (tEnd :: (b ++ post))) := by simp
    rw [g3, ParserByteCode.setOffset_at _ _ _ _ _ hi, g4, g5,
      ihe (pre ++ { tIf with offset := bt.length + 1 } :: (resolved bt ++ [tElse]))
        (tEnd :: (b ++ post)) (.cmENDIF :: (b.map (fun t => t.Cmd) ++ rest)) stIf
        ((i + 1 + bt.length) :: stElse) (i + 1 + bt.length + 1)
        (by simp [hi, resolved_length]; omega),
      ParserByteCode.finalizeLoop]
    have g6 : (pre ++ { tIf with offset := bt.length + 1 } :: (resolved bt ++ [tElse])) ++
          (resolved be ++ (tEnd :: (b ++ post))) =
        (pre ++ { tIf with offset := bt.length + 1 } :: resolved bt) ++
          tElse :: (resolved be ++ (tEnd :: (b ++ post))) := by simp
    have g7 : i + 1 + bt.length + 1 + be.length - (i + 1 + bt.length) = be.length + 1 := by omega
    have g8 : (pre ++ { tIf with offset := bt.length + 1 } :: resolved bt) ++
          { tElse with offset := be.length + 1 } :: (resolved be ++ (tEnd :: (b ++ post))) =
        (pre ++ { tIf with offset := bt.length + 1 } :: (resolved bt ++
          { tElse with offset := be.length + 1 } :: (resolved be ++ [tEnd]))) ++ (b ++ post) := by
      simp
    rw [g6, ParserByteCode.setOffset_at _ _ _ _ _ (by simp [hi, resolved_length]; omega), g7, g8,
      ihb _ post rest stIf stElse (i + 1 + bt.length + 1 + be.length + 1)
        (by simp [hi, resolved_length]; omega),
      Nested.resolved_cond e1 e2 e3 hbt hbe]
    congr 1
    · simp only [List.length_cons, List.length_append]
      omega
    · simp

/-- `Finalize` on a properly nested stream. -/
theorem Nested.Finalize_resolved {bc : ParserByteCode} (hb : Nested bc.m_vRPN) :
    bc.Finalize = .ok { bc with m_vRPN := resolved bc.m_vRPN ++ [{ Cmd := .cmEND }] } := by
  have h := hb.finalizeLoop_resolved [] [{ Cmd := .cmEND }] [.cmEND] [] [] 0 rfl
  unfold ParserByteCode.Finalize
  simp only [List.nil_append] at h
  simp only [List.map_append, List.map_cons, List.map_nil, h, bind, Except.bind]
  rw [ParserByteCode.finalizeLoop_other _ _ _ _ _ (by decide)]
  rfl

theorem Nested.append_nested {x : List SToken} (hx : Nested x) :
    ∀ {y : List SToken}, Nested y → Nested (x ++ y) := by
  induction hx with
  | nil => intro y hy; exact hy
  | plain t b h1 h2 h3 _ ih => intro y hy; exact Nested.plain t _ h1 h2 h3 (ih hy)
  | cond tIf tElse tEnd bt be b e1 e2 e3 hbt hbe _ _ _ ihb =>
    intro y hy
    have hl : tIf :: (bt ++ tElse :: (be ++ tEnd :: b)) ++ y =
        tIf :: (bt ++ tElse :: (be ++ tEnd :: (b ++ y))) := by simp
    rw [hl]
    exact Nested.cond tIf tElse tEnd bt be _ e1 e2 e3 hbt hbe (ihb hy)

theorem Closes.prepend {x : List SToken} (hx : Nested x) {st : List Bool} {r : List SToken}
    (h : Closes st r) : Closes st (x ++ r) := by
  cases h with
  | done b hb => exact Closes.done _ (hx.append_nested hb)
  | toElse st blk tM r hN hM hC =>
    rw [← List.append_assoc]
    exact Closes.toElse st _ tM r (hx.append_nested hN) hM hC
  | toEndif st blk tM r hN hM hC =>
    rw [← List.append_assoc]
    exact Closes.toEndif st _ tM r (hx.append_nested hN) hM hC

theorem properlyNestedFrom_if {t : SToken} (rest : List SToken) (st : List Bool)
    (h : t.Cmd = .cmIF) :
    properlyNestedFrom (t :: rest) st = properlyNestedFrom rest (false :: st) := by
  rw [properlyNestedFrom]; simp only [h]

theorem properlyNestedFrom_else {t : SToken} (rest : List SToken) (st : List Bool)
    (h : t.Cmd = .cmELSE) :
    properlyNestedFrom (t :: rest) (false :: st) = properlyNestedFrom rest (true :: st) := by
  rw [properlyNestedFrom]; simp [h]

theorem properlyNestedFrom_endif {t : SToken} (rest : List SToken) (st : List Bool)
    (h : t.Cmd = .cmENDIF) :
    properlyNestedFrom (t :: rest) (true :: st) = properlyNestedFrom rest st := by
  rw [properlyNestedFrom]; simp [h]

theorem properlyNestedFrom_plain {t : SToken} (rest : List SToken) (st : List Bool)
    (h1 : t.Cmd ≠ .cmIF) (h2 : t.Cmd ≠ .cmELSE) (h3 : t.Cmd ≠ .cmENDIF) :
    properlyNestedFrom (t :: rest) st = properlyNestedFrom rest st := by
  rw [properlyNestedFrom]
  split <;> first | rfl | (rename_i h; first | exact absurd h h1 | exact absurd h h2 | exact absurd h h3)

theorem properlyNestedFrom_else_inv {t : SToken} {rest : List SToken} {st : List Bool}
    (h : t.Cmd = .cmELSE) (hp : properlyNestedFrom (t :: rest) st = true) :
    ∃ st', st = false :: st' ∧ properlyNestedFrom rest (true :: st') = true := by
  rw [properlyNestedFrom] at hp
  simp only [h] at hp
  cases st with
  | nil => simp at hp
  | cons f st' =>
    cases f with
    | false => exact ⟨st', rfl, by simpa using hp⟩
    | true => simp at hp

theorem properlyNestedFrom_endif_inv {t : SToken} {rest : List SToken} {st : List Bool}
    (h : t.Cmd = .cmENDIF) (hp : properlyNestedFrom (t :: rest) st = true) :
    ∃ st', st = true :: st' ∧ properlyNestedFrom rest st' = true := by
  rw [properlyNestedFrom] at hp
  simp only [h] at hp
  cases st with
  | nil => simp at hp
  | cons f st' =>
    cases f with
    | false => simp at hp
    | true => exact ⟨st', rfl, by simpa using hp⟩

/-- The test accepts exactly the streams that close the open conditionals. -/
theorem properlyNestedFrom_closes (b : List SToken) :
    ∀ st, properlyNestedFrom b st = true → Closes st b := by
  induction b with
  | nil =>
    intro st h
    cases st with
    | nil => exact Closes.done _ Nested.nil
    | cons f st => simp [properlyNestedFrom] at h
  | cons t rest ih =>
    intro st h
    by_cases h1 : t.Cmd = .cmIF
    · rw [properlyNestedFrom_if _ _ h1] at h
      cases ih _ h with
      | toElse _ bt tElse r1 hbt e2 hC1 =>
        cases hC1 with
        | toEndif _ be tEnd r2 hbe e3 hC2 =>
          have hl : t :: (bt ++ tElse :: (be ++ tEnd :: r2)) =
              (t :: (bt ++ tElse :: (be ++ tEnd :: []))) ++ r2 := by simp
          rw [hl]
          exact Closes.prepend (Nested.cond t tElse tEnd bt be [] h1 e2 e3 hbt hbe Nested.nil) hC2
    · by_cases h2 : t.Cmd = .cmELSE
      · obtain ⟨st', rfl, hp⟩ := properlyNestedFrom_else_inv h2 h
        exact Closes.toElse st' [] t rest Nested.nil h2 (ih _ hp)
      · by_cases h3 : t.Cmd = .cmENDIF
        · obtain ⟨st', rfl, hp⟩ := properlyNestedFrom_endif_inv h3 h
          exact Closes.toEndif st' [] t rest Nested.nil h3 (ih _ hp)
        · rw [properlyNestedFrom_plain _ _ h1 h2 h3] at h
          exact Closes.prepend (Nested.plain t [] h1 h2 h3 Nested.nil) (ih _ h)

theorem Nested.properlyNestedFrom_skip {b : List SToken} (hb : Nested b) :
    ∀ (y : List SToken) (st : List Bool),
      mu.properlyNestedFrom (b ++ y) st = mu.properlyNestedFrom y st := by
  induction hb with
  | nil => intro y st; rfl
  | plain t b h1 h2 h3 _ ih =>
    intro y st
    rw [List.cons_append, properlyNestedFrom_plain _ _ h1 h2 h3, ih]
  | cond tIf tElse tEnd bt be b e1 e2 e3 _ _ _ iht ihe ihb =>
    intro y st
    have hl : tIf :: (bt ++ tElse :: (be ++ tEnd :: b)) ++ y =
        tIf :: (bt ++ (tElse :: (be ++ (tEnd :: (b ++ y))))) := by simp
    rw [hl, properlyNestedFrom_if _ _ e1, iht, properlyNestedFrom_else _ _ e2, ihe,
      properlyNestedFrom_endif _ _ e3, ihb]

/-- The test for proper nesting decides the inductive description. -/
theorem properlyNested_iff (b : List SToken) : properlyNested b = true ↔ Nested b := by
  constructor
  · intro h
    cases properlyNestedFrom_closes b [] h with
    | done _ hb => exact hb
  · intro h
    have := h.properlyNestedFrom_skip [] []
    rw [List.append_nil] at this
    rw [properlyNested, this]
    rfl

/-- Behind every entry of an accepted stream the test goes on with some stack. -/
theorem properlyNestedFrom_suffix (pre : List SToken) :
    ∀ (y : List SToken) (st : List Bool), properlyNestedFrom (pre ++ y) st = true →
      ∃ st', properlyNestedFrom y st' = true := by
  induction pre with
  | nil => intro y st h; exact ⟨st, h⟩
  | cons t pre ih =>
    intro y st h
    rw [List.cons_append] at h
    by_cases h1 : t.Cmd = .cmIF
    · rw [properlyNestedFrom_if _ _ h1] at h
      exact ih _ _ h
    · by_cases h2 : t.Cmd = .cmELSE
      · obtain ⟨st', _, hp⟩ := properlyNestedFrom_else_inv h2 h
        exact ih _ _ hp
      · by_cases h3 : t.Cmd = .cmENDIF
        · obtain ⟨st', _, hp⟩ := properlyNestedFrom_endif_inv h3 h
          exact ih _ _ hp
        · rw [properlyNestedFrom_plain _ _ h1 h2 h3] at h
          exact ih _ _ h

/-- The entries behind an `IF` of a properly nested stream are a properly nested stream, the
matching `ELSE` and the rest; those behind an `ELSE` a properly nested stream, the matching
`ENDIF` and the rest. -/
theorem properlyNested_split {pre suf : List SToken} {t : SToken}
    (h : properlyNested (pre ++ t :: suf) = true) :
    (t.Cmd = .cmIF → ∃ bt tElse r, suf = bt ++ tElse :: r ∧ Nested bt ∧ tElse.Cmd = .cmELSE) ∧
    (t.Cmd = .cmELSE → ∃ be tEnd r, suf = be ++ tEnd :: r ∧ Nested be ∧ tEnd.Cmd = .cmENDIF) := by
  obtain ⟨st, hp⟩ := properlyNestedFrom_suffix pre _ _ h
  constructor
  · intro h1
    rw [properlyNestedFrom_if _ _ h1] at hp
    cases properlyNestedFrom_closes _ _ hp with
    | toElse _ bt tElse r hbt e2 _ => exact ⟨bt, tElse, r, rfl, hbt, e2⟩
  · intro h2
    obtain ⟨st', _, hp'⟩ := properlyNestedFrom_else_inv h2 hp
    cases properlyNestedFrom_closes _ _ hp' with
    | toEndif _ be tEnd r hbe e3 _ => exact ⟨be, tEnd, r, rfl, hbe, e3⟩

theorem List.getElem?_split {α : Type} (l : List α) (i : Nat) (t : α) (h : l[i]? = some t) :
    l = l.take i ++ t :: l.drop (i + 1) ∧ (l.take i).length = i := by
  obtain ⟨hi, ht⟩ := List.getElem?_eq_some_iff.mp h
  refine ⟨?_, by simp; omega⟩
  conv_lhs => rw [← List.take_append_drop i l, List.drop_eq_getElem_cons hi]
  rw [ht]

/-- C35: `Finalize` appends `END` as the last entry and, on a stream whose markers `IF`, `ELSE`,
`ENDIF` are properly nested, succeeds and gives every `IF` at index `i` a positive offset `o` such
that the entry at `i + o` is its matching `ELSE` (the entries between them are properly nested),
and every `ELSE` at index `j` a positive offset `p` such that the entry at `j + p` is its matching
`ENDIF`; no other field and no other entry is changed. -/
theorem C35_finalize_resolves_jumps (bc : ParserByteCode)
    (h : properlyNested bc.m_vRPN = true) :
    bc.Finalize = .ok { bc with m_vRPN := resolved bc.m_vRPN ++ [{ Cmd := .cmEND }] } ∧
    (resolved bc.m_vRPN).length = bc.m_vRPN.length ∧
    ∀ (i : Nat) (t : SToken), bc.m_vRPN[i]? = some t →
      (t.Cmd = .cmIF → ∃ (o : Nat) (tElse : SToken), 0 < o ∧
        (resolved bc.m_vRPN)[i]? = some { t with offset := o } ∧
        bc.m_vRPN[i + o]? = some tElse ∧ tElse.Cmd = .cmELSE ∧
        ((resolved bc.m_vRPN)[i + o]?).map (fun x => x.Cmd) = some .cmELSE ∧
        properlyNested ((bc.m_vRPN.drop (i + 1)).take (o - 1)) = true) ∧
      (t.Cmd = .cmELSE → ∃ (p : Nat) (tEnd : SToken), 0 < p ∧
        (resolved bc.m_vRPN)[i]? = some { t with offset := p } ∧
        bc.m_vRPN[i + p]? = some tEnd ∧ tEnd.Cmd = .cmENDIF ∧
        (resolved bc.m_vRPN)[i + p]? = some tEnd ∧
        properlyNested ((bc.m_vRPN.drop (i + 1)).take (p - 1)) = true) ∧
      (t.Cmd ≠ .cmIF → t.Cmd ≠ .cmELSE → (resolved bc.m_vRPN)[i]? = some t) := by
  refine ⟨((properlyNested_iff _).mp h).Finalize_resolved, resolved_length _, ?_⟩
  intro i t hi
  obtain ⟨hl, hlen⟩ := List.getElem?_split _ _ _ hi
  have hr : (resolved bc.m_vRPN)[i]? = some (resolveEntry t (bc.m_vRPN.drop (i + 1))) := by
    rw [resolved_getElem?, hi]; rfl
  have hh := h
  rw [hl] at hh
  obtain ⟨s1, s2⟩ := properlyNested_split hh
  have hget : ∀ (blk : List SToken) (tM : SToken) (r : List SToken),
      bc.m_vRPN.drop (i + 1) = blk ++ tM :: r → bc.m_vRPN[i + (blk.length + 1)]? = some tM := by
    intro blk tM r hd
    have : bc.m_vRPN[i + 1 + blk.length]? = (bc.m_vRPN.drop (i + 1))[blk.length]? := by
      rw [List.getElem?_drop]
    rw [show i + (blk.length + 1) = i + 1 + blk.length by omega, this, hd,
      List.getElem?_append_right (le_refl _), Nat.sub_self, List.getElem?_cons_zero]
  refine ⟨?_, ?_, ?_⟩
  · intro h1
    obtain ⟨bt, tElse, r, hd, hbt, e2⟩ := s1 h1
    refine ⟨bt.length + 1, tElse, by omega, ?_, hget _ _ _ hd, e2, ?_, ?_⟩
    · rw [hr, hd]
      simp only [resolveEntry, h1, (hbt.offset_skip _ _ _).1, offsetToElse_found _ _ e2,
        Option.getD_some]
      congr 2
      omega
    · rw [resolved_getElem?, hget _ _ _ hd]
      simp [resolveEntry_Cmd, e2]
    · rw [hd]
      simp only [Nat.add_sub_cancel, List.take_left']
      exact (properlyNested_iff _).mpr hbt
  · intro h2
    obtain ⟨be, tEnd, r, hd, hbe, e3⟩ := s2 h2
    refine ⟨be.length + 1, tEnd, by omega, ?_, hget _ _ _ hd, e3, ?_, ?_⟩
    · rw [hr, hd]
      simp only [resolveEntry, h2, (hbe.offset_skip _ _ _).2, offsetToEndif_found _ _ e3,
        Option.getD_some]
      congr 2
      omega
    · rw [resolved_getElem?, hget _ _ _ hd]
      simp [resolveEntry_plain _ (show tEnd.Cmd ≠ .cmIF by rw [e3]; decide)
        (show tEnd.Cmd ≠ .cmELSE by rw [e3]; decide)]
    · rw [hd]
      simp only [Nat.add_sub_cancel, List.take_left']
      exact (properlyNested_iff _).mpr hbe
  · intro h1 h2
    rw [hr, resolveEntry_plain _ h1 h2]

/-- C35 (witness): the entries of `a ? (b ? 1 : 2) : 3` are properly nested, and `Finalize` gives
the outer `IF` the offset 7, the inner `IF` the offset 2 and both `ELSE` entries the offset 2, and
appends the end entry. -/
theorem C35_finalize_resolves_jumps_witness :
    properlyNested Examples.nestedStream = true ∧
    ParserByteCode.Finalize { m_vRPN := Examples.nestedStream } =
      .ok { m_vRPN :=
        [SToken.VAR 10, { Cmd := .cmIF, offset := 7 }, SToken.VAR 11,
          { Cmd := .cmIF, offset := 2 }, SToken.VAL 1, { Cmd := .cmELSE, offset := 2 },
          SToken.VAL 2, { Cmd := .cmENDIF }, { Cmd := .cmELSE, offset := 2 }, SToken.VAL 3,
          { Cmd := .cmENDIF }, { Cmd := .cmEND }] } := by
  have h : properlyNested Examples.nestedStream = true := by decide
  refine ⟨h, ?_⟩
  have := (C35_finalize_resolves_jumps { m_vRPN := Examples.nestedStream } h).1
  rw [this]
  decide

theorem ParserByteCode.finalizeLoop_cmds :
    ∀ (cmds : List ECmdCode) (i : Nat) (stIf stElse : List Nat) (v v' : List SToken),
      ParserByteCode.finalizeLoop cmds i stIf stElse v = .ok v' →
      v'.map (fun t => t.Cmd) = v.map (fun t => t.Cmd) := by
  have hset : ∀ (v : List SToken) (idx off : Nat),
      (ParserByteCode.setOffset v idx off).map (fun t => t.Cmd) = v.map (fun t => t.Cmd) := by
    intro v idx off
    unfold ParserByteCode.setOffset
    induction v generalizing idx with
    | nil => simp
    | cons a v ih =>
      cases idx with
      | zero => simp
      | succ j => simp only [List.modify_succ_cons, List.map_cons, ih j]
  intro cmds
  induction cmds with
  | nil =>
    intro i stIf stElse v v' h
    simp only [ParserByteCode.finalizeLoop, Except.ok.injEq] at h
    rw [h]
  | cons c cmds ih =>
    intro i stIf stElse v v' h
    by_cases h1 : c = .cmIF
    · subst h1
      rw [ParserByteCode.finalizeLoop] at h
      exact ih _ _ _ _ _ h
    · by_cases h2 : c = .cmELSE
      · subst h2
        cases stIf with
        | nil => simp [ParserByteCode.finalizeLoop] at h
        | cons idx stIf' =>
          simp only [ParserByteCode.finalizeLoop] at h
          rw [ih _ _ _ _ _ h, hset]
      · by_cases h3 : c = .cmENDIF
        · subst h3
          cases stElse with
          | nil => simp [ParserByteCode.finalizeLoop] at h
          | cons idx stElse' =>
            simp only [ParserByteCode.finalizeLoop] at h
            rw [ih _ _ _ _ _ h, hset]
        · rw [ParserByteCode.finalizeLoop_other _ _ _ _ _ ⟨h1, h2, h3⟩] at h
          exact ih _ _ _ _ _ h

/-- The bytecode `Finalize` leaves ends in the end entry. -/
theorem ParserByteCode.Finalize_last {bc bc' : ParserByteCode} (h : bc.Finalize = .ok bc') :
    (bc'.m_vRPN.getLast?).map (fun t => t.Cmd) = some .cmEND := by
  unfold ParserByteCode.Finalize at h
  obtain ⟨v', hv, hbc⟩ := Result.bind_eq_ok h
  simp only [Except.ok.injEq] at hbc
  subst hbc
  have := ParserByteCode.finalizeLoop_cmds _ _ _ _ _ _ hv
  have h2 : (v'.map (fun t => t.Cmd)).getLast? = some .cmEND := by
    rw [this]; simp
  rw [List.getLast?_map] at h2
  exact h2

theorem tokenLoop_last {env : CallEnv} {mem : Mem} :
    ∀ (toks : List token_type) (s s' : RPNState), tokenLoop env mem toks s = .ok s' →
      (s'.m_vRPN.m_vRPN.getLast?).map (fun t => t.Cmd) = some .cmEND := by
  have hfin : ∀ s1 s' : RPNState, finishLoop s1 = .ok s' →
      (s'.m_vRPN.m_vRPN.getLast?).map (fun t => t.Cmd) = some .cmEND := by
    intro s1 s' h
    unfold finishLoop at h
    split at h
    · rename_i bc hbc
      cases h
      exact ParserByteCode.Finalize_last hbc
    · cases h
  intro toks
  induction toks with
  | nil =>
    intro s s' h
    rw [tokenLoop] at h
    split at h
    · exact hfin _ _ h
    · cases h
  | cons opt rest ih =>
    intro s s' h
    rw [tokenLoop] at h
    split at h
    · split at h
      · exact hfin _ _ h
      · exact ih _ _ h
    · cases h

/-- A compilation that succeeds leaves bytecode that ends in the end entry. -/
theorem ParserBase.CreateRPN_last {env : CallEnv} {mem : Mem} {p p' : ParserBase}
    (h : p.CreateRPN env mem = .ok p') :
    (p'.m_vRPN.m_vRPN.getLast?).map (fun t => t.Cmd) = some .cmEND := by
  unfold ParserBase.CreateRPN at h
  split at h
  · rename_i c hc
    cases h
    unfold mu.CreateRPN at hc
    split at hc
    · cases hc
    · split at hc
      · rename_i s hs
        have hl := tokenLoop_last _ _ _ hs
        unfold finalChecks at hc
        split_ifs at hc <;> first
          | (exfalso; simp [Error] at hc; done)
          | (simp only [Except.ok.injEq] at hc; subst hc; exact hl)
      · cases hc
  · cases h

/-- C38 (code bug): after a compilation that failed part-way the stored bytecode is not
empty and has no end entry, and `Eval(nStackSize)` runs the evaluation loop on it.  The
expression `1 : 3` is set on a fresh parser.  The scalar `Eval()` throws `ecMISPLACED_COLON` out
of `CreateRPN` at the colon, when `m_vRPN` holds the one entry for the value `1`.  On the parser
left behind `Eval(nStackSize)` finds the bytecode non-empty and runs the loop over it, which
leaves the vector behind that entry, while the scalar `Eval()`, which goes through
`m_pParseFormula` (reset by `ReInit`), compiles again and throws the same error.  The states the
claim is right about: `ReInit` leaves the bytecode empty, every compilation that succeeds leaves
bytecode whose last entry is the end entry, and on such a parser `Eval(nStackSize)` runs
`ParseCmdCode`. -/
theorem C38_unterminated_bytecode_is_run :
    (Examples.parser true Examples.toksColon).Eval Examples.env Examples.mem =
      .error (.throw .ecMISPLACED_COLON) ∧
    (Examples.parser true Examples.toksColon).afterElseThrow Examples.env Examples.mem =
      some Examples.parserColonThrown ∧
    Examples.parserColonThrown.m_vRPN.m_vRPN = [SToken.VAL 1] ∧
    Examples.parserColonThrown.m_vRPN.m_vRPN.length > 0 ∧
    (Examples.parserColonThrown.m_vRPN.m_vRPN.getLast?).map (fun t => t.Cmd) ≠ some .cmEND ∧
    Examples.parserColonThrown.EvalMulti Examples.env Examples.mem = .error .undefined ∧
    Examples.parserColonThrown.Eval Examples.env Examples.mem =
      .error (.throw .ecMISPLACED_COLON) ∧
    (∀ p : ParserBase, p.ReInit.m_vRPN.m_vRPN = []) ∧
    (∀ (env : CallEnv) (mem : Mem) (p p' : ParserBase), p.CreateRPN env mem = .ok p' →
      (p'.m_vRPN.m_vRPN.getLast?).map (fun t => t.Cmd) = some .cmEND ∧
      p'.EvalMulti env mem =
        match p'.ParseCmdCode env mem with
        | .ok (_, q, mem') => .ok (q.m_nFinalResultIdx, q, mem')
        | .error e => .error e) := by
  refine ⟨?_, ?_, rfl, by decide, by decide, ?_, ?_, fun p => rfl, ?_⟩
  · rfl
  · rfl
  · rfl
  · rfl
  · intro env mem p p' h
    have hl := ParserBase.CreateRPN_last h
    refine ⟨hl, ?_⟩
    have hpos : p'.m_vRPN.m_vRPN.length > 0 := by
      cases hv : p'.m_vRPN.m_vRPN with
      | nil => rw [hv] at hl; simp at hl
      | cons a l => simp
    unfold ParserBase.EvalMulti
    rw [if_pos hpos]

end mu
